import Mathlib

set_option maxRecDepth 10000

/-!
Shallow embedding of `cidr.py` from the wallberg/cidr repository.

`Cidr` is the value type for one CIDR block (`class Cidr`), `TNode` the
binary-tree node (the `binarytree.Node` collaborator: `value`, optional
`left`/`right`, `leaf_count`, structural `equals`, deep `clone`), and
`CidrSet` the canonical prefix trie.  Python machine integers are `Nat`
(`Int` where a negative input matters); fallible constructors return
`Except PyErr`.  Python text is `List Char`; only ASCII digits are modelled
(the code's regex is anchored and uses `\d`, which we read as `'0'..'9'`).
-/

/-- A Python exception value as raised by the code: the class and its message
text (interpolated values are dropped from the message).  The code under
verification only ever raises `ValueError`; `TypeError` is present so claims
about which class is raised are statable. -/
inductive PyErr where
  | valueError (msg : String)
  | typeError (msg : String)
deriving DecidableEq, Repr

/-- `class Cidr`: an integer IP part and the number of bits in the bitmask. -/
structure Cidr where
  ip : Nat
  bitmask : Nat
deriving DecidableEq, Repr

/-- The normalization at the end of `Cidr.__init__` (line 46):
`(ip >> (32-bitmask)) << (32-bitmask)`. -/
def Cidr.normalizeIp (ip bitmask : Nat) : Nat :=
  (ip >>> (32 - bitmask)) <<< (32 - bitmask)

/-- `Cidr.bit(n)`: the n-th bit of the ip, for n in 1..32 (1 = most
significant): `ip >> (32-n) & 1`.  (For n > 32 Python would raise on the
negative shift; all uses in the code keep `n ≤ 32`.) -/
def Cidr.bit (c : Cidr) (n : Nat) : Nat := (c.ip >>> (32 - n)) &&& 1

/-- The `Cidr(ip=..., bitmask=...)` constructor branch (lines 13-23, 46):
validates `0 ≤ ip < 2^32` and `0 ≤ bitmask ≤ 32`, then normalizes. -/
def Cidr.ofParts (ip bitmask : Int) : Except PyErr Cidr :=
  if ip < 0 ∨ (2 : Int)^32 ≤ ip then .error (.valueError "Invalid ip")
  else if bitmask < 0 ∨ 32 < bitmask then .error (.valueError "Invalid bitmask")
  else .ok ⟨Cidr.normalizeIp ip.toNat bitmask.toNat, bitmask.toNat⟩

/-- Every `Cidr` object Python can construct satisfies this: the ip is a
32-bit value, the bitmask is in 0..32, and the ip is normalized (host bits
cleared). -/
def Cidr.Valid (c : Cidr) : Prop :=
  c.ip < 2^32 ∧ c.bitmask ≤ 32 ∧ c.ip = Cidr.normalizeIp c.ip c.bitmask

instance (c : Cidr) : Decidable c.Valid := by
  unfold Cidr.Valid; infer_instance

/-- Value of a decimal digit character. -/
def digitVal (ch : Char) : Nat := ch.toNat - 48

/-- Python `int()` of a non-empty decimal digit string. -/
def digitsToNat (ds : List Char) : Nat :=
  ds.foldl (fun a ch => a * 10 + digitVal ch) 0

/-- The anchored regex
`^(\d{1,3})\.(\d{1,3})\.(\d{1,3})\.(\d{1,3})(\/(\d{1,2}))?$` (line 5),
returning the four octet digit groups and the optional bitmask digit group.
Greedy matching of a digit group followed by a non-digit delimiter is
maximal-munch, so each group is the maximal digit run at its position,
rejected when its length is out of bounds. -/
def cidrMatch (s : List Char) :
    Option (List Char × List Char × List Char × List Char × Option (List Char)) :=
  let (d1, r1) := s.span Char.isDigit
  if d1.length = 0 ∨ 3 < d1.length then none else
  match r1 with
  | [] => none
  | c1 :: r1 =>
    if c1 = '.' then
      let (d2, r2) := r1.span Char.isDigit
      if d2.length = 0 ∨ 3 < d2.length then none else
      match r2 with
      | [] => none
      | c2 :: r2 =>
        if c2 = '.' then
          let (d3, r3) := r2.span Char.isDigit
          if d3.length = 0 ∨ 3 < d3.length then none else
          match r3 with
          | [] => none
          | c3 :: r3 =>
            if c3 = '.' then
              let (d4, r4) := r3.span Char.isDigit
              if d4.length = 0 ∨ 3 < d4.length then none else
              match r4 with
              | [] => some (d1, d2, d3, d4, none)
              | c4 :: r5 =>
                if c4 = '/' then
                  let (d6, r6) := r5.span Char.isDigit
                  if d6.length = 0 ∨ 2 < d6.length then none else
                  match r6 with
                  | [] => some (d1, d2, d3, d4, some d6)
                  | _ => none
                else none
            else none
        else none
    else none

/-- The octet loop of `Cidr.__init__` (lines 30-36): accumulate
`ip = ip*256 + octet`, raising on the first octet above 255. -/
def buildIp : List (List Char) → Nat → Except PyErr Nat
  | [], ip => .ok ip
  | d :: rest, ip =>
    let octet := digitsToNat d
    if 255 < octet then .error (.valueError "Invalid cidr octet format")
    else buildIp rest (ip * 256 + octet)

/-- The `Cidr(s)` constructor branch (lines 25-46): regex match, octet
extraction, optional bitmask (default 32, rejected above 32), then
normalization. -/
def Cidr.ofText (s : List Char) : Except PyErr Cidr :=
  match cidrMatch s with
  | none => .error (.valueError "Invalid cidr format")
  | some (d1, d2, d3, d4, m6) =>
    match buildIp [d1, d2, d3, d4] 0 with
    | .error e => .error e
    | .ok ip =>
      let bitmask := match m6 with
        | none => 32
        | some d6 => digitsToNat d6
      if 32 < bitmask then .error (.valueError "Invalid cidr bitmask (0-32)")
      else .ok ⟨Cidr.normalizeIp ip bitmask, bitmask⟩

/-- Decimal digit character for a value in 0..9. -/
def digitChar (n : Nat) : Char := Char.ofNat (48 + n)

/-- Decimal rendering of a natural number, as Python `str(int)`; the fuel
(first argument) bounds the number of digits, ten is enough for every value
the code prints. -/
def decCharsAux : Nat → Nat → List Char
  | 0, _ => []
  | fuel + 1, n =>
    if n < 10 then [digitChar n]
    else decCharsAux fuel (n / 10) ++ [digitChar (n % 10)]

/-- Decimal rendering of a natural number (Python `str(int)`). -/
def decChars (n : Nat) : List Char := decCharsAux 10 n

/-- `Cidr.__str__` (lines 52-58): dotted quad of the ip bytes, slash, bitmask. -/
def Cidr.str (c : Cidr) : List Char :=
  decChars (c.ip >>> 24 &&& 255) ++ '.' ::
  decChars (c.ip >>> 16 &&& 255) ++ '.' ::
  decChars (c.ip >>> 8 &&& 255) ++ '.' ::
  decChars (c.ip &&& 255) ++ '/' :: decChars c.bitmask

/-- The `binarytree.Node` collaborator as used by the code: a depth value and
two optional exclusively-owned children. -/
inductive TNode where
  | mk (value : Nat) (left : Option TNode) (right : Option TNode)

mutual

/-- `Node.equals`: recursive structural comparison of value and children,
as decidable equality of the tree. -/
def TNode.decEq : (a b : TNode) → Decidable (a = b)
  | .mk v1 l1 r1, .mk v2 l2 r2 =>
    match Nat.decEq v1 v2 with
    | isFalse h => isFalse fun hh => h (by injection hh)
    | isTrue hv =>
      match TNode.optDecEq l1 l2 with
      | isFalse h => isFalse fun hh => h (by injection hh)
      | isTrue hl =>
        match TNode.optDecEq r1 r2 with
        | isFalse h => isFalse fun hh => h (by injection hh)
        | isTrue hr => isTrue (by rw [hv, hl, hr])

/-- Structural comparison of optional children. -/
def TNode.optDecEq : (a b : Option TNode) → Decidable (a = b)
  | none, none => isTrue rfl
  | some x, some y =>
    match TNode.decEq x y with
    | isTrue h => isTrue (by rw [h])
    | isFalse h => isFalse fun hh => h (by injection hh)
  | none, some _ => isFalse (by simp)
  | some _, none => isFalse (by simp)

end

instance : DecidableEq TNode := TNode.decEq

/-- Rendering of a tree for diagnostics. -/
def TNode.fmt : TNode → String
  | .mk v l r =>
    let fl := match l with
      | none => "-"
      | some x => x.fmt
    let fr := match r with
      | none => "-"
      | some x => x.fmt
    "(" ++ toString v ++ " " ++ fl ++ " " ++ fr ++ ")"

instance : Repr TNode := ⟨fun t _ => t.fmt⟩

/-- `node.value`. -/
def TNode.value : TNode → Nat
  | .mk v _ _ => v

/-- `node.left`. -/
def TNode.left : TNode → Option TNode
  | .mk _ l _ => l

/-- `node.right`. -/
def TNode.right : TNode → Option TNode
  | .mk _ _ r => r

/-- `node.left = x` (in-place child assignment, modelled functionally). -/
def TNode.setLeft : TNode → Option TNode → TNode
  | .mk v _ r, l => .mk v l r

/-- `node.right = x`. -/
def TNode.setRight : TNode → Option TNode → TNode
  | .mk v l _, r => .mk v l r

/-- `node.leaf_count`: the number of leaf descendants. -/
def TNode.leafCount : TNode → Nat
  | .mk _ none none => 1
  | .mk _ (some l) none => l.leafCount
  | .mk _ none (some r) => r.leafCount
  | .mk _ (some l) (some r) => l.leafCount + r.leafCount

/-- `node.left is None and node.right is None`. -/
def TNode.isLeaf : TNode → Bool
  | .mk _ none none => true
  | _ => false

/-- `class CidrSet`: owns an optional root node; `root = none` is the empty
set (`clone` deep-copies the root, which is the identity here). -/
structure CidrSet where
  root : Option TNode
deriving DecidableEq, Repr

/-- `CidrSet._contains` (lines 92-114). -/
def CidrSet.containsNode : TNode → Cidr → Bool
  | .mk _ none none, _ => true
  | .mk v l r, cidr =>
    if cidr.bitmask = v then false
    else
      let depth := v + 1
      if cidr.bit depth = 0 then
        match l with
        | none => false
        | some child => CidrSet.containsNode child cidr
      else
        match r with
        | none => false
        | some child => CidrSet.containsNode child cidr

/-- `CidrSet.contains` restricted to an actual `Cidr` argument (lines 87-90);
`CidrSet.containsVal` below adds the `type(cidr) is not Cidr` guard. -/
def CidrSet.contains (s : CidrSet) (cidr : Cidr) : Bool :=
  match s.root with
  | none => false
  | some root => CidrSet.containsNode root cidr

/-- `CidrSet._add` (lines 130-170).  The recursion creates fresh child nodes
while descending, so it is bounded by `cidr.bitmask - node.value` rather than
by the tree; the first argument is fuel standing for that bound.  Fuel 0 is
never reached when the call starts at a root of depth 0 with a valid cidr and
fuel 33, because each level consumes one unit while `node.value` rises by one
toward `cidr.bitmask ≤ 32`. -/
def CidrSet.addNode : Nat → TNode → Bool → Cidr → TNode
  | 0, node, _, _ => node
  | fuel + 1, node, newnode, cidr =>
    if cidr.bitmask = node.value then .mk node.value none none
    else if !newnode && node.isLeaf then node
    else
      let depth := node.value + 1
      let node' :=
        if cidr.bit depth = 0 then
          match node.left with
          | none => node.setLeft (some (CidrSet.addNode fuel (.mk depth none none) true cidr))
          | some child => node.setLeft (some (CidrSet.addNode fuel child false cidr))
        else
          match node.right with
          | none => node.setRight (some (CidrSet.addNode fuel (.mk depth none none) true cidr))
          | some child => node.setRight (some (CidrSet.addNode fuel child false cidr))
      match node'.left, node'.right with
      | some l, some r =>
        if l.isLeaf && r.isLeaf then .mk node'.value none none else node'
      | _, _ => node'

/-- `CidrSet.add` (lines 118-128). -/
def CidrSet.add (s : CidrSet) (cidr : Cidr) : CidrSet :=
  match s.root with
  | none => ⟨some (CidrSet.addNode 33 (.mk 0 none none) true cidr)⟩
  | some root => ⟨some (CidrSet.addNode 33 root false cidr)⟩

/-- `CidrSet._remove` (lines 443-489), which both edits the node in place and
returns `True` when the caller must delete the node: modelled as returning
`none` for "delete this node".  Fuel as in `CidrSet.addNode` (a leaf expansion
creates fresh nodes down to `cidr.bitmask`). -/
def CidrSet.removeNode : Nat → TNode → Cidr → Option TNode
  | 0, node, _ => some node
  | fuel + 1, node, cidr =>
    if cidr.bitmask = node.value then none
    else
      let depth := node.value + 1
      if cidr.bit depth = 0 then
        match node.left, node.right with
        | none, none =>
          -- leaf node, trigger expansion
          let node' := TNode.mk node.value (some (.mk depth none none)) (some (.mk depth none none))
          match CidrSet.removeNode fuel (.mk depth none none) cidr with
          | none => if node'.right = none then none else some (node'.setLeft none)
          | some l' => some (node'.setLeft (some l'))
        | none, some _ => some node
        | some l, _ =>
          match CidrSet.removeNode fuel l cidr with
          | none => if node.right = none then none else some (node.setLeft none)
          | some l' => some (node.setLeft (some l'))
      else
        match node.right, node.left with
        | none, none =>
          let node' := TNode.mk node.value (some (.mk depth none none)) (some (.mk depth none none))
          match CidrSet.removeNode fuel (.mk depth none none) cidr with
          | none => if node'.left = none then none else some (node'.setRight none)
          | some r' => some (node'.setRight (some r'))
        | none, some _ => some node
        | some r, _ =>
          match CidrSet.removeNode fuel r cidr with
          | none => if node.left = none then none else some (node.setRight none)
          | some r' => some (node.setRight (some r'))

/-- `CidrSet.remove` (lines 433-441). -/
def CidrSet.remove (s : CidrSet) (cidr : Cidr) : CidrSet :=
  match s.root with
  | none => s
  | some root => ⟨CidrSet.removeNode 33 root cidr⟩

/-- `CidrSet.size` (lines 495-500). -/
def CidrSet.size (s : CidrSet) : Nat :=
  match s.root with
  | none => 0
  | some root => root.leafCount

/-- `CidrSet.__eq__` on two sets (lines 508-519): both empty, or structurally
equal roots (`Node.equals` is recursive structural comparison). -/
def CidrSet.eqSet (a b : CidrSet) : Bool :=
  match a.root, b.root with
  | none, none => true
  | some ra, some rb => ra == rb
  | _, _ => false

/-- `CidrSet.__iter__` (lines 521-541): left child first, the accumulator
gains `2^(32 - node.right.value)` when stepping into a right child, and a
leaf yields `Cidr(ip=ip, bitmask=node.value)` (whose construction normalizes
the ip). -/
def CidrSet.iterNode : TNode → Nat → List Cidr
  | .mk v none none, ip => [⟨Cidr.normalizeIp ip v, v⟩]
  | .mk _ (some l) none, ip => CidrSet.iterNode l ip
  | .mk _ none (some r), ip => CidrSet.iterNode r (ip + 2 ^ (32 - r.value))
  | .mk _ (some l) (some r), ip =>
    CidrSet.iterNode l ip ++ CidrSet.iterNode r (ip + 2 ^ (32 - r.value))

/-- The list of `Cidr` values produced by iterating the set. -/
def CidrSet.toList (s : CidrSet) : List Cidr :=
  match s.root with
  | none => []
  | some root => CidrSet.iterNode root 0

/-- Node access along a path from the root (`false` = left, `true` = right).
Paths model Python object references into a tree: the trees here are built
from fresh nodes only, so a node is identified by its position. -/
def TNode.follow : TNode → List Bool → Option TNode
  | t, [] => some t
  | t, false :: p =>
    match t.left with
    | none => none
    | some l => l.follow p
  | t, true :: p =>
    match t.right with
    | none => none
    | some r => r.follow p

/-- In-place mutation of the node at a path, modelled functionally (identity
when the path dangles, which the machines below never do). -/
def TNode.updateAt : TNode → List Bool → (TNode → TNode) → TNode
  | t, [], f => f t
  | t, false :: p, f =>
    match t.left with
    | none => t
    | some l => t.setLeft (some (l.updateAt p f))
  | t, true :: p, f =>
    match t.right with
    | none => t
    | some r => t.setRight (some (r.updateAt p f))

/-- Number of nodes of a tree (used only to size the fuel of the traversal
machines below). -/
def TNode.nodeCount : TNode → Nat
  | .mk _ none none => 1
  | .mk _ (some l) none => l.nodeCount + 1
  | .mk _ none (some r) => r.nodeCount + 1
  | .mk _ (some l) (some r) => l.nodeCount + r.nodeCount + 1

/-- The labels `T2`..`T6` of the traversal loops in `__add__`/`__sub__`
(TAOCP Algorithm T postorder).  Within one Python `while` iteration a label
block sets `goto` and the later `if goto ==` tests pick it up, so the loop is
exactly a label-step machine. -/
inductive TLabel where
  | t2 | t3 | t4 | t5 | t6
deriving DecidableEq, Repr

/-- The state of the simultaneous-traversal loops of `__add__` (lines
195-302) and `__sub__` (lines 318-431): the `goto` label, the two stacks, the
current/last-visited cursors into the `b` tree, the cursor and most recently
created node of the `a` tree, and the `a` tree itself.  Cursors are `Option`
paths (`none` is Python `None`); `b` is never mutated so its cursors are
paths into the fixed operand tree. -/
structure TravState where
  label : TLabel
  bStack : List (List Bool)
  bP : Option (List Bool)
  bQ : Option (List Bool)
  aStack : List (Option (List Bool))
  aP : Option (List Bool)
  aCreated : Option (List Bool)
  aRoot : TNode
deriving Repr

/-- One step of a machine: continue, return from `__add__`/`__sub__` with the
final root, or hit a state where Python would raise `AttributeError`
(dereferencing `None`) — the machines never do on arguments reachable through
the API, but the model keeps the case honest. -/
inductive StepRes where
  | cont (st : TravState)
  | done (result : Option TNode)
  | stuck
deriving Repr

/-- `a_is_leaf = a_p != a_created and a_p.left is None and a_p.right is None`
(lines 217, 268): `none` when Python would dereference `None`
(short-circuiting makes `a_p == a_created` safe). -/
def aIsLeafCheck (aRoot : TNode) (aP aCreated : Option (List Bool)) : Option Bool :=
  if aP = aCreated then some false
  else
    match aP with
    | none => none
    | some p =>
      match aRoot.follow p with
      | none => none
      | some n => some n.isLeaf

/-- One step of the `__add__` traversal loop (lines 204-302), for operand
tree `bTree`. -/
def addStep (bTree : TNode) (st : TravState) : StepRes :=
  match st.label with
  | .t2 => .cont { st with label := if st.bP = none then .t4 else .t3 }
  | .t3 =>
    match st.bP with
    | none => .stuck
    | some bp =>
      match bTree.follow bp with
      | none => .stuck
      | some bnode =>
        let bStack := bp :: st.bStack
        let aStack := st.aP :: st.aStack
        let bIsLeaf := bnode.isLeaf
        match aIsLeafCheck st.aRoot st.aP st.aCreated with
        | none => .stuck
        | some aLeaf =>
          if Bool.xor bIsLeaf aLeaf then
            if bIsLeaf then
              match st.aP with
              | none => .stuck
              | some ap =>
                .cont { st with
                          label := .t2
                          bStack := bStack
                          aStack := aStack
                          aRoot := st.aRoot.updateAt ap (fun n => .mk n.value none none)
                          bP := none
                          aP := none }
            else
              .cont { st with
                        label := .t2
                        bStack := bStack
                        aStack := aStack
                        bP := none
                        aP := none }
          else if bnode.left = none then
            .cont { st with
                      label := .t2
                      bStack := bStack
                      aStack := aStack
                      bP := none
                      aP := none }
          else
            match st.aP with
            | none => .stuck
            | some ap =>
              match st.aRoot.follow ap with
              | none => .stuck
              | some anode =>
                match anode.left with
                | none =>
                  .cont { st with
                            label := .t2
                            bStack := bStack
                            aStack := aStack
                            aRoot := st.aRoot.updateAt ap
                              (fun n => n.setLeft (some (.mk (n.value + 1) none none)))
                            aCreated := some (ap ++ [false])
                            bP := some (bp ++ [false])
                            aP := some (ap ++ [false]) }
                | some _ =>
                  .cont { st with
                            label := .t2
                            bStack := bStack
                            aStack := aStack
                            bP := some (bp ++ [false])
                            aP := some (ap ++ [false]) }
  | .t4 =>
    match st.bStack, st.aStack with
    | [], _ => .done (some st.aRoot)
    | bp :: bRest, ap :: aRest =>
      .cont { st with
                label := .t5
                bStack := bRest
                aStack := aRest
                bP := some bp
                aP := ap }
    | _, _ => .stuck
  | .t5 =>
    match aIsLeafCheck st.aRoot st.aP st.aCreated with
    | none => .stuck
    | some aLeaf =>
      match st.bP with
      | none => .stuck
      | some bp =>
        match bTree.follow bp with
        | none => .stuck
        | some bnode =>
          match bnode.right with
          | none => .cont { st with label := .t6 }
          | some _ =>
          if aLeaf || some (bp ++ [true]) == st.bQ then
            .cont { st with label := .t6 }
          else
            match st.aP with
            | none => .stuck
            | some ap =>
              match st.aRoot.follow ap with
              | none => .stuck
              | some anode =>
                match anode.right with
                | none =>
                  .cont { st with
                            label := .t2
                            bStack := bp :: st.bStack
                            aStack := st.aP :: st.aStack
                            aRoot := st.aRoot.updateAt ap
                              (fun n => n.setRight (some (.mk (n.value + 1) none none)))
                            aCreated := some (ap ++ [true])
                            bP := some (bp ++ [true])
                            aP := some (ap ++ [true]) }
                | some _ =>
                  .cont { st with
                            label := .t2
                            bStack := bp :: st.bStack
                            aStack := st.aP :: st.aStack
                            bP := some (bp ++ [true])
                            aP := some (ap ++ [true]) }
  | .t6 =>
    match st.aP with
    | none => .stuck
    | some ap =>
      match st.aRoot.follow ap with
      | none => .stuck
      | some anode =>
        let aRoot :=
          match anode.left, anode.right with
          | some l, some r =>
            if l.isLeaf && r.isLeaf then
              st.aRoot.updateAt ap (fun n => .mk n.value none none)
            else st.aRoot
          | _, _ => st.aRoot
        .cont { st with label := .t4, aRoot := aRoot, bQ := st.bP }

/-- Run a traversal loop, one label block per step, for at most `fuel`
steps; `none` when the loop would not finish in that many steps or Python
would raise (neither happens for operands reachable through the API and the
fuel used by `opAddSets`/`opSubSets`). -/
def runMach (step : TravState → StepRes) : Nat → TravState → Option (Option TNode)
  | 0, _ => none
  | fuel + 1, st =>
    match step st with
    | .cont st' => runMach step fuel st'
    | .done r => some r
    | .stuck => none

/-- Run the `__add__` loop. -/
def runAdd (bTree : TNode) : Nat → TravState → Option (Option TNode) :=
  runMach (addStep bTree)

/-- The initial state of both traversal loops (`T1`, lines 195-204/318-327):
both cursors at the roots, empty stacks, nothing visited or created. -/
def travInit (aRoot : TNode) : TravState :=
  { label := .t2
    bStack := []
    bP := some []
    bQ := none
    aStack := []
    aP := some []
    aCreated := none
    aRoot := aRoot }

/-- `CidrSet.__add__` on two sets (lines 179-302): empty-operand shortcuts
returning clones, then the simultaneous postorder traversal. -/
def CidrSet.opAddSets (a b : CidrSet) : Option CidrSet :=
  if a.size = 0 then some b
  else if b.size = 0 then some a
  else
    match a.root, b.root with
    | some ra, some rb =>
      match runAdd rb (100 * (rb.nodeCount + 1)) (travInit ra) with
      | none => none
      | some r => some ⟨r⟩
    | _, _ => none

/-- The left removal block of `T6` in `__sub__` (lines 408-417): prune the
`a` child or grandchild selected by the shape of `b`'s left child. -/
def subT6Left (aRoot : TNode) (ap : List Bool) (anode bnode : TNode) : TNode :=
  if anode.left ≠ none then
    match bnode.left with
    | none => aRoot
    | some bl =>
      match bl.left, bl.right with
      | none, none => aRoot.updateAt ap (fun n => n.setLeft none)
      | none, some blr =>
        if blr.left ≠ none ∧ blr.right ≠ none then
          aRoot.updateAt (ap ++ [false]) (fun n => n.setRight none)
        else aRoot
      | some bll, none =>
        if bll.left ≠ none ∧ bll.right ≠ none then
          aRoot.updateAt (ap ++ [false]) (fun n => n.setLeft none)
        else aRoot
      | some _, some _ => aRoot
  else aRoot

/-- The right removal block of `T6` in `__sub__` (lines 419-428), reading
`a_p.right` from the tree left by the left block. -/
def subT6Right (aRoot1 : TNode) (ap : List Bool) (bnode : TNode) : TNode :=
  let aRight :=
    match aRoot1.follow ap with
    | some an => an.right
    | none => none
  if aRight ≠ none then
    match bnode.right with
    | none => aRoot1
    | some br =>
      match br.left, br.right with
      | none, none => aRoot1.updateAt ap (fun n => n.setRight none)
      | none, some brr =>
        if brr.left ≠ none ∧ brr.right ≠ none then
          aRoot1.updateAt (ap ++ [true]) (fun n => n.setRight none)
        else aRoot1
      | some brl, none =>
        if brl.left ≠ none ∧ brl.right ≠ none then
          aRoot1.updateAt (ap ++ [true]) (fun n => n.setLeft none)
        else aRoot1
      | some _, some _ => aRoot1
  else aRoot1

/-- The root fix-up executed when the `__sub__` loop exhausts its stack
(lines 357-371). -/
def subFixRoot (bTree aRoot : TNode) : Option TNode :=
  match bTree.left, bTree.right with
  | none, none => none
  | none, some br =>
    if br.left ≠ none ∧ br.right ≠ none then some (aRoot.setRight none)
    else some aRoot
  | some bl, none =>
    if bl.left ≠ none ∧ bl.right ≠ none then some (aRoot.setLeft none)
    else some aRoot
  | some _, some _ => some aRoot

/-- One step of the `__sub__` traversal loop (lines 327-431), for operand
tree `bTree`. -/
def subStep (bTree : TNode) (st : TravState) : StepRes :=
  match st.label with
  | .t2 => .cont { st with label := if st.bP = none then .t4 else .t3 }
  | .t3 =>
    match st.bP with
    | none => .stuck
    | some bp =>
      match bTree.follow bp with
      | none => .stuck
      | some bnode =>
        let bStack := bp :: st.bStack
        let aStack := st.aP :: st.aStack
        match st.aP with
        | none => .stuck
        | some ap =>
          match st.aRoot.follow ap with
          | none => .stuck
          | some anode =>
            if bnode.left ≠ none ∨ bnode.right ≠ none then
              let aRoot1 :=
                if anode.left = none then
                  st.aRoot.updateAt ap (fun n => n.setLeft (some (.mk (n.value + 1) none none)))
                else st.aRoot
              let aRoot2 :=
                if anode.right = none then
                  aRoot1.updateAt ap (fun n => n.setRight (some (.mk (n.value + 1) none none)))
                else aRoot1
              .cont { st with
                        label := .t2
                        bStack := bStack
                        aStack := aStack
                        aRoot := aRoot2
                        bP := if bnode.left = none then none else some (bp ++ [false])
                        aP := some (ap ++ [false]) }
            else
              .cont { st with
                        label := .t2
                        bStack := bStack
                        aStack := aStack
                        bP := none
                        aP := if anode.left = none then none else some (ap ++ [false]) }
  | .t4 =>
    match st.bStack, st.aStack with
    | [], _ => .done (subFixRoot bTree st.aRoot)
    | bp :: bRest, ap :: aRest =>
      .cont { st with
                label := .t5
                bStack := bRest
                aStack := aRest
                bP := some bp
                aP := ap }
    | _, _ => .stuck
  | .t5 =>
    -- line 380 computes `a_is_leaf` but never uses it; `a_created` is always
    -- `None` in `__sub__` (the assignments are commented out), so the
    -- computation cannot raise and is omitted.
    match st.bP with
    | none => .stuck
    | some bp =>
      match bTree.follow bp with
      | none => .stuck
      | some bnode =>
        match bnode.right with
        | none => .cont { st with label := .t6 }
        | some _ =>
        if some (bp ++ [true]) == st.bQ then
          .cont { st with label := .t6 }
        else
          match st.aP with
          | none => .stuck
          | some ap =>
            match st.aRoot.follow ap with
            | none => .stuck
            | some anode =>
              .cont { st with
                        label := .t2
                        bStack := bp :: st.bStack
                        aStack := st.aP :: st.aStack
                        bP := some (bp ++ [true])
                        aP := if anode.right = none then none else some (ap ++ [true]) }
  | .t6 =>
    match st.aP, st.bP with
    | some ap, some bp =>
      match st.aRoot.follow ap, bTree.follow bp with
      | some anode, some bnode =>
        .cont { st with
                  label := .t4
                  aRoot := subT6Right (subT6Left st.aRoot ap anode bnode) ap bnode
                  bQ := st.bP }
      | _, _ => .stuck
    | _, _ => .stuck

/-- Run the `__sub__` loop for at most `fuel` steps (as `runAdd`). -/
def runSub (bTree : TNode) : Nat → TravState → Option (Option TNode) :=
  runMach (subStep bTree)

/-- `CidrSet.__sub__` on two sets (lines 304-431). -/
def CidrSet.opSubSets (a b : CidrSet) : Option CidrSet :=
  if a.size = 0 ∨ b.size = 0 then some a
  else
    match a.root, b.root with
    | some ra, some rb =>
      match runSub rb (100 * (rb.nodeCount + 1)) (travInit ra) with
      | none => none
      | some r => some ⟨r⟩
    | _, _ => none

/-- The spec-mandated form of union: clone `a`, then `add` every block
enumerated from `b`, in order (built from the source's `clone`, `__iter__`
and `add`). -/
def CidrSet.addAll (a b : CidrSet) : CidrSet :=
  b.toList.foldl CidrSet.add a

/-- The spec-mandated form of difference: clone `a`, then `remove` every
block enumerated from `b`, in order. -/
def CidrSet.removeAll (a b : CidrSet) : CidrSet :=
  b.toList.foldl CidrSet.remove a

/-- A Python value in an argument position where the code checks `type(x)`:
the constructors cover the concrete non-`Cidr`/non-`CidrSet` values the
claims mention (integers, text, `None`) next to the two library classes. -/
inductive PyValue where
  | int (n : Int)
  | str (s : List Char)
  | cidr (c : Cidr)
  | cidrSet (s : CidrSet)
  | pyNone
deriving DecidableEq

/-- `type(v) is CidrSet`. -/
def PyValue.isCidrSet : PyValue → Bool
  | .cidrSet _ => true
  | _ => false

/-- `type(v) is Cidr`. -/
def PyValue.isCidr : PyValue → Bool
  | .cidr _ => true
  | _ => false

/-- `CidrSet.contains` with its `type(cidr) is not Cidr` guard (lines
81-90); also `__contains__`, which is the same function object (line 116). -/
def CidrSet.containsVal (s : CidrSet) (v : PyValue) : Bool :=
  match v with
  | .cidr c => s.contains c
  | _ => false

/-- `CidrSet.__add__` including its operand type guard (lines 179-182). -/
def CidrSet.opAdd (s : CidrSet) (v : PyValue) : Except PyErr (Option CidrSet) :=
  match v with
  | .cidrSet b => .ok (s.opAddSets b)
  | _ => .error (.valueError "Second operand is not of type CidrSet")

/-- `CidrSet.__sub__` including its operand type guard (lines 304-308). -/
def CidrSet.opSub (s : CidrSet) (v : PyValue) : Except PyErr (Option CidrSet) :=
  match v with
  | .cidrSet b => .ok (s.opSubSets b)
  | _ => .error (.valueError "Second operand is not of type CidrSet")

/-- `CidrSet.__eq__` including its operand type guard (lines 508-519). -/
def CidrSet.opEq (s : CidrSet) (v : PyValue) : Except PyErr Bool :=
  match v with
  | .cidrSet b => .ok (s.eqSet b)
  | _ => .error (.valueError "Second operand is not of type CidrSet")

/-- Whether a raised/returned outcome is a `TypeError` (to state the spec's
error-class claims). -/
def PyErr.isTypeError : PyErr → Bool
  | .typeError _ => true
  | _ => false

/-- Whether evaluating an operation raised a `TypeError`. -/
def raisedTypeError {α : Type} : Except PyErr α → Bool
  | .error e => e.isTypeError
  | .ok _ => false

/-- Every node value equals its depth, counting from `d` at this node: the
shape every tree reachable through the public API has (children are always
created with `Node(parent.value + 1)` and the root with `Node(0)`). -/
def TNode.depthsOk : TNode → Nat → Bool
  | .mk v l r, d =>
    (v == d)
    && (match l with | none => true | some x => x.depthsOk (d + 1))
    && (match r with | none => true | some x => x.depthsOk (d + 1))

/-- Every node value is at most 32 (no structure below host-route depth). -/
def TNode.bounded : TNode → Bool
  | .mk v l r =>
    (v ≤ 32 : Bool)
    && (match l with | none => true | some x => x.bounded)
    && (match r with | none => true | some x => x.bounded)

/-- The canonical-form invariant: no node has two children that are both
leaves (such a pair must have been collapsed into the parent). -/
def TNode.canonical : TNode → Bool
  | .mk _ l r =>
    (match l, r with
     | some x, some y => !(x.isLeaf && y.isLeaf)
     | _, _ => true)
    && (match l with | none => true | some x => x.canonical)
    && (match r with | none => true | some x => x.canonical)

/-- Well-formedness of a set: depths, bound and canonical form of the root
tree, if any. -/
def CidrSet.wf (s : CidrSet) : Bool :=
  match s.root with
  | none => true
  | some r => r.depthsOk 0 && r.bounded && r.canonical

/-- The states reachable through the public API: start empty, then any
sequence of `add`, `remove`, `clone` (the identity on the functional model),
`__add__` and `__sub__` (when their loops return, which they do on these
states), with any constructible (hence valid) `Cidr` arguments. -/
inductive Reachable : CidrSet → Prop where
  | empty : Reachable ⟨none⟩
  | add {s : CidrSet} {c : Cidr} : Reachable s → c.Valid → Reachable (s.add c)
  | remove {s : CidrSet} {c : Cidr} : Reachable s → c.Valid → Reachable (s.remove c)
  | union {a b u : CidrSet} : Reachable a → Reachable b →
      a.opAddSets b = some u → Reachable u
  | diff {a b u : CidrSet} : Reachable a → Reachable b →
      a.opSubSets b = some u → Reachable u

/-- Membership of a single address: `contains` of the `/32` prefix for `x`
(`Cidr(ip=x, bitmask=32)` normalizes to `x` itself). -/
def CidrSet.memAddr (s : CidrSet) (x : Nat) : Bool := s.contains ⟨x, 32⟩

/-- Iterate a traversal machine for exactly `k` continuing steps, `none` if
it returns or gets stuck on the way (used to reason about `runMach` in
segments). -/
def iterSteps (step : TravState → StepRes) : Nat → TravState → Option TravState
  | 0, st => some st
  | k + 1, st =>
    match step st with
    | .cont st' => iterSteps step k st'
    | _ => none

/-- `r` lies in the subtree of positions at or below `p`. -/
def underPath (p r : List Bool) : Prop := ∃ s, r = p ++ s

/-- The recursive content of one `__add__` traversal segment: what the loop
does to the `a` subtree facing the `b` subtree it traverses.  `acreated`
records whether the `a` node was freshly created by the loop itself (then a
childless node is an empty placeholder, not a covered leaf). -/
def mergeNode : TNode → Bool → TNode → TNode
  | a, acreated, .mk bv bl br =>
    let bLeaf := (TNode.mk bv bl br).isLeaf
    let aLeaf := !acreated && a.isLeaf
    if bLeaf && !aLeaf then .mk a.value none none
    else if aLeaf then a
    else
      let a1 :=
        match bl with
        | none => a
        | some blx =>
          match a.left with
          | none => a.setLeft (some (mergeNode (.mk (a.value + 1) none none) true blx))
          | some al => a.setLeft (some (mergeNode al false blx))
      let a2 :=
        match br with
        | none => a1
        | some brx =>
          match a1.right with
          | none => a1.setRight (some (mergeNode (.mk (a1.value + 1) none none) true brx))
          | some ar => a1.setRight (some (mergeNode ar false brx))
      match a2.left, a2.right with
      | some l, some r => if l.isLeaf && r.isLeaf then .mk a2.value none none else a2
      | _, _ => a2

/-- The recursive content of one `__sub__` traversal segment: what the loop
does to the `a` subtree facing the `b` subtree it traverses (the `T3`
placeholder creation, the recursive descents, then the `T6` removal blocks
at the node itself). -/
def subMergeNode : TNode → TNode → TNode
  | a, .mk _ none none => a
  | a, .mk bv (some blx) none =>
    let a1 :=
      match a.left with
      | none => a.setLeft (some (.mk (a.value + 1) none none))
      | some _ => a
    let a2 :=
      match a.right with
      | none => a1.setRight (some (.mk (a1.value + 1) none none))
      | some _ => a1
    let a3 :=
      match a2.left with
      | some al => a2.setLeft (some (subMergeNode al blx))
      | none => a2
    subT6Right (subT6Left a3 [] a3 (.mk bv (some blx) none)) []
      (.mk bv (some blx) none)
  | a, .mk bv none (some brx) =>
    let a1 :=
      match a.left with
      | none => a.setLeft (some (.mk (a.value + 1) none none))
      | some _ => a
    let a2 :=
      match a.right with
      | none => a1.setRight (some (.mk (a1.value + 1) none none))
      | some _ => a1
    let a4 :=
      match a2.right with
      | some ar => a2.setRight (some (subMergeNode ar brx))
      | none => a2
    subT6Right (subT6Left a4 [] a4 (.mk bv none (some brx))) []
      (.mk bv none (some brx))
  | a, .mk bv (some blx) (some brx) =>
    let a1 :=
      match a.left with
      | none => a.setLeft (some (.mk (a.value + 1) none none))
      | some _ => a
    let a2 :=
      match a.right with
      | none => a1.setRight (some (.mk (a1.value + 1) none none))
      | some _ => a1
    let a3 :=
      match a2.left with
      | some al => a2.setLeft (some (subMergeNode al blx))
      | none => a2
    let a4 :=
      match a3.right with
      | some ar => a3.setRight (some (subMergeNode ar brx))
      | none => a3
    subT6Right (subT6Left a4 [] a4 (.mk bv (some blx) (some brx))) []
      (.mk bv (some blx) (some brx))

/-- The bitmask value extracted from the optional sixth regex group
(line 39-41): default 32, else the parsed digits. -/
def bitmaskOfGroup : Option (List Char) → Nat
  | none => 32
  | some d6 => digitsToNat d6

/-- Invariant carried by both traversal loops: the `a` tree is well-formed
(values are depths, bounded by 32), and the `a` cursor/stack positions have
the same path length as their `b` counterparts (the two trees are descended
in lockstep). -/
def TravWf (st : TravState) : Prop :=
  st.aRoot.depthsOk 0 = true ∧ st.aRoot.bounded = true ∧
  (∀ p q, st.bP = some p → st.aP = some q → q.length = p.length) ∧
  List.Forall₂ (fun (bp : List Bool) (ap : Option (List Bool)) =>
    ∀ q, ap = some q → q.length = bp.length) st.bStack st.aStack

/-! ## Theorems -/

/-- **C2.** The difference operator violates the claimed membership law.
With `a = b = {0.0.0.0/2}` (each built by a single `add`, hence reachable),
`a - b` contains the address `64.0.0.0` (`0x40000000`) although `a` does
not contain it — the code returns `{64.0.0.0/2, 128.0.0.0/1}` instead of
the empty set, because the `__sub__` traversal synthesizes both children
for every internal node along `b` (line 339-343) even where the receiving
node is not a fully-covered leaf, and the leftover fresh nodes survive as
spuriously covered leaves. -/
theorem opSub_membership_violated :
    ((((⟨none⟩ : CidrSet).add ⟨0, 2⟩).opSubSets ((⟨none⟩ : CidrSet).add ⟨0, 2⟩)).map
        (fun u => u.memAddr 0x40000000)) = some true ∧
    ((⟨none⟩ : CidrSet).add ⟨0, 2⟩).memAddr 0x40000000 = false := by
  constructor
  · rfl
  · rfl

/-- **C3.** At the same reachable input `a = b = {0.0.0.0/2}`, `a - b` is
not equal (by the set's own `__eq__`) to the result of cloning `a` and
removing every block enumerated from `b`: the loop returns
`{64.0.0.0/2, 128.0.0.0/1}` while clone-and-remove returns the empty set. -/
theorem opSub_not_removeAll :
    ((((⟨none⟩ : CidrSet).add ⟨0, 2⟩).opSubSets ((⟨none⟩ : CidrSet).add ⟨0, 2⟩)).map
        (fun u => u.eqSet (((⟨none⟩ : CidrSet).add ⟨0, 2⟩).removeAll
          ((⟨none⟩ : CidrSet).add ⟨0, 2⟩)))) = some false := by
  rfl

/-- **C5 (counterexample).** Applying `+`, `-` or `==` to the non-`CidrSet`
operand `1` does not raise a `TypeError` (it raises a `ValueError`). -/
theorem nonSetOperand_no_typeError :
    raisedTypeError ((⟨none⟩ : CidrSet).opAdd (.int 1)) = false ∧
    raisedTypeError ((⟨none⟩ : CidrSet).opSub (.int 1)) = false ∧
    raisedTypeError ((⟨none⟩ : CidrSet).opEq (.int 1)) = false := by
  exact ⟨rfl, rfl, rfl⟩

/-- **C5 (amended).** For every set and every operand that is not a
`CidrSet`, each of `+`, `-` and `==` raises a `ValueError` (message
`Second operand is not of type CidrSet`), not a `TypeError`. -/
theorem nonSetOperand_raises_valueError (s : CidrSet) (v : PyValue)
    (h : v.isCidrSet = false) :
    s.opAdd v = .error (.valueError "Second operand is not of type CidrSet") ∧
    s.opSub v = .error (.valueError "Second operand is not of type CidrSet") ∧
    s.opEq v = .error (.valueError "Second operand is not of type CidrSet") := by
  cases v <;> simp_all [PyValue.isCidrSet, CidrSet.opAdd, CidrSet.opSub, CidrSet.opEq]

/-- Witness for `nonSetOperand_raises_valueError` at `s = {}`, `v = 1`. -/
theorem nonSetOperand_raises_valueError_witness :
    PyValue.isCidrSet (.int 1) = false ∧
    (⟨none⟩ : CidrSet).opAdd (.int 1) =
      .error (.valueError "Second operand is not of type CidrSet") := by
  exact ⟨rfl, (nonSetOperand_raises_valueError ⟨none⟩ (.int 1) rfl).1⟩

/-- **C10.** `contains` (and therefore the `in` operator, which is the same
function) returns `False` for every argument that is not a `Cidr` instance,
on every set, without raising. -/
theorem contains_nonCidr_false (s : CidrSet) (v : PyValue) (h : v.isCidr = false) :
    s.containsVal v = false := by
  cases v <;> simp_all [PyValue.isCidr, CidrSet.containsVal]

/-- Witness for `contains_nonCidr_false` at `s = {}`, `v = 2`. -/
theorem contains_nonCidr_false_witness :
    PyValue.isCidr (.int 2) = false ∧ (⟨none⟩ : CidrSet).containsVal (.int 2) = false := by
  exact ⟨rfl, contains_nonCidr_false ⟨none⟩ (.int 2) rfl⟩

/-- `buildIp` returns the octet error as soon as one octet exceeds 255. -/
theorem buildIp_error {ds : List (List Char)} {acc : Nat}
    (h : ∃ d ∈ ds, 255 < digitsToNat d) :
    buildIp ds acc = .error (.valueError "Invalid cidr octet format") := by
  induction ds generalizing acc with
  | nil => simp at h
  | cons d rest ih =>
    obtain ⟨e, he, hgt⟩ := h
    by_cases hd : 255 < digitsToNat d
    · simp [buildIp, hd]
    · rcases List.mem_cons.mp he with he | he
      · exact absurd (he ▸ hgt) hd
      · simp [buildIp, hd]
        exact ih ⟨e, he, hgt⟩

/-- `buildIp` succeeds when every octet is at most 255, folding them in. -/
theorem buildIp_ok {ds : List (List Char)} {acc : Nat}
    (h : ∀ d ∈ ds, digitsToNat d ≤ 255) :
    buildIp ds acc = .ok (ds.foldl (fun a d => a * 256 + digitsToNat d) acc) := by
  induction ds generalizing acc with
  | nil => simp [buildIp]
  | cons d rest ih =>
    have hd : ¬ 255 < digitsToNat d := by
      simpa using h d (by simp)
    simp [buildIp, hd]
    exact ih fun e he => h e (by simp [he])

/-- **C9.** Classification of construction failures of `Cidr` from text:
when the text does not match the prefix grammar (the anchored regex of four
1-3 digit octets separated by dots with an optional slash and 1-2 digit
suffix), construction fails with the format error; when it matches but an
octet exceeds 255, with the octet range error; when it matches with octets
in range but the bitmask exceeds 32, with the bitmask range error; and with
everything in range it succeeds.  `Cidr.ofText` is a pure function of the
text alone — errors are decided before any set state could be touched. -/
theorem ofText_error_classification (s : List Char) :
    (cidrMatch s = none →
      Cidr.ofText s = .error (.valueError "Invalid cidr format")) ∧
    (∀ d1 d2 d3 d4 m6, cidrMatch s = some (d1, d2, d3, d4, m6) →
      ((255 < digitsToNat d1 ∨ 255 < digitsToNat d2 ∨
        255 < digitsToNat d3 ∨ 255 < digitsToNat d4) →
        Cidr.ofText s = .error (.valueError "Invalid cidr octet format")) ∧
      ((digitsToNat d1 ≤ 255 ∧ digitsToNat d2 ≤ 255 ∧
        digitsToNat d3 ≤ 255 ∧ digitsToNat d4 ≤ 255) →
        (32 < bitmaskOfGroup m6 →
          Cidr.ofText s = .error (.valueError "Invalid cidr bitmask (0-32)")) ∧
        (bitmaskOfGroup m6 ≤ 32 → ∃ c, Cidr.ofText s = .ok c))) := by
  constructor
  · intro hm
    simp [Cidr.ofText, hm]
  · intro d1 d2 d3 d4 m6 hm
    refine ⟨fun hoct => ?_, fun hin => ⟨fun hbm => ?_, fun hbm => ?_⟩⟩
    · have : ∃ d ∈ [d1, d2, d3, d4], 255 < digitsToNat d := by
        rcases hoct with h | h | h | h
        · exact ⟨d1, by simp, h⟩
        · exact ⟨d2, by simp, h⟩
        · exact ⟨d3, by simp, h⟩
        · exact ⟨d4, by simp, h⟩
      simp [Cidr.ofText, hm, buildIp_error this]
    · have hok := @buildIp_ok [d1, d2, d3, d4] 0
        (by intro e he; simp at he; rcases he with h | h | h | h <;> subst h <;> tauto)
      cases m6 with
      | none => simp [bitmaskOfGroup] at hbm
      | some d6 =>
        simp [bitmaskOfGroup] at hbm
        simp [Cidr.ofText, hm, hok, hbm, Nat.not_le_of_lt hbm]
    · have hok := @buildIp_ok [d1, d2, d3, d4] 0
        (by intro e he; simp at he; rcases he with h | h | h | h <;> subst h <;> tauto)
      have hnot : ¬ 32 < bitmaskOfGroup m6 := Nat.not_lt_of_le hbm
      cases m6 with
      | none =>
        exact ⟨⟨Cidr.normalizeIp
            (List.foldl (fun a d => a * 256 + digitsToNat d) 0 [d1, d2, d3, d4]) 32, 32⟩,
          by simp [Cidr.ofText, hm, hok]⟩
      | some d6 =>
        simp [bitmaskOfGroup] at hnot
        exact ⟨⟨Cidr.normalizeIp
            (List.foldl (fun a d => a * 256 + digitsToNat d) 0 [d1, d2, d3, d4])
            (digitsToNat d6), digitsToNat d6⟩,
          by simp [Cidr.ofText, hm, hok, hnot]⟩

/-- Witness for `ofText_error_classification`: concrete texts hitting the
format error (no dots), the octet error (`256`), the bitmask error (`/33`)
and success. -/
theorem ofText_error_classification_witness :
    Cidr.ofText "255".data = .error (.valueError "Invalid cidr format") ∧
    Cidr.ofText "255.255.255.256".data = .error (.valueError "Invalid cidr octet format") ∧
    Cidr.ofText "0.0.0.0/33".data = .error (.valueError "Invalid cidr bitmask (0-32)") ∧
    (∃ c, Cidr.ofText "1.2.3.4/8".data = .ok c) := by
  refine ⟨?_, ?_, ?_, ?_⟩
  · exact (ofText_error_classification "255".data).1 (by rfl)
  · exact ((ofText_error_classification "255.255.255.256".data).2
      (['2','5','5']) (['2','5','5']) (['2','5','5']) (['2','5','6']) none (by rfl)).1
      (by right; right; right; decide)
  · exact (((ofText_error_classification "0.0.0.0/33".data).2
      (['0']) (['0']) (['0']) (['0']) (some ['3','3']) (by rfl)).2
      (by refine ⟨?_, ?_, ?_, ?_⟩ <;> decide)).1 (by decide)
  · exact (((ofText_error_classification "1.2.3.4/8".data).2
      (['1']) (['2']) (['3']) (['4']) (some ['8']) (by rfl)).2
      (by refine ⟨?_, ?_, ?_, ?_⟩ <;> decide)).2 (by decide)

/-- Spanning digits off a digit block followed by a non-digit delimiter. -/
theorem span_digits_append (xs : List Char) (y : Char) (ys : List Char)
    (hxs : ∀ x ∈ xs, x.isDigit = true) (hy : y.isDigit = false) :
    (xs ++ y :: ys).span Char.isDigit = (xs, y :: ys) := by
  rw [List.span_eq_take_drop, List.takeWhile_append_of_pos hxs,
    List.dropWhile_append_of_pos hxs, List.takeWhile_cons, List.dropWhile_cons]
  simp [hy]

/-- Spanning digits consumes a digit-only list entirely. -/
theorem span_digits_all (xs : List Char) (hxs : ∀ x ∈ xs, x.isDigit = true) :
    xs.span Char.isDigit = (xs, []) := by
  rw [List.span_eq_take_drop]
  induction xs with
  | nil => simp
  | cons x xs ih =>
    have hx := hxs x (by simp)
    rw [List.takeWhile_cons, List.dropWhile_cons]
    simp only [hx, if_true]
    have := ih fun a ha => hxs a (by simp [ha])
    simp_all

/-- Decimal rendering of an octet value: 1-3 digit characters parsing back
to the value. -/
theorem decChars_octet : ∀ n < 256, digitsToNat (decChars n) = n ∧
    (decChars n).length ≤ 3 ∧ (decChars n).length ≠ 0 ∧
    (∀ c ∈ decChars n, c.isDigit = true) := by decide

/-- Decimal rendering of a bitmask value: 1-2 digit characters parsing back
to the value. -/
theorem decChars_bitmask : ∀ n < 33, digitsToNat (decChars n) = n ∧
    (decChars n).length ≤ 2 ∧ (decChars n).length ≠ 0 ∧
    (∀ c ∈ decChars n, c.isDigit = true) := by decide

/-- `x &&& 255` is `x % 256`. -/
theorem and255_eq_mod (x : Nat) : x &&& 255 = x % 256 := by
  have h := Nat.and_pow_two_sub_one_eq_mod x 8
  norm_num at h
  exact h

/-- Bytes are at most 255. -/
theorem byte_le (x : Nat) : x &&& 255 ≤ 255 := by
  rw [and255_eq_mod]
  omega

/-- Recomposing the four bytes of a 32-bit value gives the value back. -/
theorem byte_recompose (ip : Nat) (h : ip < 2 ^ 32) :
    (((ip >>> 24 &&& 255) * 256 + (ip >>> 16 &&& 255)) * 256 +
      (ip >>> 8 &&& 255)) * 256 + (ip &&& 255) = ip := by
  rw [and255_eq_mod, and255_eq_mod, and255_eq_mod, and255_eq_mod,
    Nat.shiftRight_eq_div_pow, Nat.shiftRight_eq_div_pow, Nat.shiftRight_eq_div_pow]
  norm_num
  omega

/-- Normalization never increases the ip. -/
theorem normalizeIp_le (ip bm : Nat) : Cidr.normalizeIp ip bm ≤ ip := by
  unfold Cidr.normalizeIp
  rw [Nat.shiftLeft_eq, Nat.shiftRight_eq_div_pow]
  exact Nat.div_mul_le_self ip (2 ^ (32 - bm))

/-- Normalization is idempotent. -/
theorem normalizeIp_idem (ip bm : Nat) :
    Cidr.normalizeIp (Cidr.normalizeIp ip bm) bm = Cidr.normalizeIp ip bm := by
  unfold Cidr.normalizeIp
  rw [Nat.shiftLeft_eq, Nat.shiftRight_eq_div_pow, Nat.shiftLeft_eq,
    Nat.shiftRight_eq_div_pow, Nat.mul_div_cancel _ (Nat.two_pow_pos (32 - bm))]

/-- Inversion of a successful `buildIp`. -/
theorem buildIp_ok_elim {ds : List (List Char)} {acc v : Nat}
    (h : buildIp ds acc = .ok v) :
    (∀ d ∈ ds, digitsToNat d ≤ 255) ∧
    v = ds.foldl (fun a d => a * 256 + digitsToNat d) acc := by
  induction ds generalizing acc with
  | nil => simp [buildIp] at h; simp [h]
  | cons d rest ih =>
    by_cases hd : 255 < digitsToNat d
    · simp [buildIp, hd] at h
    · simp only [buildIp, if_neg hd] at h
      obtain ⟨h1, h2⟩ := ih h
      refine ⟨?_, by simpa using h2⟩
      intro e he
      rcases List.mem_cons.mp he with he | he
      · subst he; omega
      · exact h1 e he

/-- A successful four-octet fold stays below `2^32`. -/
theorem buildIp_four_lt {ds : List (List Char)} {v : Nat}
    (hlen : ds.length = 4) (h : buildIp ds 0 = .ok v) : v < 2 ^ 32 := by
  match ds, hlen with
  | [a, b, c, d], _ =>
    obtain ⟨hle, hv⟩ := buildIp_ok_elim h
    have h1 := hle a (by simp)
    have h2 := hle b (by simp)
    have h3 := hle c (by simp)
    have h4 := hle d (by simp)
    simp only [List.foldl] at hv
    omega

/-- Inversion of a successful parse: the value is normalized, 32-bit, and
its bitmask is at most 32. -/
theorem ofText_ok_elim {s : List Char} {c : Cidr} (h : Cidr.ofText s = .ok c) :
    c.ip = Cidr.normalizeIp c.ip c.bitmask ∧ c.ip < 2 ^ 32 ∧ c.bitmask ≤ 32 := by
  unfold Cidr.ofText at h
  split at h
  · simp at h
  · split at h
    · simp at h
    · rename_i ip hb
      have hiplt : ip < 2 ^ 32 := buildIp_four_lt (by simp) hb
      split at h
      · rw [if_neg (by omega)] at h
        simp only [Except.ok.injEq] at h
        subst h
        exact ⟨(normalizeIp_idem ip 32).symm,
          Nat.lt_of_le_of_lt (normalizeIp_le ip 32) hiplt, Nat.le.refl⟩
      · rename_i d6 hm6
        by_cases hbm : 32 < digitsToNat d6
        · rw [if_pos hbm] at h
          simp at h
        · rw [if_neg hbm] at h
          simp only [Except.ok.injEq] at h
          subst h
          exact ⟨(normalizeIp_idem ip (digitsToNat d6)).symm,
            Nat.lt_of_le_of_lt (normalizeIp_le ip (digitsToNat d6)) hiplt,
            by show digitsToNat d6 ≤ 32; omega⟩

/-- Reduction of `Cidr.ofText` once the regex match is known. -/
theorem ofText_of_match {s d1 d2 d3 d4 m6}
    (hm : cidrMatch s = some (d1, d2, d3, d4, m6)) :
    Cidr.ofText s =
      (match buildIp [d1, d2, d3, d4] 0 with
        | .error e => .error e
        | .ok ip =>
          if 32 < bitmaskOfGroup m6 then
            .error (.valueError "Invalid cidr bitmask (0-32)")
          else .ok ⟨Cidr.normalizeIp ip (bitmaskOfGroup m6), bitmaskOfGroup m6⟩) := by
  unfold Cidr.ofText
  rw [hm]
  cases m6 <;> rfl

/-- **C8.** Rendering a parsed prefix is the canonical text of the
normalized value: the parsed value has its host bits cleared, and parsing
the rendered text reproduces the value exactly, so parse-then-render is
idempotent. -/
theorem parse_render_round_trip (s : List Char) (c : Cidr)
    (h : Cidr.ofText s = .ok c) :
    Cidr.ofText (Cidr.str c) = .ok c ∧ c.ip = Cidr.normalizeIp c.ip c.bitmask := by
  obtain ⟨hnorm, hlt, hbm⟩ := ofText_ok_elim h
  refine ⟨?_, hnorm⟩
  obtain ⟨hp1, hl1, hn1, hd1⟩ := decChars_octet (c.ip >>> 24 &&& 255)
    (Nat.lt_succ_of_le (byte_le _))
  obtain ⟨hp2, hl2, hn2, hd2⟩ := decChars_octet (c.ip >>> 16 &&& 255)
    (Nat.lt_succ_of_le (byte_le _))
  obtain ⟨hp3, hl3, hn3, hd3⟩ := decChars_octet (c.ip >>> 8 &&& 255)
    (Nat.lt_succ_of_le (byte_le _))
  obtain ⟨hp4, hl4, hn4, hd4⟩ := decChars_octet (c.ip &&& 255)
    (Nat.lt_succ_of_le (byte_le _))
  obtain ⟨hp5, hl5, hn5, hd5⟩ := decChars_bitmask c.bitmask (by omega)
  have hc1 : ¬((decChars (c.ip >>> 24 &&& 255)).length = 0 ∨
      3 < (decChars (c.ip >>> 24 &&& 255)).length) := by omega
  have hc2 : ¬((decChars (c.ip >>> 16 &&& 255)).length = 0 ∨
      3 < (decChars (c.ip >>> 16 &&& 255)).length) := by omega
  have hc3 : ¬((decChars (c.ip >>> 8 &&& 255)).length = 0 ∨
      3 < (decChars (c.ip >>> 8 &&& 255)).length) := by omega
  have hc4 : ¬((decChars (c.ip &&& 255)).length = 0 ∨
      3 < (decChars (c.ip &&& 255)).length) := by omega
  have hc5 : ¬((decChars c.bitmask).length = 0 ∨
      2 < (decChars c.bitmask).length) := by omega
  have hmatch : cidrMatch (Cidr.str c) =
      some (decChars (c.ip >>> 24 &&& 255), decChars (c.ip >>> 16 &&& 255),
            decChars (c.ip >>> 8 &&& 255), decChars (c.ip &&& 255),
            some (decChars c.bitmask)) := by
    have hstr : Cidr.str c = decChars (c.ip >>> 24 &&& 255) ++ '.' ::
        (decChars (c.ip >>> 16 &&& 255) ++ '.' ::
          (decChars (c.ip >>> 8 &&& 255) ++ '.' ::
            (decChars (c.ip &&& 255) ++ '/' :: decChars c.bitmask))) := by
      simp [Cidr.str, List.append_assoc]
    rw [hstr]
    unfold cidrMatch
    rw [span_digits_append _ '.' _ hd1 (by decide)]
    dsimp only
    rw [if_neg hc1, if_pos rfl]
    rw [span_digits_append _ '.' _ hd2 (by decide)]
    dsimp only
    rw [if_neg hc2, if_pos rfl]
    rw [span_digits_append _ '.' _ hd3 (by decide)]
    dsimp only
    rw [if_neg hc3, if_pos rfl]
    rw [span_digits_append _ '/' _ hd4 (by decide)]
    dsimp only
    rw [if_neg hc4, if_pos rfl]
    rw [span_digits_all _ hd5]
    dsimp only
    rw [if_neg hc5]
  have hoctets : ∀ d ∈ [decChars (c.ip >>> 24 &&& 255), decChars (c.ip >>> 16 &&& 255),
      decChars (c.ip >>> 8 &&& 255), decChars (c.ip &&& 255)], digitsToNat d ≤ 255 := by
    intro d hd
    simp only [List.mem_cons, List.not_mem_nil, or_false] at hd
    rcases hd with h | h | h | h <;> subst h <;>
      simp [hp1, hp2, hp3, hp4, byte_le]
  rw [ofText_of_match hmatch, buildIp_ok hoctets]
  have hbmv : bitmaskOfGroup (some (decChars c.bitmask)) = c.bitmask := by
    simp [bitmaskOfGroup, hp5]
  have hfold : List.foldl (fun a d => a * 256 + digitsToNat d) 0
      [decChars (c.ip >>> 24 &&& 255), decChars (c.ip >>> 16 &&& 255),
       decChars (c.ip >>> 8 &&& 255), decChars (c.ip &&& 255)] = c.ip := by
    simp only [List.foldl, hp1, hp2, hp3, hp4]
    have := byte_recompose c.ip hlt
    omega
  simp only [hfold, hbmv]
  rw [if_neg (by omega)]
  rw [← hnorm]

/-- Witness for `parse_render_round_trip` at the spec's example:
`"255.255.255.255/1"` parses to `128.0.0.0/1` (ip `2147483648`), which
renders as `"128.0.0.0/1"` and parses back to itself. -/
theorem parse_render_round_trip_witness :
    Cidr.ofText (String.data "255.255.255.255/1") = .ok ⟨2147483648, 1⟩ ∧
    Cidr.ofText (Cidr.str ⟨2147483648, 1⟩) = .ok ⟨2147483648, 1⟩ ∧
    String.mk (Cidr.str ⟨2147483648, 1⟩) = "128.0.0.0/1" :=
  ⟨rfl,
   (parse_render_round_trip (String.data "255.255.255.255/1") ⟨2147483648, 1⟩ rfl).1,
   rfl⟩

/-- Interface: the value of a depth-correct node. -/
theorem depthsOk_value {v : Nat} {l r : Option TNode} {d : Nat}
    (h : (TNode.mk v l r).depthsOk d = true) : v = d := by
  cases l <;> cases r <;> simp [TNode.depthsOk] at h <;> omega

/-- Interface: the left child of a depth-correct node. -/
theorem depthsOk_left {v : Nat} {l r : Option TNode} {d : Nat}
    (h : (TNode.mk v l r).depthsOk d = true) :
    ∀ x, l = some x → x.depthsOk (d + 1) = true := by
  intro x hx
  subst hx
  cases r <;> simp [TNode.depthsOk] at h <;> tauto

/-- Interface: the right child of a depth-correct node. -/
theorem depthsOk_right {v : Nat} {l r : Option TNode} {d : Nat}
    (h : (TNode.mk v l r).depthsOk d = true) :
    ∀ x, r = some x → x.depthsOk (d + 1) = true := by
  intro x hx
  subst hx
  cases l <;> simp [TNode.depthsOk] at h <;> tauto

/-- Interface: building a depth-correct node. -/
theorem depthsOk_mk {v : Nat} {l r : Option TNode} {d : Nat} (hv : v = d)
    (hl : ∀ x, l = some x → x.depthsOk (d + 1) = true)
    (hr : ∀ x, r = some x → x.depthsOk (d + 1) = true) :
    (TNode.mk v l r).depthsOk d = true := by
  cases l <;> cases r <;> simp [TNode.depthsOk, hv] <;>
    first
    | exact hl _ rfl
    | exact hr _ rfl
    | exact ⟨hl _ rfl, hr _ rfl⟩

/-- Interface: the value bound of a bounded node. -/
theorem bounded_value {v : Nat} {l r : Option TNode}
    (h : (TNode.mk v l r).bounded = true) : v ≤ 32 := by
  cases l <;> cases r <;> simp [TNode.bounded] at h <;> omega

/-- Interface: the left child of a bounded node. -/
theorem bounded_left {v : Nat} {l r : Option TNode}
    (h : (TNode.mk v l r).bounded = true) :
    ∀ x, l = some x → x.bounded = true := by
  intro x hx
  subst hx
  cases r <;> simp [TNode.bounded] at h <;> tauto

/-- Interface: the right child of a bounded node. -/
theorem bounded_right {v : Nat} {l r : Option TNode}
    (h : (TNode.mk v l r).bounded = true) :
    ∀ x, r = some x → x.bounded = true := by
  intro x hx
  subst hx
  cases l <;> simp [TNode.bounded] at h <;> tauto

/-- Interface: building a bounded node. -/
theorem bounded_mk {v : Nat} {l r : Option TNode} (hv : v ≤ 32)
    (hl : ∀ x, l = some x → x.bounded = true)
    (hr : ∀ x, r = some x → x.bounded = true) :
    (TNode.mk v l r).bounded = true := by
  cases l <;> cases r <;> simp [TNode.bounded, hv] <;>
    first
    | exact hl _ rfl
    | exact hr _ rfl
    | exact ⟨hl _ rfl, hr _ rfl⟩

/-- The value of a depth-correct node. -/
theorem value_of_depthsOk {n : TNode} {d : Nat} (h : n.depthsOk d = true) :
    n.value = d := by
  cases n
  exact depthsOk_value h

/-- Following a path in a depth-correct tree lands at the path's depth. -/
theorem follow_depthsOk {p : List Bool} {t : TNode} {d : Nat} {n : TNode}
    (hd : t.depthsOk d = true) (hf : t.follow p = some n) :
    n.depthsOk (d + p.length) = true := by
  induction p generalizing t d with
  | nil =>
    simp [TNode.follow] at hf
    subst hf
    simpa using hd
  | cons dir p ih =>
    obtain ⟨v, l, r⟩ := t
    cases dir with
    | false =>
      simp only [TNode.follow, TNode.left] at hf
      cases hl : l with
      | none => rw [hl] at hf; simp at hf
      | some x =>
        rw [hl] at hf
        have hx := depthsOk_left hd x hl
        have := ih hx hf
        rw [show d + (false :: p).length = (d + 1) + p.length by simp; omega]
        exact this
    | true =>
      simp only [TNode.follow, TNode.right] at hf
      cases hr : r with
      | none => rw [hr] at hf; simp at hf
      | some x =>
        rw [hr] at hf
        have hx := depthsOk_right hd x hr
        have := ih hx hf
        rw [show d + (true :: p).length = (d + 1) + p.length by simp; omega]
        exact this

/-- Following a path in a bounded tree stays bounded. -/
theorem follow_bounded {p : List Bool} {t : TNode} {n : TNode}
    (hb : t.bounded = true) (hf : t.follow p = some n) : n.bounded = true := by
  induction p generalizing t with
  | nil => simp [TNode.follow] at hf; subst hf; exact hb
  | cons dir p ih =>
    obtain ⟨v, l, r⟩ := t
    cases dir with
    | false =>
      simp only [TNode.follow, TNode.left] at hf
      cases hl : l with
      | none => rw [hl] at hf; simp at hf
      | some x => rw [hl] at hf; exact ih (bounded_left hb x hl) hf
    | true =>
      simp only [TNode.follow, TNode.right] at hf
      cases hr : r with
      | none => rw [hr] at hf; simp at hf
      | some x => rw [hr] at hf; exact ih (bounded_right hb x hr) hf

/-- Editing at a path preserves depth-correctness when the edit does at the
path's depth. -/
theorem updateAt_depthsOk {p : List Bool} {t : TNode} {d : Nat} {f : TNode → TNode}
    (ht : t.depthsOk d = true)
    (hf : ∀ n, n.depthsOk (d + p.length) = true → (f n).depthsOk (d + p.length) = true) :
    (t.updateAt p f).depthsOk d = true := by
  induction p generalizing t d with
  | nil =>
    simp only [TNode.updateAt]
    simpa using hf t (by simpa using ht)
  | cons dir p ih =>
    simp only [List.length_cons] at hf
    rw [show d + (p.length + 1) = d + 1 + p.length by omega] at hf
    obtain ⟨v, l, r⟩ := t
    cases dir with
    | false =>
      cases hl : l with
      | none =>
        show (TNode.mk v none r).depthsOk d = true
        rw [hl] at ht
        exact ht
      | some x =>
        rw [hl] at ht
        show (TNode.mk v (some (x.updateAt p f)) r).depthsOk d = true
        refine depthsOk_mk (depthsOk_value ht) ?_ (depthsOk_right ht)
        intro y hy
        injection hy with hy
        subst hy
        exact ih (depthsOk_left ht x rfl) hf
    | true =>
      cases hr : r with
      | none =>
        show (TNode.mk v l none).depthsOk d = true
        rw [hr] at ht
        exact ht
      | some x =>
        rw [hr] at ht
        show (TNode.mk v l (some (x.updateAt p f))).depthsOk d = true
        refine depthsOk_mk (depthsOk_value ht) (depthsOk_left ht) ?_
        intro y hy
        injection hy with hy
        subst hy
        exact ih (depthsOk_right ht x rfl) hf

/-- Editing at a path preserves the depth bound when the edit does. -/
theorem updateAt_bounded {p : List Bool} {t : TNode} {f : TNode → TNode}
    (ht : t.bounded = true)
    (hf : ∀ n, n.bounded = true → (f n).bounded = true) :
    (t.updateAt p f).bounded = true := by
  induction p generalizing t with
  | nil => simpa [TNode.updateAt] using hf t ht
  | cons dir p ih =>
    obtain ⟨v, l, r⟩ := t
    cases dir with
    | false =>
      cases hl : l with
      | none =>
        show (TNode.mk v none r).bounded = true
        rw [hl] at ht
        exact ht
      | some x =>
        rw [hl] at ht
        show (TNode.mk v (some (x.updateAt p f)) r).bounded = true
        refine bounded_mk (bounded_value ht) ?_ (bounded_right ht)
        intro y hy
        injection hy with hy
        subst hy
        exact ih (bounded_left ht x rfl)
    | true =>
      cases hr : r with
      | none =>
        show (TNode.mk v l none).bounded = true
        rw [hr] at ht
        exact ht
      | some x =>
        rw [hr] at ht
        show (TNode.mk v l (some (x.updateAt p f))).bounded = true
        refine bounded_mk (bounded_value ht) (bounded_left ht) ?_
        intro y hy
        injection hy with hy
        subst hy
        exact ih (bounded_right ht x rfl)

/-- Pruning the left child keeps depths correct. -/
theorem depthsOk_setLeft_none {n : TNode} {d : Nat} (h : n.depthsOk d = true) :
    (n.setLeft none).depthsOk d = true := by
  obtain ⟨v, l, r⟩ := n
  exact depthsOk_mk (depthsOk_value h) (by simp) (depthsOk_right h)

/-- Pruning the right child keeps depths correct. -/
theorem depthsOk_setRight_none {n : TNode} {d : Nat} (h : n.depthsOk d = true) :
    (n.setRight none).depthsOk d = true := by
  obtain ⟨v, l, r⟩ := n
  exact depthsOk_mk (depthsOk_value h) (depthsOk_left h) (by simp)

/-- Pruning the left child keeps the bound. -/
theorem bounded_setLeft_none {n : TNode} (h : n.bounded = true) :
    (n.setLeft none).bounded = true := by
  obtain ⟨v, l, r⟩ := n
  exact bounded_mk (bounded_value h) (by simp) (bounded_right h)

/-- Pruning the right child keeps the bound. -/
theorem bounded_setRight_none {n : TNode} (h : n.bounded = true) :
    (n.setRight none).bounded = true := by
  obtain ⟨v, l, r⟩ := n
  exact bounded_mk (bounded_value h) (bounded_left h) (by simp)

/-- Clearing a node to a leaf keeps depths correct. -/
theorem depthsOk_clear {n : TNode} {d : Nat} (h : n.depthsOk d = true) :
    (TNode.mk n.value none none).depthsOk d = true :=
  depthsOk_mk (value_of_depthsOk h) (by simp) (by simp)

/-- Clearing a node to a leaf keeps the bound. -/
theorem bounded_clear {n : TNode} (h : n.bounded = true) :
    (TNode.mk n.value none none).bounded = true := by
  obtain ⟨v, l, r⟩ := n
  exact bounded_mk (bounded_value h) (by simp) (by simp)

/-- Growing a fresh child one level deeper keeps depths correct. -/
theorem depthsOk_growLeft {n : TNode} {d : Nat} (h : n.depthsOk d = true) :
    (n.setLeft (some (.mk (n.value + 1) none none))).depthsOk d = true := by
  obtain ⟨v, l, r⟩ := n
  refine depthsOk_mk (depthsOk_value h) ?_ (depthsOk_right h)
  intro x hx
  injection hx with hx
  subst hx
  exact depthsOk_mk (by simp [TNode.value, depthsOk_value h]) (by simp) (by simp)

/-- Growing a fresh right child one level deeper keeps depths correct. -/
theorem depthsOk_growRight {n : TNode} {d : Nat} (h : n.depthsOk d = true) :
    (n.setRight (some (.mk (n.value + 1) none none))).depthsOk d = true := by
  obtain ⟨v, l, r⟩ := n
  refine depthsOk_mk (depthsOk_value h) (depthsOk_left h) ?_
  intro x hx
  injection hx with hx
  subst hx
  exact depthsOk_mk (by simp [TNode.value, depthsOk_value h]) (by simp) (by simp)

/-- Growing a fresh child below depth 32 keeps the bound. -/
theorem bounded_growLeft {n : TNode} {d : Nat} (hd : n.depthsOk d = true)
    (h : n.bounded = true) (hlt : d ≤ 31) :
    (n.setLeft (some (.mk (n.value + 1) none none))).bounded = true := by
  obtain ⟨v, l, r⟩ := n
  refine bounded_mk (bounded_value h) ?_ (bounded_right h)
  intro x hx
  injection hx with hx
  subst hx
  refine bounded_mk ?_ (by simp) (by simp)
  have := depthsOk_value hd
  simp [TNode.value]
  omega

/-- Growing a fresh right child below depth 32 keeps the bound. -/
theorem bounded_growRight {n : TNode} {d : Nat} (hd : n.depthsOk d = true)
    (h : n.bounded = true) (hlt : d ≤ 31) :
    (n.setRight (some (.mk (n.value + 1) none none))).bounded = true := by
  obtain ⟨v, l, r⟩ := n
  refine bounded_mk (bounded_value h) (bounded_left h) ?_
  intro x hx
  injection hx with hx
  subst hx
  refine bounded_mk ?_ (by simp) (by simp)
  have := depthsOk_value hd
  simp [TNode.value]
  omega

/-- The value bound of any bounded node. -/
theorem value_of_bounded {n : TNode} (h : n.bounded = true) : n.value ≤ 32 := by
  cases n
  exact bounded_value h

/-- A node of a well-formed tree that has a left child sits at depth 31 or
less. -/
theorem path_le_31_of_left {b : TNode} {bp : List Bool} {bnode bl : TNode}
    (hbD : b.depthsOk 0 = true) (hbB : b.bounded = true)
    (hf : b.follow bp = some bnode) (hl : bnode.left = some bl) :
    bp.length ≤ 31 := by
  have h1 := follow_depthsOk hbD hf
  have h2 := follow_bounded hbB hf
  obtain ⟨v, l, r⟩ := bnode
  simp only [TNode.left] at hl
  have hdl := depthsOk_left h1 bl hl
  have hbl := bounded_left h2 bl hl
  have hv := value_of_depthsOk hdl
  have hb := value_of_bounded hbl
  omega

/-- A node of a well-formed tree that has a right child sits at depth 31 or
less. -/
theorem path_le_31_of_right {b : TNode} {bp : List Bool} {bnode br : TNode}
    (hbD : b.depthsOk 0 = true) (hbB : b.bounded = true)
    (hf : b.follow bp = some bnode) (hr : bnode.right = some br) :
    bp.length ≤ 31 := by
  have h1 := follow_depthsOk hbD hf
  have h2 := follow_bounded hbB hf
  obtain ⟨v, l, r⟩ := bnode
  simp only [TNode.right] at hr
  have hdl := depthsOk_right h1 br hr
  have hbl := bounded_right h2 br hr
  have hv := value_of_depthsOk hdl
  have hb := value_of_bounded hbl
  omega


/-- Editing at a path preserves depths and bound together, for an edit that
preserves them at the node actually edited (whose depth is the path
length). -/
theorem updateAt_wf {p : List Bool} {t : TNode} {f : TNode → TNode}
    (htD : t.depthsOk 0 = true) (htB : t.bounded = true)
    (hf : ∀ n, n.depthsOk p.length = true → n.bounded = true →
      (f n).depthsOk p.length = true ∧ (f n).bounded = true) :
    (t.updateAt p f).depthsOk 0 = true ∧ (t.updateAt p f).bounded = true := by
  suffices hgen : ∀ (p : List Bool) (t : TNode) (d : Nat),
      t.depthsOk d = true → t.bounded = true →
      (∀ n, n.depthsOk (d + p.length) = true → n.bounded = true →
        (f n).depthsOk (d + p.length) = true ∧ (f n).bounded = true) →
      (t.updateAt p f).depthsOk d = true ∧ (t.updateAt p f).bounded = true by
    exact hgen p t 0 htD htB (by simpa using hf)
  intro p
  induction p with
  | nil =>
    intro t d hD hB hf
    simp only [TNode.updateAt]
    simpa using hf t (by simpa using hD) hB
  | cons dir p ih =>
    intro t d hD hB hf
    simp only [List.length_cons] at hf
    rw [show d + (p.length + 1) = d + 1 + p.length by omega] at hf
    obtain ⟨v, l, r⟩ := t
    cases dir with
    | false =>
      cases hl : l with
      | none =>
        rw [hl] at hD hB
        exact ⟨hD, hB⟩
      | some x =>
        rw [hl] at hD hB
        have hx := ih x (d + 1) (depthsOk_left hD x rfl) (bounded_left hB x rfl) hf
        constructor
        · exact depthsOk_mk (depthsOk_value hD)
            (fun y hy => by injection hy with hy; subst hy; exact hx.1)
            (depthsOk_right hD)
        · exact bounded_mk (bounded_value hB)
            (fun y hy => by injection hy with hy; subst hy; exact hx.2)
            (bounded_right hB)
    | true =>
      cases hr : r with
      | none =>
        rw [hr] at hD hB
        exact ⟨hD, hB⟩
      | some x =>
        rw [hr] at hD hB
        have hx := ih x (d + 1) (depthsOk_right hD x rfl) (bounded_right hB x rfl) hf
        constructor
        · exact depthsOk_mk (depthsOk_value hD) (depthsOk_left hD)
            (fun y hy => by injection hy with hy; subst hy; exact hx.1)
        · exact bounded_mk (bounded_value hB) (bounded_left hB)
            (fun y hy => by injection hy with hy; subst hy; exact hx.2)

/-- One continuing step of the `__add__` loop preserves the traversal
invariant, for a well-formed operand tree. -/
theorem addStep_wf {b : TNode} {st st' : TravState}
    (hbD : b.depthsOk 0 = true) (hbB : b.bounded = true) (hst : TravWf st)
    (h : addStep b st = .cont st') : TravWf st' := by
  obtain ⟨hD, hB, hcur, hstk⟩ := hst
  obtain ⟨label, bStack, bP, bQ, aStack, aP, aCreated, aRoot⟩ := st
  simp only [] at hD hB hcur hstk
  cases label with
  | t2 =>
    simp only [addStep] at h
    injection h with h
    subst h
    exact ⟨hD, hB, hcur, hstk⟩
  | t3 =>
    simp only [addStep] at h
    split at h
    · simp at h
    · rename_i bp
      split at h
      · simp at h
      · rename_i bnode heq2
        split at h
        · simp at h
        · rename_i aLeaf heq3
          have hpush : List.Forall₂ (fun (bp : List Bool) (ap : Option (List Bool)) =>
              ∀ q, ap = some q → q.length = bp.length)
              (bp :: bStack) (aP :: aStack) :=
            List.Forall₂.cons (fun q hq => hcur bp q rfl hq) hstk
          split at h
          · split at h
            · split at h
              · simp at h
              · rename_i ap
                injection h with h
                subst h
                have hwf := updateAt_wf (p := ap) hD hB
                  (fun n hnD hnB => ⟨depthsOk_clear hnD, bounded_clear hnB⟩)
                exact ⟨hwf.1, hwf.2, by simp, hpush⟩
            · injection h with h
              subst h
              exact ⟨hD, hB, by simp, hpush⟩
          · split at h
            · injection h with h
              subst h
              exact ⟨hD, hB, by simp, hpush⟩
            · rename_i hxor hbl
              split at h
              · simp at h
              · rename_i ap
                split at h
                · simp at h
                · rename_i anode heq6
                  have hlen : ap.length = bp.length := hcur bp ap rfl rfl
                  have hble : bp.length ≤ 31 := by
                    cases hblx : bnode.left with
                    | none => exact absurd hblx hbl
                    | some bl => exact path_le_31_of_left hbD hbB heq2 hblx
                  split at h
                  · injection h with h
                    subst h
                    have hwf := updateAt_wf (p := ap) hD hB
                      (fun n hnD hnB => ⟨depthsOk_growLeft hnD,
                        bounded_growLeft hnD hnB (by omega)⟩)
                    refine ⟨hwf.1, hwf.2, ?_, hpush⟩
                    intro p q hp hq
                    injection hp with hp
                    injection hq with hq
                    subst hp
                    subst hq
                    simp [hlen]
                  · injection h with h
                    subst h
                    refine ⟨hD, hB, ?_, hpush⟩
                    intro p q hp hq
                    injection hp with hp
                    injection hq with hq
                    subst hp
                    subst hq
                    simp [hlen]
  | t4 =>
    simp only [addStep] at h
    split at h
    · simp at h
    · rename_i bp bRest ap aRest
      have hstk' := List.forall₂_cons.mp hstk
      injection h with h
      subst h
      refine ⟨hD, hB, ?_, hstk'.2⟩
      intro p q hp hq
      injection hp with hp
      subst hp
      exact hstk'.1 q hq
    · simp at h
  | t5 =>
    simp only [addStep] at h
    split at h
    · simp at h
    · rename_i aLeaf heq0
      split at h
      · simp at h
      · rename_i bp
        split at h
        · simp at h
        · rename_i bnode heq2
          split at h
          · injection h with h
            subst h
            exact ⟨hD, hB, hcur, hstk⟩
          · rename_i br heqbr
            split at h
            · injection h with h
              subst h
              exact ⟨hD, hB, hcur, hstk⟩
            · rename_i hcond
              split at h
              · simp at h
              · rename_i ap
                split at h
                · simp at h
                · rename_i anode heq6
                  have hpush : List.Forall₂ (fun (bp : List Bool) (ap : Option (List Bool)) =>
                      ∀ q, ap = some q → q.length = bp.length)
                      (bp :: bStack) (some ap :: aStack) :=
                    List.Forall₂.cons (fun q hq => hcur bp q rfl hq) hstk
                  have hlen : ap.length = bp.length := hcur bp ap rfl rfl
                  have hble : bp.length ≤ 31 :=
                    path_le_31_of_right hbD hbB heq2 heqbr
                  split at h
                  · injection h with h
                    subst h
                    have hwf := updateAt_wf (p := ap) hD hB
                      (fun n hnD hnB => ⟨depthsOk_growRight hnD,
                        bounded_growRight hnD hnB (by omega)⟩)
                    refine ⟨hwf.1, hwf.2, ?_, hpush⟩
                    intro p q hp hq
                    injection hp with hp
                    injection hq with hq
                    subst hp
                    subst hq
                    simp [hlen]
                  · injection h with h
                    subst h
                    refine ⟨hD, hB, ?_, hpush⟩
                    intro p q hp hq
                    injection hp with hp
                    injection hq with hq
                    subst hp
                    subst hq
                    simp [hlen]
  | t6 =>
    simp only [addStep] at h
    split at h
    · simp at h
    · rename_i ap
      split at h
      · simp at h
      · rename_i anode heq2
        split at h
        · split at h
          · injection h with h
            subst h
            have hwf := updateAt_wf (p := ap) hD hB
              (fun n hnD hnB => ⟨depthsOk_clear hnD, bounded_clear hnB⟩)
            exact ⟨hwf.1, hwf.2, hcur, hstk⟩
          · injection h with h
            subst h
            exact ⟨hD, hB, hcur, hstk⟩
        · injection h with h
          subst h
          exact ⟨hD, hB, hcur, hstk⟩

/-- A `done` result of the `__add__` loop is a well-formed tree. -/
theorem addStep_done_wf {b : TNode} {st : TravState} {r : Option TNode}
    (hst : TravWf st) (h : addStep b st = .done r) :
    ∀ t, r = some t → t.depthsOk 0 = true ∧ t.bounded = true := by
  obtain ⟨hD, hB, hcur, hstk⟩ := hst
  obtain ⟨label, bStack, bP, bQ, aStack, aP, aCreated, aRoot⟩ := st
  simp only [] at hD hB
  intro t ht
  cases label with
  | t2 => simp only [addStep] at h; simp at h
  | t3 =>
    simp only [addStep] at h
    split at h
    · simp at h
    · split at h
      · simp at h
      · split at h
        · simp at h
        · split at h
          · split at h
            · split at h <;> simp at h
            · simp at h
          · split at h
            · simp at h
            · split at h
              · simp at h
              · split at h
                · simp at h
                · split at h <;> simp at h
  | t4 =>
    simp only [addStep] at h
    split at h
    · injection h with h
      subst h
      injection ht with ht
      subst ht
      exact ⟨hD, hB⟩
    · simp at h
    · simp at h
  | t5 =>
    simp only [addStep] at h
    split at h
    · simp at h
    · split at h
      · simp at h
      · split at h
        · simp at h
        · split at h
          · simp at h
          · split at h
            · simp at h
            · split at h
              · simp at h
              · split at h
                · simp at h
                · split at h <;> simp at h
  | t6 =>
    simp only [addStep] at h
    split at h
    · simp at h
    · split at h
      · simp at h
      · split at h
        · split at h <;> simp at h
        · simp at h

/-- The left `T6` removal block only clears child pointers, so it preserves
well-formedness of the working tree. -/
theorem subT6Left_wf {aRoot : TNode} (ap : List Bool) (anode bnode : TNode)
    (hD : aRoot.depthsOk 0 = true) (hB : aRoot.bounded = true) :
    (subT6Left aRoot ap anode bnode).depthsOk 0 = true ∧
      (subT6Left aRoot ap anode bnode).bounded = true := by
  unfold subT6Left
  repeat' split
  all_goals
    first
      | exact ⟨hD, hB⟩
      | exact updateAt_wf hD hB (fun n hnD hnB =>
          ⟨depthsOk_setLeft_none hnD, bounded_setLeft_none hnB⟩)
      | exact updateAt_wf hD hB (fun n hnD hnB =>
          ⟨depthsOk_setRight_none hnD, bounded_setRight_none hnB⟩)

/-- The right `T6` removal block only clears child pointers, so it preserves
well-formedness of the working tree. -/
theorem subT6Right_wf {aRoot1 : TNode} (ap : List Bool) (bnode : TNode)
    (hD : aRoot1.depthsOk 0 = true) (hB : aRoot1.bounded = true) :
    (subT6Right aRoot1 ap bnode).depthsOk 0 = true ∧
      (subT6Right aRoot1 ap bnode).bounded = true := by
  simp only [subT6Right]
  repeat' split
  all_goals
    first
      | exact ⟨hD, hB⟩
      | exact updateAt_wf hD hB (fun n hnD hnB =>
          ⟨depthsOk_setLeft_none hnD, bounded_setLeft_none hnB⟩)
      | exact updateAt_wf hD hB (fun n hnD hnB =>
          ⟨depthsOk_setRight_none hnD, bounded_setRight_none hnB⟩)

/-- The final root fix-up of `__sub__` only clears child pointers of the
root, so any tree it returns is well-formed. -/
theorem subFixRoot_wf {bTree aRoot : TNode}
    (hD : aRoot.depthsOk 0 = true) (hB : aRoot.bounded = true) :
    ∀ t, subFixRoot bTree aRoot = some t →
      t.depthsOk 0 = true ∧ t.bounded = true := by
  intro t ht
  unfold subFixRoot at ht
  repeat' split at ht
  all_goals
    first
      | (injection ht with ht; subst ht; exact ⟨hD, hB⟩)
      | (injection ht with ht; subst ht;
         exact ⟨depthsOk_setLeft_none hD, bounded_setLeft_none hB⟩)
      | (injection ht with ht; subst ht;
         exact ⟨depthsOk_setRight_none hD, bounded_setRight_none hB⟩)
      | exact Option.noConfusion ht

/-- One continuing step of the `__sub__` loop preserves the traversal
invariant, for a well-formed operand tree. -/
theorem subStep_wf {b : TNode} {st st' : TravState}
    (hbD : b.depthsOk 0 = true) (hbB : b.bounded = true) (hst : TravWf st)
    (h : subStep b st = .cont st') : TravWf st' := by
  obtain ⟨hD, hB, hcur, hstk⟩ := hst
  obtain ⟨label, bStack, bP, bQ, aStack, aP, aCreated, aRoot⟩ := st
  simp only [] at hD hB hcur hstk
  cases label with
  | t2 =>
    simp only [subStep] at h
    injection h with h
    subst h
    exact ⟨hD, hB, hcur, hstk⟩
  | t3 =>
    simp only [subStep] at h
    split at h
    · simp at h
    · rename_i bp
      split at h
      · simp at h
      · rename_i bnode heq2
        split at h
        · simp at h
        · rename_i ap
          split at h
          · simp at h
          · rename_i anode heq4
            have hpush : List.Forall₂ (fun (bp : List Bool) (ap : Option (List Bool)) =>
                ∀ q, ap = some q → q.length = bp.length)
                (bp :: bStack) (some ap :: aStack) :=
              List.Forall₂.cons (fun q hq => hcur bp q rfl hq) hstk
            have hlen : ap.length = bp.length := hcur bp ap rfl rfl
            split at h
            · rename_i hcond
              have hble : bp.length ≤ 31 := by
                rcases hcond with hL | hR
                · cases hblx : bnode.left with
                  | none => exact absurd hblx hL
                  | some bl => exact path_le_31_of_left hbD hbB heq2 hblx
                · cases hbrx : bnode.right with
                  | none => exact absurd hbrx hR
                  | some br => exact path_le_31_of_right hbD hbB heq2 hbrx
              have hwL : ∀ t : TNode, t.depthsOk 0 = true ∧ t.bounded = true →
                  (t.updateAt ap (fun n =>
                    n.setLeft (some (.mk (n.value + 1) none none)))).depthsOk 0 = true ∧
                  (t.updateAt ap (fun n =>
                    n.setLeft (some (.mk (n.value + 1) none none)))).bounded = true :=
                fun t ht => updateAt_wf ht.1 ht.2 (fun n hnD hnB =>
                  ⟨depthsOk_growLeft hnD, bounded_growLeft hnD hnB (by omega)⟩)
              have hwR : ∀ t : TNode, t.depthsOk 0 = true ∧ t.bounded = true →
                  (t.updateAt ap (fun n =>
                    n.setRight (some (.mk (n.value + 1) none none)))).depthsOk 0 = true ∧
                  (t.updateAt ap (fun n =>
                    n.setRight (some (.mk (n.value + 1) none none)))).bounded = true :=
                fun t ht => updateAt_wf ht.1 ht.2 (fun n hnD hnB =>
                  ⟨depthsOk_growRight hnD, bounded_growRight hnD hnB (by omega)⟩)
              split at h <;> split at h <;> split at h <;>
                (injection h with h;
                 subst h;
                 refine ⟨?_, ?_, ?_, hpush⟩ <;>
                   first
                     | exact (hwR _ (hwL _ ⟨hD, hB⟩)).1
                     | exact (hwR _ (hwL _ ⟨hD, hB⟩)).2
                     | exact (hwR _ ⟨hD, hB⟩).1
                     | exact (hwR _ ⟨hD, hB⟩).2
                     | exact (hwL _ ⟨hD, hB⟩).1
                     | exact (hwL _ ⟨hD, hB⟩).2
                     | exact hD
                     | exact hB
                     | simp [hlen])
            · split at h <;>
                (injection h with h;
                 subst h;
                 exact ⟨hD, hB, by simp, hpush⟩)
  | t4 =>
    simp only [subStep] at h
    split at h
    · simp at h
    · rename_i bp bRest ap aRest
      have hstk' := List.forall₂_cons.mp hstk
      injection h with h
      subst h
      refine ⟨hD, hB, ?_, hstk'.2⟩
      intro p q hp hq
      injection hp with hp
      subst hp
      exact hstk'.1 q hq
    · simp at h
  | t5 =>
    simp only [subStep] at h
    split at h
    · simp at h
    · rename_i bp
      split at h
      · simp at h
      · rename_i bnode heq2
        split at h
        · injection h with h
          subst h
          exact ⟨hD, hB, hcur, hstk⟩
        · rename_i br heqbr
          split at h
          · injection h with h
            subst h
            exact ⟨hD, hB, hcur, hstk⟩
          · rename_i hbq
            split at h
            · simp at h
            · rename_i ap
              split at h
              · simp at h
              · rename_i anode heq6
                have hpush : List.Forall₂ (fun (bp : List Bool) (ap : Option (List Bool)) =>
                    ∀ q, ap = some q → q.length = bp.length)
                    (bp :: bStack) (some ap :: aStack) :=
                  List.Forall₂.cons (fun q hq => hcur bp q rfl hq) hstk
                have hlen : ap.length = bp.length := hcur bp ap rfl rfl
                split at h <;>
                  (injection h with h;
                   subst h;
                   refine ⟨hD, hB, ?_, hpush⟩ <;> simp [hlen])
  | t6 =>
    simp only [subStep] at h
    split at h
    · rename_i ap bp
      split at h
      · rename_i anode bnode heqA heqB
        injection h with h
        subst h
        have h1 := subT6Left_wf ap anode bnode hD hB
        have h2 := subT6Right_wf ap bnode h1.1 h1.2
        exact ⟨h2.1, h2.2, hcur, hstk⟩
      · simp at h
    · simp at h

/-- A `done` result of the `__sub__` loop is a well-formed tree. -/
theorem subStep_done_wf {b : TNode} {st : TravState} {r : Option TNode}
    (hst : TravWf st) (h : subStep b st = .done r) :
    ∀ t, r = some t → t.depthsOk 0 = true ∧ t.bounded = true := by
  obtain ⟨hD, hB, hcur, hstk⟩ := hst
  obtain ⟨label, bStack, bP, bQ, aStack, aP, aCreated, aRoot⟩ := st
  simp only [] at hD hB
  intro t ht
  cases label with
  | t2 => simp only [subStep] at h; simp at h
  | t3 =>
    simp only [subStep] at h
    repeat' split at h
    all_goals simp at h
  | t4 =>
    simp only [subStep] at h
    split at h
    · injection h with h
      subst h
      exact subFixRoot_wf hD hB t ht
    · simp at h
    · simp at h
  | t5 =>
    simp only [subStep] at h
    repeat' split at h
    all_goals simp at h
  | t6 =>
    simp only [subStep] at h
    repeat' split at h
    all_goals simp at h

/-- `_add` preserves depth-correctness and the depth bound: the descent stops
at `value = bitmask ≤ 32`, and fresh children take value `parent.value + 1`. -/
theorem addNode_wf (fuel : Nat) :
    ∀ (node : TNode) (nw : Bool) (c : Cidr) (d : Nat),
      node.depthsOk d = true → node.bounded = true →
      d ≤ c.bitmask → c.bitmask ≤ 32 →
      (CidrSet.addNode fuel node nw c).depthsOk d = true ∧
        (CidrSet.addNode fuel node nw c).bounded = true := by
  induction fuel with
  | zero =>
    intro node nw c d hD hB _ _
    exact ⟨hD, hB⟩
  | succ fuel ih =>
    intro node nw c d hD hB hdle hble
    obtain ⟨v, l, r⟩ := node
    have hv : v = d := depthsOk_value hD
    simp only [CidrSet.addNode, TNode.value, TNode.left, TNode.right,
      TNode.setLeft, TNode.setRight]
    by_cases h1 : c.bitmask = v
    · rw [if_pos h1]
      exact ⟨depthsOk_mk hv (by simp) (by simp),
             bounded_mk (by omega) (by simp) (by simp)⟩
    · rw [if_neg h1]
      have hlt : d < c.bitmask := by omega
      by_cases h2 : (!nw && (TNode.mk v l r).isLeaf) = true
      · rw [if_pos h2]
        exact ⟨hD, hB⟩
      · rw [if_neg h2]
        have hrecNew := ih (TNode.mk (v + 1) none none) true c (d + 1)
          (by simp [TNode.depthsOk]; omega) (by simp [TNode.bounded]; omega)
          (by omega) hble
        by_cases h3 : c.bit (v + 1) = 0
        · rw [if_pos h3]
          cases l with
          | none =>
            have hn' : (TNode.mk v
                  (some (CidrSet.addNode fuel (TNode.mk (v + 1) none none) true c))
                  r).depthsOk d = true ∧
                (TNode.mk v
                  (some (CidrSet.addNode fuel (TNode.mk (v + 1) none none) true c))
                  r).bounded = true :=
              ⟨depthsOk_mk hv
                 (fun y hy => by injection hy with hy; subst hy; exact hrecNew.1)
                 (depthsOk_right hD),
               bounded_mk (by omega)
                 (fun y hy => by injection hy with hy; subst hy; exact hrecNew.2)
                 (bounded_right hB)⟩
            cases r with
            | none => exact hn'
            | some rc =>
              dsimp only [TNode.left, TNode.right, TNode.value]
              split
              · exact ⟨depthsOk_mk hv (by simp) (by simp),
                       bounded_mk (by omega) (by simp) (by simp)⟩
              · exact hn'
          | some lc =>
            have hrec := ih lc false c (d + 1) (depthsOk_left hD lc rfl)
              (bounded_left hB lc rfl) (by omega) hble
            have hn' : (TNode.mk v
                  (some (CidrSet.addNode fuel lc false c)) r).depthsOk d = true ∧
                (TNode.mk v
                  (some (CidrSet.addNode fuel lc false c)) r).bounded = true :=
              ⟨depthsOk_mk hv
                 (fun y hy => by injection hy with hy; subst hy; exact hrec.1)
                 (depthsOk_right hD),
               bounded_mk (by omega)
                 (fun y hy => by injection hy with hy; subst hy; exact hrec.2)
                 (bounded_right hB)⟩
            cases r with
            | none => exact hn'
            | some rc =>
              dsimp only [TNode.left, TNode.right, TNode.value]
              split
              · exact ⟨depthsOk_mk hv (by simp) (by simp),
                       bounded_mk (by omega) (by simp) (by simp)⟩
              · exact hn'
        · rw [if_neg h3]
          cases r with
          | none =>
            have hn' : (TNode.mk v l
                  (some (CidrSet.addNode fuel (TNode.mk (v + 1) none none) true c))).depthsOk d = true ∧
                (TNode.mk v l
                  (some (CidrSet.addNode fuel (TNode.mk (v + 1) none none) true c))).bounded = true :=
              ⟨depthsOk_mk hv (depthsOk_left hD)
                 (fun y hy => by injection hy with hy; subst hy; exact hrecNew.1),
               bounded_mk (by omega) (bounded_left hB)
                 (fun y hy => by injection hy with hy; subst hy; exact hrecNew.2)⟩
            cases l with
            | none => exact hn'
            | some lc =>
              dsimp only [TNode.left, TNode.right, TNode.value]
              split
              · exact ⟨depthsOk_mk hv (by simp) (by simp),
                       bounded_mk (by omega) (by simp) (by simp)⟩
              · exact hn'
          | some rc =>
            have hrec := ih rc false c (d + 1) (depthsOk_right hD rc rfl)
              (bounded_right hB rc rfl) (by omega) hble
            have hn' : (TNode.mk v l
                  (some (CidrSet.addNode fuel rc false c))).depthsOk d = true ∧
                (TNode.mk v l
                  (some (CidrSet.addNode fuel rc false c))).bounded = true :=
              ⟨depthsOk_mk hv (depthsOk_left hD)
                 (fun y hy => by injection hy with hy; subst hy; exact hrec.1),
               bounded_mk (by omega) (bounded_left hB)
                 (fun y hy => by injection hy with hy; subst hy; exact hrec.2)⟩
            cases l with
            | none => exact hn'
            | some lc =>
              dsimp only [TNode.left, TNode.right, TNode.value]
              split
              · exact ⟨depthsOk_mk hv (by simp) (by simp),
                       bounded_mk (by omega) (by simp) (by simp)⟩
              · exact hn'

/-- `_remove` preserves depth-correctness and the depth bound on any tree it
returns. -/
theorem removeNode_wf (fuel : Nat) :
    ∀ (node : TNode) (c : Cidr) (d : Nat),
      node.depthsOk d = true → node.bounded = true →
      d ≤ c.bitmask → c.bitmask ≤ 32 →
      ∀ t, CidrSet.removeNode fuel node c = some t →
        t.depthsOk d = true ∧ t.bounded = true := by
  induction fuel with
  | zero =>
    intro node c d hD hB _ _ t ht
    injection ht with ht
    subst ht
    exact ⟨hD, hB⟩
  | succ fuel ih =>
    intro node c d hD hB hdle hble t ht
    obtain ⟨v, l, r⟩ := node
    have hv : v = d := depthsOk_value hD
    simp only [CidrSet.removeNode, TNode.value, TNode.left, TNode.right,
      TNode.setLeft, TNode.setRight] at ht
    split at ht
    · exact Option.noConfusion ht
    · rename_i h1
      have hlt : d < c.bitmask := by omega
      have hfD : (TNode.mk (v + 1) (none : Option TNode) (none : Option TNode)).depthsOk
          (d + 1) = true := by
        simp [TNode.depthsOk]; omega
      have hfB : (TNode.mk (v + 1) (none : Option TNode) (none : Option TNode)).bounded
          = true := by
        simp [TNode.bounded]; omega
      split at ht
      · -- next bit 0: descend left
        split at ht
        · -- leaf expansion
          split at ht
          · rename_i heqr
            split at ht
            · exact Option.noConfusion ht
            · injection ht with ht
              subst ht
              exact ⟨depthsOk_mk hv (by simp)
                       (fun y hy => by injection hy with hy; subst hy; exact hfD),
                     bounded_mk (by omega) (by simp)
                       (fun y hy => by injection hy with hy; subst hy; exact hfB)⟩
          · rename_i l' heqr
            have hl' := ih (TNode.mk (v + 1) none none) c (d + 1) hfD hfB
              (by omega) hble l' heqr
            injection ht with ht
            subst ht
            exact ⟨depthsOk_mk hv
                     (fun y hy => by injection hy with hy; subst hy; exact hl'.1)
                     (fun y hy => by injection hy with hy; subst hy; exact hfD),
                   bounded_mk (by omega)
                     (fun y hy => by injection hy with hy; subst hy; exact hl'.2)
                     (fun y hy => by injection hy with hy; subst hy; exact hfB)⟩
        · -- left empty, right present: untouched
          injection ht with ht
          subst ht
          exact ⟨hD, hB⟩
        · rename_i l0
          split at ht
          · rename_i heqr
            split at ht
            · exact Option.noConfusion ht
            · injection ht with ht
              subst ht
              exact ⟨depthsOk_mk hv (by simp) (depthsOk_right hD),
                     bounded_mk (by omega) (by simp) (bounded_right hB)⟩
          · rename_i l' heqr
            have hl' := ih l0 c (d + 1) (depthsOk_left hD l0 rfl)
              (bounded_left hB l0 rfl) (by omega) hble l' heqr
            injection ht with ht
            subst ht
            exact ⟨depthsOk_mk hv
                     (fun y hy => by injection hy with hy; subst hy; exact hl'.1)
                     (depthsOk_right hD),
                   bounded_mk (by omega)
                     (fun y hy => by injection hy with hy; subst hy; exact hl'.2)
                     (bounded_right hB)⟩
      · -- next bit 1: descend right
        split at ht
        · -- leaf expansion
          split at ht
          · rename_i heqr
            split at ht
            · exact Option.noConfusion ht
            · injection ht with ht
              subst ht
              exact ⟨depthsOk_mk hv
                       (fun y hy => by injection hy with hy; subst hy; exact hfD)
                       (by simp),
                     bounded_mk (by omega)
                       (fun y hy => by injection hy with hy; subst hy; exact hfB)
                       (by simp)⟩
          · rename_i r' heqr
            have hr' := ih (TNode.mk (v + 1) none none) c (d + 1) hfD hfB
              (by omega) hble r' heqr
            injection ht with ht
            subst ht
            exact ⟨depthsOk_mk hv
                     (fun y hy => by injection hy with hy; subst hy; exact hfD)
                     (fun y hy => by injection hy with hy; subst hy; exact hr'.1),
                   bounded_mk (by omega)
                     (fun y hy => by injection hy with hy; subst hy; exact hfB)
                     (fun y hy => by injection hy with hy; subst hy; exact hr'.2)⟩
        · -- right empty, left present: untouched
          injection ht with ht
          subst ht
          exact ⟨hD, hB⟩
        · rename_i r0
          split at ht
          · rename_i heqr
            split at ht
            · exact Option.noConfusion ht
            · injection ht with ht
              subst ht
              exact ⟨depthsOk_mk hv (depthsOk_left hD) (by simp),
                     bounded_mk (by omega) (bounded_left hB) (by simp)⟩
          · rename_i r' heqr
            have hr' := ih r0 c (d + 1) (depthsOk_right hD r0 rfl)
              (bounded_right hB r0 rfl) (by omega) hble r' heqr
            injection ht with ht
            subst ht
            exact ⟨depthsOk_mk hv (depthsOk_left hD)
                     (fun y hy => by injection hy with hy; subst hy; exact hr'.1),
                   bounded_mk (by omega) (bounded_left hB)
                     (fun y hy => by injection hy with hy; subst hy; exact hr'.2)⟩

/-- If every continuing step of a traversal machine preserves `TravWf` and
every returned tree of a returning step is well-formed, then any tree the
bounded runner returns is well-formed. -/
theorem runMach_wf {step : TravState → StepRes}
    (hc : ∀ st st', TravWf st → step st = .cont st' → TravWf st')
    (hd : ∀ st r, TravWf st → step st = .done r →
      ∀ t, r = some t → t.depthsOk 0 = true ∧ t.bounded = true) :
    ∀ (fuel : Nat) (st : TravState) (r : Option TNode), TravWf st →
      runMach step fuel st = some r →
      ∀ t, r = some t → t.depthsOk 0 = true ∧ t.bounded = true := by
  intro fuel
  induction fuel with
  | zero =>
    intro st r _ hr
    exact absurd hr (by simp [runMach])
  | succ fuel ih =>
    intro st r hst hr t ht
    simp only [runMach] at hr
    cases hstep : step st with
    | cont st' =>
      simp only [hstep] at hr
      exact ih st' r (hc st st' hst hstep) hr t ht
    | done r2 =>
      simp only [hstep] at hr
      injection hr with hr
      subst hr
      exact hd st r2 hst hstep t ht
    | stuck =>
      simp only [hstep] at hr
      exact Option.noConfusion hr

/-- The initial traversal state over a well-formed tree satisfies the
traversal invariant. -/
theorem travInit_wf {aRoot : TNode} (hD : aRoot.depthsOk 0 = true)
    (hB : aRoot.bounded = true) : TravWf (travInit aRoot) := by
  refine ⟨hD, hB, ?_, List.Forall₂.nil⟩
  intro p q hp hq
  injection hp with hp
  injection hq with hq
  subst hp
  subst hq
  rfl

/-- Every state reachable through the public API carries a tree whose node
values are their depths, bounded by 32. -/
theorem reachable_shape {s : CidrSet} (h : Reachable s) :
    ∀ t, s.root = some t → t.depthsOk 0 = true ∧ t.bounded = true := by
  induction h with
  | empty =>
    intro t ht
    exact Option.noConfusion ht
  | @add s c _ hc ih =>
    intro t ht
    simp only [CidrSet.add] at ht
    split at ht
    · injection ht with ht
      subst ht
      exact addNode_wf 33 (TNode.mk 0 none none) true c 0
        (by simp [TNode.depthsOk]) (by simp [TNode.bounded])
        (Nat.zero_le _) hc.2.1
    · rename_i root heq
      injection ht with ht
      subst ht
      exact addNode_wf 33 root false c 0 (ih root heq).1 (ih root heq).2
        (Nat.zero_le _) hc.2.1
  | @remove s c _ hc ih =>
    intro t ht
    simp only [CidrSet.remove] at ht
    split at ht
    · rename_i heq
      rw [heq] at ht
      exact Option.noConfusion ht
    · rename_i root heq
      exact removeNode_wf 33 root c 0 (ih root heq).1 (ih root heq).2
        (Nat.zero_le _) hc.2.1 t ht
  | @union a b u _ _ hu iha ihb =>
    intro t ht
    simp only [CidrSet.opAddSets] at hu
    split at hu
    · injection hu with hu
      subst hu
      exact ihb t ht
    · split at hu
      · injection hu with hu
        subst hu
        exact iha t ht
      · split at hu
        · rename_i ra rb heqa heqb
          split at hu
          · exact Option.noConfusion hu
          · rename_i r heqr
            injection hu with hu
            subst hu
            have hra := iha ra heqa
            have hrb := ihb rb heqb
            exact runMach_wf
              (fun st st' hst hcont => addStep_wf hrb.1 hrb.2 hst hcont)
              (fun st r2 hst hdone => addStep_done_wf hst hdone)
              (100 * (rb.nodeCount + 1)) (travInit ra) r
              (travInit_wf hra.1 hra.2) heqr t ht
        · exact Option.noConfusion hu
  | @diff a b u _ _ hu iha ihb =>
    intro t ht
    simp only [CidrSet.opSubSets] at hu
    split at hu
    · injection hu with hu
      subst hu
      exact iha t ht
    · split at hu
      · rename_i ra rb heqa heqb
        split at hu
        · exact Option.noConfusion hu
        · rename_i r heqr
          injection hu with hu
          subst hu
          have hra := iha ra heqa
          have hrb := ihb rb heqb
          exact runMach_wf
            (fun st st' hst hcont => subStep_wf hrb.1 hrb.2 hst hcont)
            (fun st r2 hst hdone => subStep_done_wf hst hdone)
            (100 * (rb.nodeCount + 1)) (travInit ra) r
            (travInit_wf hra.1 hra.2) heqr t ht
      · exact Option.noConfusion hu

/-- Normalizing to `m` bits does not change the value shifted down to any
coarser position `n ≤ m`: the kept bits are exactly the top `m`. -/
theorem normalize_shiftRight (ip m n : Nat) (hn : n ≤ m) (hm : m ≤ 32) :
    Cidr.normalizeIp ip m >>> (32 - n) = ip >>> (32 - n) := by
  simp only [Cidr.normalizeIp, Nat.shiftLeft_eq, Nat.shiftRight_eq_div_pow]
  have h1 : 32 - n = (32 - m) + (m - n) := by omega
  rw [h1, pow_add, ← Nat.div_div_eq_div_mul, ← Nat.div_div_eq_div_mul,
    Nat.mul_div_cancel _ (pow_pos (by norm_num) _)]

/-- An address aligned to its depth is unchanged by normalization. -/
theorem normalizeIp_of_aligned {ip d : Nat} (hal : ip % 2 ^ (32 - d) = 0) :
    Cidr.normalizeIp ip d = ip := by
  simp only [Cidr.normalizeIp, Nat.shiftLeft_eq, Nat.shiftRight_eq_div_pow]
  exact Nat.div_mul_cancel (Nat.dvd_of_mod_eq_zero hal)

/-- Two prefixes that agree on their first `m` bits (the finer one normalizes
to the coarser) have equal bit values at every position up to `m`. -/
theorem bit_agree {p q : Cidr} (hbits : Cidr.normalizeIp q.ip p.bitmask = p.ip)
    (hm : p.bitmask ≤ 32) {n : Nat} (hn : n ≤ p.bitmask) :
    q.bit n = p.bit n := by
  unfold Cidr.bit
  rw [← hbits, normalize_shiftRight q.ip p.bitmask n hn hm]

/-- `_contains` at a non-leaf node: the bitmask test, then descent by the
next bit. -/
theorem containsNode_node {v : Nat} {l r : Option TNode} {q : Cidr}
    (hnl : l ≠ none ∨ r ≠ none) :
    CidrSet.containsNode (TNode.mk v l r) q =
      (if q.bitmask = v then false
       else if q.bit (v + 1) = 0 then
         match l with
         | none => false
         | some child => CidrSet.containsNode child q
       else
         match r with
         | none => false
         | some child => CidrSet.containsNode child q) := by
  cases l with
  | none =>
    cases r with
    | none => simp at hnl
    | some y => rfl
  | some x =>
    cases r with
    | none => rfl
    | some y => rfl

/-- After `_add` of `c` with enough fuel, `_contains` is true for every
prefix `q` at least as fine as `c` that agrees with `c` on `c`'s bits. -/
theorem addNode_contains (fuel : Nat) :
    ∀ (node : TNode) (nw : Bool) (c q : Cidr) (d : Nat),
      node.depthsOk d = true →
      d ≤ c.bitmask → c.bitmask < d + fuel →
      c.bitmask ≤ q.bitmask →
      (∀ n, n ≤ c.bitmask → q.bit n = c.bit n) →
      CidrSet.containsNode (CidrSet.addNode fuel node nw c) q = true := by
  induction fuel with
  | zero =>
    intro node nw c q d _ h1 h2 _ _
    omega
  | succ fuel ih =>
    intro node nw c q d hD hdle hfuel hcq hagree
    obtain ⟨v, l, r⟩ := node
    have hv : v = d := depthsOk_value hD
    simp only [CidrSet.addNode, TNode.value, TNode.left, TNode.right,
      TNode.setLeft, TNode.setRight]
    by_cases h1 : c.bitmask = v
    · rw [if_pos h1]
      rfl
    · rw [if_neg h1]
      have hlt : d < c.bitmask := by omega
      by_cases h2 : (!nw && (TNode.mk v l r).isLeaf) = true
      · rw [if_pos h2]
        have hleaf : (TNode.mk v l r).isLeaf = true := by
          rw [Bool.and_eq_true] at h2
          exact h2.2
        cases l with
        | some lc => simp [TNode.isLeaf] at hleaf
        | none =>
          cases r with
          | some rc => simp [TNode.isLeaf] at hleaf
          | none => rfl
      · rw [if_neg h2]
        have hbitq : q.bit (v + 1) = c.bit (v + 1) := hagree (v + 1) (by omega)
        have hqv : ¬(q.bitmask = v) := by omega
        by_cases h3 : c.bit (v + 1) = 0
        · rw [if_pos h3]
          cases l with
          | none =>
            have hX := ih (TNode.mk (v + 1) none none) true c q (d + 1)
              (by simp [TNode.depthsOk]; omega) (by omega) (by omega) hcq hagree
            cases r with
            | none =>
              rw [containsNode_node (by simp), if_neg hqv, hbitq, if_pos h3]
              exact hX
            | some rc =>
              dsimp only [TNode.left, TNode.right, TNode.value]
              split
              · rfl
              · rw [containsNode_node (by simp), if_neg hqv, hbitq, if_pos h3]
                exact hX
          | some lc =>
            have hX := ih lc false c q (d + 1) (depthsOk_left hD lc rfl)
              (by omega) (by omega) hcq hagree
            cases r with
            | none =>
              rw [containsNode_node (by simp), if_neg hqv, hbitq, if_pos h3]
              exact hX
            | some rc =>
              dsimp only [TNode.left, TNode.right, TNode.value]
              split
              · rfl
              · rw [containsNode_node (by simp), if_neg hqv, hbitq, if_pos h3]
                exact hX
        · rw [if_neg h3]
          cases r with
          | none =>
            have hX := ih (TNode.mk (v + 1) none none) true c q (d + 1)
              (by simp [TNode.depthsOk]; omega) (by omega) (by omega) hcq hagree
            cases l with
            | none =>
              rw [containsNode_node (by simp), if_neg hqv, hbitq, if_neg h3]
              exact hX
            | some lc =>
              dsimp only [TNode.left, TNode.right, TNode.value]
              split
              · rfl
              · rw [containsNode_node (by simp), if_neg hqv, hbitq, if_neg h3]
                exact hX
          | some rc =>
            have hX := ih rc false c q (d + 1) (depthsOk_right hD rc rfl)
              (by omega) (by omega) hcq hagree
            cases l with
            | none =>
              rw [containsNode_node (by simp), if_neg hqv, hbitq, if_neg h3]
              exact hX
            | some lc =>
              dsimp only [TNode.left, TNode.right, TNode.value]
              split
              · rfl
              · rw [containsNode_node (by simp), if_neg hqv, hbitq, if_neg h3]
                exact hX

/-- **C6.** For every reachable set `s` and valid `Cidr` `p`, immediately
after `s.add p` the set contains every valid `q` whose leading `p.bitmask`
bits equal `p`'s (expressed as: `q.ip` normalized to `p.bitmask` bits is
`p.ip`) and whose bitmask is at least `p.bitmask`.  `q = p` satisfies both
side conditions (validity makes `p.ip` normalized), so `contains p` itself
is covered. -/
theorem add_then_contains {s : CidrSet} {p q : Cidr} (hs : Reachable s)
    (hp : p.Valid) (hq : q.Valid) (hmask : p.bitmask ≤ q.bitmask)
    (hbits : Cidr.normalizeIp q.ip p.bitmask = p.ip) :
    (s.add p).contains q = true := by
  have hagree : ∀ n, n ≤ p.bitmask → q.bit n = p.bit n :=
    fun n hn => bit_agree hbits hp.2.1 hn
  cases hroot : s.root with
  | none =>
    simp only [CidrSet.add, hroot, CidrSet.contains]
    exact addNode_contains 33 (TNode.mk 0 none none) true p q 0
      (by simp [TNode.depthsOk]) (Nat.zero_le _)
      (by have := hp.2.1; omega) hmask hagree
  | some root =>
    have hwf := reachable_shape hs root hroot
    simp only [CidrSet.add, hroot, CidrSet.contains]
    exact addNode_contains 33 root false p q 0 hwf.1 (Nat.zero_le _)
      (by have := hp.2.1; omega) hmask hagree

/-- Witness for C6: adding `0.0.0.0/1` to the empty set makes it contain
`64.0.0.0/2`, whose first bit agrees with the added block's. -/
theorem add_then_contains_witness :
    Reachable (⟨none⟩ : CidrSet) ∧ (⟨0, 1⟩ : Cidr).Valid ∧
    (⟨0x40000000, 2⟩ : Cidr).Valid ∧ (1 : Nat) ≤ 2 ∧
    Cidr.normalizeIp 0x40000000 1 = 0 ∧
    ((⟨none⟩ : CidrSet).add ⟨0, 1⟩).contains ⟨0x40000000, 2⟩ = true :=
  ⟨Reachable.empty, by decide, by decide, by decide, by decide,
   add_then_contains Reachable.empty (by decide) (by decide) (by decide)
     (by decide)⟩

/-- Every tree has at least one node. -/
theorem nodeCount_pos (t : TNode) : 1 ≤ t.nodeCount := by
  obtain ⟨v, l, r⟩ := t
  cases l <;> cases r <;> simp only [TNode.nodeCount] <;> omega

/-- The iteration of a well-formed subtree at an aligned accumulator: one
element per leaf, all addresses within the subtree's block, strictly
ascending. -/
theorem iterNode_props (n : Nat) :
    ∀ (t : TNode), t.nodeCount ≤ n → ∀ (d ip : Nat),
      t.depthsOk d = true → t.bounded = true → ip % 2 ^ (32 - d) = 0 →
      (CidrSet.iterNode t ip).length = t.leafCount ∧
      (∀ c ∈ CidrSet.iterNode t ip, ip ≤ c.ip ∧ c.ip < ip + 2 ^ (32 - d)) ∧
      (CidrSet.iterNode t ip).Pairwise (fun c1 c2 => c1.ip < c2.ip) := by
  induction n with
  | zero =>
    intro t hle
    exact absurd (le_trans (nodeCount_pos t) hle) (by omega)
  | succ n ih =>
    intro t hle d ip hD hB hal
    obtain ⟨v, l, r⟩ := t
    have hv : v = d := depthsOk_value hD
    have hpow : 0 < 2 ^ (32 - d) := pow_pos (by norm_num) _
    cases l with
    | none =>
      cases r with
      | none =>
        simp only [CidrSet.iterNode, TNode.leafCount]
        have hnorm : Cidr.normalizeIp ip v = ip := by
          rw [hv]
          exact normalizeIp_of_aligned hal
        refine ⟨rfl, ?_, List.pairwise_singleton _ _⟩
        intro c hc
        rw [List.mem_singleton] at hc
        subst hc
        simp only [hnorm]
        omega
      | some rc =>
        have hrD := depthsOk_right hD rc rfl
        have hrB := bounded_right hB rc rfl
        have hrv : rc.value = d + 1 := value_of_depthsOk hrD
        have hd31 : d ≤ 31 := by
          have := value_of_bounded hrB
          omega
        have hsplit : 2 ^ (32 - d) = 2 ^ (32 - (d + 1)) + 2 ^ (32 - (d + 1)) := by
          have h32 : 32 - d = (32 - (d + 1)) + 1 := by omega
          rw [h32, pow_succ]
          omega
        have hal1 : ip % 2 ^ (32 - (d + 1)) = 0 := by
          obtain ⟨k, hk⟩ := (pow_dvd_pow 2 (show 32 - (d + 1) ≤ 32 - d by omega)).trans
            (Nat.dvd_of_mod_eq_zero hal)
          rw [hk]
          exact Nat.mul_mod_right _ _
        have hal2 : (ip + 2 ^ (32 - (d + 1))) % 2 ^ (32 - (d + 1)) = 0 := by
          rw [Nat.add_mod, hal1, Nat.mod_self]
          rfl
        have hcount : rc.nodeCount ≤ n := by
          simp only [TNode.nodeCount] at hle
          omega
        have hrec := ih rc hcount (d + 1) (ip + 2 ^ (32 - (d + 1))) hrD hrB hal2
        simp only [CidrSet.iterNode, TNode.leafCount, hrv]
        refine ⟨hrec.1, ?_, hrec.2.2⟩
        intro c hc
        have h := hrec.2.1 c hc
        omega
    | some lc =>
      have hlD := depthsOk_left hD lc rfl
      have hlB := bounded_left hB lc rfl
      have hd31 : d ≤ 31 := by
        have h1 := value_of_depthsOk hlD
        have := value_of_bounded hlB
        omega
      have hsplit : 2 ^ (32 - d) = 2 ^ (32 - (d + 1)) + 2 ^ (32 - (d + 1)) := by
        have h32 : 32 - d = (32 - (d + 1)) + 1 := by omega
        rw [h32, pow_succ]
        omega
      have hal1 : ip % 2 ^ (32 - (d + 1)) = 0 := by
        obtain ⟨k, hk⟩ := (pow_dvd_pow 2 (show 32 - (d + 1) ≤ 32 - d by omega)).trans
          (Nat.dvd_of_mod_eq_zero hal)
        rw [hk]
        exact Nat.mul_mod_right _ _
      cases r with
      | none =>
        have hcount : lc.nodeCount ≤ n := by
          simp only [TNode.nodeCount] at hle
          omega
        have hrec := ih lc hcount (d + 1) ip hlD hlB hal1
        simp only [CidrSet.iterNode, TNode.leafCount]
        refine ⟨hrec.1, ?_, hrec.2.2⟩
        intro c hc
        have h := hrec.2.1 c hc
        omega
      | some rc =>
        have hrD := depthsOk_right hD rc rfl
        have hrB := bounded_right hB rc rfl
        have hrv : rc.value = d + 1 := value_of_depthsOk hrD
        have hal2 : (ip + 2 ^ (32 - (d + 1))) % 2 ^ (32 - (d + 1)) = 0 := by
          rw [Nat.add_mod, hal1, Nat.mod_self]
          rfl
        have hcountl : lc.nodeCount ≤ n := by
          have h1 := nodeCount_pos rc
          simp only [TNode.nodeCount] at hle
          omega
        have hcountr : rc.nodeCount ≤ n := by
          have h1 := nodeCount_pos lc
          simp only [TNode.nodeCount] at hle
          omega
        have hrecl := ih lc hcountl (d + 1) ip hlD hlB hal1
        have hrecr := ih rc hcountr (d + 1) (ip + 2 ^ (32 - (d + 1))) hrD hrB hal2
        simp only [CidrSet.iterNode, TNode.leafCount, hrv]
        refine ⟨?_, ?_, ?_⟩
        · rw [List.length_append, hrecl.1, hrecr.1]
        · intro c hc
          rcases List.mem_append.mp hc with hc | hc
          · have h := hrecl.2.1 c hc
            omega
          · have h := hrecr.2.1 c hc
            omega
        · refine List.pairwise_append.mpr ⟨hrecl.2.2, hrecr.2.2, ?_⟩
          intro x hx y hy
          have h1 := hrecl.2.1 x hx
          have h2 := hrecr.2.1 y hy
          omega

/-- **C7.** Iterating a reachable set yields exactly one `Cidr` per leaf of
the trie (the list is as long as the set's `len`, which counts leaves) in
strictly ascending address order; the iterator follows left children before
right children with an accumulator gaining `2^(32 - depth)` on each right
step, and yields the accumulated address with the leaf's depth as bitmask
(`CidrSet.iterNode` is that accumulator recursion, translated from
`__iter__`). -/
theorem iter_one_per_leaf_ascending {s : CidrSet} (hs : Reachable s) :
    s.toList.length = s.size ∧
    s.toList.Pairwise (fun c1 c2 => c1.ip < c2.ip) := by
  cases hroot : s.root with
  | none =>
    constructor
    · simp [CidrSet.toList, CidrSet.size, hroot]
    · simp [CidrSet.toList, hroot]
  | some root =>
    have hwf := reachable_shape hs root hroot
    have h := iterNode_props root.nodeCount root le_rfl 0 0 hwf.1 hwf.2 (by simp)
    refine ⟨?_, ?_⟩
    · simp only [CidrSet.toList, CidrSet.size, hroot]
      exact h.1
    · simp only [CidrSet.toList, hroot]
      exact h.2.2

/-- Witness for C7: the two-leaf reachable set `{0.0.0.0/2, 128.0.0.0/1}`. -/
theorem iter_one_per_leaf_ascending_witness :
    (((⟨none⟩ : CidrSet).add ⟨0, 2⟩).add ⟨0x80000000, 1⟩).toList.length
        = (((⟨none⟩ : CidrSet).add ⟨0, 2⟩).add ⟨0x80000000, 1⟩).size ∧
    (((⟨none⟩ : CidrSet).add ⟨0, 2⟩).add ⟨0x80000000, 1⟩).toList.Pairwise
      (fun c1 c2 => c1.ip < c2.ip) :=
  iter_one_per_leaf_ascending
    (Reachable.add (Reachable.add Reachable.empty (by decide)) (by decide))

/-- Following a concatenated path is following the two parts in turn. -/
theorem follow_append (t : TNode) (p q : List Bool) :
    t.follow (p ++ q) =
      match t.follow p with
      | none => none
      | some n => n.follow q := by
  induction p generalizing t with
  | nil => rfl
  | cons d p ih =>
    cases d with
    | false =>
      simp only [List.cons_append, TNode.follow]
      cases hl : t.left with
      | none => rfl
      | some l => exact ih l
    | true =>
      simp only [List.cons_append, TNode.follow]
      cases hr : t.right with
      | none => rfl
      | some r => exact ih r

/-- Editing at a concatenated path is editing the suffix inside the node at
the prefix. -/
theorem updateAt_append (t : TNode) (p q : List Bool) (f : TNode → TNode) :
    t.updateAt (p ++ q) f = t.updateAt p (fun n => n.updateAt q f) := by
  induction p generalizing t with
  | nil => rfl
  | cons d p ih =>
    obtain ⟨v, l, r⟩ := t
    cases d with
    | false =>
      cases l with
      | none => rfl
      | some lc =>
        simp only [List.cons_append, TNode.updateAt, TNode.left, TNode.setLeft,
          List.append_eq]
        rw [ih]
    | true =>
      cases r with
      | none => rfl
      | some rc =>
        simp only [List.cons_append, TNode.updateAt, TNode.right, TNode.setRight,
          List.append_eq]
        rw [ih]

/-- Reading back the node just edited. -/
theorem follow_updateAt_self {t : TNode} {p : List Bool} {n : TNode}
    (h : t.follow p = some n) (f : TNode → TNode) :
    (t.updateAt p f).follow p = some (f n) := by
  induction p generalizing t with
  | nil =>
    injection h with h
    subst h
    rfl
  | cons d p ih =>
    obtain ⟨v, l, r⟩ := t
    cases d with
    | false =>
      simp only [TNode.follow, TNode.left] at h
      cases hl : l with
      | none => rw [hl] at h; exact Option.noConfusion h
      | some lc =>
        rw [hl] at h
        simp only [TNode.updateAt, TNode.left, hl, TNode.setLeft, TNode.follow]
        exact ih h
    | true =>
      simp only [TNode.follow, TNode.right] at h
      cases hr : r with
      | none => rw [hr] at h; exact Option.noConfusion h
      | some rc =>
        rw [hr] at h
        simp only [TNode.updateAt, TNode.right, hr, TNode.setRight, TNode.follow]
        exact ih h

/-- An edit only sees the node at its path: functions agreeing there edit
identically. -/
theorem updateAt_congr {t : TNode} {p : List Bool} {n : TNode}
    (h : t.follow p = some n) {f g : TNode → TNode} (hfg : f n = g n) :
    t.updateAt p f = t.updateAt p g := by
  induction p generalizing t with
  | nil =>
    injection h with h
    subst h
    exact hfg
  | cons d p ih =>
    obtain ⟨v, l, r⟩ := t
    cases d with
    | false =>
      simp only [TNode.follow, TNode.left] at h
      cases hl : l with
      | none => rw [hl] at h; exact Option.noConfusion h
      | some lc =>
        rw [hl] at h
        simp only [TNode.updateAt, TNode.left, hl, TNode.setLeft]
        rw [ih h]
    | true =>
      simp only [TNode.follow, TNode.right] at h
      cases hr : r with
      | none => rw [hr] at h; exact Option.noConfusion h
      | some rc =>
        rw [hr] at h
        simp only [TNode.updateAt, TNode.right, hr, TNode.setRight]
        rw [ih h]

/-- Two successive edits at the same path compose. -/
theorem updateAt_updateAt (t : TNode) (p : List Bool) (f g : TNode → TNode) :
    (t.updateAt p f).updateAt p g = t.updateAt p (fun n => g (f n)) := by
  induction p generalizing t with
  | nil => rfl
  | cons d p ih =>
    obtain ⟨v, l, r⟩ := t
    cases d with
    | false =>
      cases hl : l with
      | none =>
        simp only [TNode.updateAt, TNode.left, hl]
      | some lc =>
        simp only [TNode.updateAt, TNode.left, hl, TNode.setLeft]
        rw [ih lc]
    | true =>
      cases hr : r with
      | none =>
        simp only [TNode.updateAt, TNode.right, hr]
      | some rc =>
        simp only [TNode.updateAt, TNode.right, hr, TNode.setRight]
        rw [ih rc]

/-- Stepping `k1 + k2` times is stepping `k1`, then `k2`. -/
theorem iterSteps_append (step : TravState → StepRes) (k1 k2 : Nat) :
    ∀ st, iterSteps step (k1 + k2) st =
      match iterSteps step k1 st with
      | none => none
      | some st' => iterSteps step k2 st' := by
  induction k1 with
  | zero =>
    intro st
    simp [iterSteps]
  | succ k1 ih =>
    intro st
    have hsucc : k1 + 1 + k2 = (k1 + k2) + 1 := by omega
    rw [hsucc]
    simp only [iterSteps]
    cases step st with
    | cont st' => exact ih st'
    | done r => rfl
    | stuck => rfl

/-- A finished prefix of continuing steps can be peeled off a bounded run. -/
theorem runMach_of_iterSteps {step : TravState → StepRes} :
    ∀ (k : Nat) (st st' : TravState), iterSteps step k st = some st' →
      ∀ fuel, k ≤ fuel →
        runMach step fuel st = runMach step (fuel - k) st' := by
  intro k
  induction k with
  | zero =>
    intro st st' h fuel _
    injection h with h
    subst h
    rfl
  | succ k ih =>
    intro st st' h fuel hle
    simp only [iterSteps] at h
    cases hfuel : fuel with
    | zero => omega
    | succ fuel' =>
      subst hfuel
      simp only [runMach]
      cases hstep : step st with
      | cont st2 =>
        rw [hstep] at h
        simp only [hstep]
        have hres := ih st2 st' h fuel' (by omega)
        rw [hres]
        have hk : fuel' + 1 - (k + 1) = fuel' - k := by omega
        rw [hk]
      | done r => rw [hstep] at h; exact Option.noConfusion h
      | stuck => rw [hstep] at h; exact Option.noConfusion h

/-- The identity edit. -/
theorem updateAt_id (t : TNode) (p : List Bool) : t.updateAt p (fun n => n) = t := by
  induction p generalizing t with
  | nil => rfl
  | cons d p ih =>
    obtain ⟨v, l, r⟩ := t
    cases d with
    | false =>
      cases l with
      | none => rfl
      | some lc =>
        simp only [TNode.updateAt, TNode.left, TNode.setLeft]
        rw [ih]
    | true =>
      cases r with
      | none => rfl
      | some rc =>
        simp only [TNode.updateAt, TNode.right, TNode.setRight]
        rw [ih]

/-- A node with a right child is not a leaf. -/
theorem isLeaf_right_some (v : Nat) (l : Option TNode) (x : TNode) :
    (TNode.mk v l (some x)).isLeaf = false := by
  cases l <;> rfl

/-- A path is never under its own strict extension by the other branch. -/
theorem not_underPath_sibling (p : List Bool) (d1 d2 : Bool) (h : d1 ≠ d2)
    (s : List Bool) : ¬ underPath (p ++ [d1]) (p ++ d2 :: s) := by
  rintro ⟨t, ht⟩
  rw [List.append_assoc] at ht
  have := List.append_cancel_left ht
  simp at this
  exact h this.1.symm

/-- A prefix is not under a strictly longer path. -/
theorem not_underPath_shorter {p r : List Bool} (h : r.length < p.length) :
    ¬ underPath p r := by
  rintro ⟨s, hs⟩
  rw [hs, List.length_append] at h
  omega

/-- Merging a leaf operand into a placeholder: full coverage. -/
theorem mergeNode_bleaf_created (a : TNode) (bv : Nat) :
    mergeNode a true (TNode.mk bv none none) = TNode.mk a.value none none := rfl

/-- Merging a leaf operand into a real non-leaf: full coverage. -/
theorem mergeNode_bleaf_real (a : TNode) (bv : Nat) (h : a.isLeaf = false) :
    mergeNode a false (TNode.mk bv none none) = TNode.mk a.value none none := by
  obtain ⟨av, al, ar⟩ := a
  cases al with
  | some x => cases ar <;> rfl
  | none =>
    cases ar with
    | some y => rfl
    | none => simp [TNode.isLeaf] at h

/-- Merging anything into a real covering leaf: unchanged. -/
theorem mergeNode_aleaf (a : TNode) (bv : Nat) (bl br : Option TNode)
    (h : a.isLeaf = true) :
    mergeNode a false (TNode.mk bv bl br) = a := by
  obtain ⟨av, al, ar⟩ := a
  cases al with
  | some x => simp [TNode.isLeaf] at h
  | none =>
    cases ar with
    | some y => simp [TNode.isLeaf] at h
    | none => cases bl <;> cases br <;> rfl

/-- Following one more left step. -/
theorem follow_snoc_false {t : TNode} {p : List Bool} {n lc : TNode}
    (h : t.follow p = some n) (hl : n.left = some lc) :
    t.follow (p ++ [false]) = some lc := by
  rw [follow_append, h]
  simp [TNode.follow, hl]

/-- Following one more right step. -/
theorem follow_snoc_true {t : TNode} {p : List Bool} {n rc : TNode}
    (h : t.follow p = some n) (hr : n.right = some rc) :
    t.follow (p ++ [true]) = some rc := by
  rw [follow_append, h]
  simp [TNode.follow, hr]

/-- A path under an extension is under the base. -/
theorem underPath_of_extend {p q r : List Bool} (h : underPath (p ++ q) r) :
    underPath p r := by
  obtain ⟨s, hs⟩ := h
  exact ⟨q ++ s, by rw [hs, List.append_assoc]⟩

/-- Peeling a computed prefix off an `iterSteps` run. -/
theorem iterSteps_append_some {step : TravState → StepRes} {k1 : Nat}
    {st st' : TravState} (h : iterSteps step k1 st = some st') (k2 : Nat) :
    iterSteps step (k1 + k2) st = iterSteps step k2 st' := by
  rw [iterSteps_append, h]

/-- The `__add__` loop, entered at `T2` with both cursors at a shared path
`p`, runs one complete postorder segment over the `b` subtree there and
returns to `T4` with the same stacks, having replaced the `a` subtree at `p`
by its `mergeNode` with the `b` subtree; the created-node marker either
survives or points strictly below `p`. -/
theorem addSegment (n : Nat) :
    ∀ (bTree bsub : TNode) (p : List Bool)
      (bStack : List (List Bool)) (bQ : Option (List Bool))
      (aStack : List (Option (List Bool))) (aCr : Option (List Bool))
      (A asub : TNode),
      bsub.nodeCount ≤ n →
      bTree.follow p = some bsub →
      A.follow p = some asub →
      (∀ r, bQ = some r → ¬ underPath p r) →
      (aCr = some p ∨ ∀ r, aCr = some r → ¬ underPath p r) →
      ∃ k cr', k ≤ 9 * bsub.nodeCount ∧
        iterSteps (addStep bTree) k
          { label := .t2, bStack := bStack, bP := some p, bQ := bQ,
            aStack := aStack, aP := some p, aCreated := aCr, aRoot := A } =
          some { label := .t4, bStack := bStack, bP := some p, bQ := some p,
                 aStack := aStack, aP := some p, aCreated := cr',
                 aRoot := A.updateAt p
                   (fun _ => mergeNode asub (decide (aCr = some p)) bsub) } ∧
        (cr' = aCr ∨ ∃ s, s ≠ [] ∧ cr' = some (p ++ s)) := by
  induction n with
  | zero =>
    intro bTree bsub p bStack bQ aStack aCr A asub hn
    exact absurd (le_trans (nodeCount_pos bsub) hn) (by omega)
  | succ n ih =>
    intro bTree bsub p bStack bQ aStack aCr A asub hn hfb hfa hbQ hacr
    obtain ⟨bv, bl, br⟩ := bsub
    cases bl with
    | none =>
      cases br with
      | none =>
        -- CASE L: b leaf
        by_cases haL : aCr = some p ∨ asub.isLeaf = false
        · -- aLeaf = false: collapse at t3
          have hchk : aIsLeafCheck A (some p) aCr = some false := by
            rcases haL with h | h
            · simp [aIsLeafCheck, h]
            · simp only [aIsLeafCheck]
              by_cases hc : some p = aCr
              · rw [if_pos hc]
              · rw [if_neg hc]
                simp [hfa, h]
          have hmerge : mergeNode asub (decide (aCr = some p)) (TNode.mk bv none none) =
              TNode.mk asub.value none none := by
            rcases haL with h | h
            · rw [decide_eq_true h]
              exact mergeNode_bleaf_created asub bv
            · by_cases hc : aCr = some p
              · rw [decide_eq_true hc]
                exact mergeNode_bleaf_created asub bv
              · rw [decide_eq_false hc]
                exact mergeNode_bleaf_real asub bv h
          set A' := A.updateAt p (fun n => TNode.mk n.value none none) with hA'
          have hfa' : A'.follow p = some (TNode.mk asub.value none none) :=
            follow_updateAt_self hfa _
          have hchk2 : aIsLeafCheck A' (some p) aCr = some false ∨
              aIsLeafCheck A' (some p) aCr = some true := by
            simp only [aIsLeafCheck]
            by_cases hc : some p = aCr
            · left; rw [if_pos hc]
            · right; rw [if_neg hc]
              simp [hfa', TNode.isLeaf]
          have hrun : iterSteps (addStep bTree) 6
              { label := .t2, bStack := bStack, bP := some p, bQ := bQ,
                aStack := aStack, aP := some p, aCreated := aCr, aRoot := A } =
              some { label := .t4, bStack := bStack, bP := some p, bQ := some p,
                     aStack := aStack, aP := some p, aCreated := aCr, aRoot := A' } := by
            have hs1 : addStep bTree
                { label := .t2, bStack := bStack, bP := some p, bQ := bQ,
                  aStack := aStack, aP := some p, aCreated := aCr, aRoot := A } =
                .cont { label := .t3, bStack := bStack, bP := some p, bQ := bQ,
                        aStack := aStack, aP := some p, aCreated := aCr, aRoot := A } := by
              simp [addStep]
            have hs2 : addStep bTree
                { label := .t3, bStack := bStack, bP := some p, bQ := bQ,
                  aStack := aStack, aP := some p, aCreated := aCr, aRoot := A } =
                .cont { label := .t2, bStack := p :: bStack, bP := none, bQ := bQ,
                        aStack := some p :: aStack, aP := none, aCreated := aCr,
                        aRoot := A' } := by
              simp only [addStep, hfb, hchk]
              simp [TNode.isLeaf]
            have hs3 : addStep bTree
                { label := .t2, bStack := p :: bStack, bP := none, bQ := bQ,
                  aStack := some p :: aStack, aP := none, aCreated := aCr, aRoot := A' } =
                .cont { label := .t4, bStack := p :: bStack, bP := none, bQ := bQ,
                        aStack := some p :: aStack, aP := none, aCreated := aCr,
                        aRoot := A' } := by
              simp [addStep]
            have hs4 : addStep bTree
                { label := .t4, bStack := p :: bStack, bP := none, bQ := bQ,
                  aStack := some p :: aStack, aP := none, aCreated := aCr, aRoot := A' } =
                .cont { label := .t5, bStack := bStack, bP := some p, bQ := bQ,
                        aStack := aStack, aP := some p, aCreated := aCr,
                        aRoot := A' } := by
              simp [addStep]
            have hs5 : addStep bTree
                { label := .t5, bStack := bStack, bP := some p, bQ := bQ,
                  aStack := aStack, aP := some p, aCreated := aCr, aRoot := A' } =
                .cont { label := .t6, bStack := bStack, bP := some p, bQ := bQ,
                        aStack := aStack, aP := some p, aCreated := aCr,
                        aRoot := A' } := by
              rcases hchk2 with hchk2 | hchk2 <;>
                · simp only [addStep, hchk2, hfb]
                  rfl
            have hs6 : addStep bTree
                { label := .t6, bStack := bStack, bP := some p, bQ := bQ,
                  aStack := aStack, aP := some p, aCreated := aCr, aRoot := A' } =
                .cont { label := .t4, bStack := bStack, bP := some p, bQ := some p,
                        aStack := aStack, aP := some p, aCreated := aCr,
                        aRoot := A' } := by
              simp only [addStep, hfa']
              rfl
            simp only [iterSteps, hs1, hs2, hs3, hs4, hs5, hs6]
          have hroot : A.updateAt p (fun n => TNode.mk n.value none none) =
              A.updateAt p
                (fun _ => mergeNode asub (decide (aCr = some p)) (TNode.mk bv none none)) := by
            apply updateAt_congr hfa
            show TNode.mk asub.value none none =
              mergeNode asub (decide (aCr = some p)) (TNode.mk bv none none)
            rw [hmerge]
          refine ⟨6, aCr, by simp only [TNode.nodeCount]; omega, ?_, Or.inl rfl⟩
          rw [hrun, hA', hroot]
        · -- aLeaf = true: a covers, nothing changes
          push_neg at haL
          obtain ⟨hnacr, haleaf0⟩ := haL
          have haleaf : asub.isLeaf = true := by
            cases h : asub.isLeaf with
            | true => rfl
            | false => exact absurd h haleaf0
          have hchk : aIsLeafCheck A (some p) aCr = some true := by
            simp only [aIsLeafCheck]
            rw [if_neg (fun hc => hnacr hc.symm)]
            simp [hfa, haleaf]
          have hmerge : mergeNode asub (decide (aCr = some p)) (TNode.mk bv none none) =
              asub := by
            rw [decide_eq_false hnacr]
            exact mergeNode_aleaf asub bv none none haleaf
          have hrun : iterSteps (addStep bTree) 6
              { label := .t2, bStack := bStack, bP := some p, bQ := bQ,
                aStack := aStack, aP := some p, aCreated := aCr, aRoot := A } =
              some { label := .t4, bStack := bStack, bP := some p, bQ := some p,
                     aStack := aStack, aP := some p, aCreated := aCr, aRoot := A } := by
            have hs1 : addStep bTree
                { label := .t2, bStack := bStack, bP := some p, bQ := bQ,
                  aStack := aStack, aP := some p, aCreated := aCr, aRoot := A } =
                .cont { label := .t3, bStack := bStack, bP := some p, bQ := bQ,
                        aStack := aStack, aP := some p, aCreated := aCr, aRoot := A } := by
              simp [addStep]
            have hs2 : addStep bTree
                { label := .t3, bStack := bStack, bP := some p, bQ := bQ,
                  aStack := aStack, aP := some p, aCreated := aCr, aRoot := A } =
                .cont { label := .t2, bStack := p :: bStack, bP := none, bQ := bQ,
                        aStack := some p :: aStack, aP := none, aCreated := aCr,
                        aRoot := A } := by
              simp only [addStep, hfb, hchk]
              simp [TNode.isLeaf, TNode.left]
            have hs3 : addStep bTree
                { label := .t2, bStack := p :: bStack, bP := none, bQ := bQ,
                  aStack := some p :: aStack, aP := none, aCreated := aCr, aRoot := A } =
                .cont { label := .t4, bStack := p :: bStack, bP := none, bQ := bQ,
                        aStack := some p :: aStack, aP := none, aCreated := aCr,
                        aRoot := A } := by
              simp [addStep]
            have hs4 : addStep bTree
                { label := .t4, bStack := p :: bStack, bP := none, bQ := bQ,
                  aStack := some p :: aStack, aP := none, aCreated := aCr, aRoot := A } =
                .cont { label := .t5, bStack := bStack, bP := some p, bQ := bQ,
                        aStack := aStack, aP := some p, aCreated := aCr,
                        aRoot := A } := by
              simp [addStep]
            have hs5 : addStep bTree
                { label := .t5, bStack := bStack, bP := some p, bQ := bQ,
                  aStack := aStack, aP := some p, aCreated := aCr, aRoot := A } =
                .cont { label := .t6, bStack := bStack, bP := some p, bQ := bQ,
                        aStack := aStack, aP := some p, aCreated := aCr,
                        aRoot := A } := by
              simp only [addStep, hchk, hfb]
              rfl
            have hs6 : addStep bTree
                { label := .t6, bStack := bStack, bP := some p, bQ := bQ,
                  aStack := aStack, aP := some p, aCreated := aCr, aRoot := A } =
                .cont { label := .t4, bStack := bStack, bP := some p, bQ := some p,
                        aStack := aStack, aP := some p, aCreated := aCr,
                        aRoot := A } := by
              obtain ⟨av, al, ar⟩ := asub
              cases al with
              | some x => simp [TNode.isLeaf] at haleaf
              | none =>
                cases ar with
                | some y => simp [TNode.isLeaf] at haleaf
                | none =>
                  simp only [addStep, hfa]
                  rfl
            simp only [iterSteps, hs1, hs2, hs3, hs4, hs5, hs6]
          have hroot : A = A.updateAt p
              (fun _ => mergeNode asub (decide (aCr = some p)) (TNode.mk bv none none)) := by
            conv_lhs => rw [← updateAt_id A p]
            apply updateAt_congr hfa
            show asub = mergeNode asub (decide (aCr = some p)) (TNode.mk bv none none)
            rw [hmerge]
          refine ⟨6, aCr, by simp only [TNode.nodeCount]; omega, ?_, Or.inl rfl⟩
          rw [hrun, ← hroot]
      | some brc =>
        -- CASE R: b internal with only a right child
        have hfbr : bTree.follow (p ++ [true]) = some brc :=
          follow_snoc_true hfb rfl
        have hbQ' : ∀ r, bQ = some r → ¬ underPath (p ++ [true]) r :=
          fun r hr hu => hbQ r hr (underPath_of_extend hu)
        have hbq : (some (p ++ [true]) == bQ) = false := by
          rw [beq_eq_false_iff_ne]
          intro hq
          exact hbQ (p ++ [true]) hq.symm ⟨[true], rfl⟩
        have hcount : brc.nodeCount ≤ n := by
          simp only [TNode.nodeCount] at hn
          omega
        by_cases haL : aCr = some p ∨ asub.isLeaf = false
        · have hchk : aIsLeafCheck A (some p) aCr = some false := by
            rcases haL with h | h
            · simp [aIsLeafCheck, h]
            · simp only [aIsLeafCheck]
              by_cases hc : some p = aCr
              · rw [if_pos hc]
              · rw [if_neg hc]
                simp [hfa, h]
          obtain ⟨av, al, ar⟩ := asub
          have hs1 : addStep bTree
              { label := .t2, bStack := bStack, bP := some p, bQ := bQ,
                aStack := aStack, aP := some p, aCreated := aCr, aRoot := A } =
              .cont { label := .t3, bStack := bStack, bP := some p, bQ := bQ,
                      aStack := aStack, aP := some p, aCreated := aCr, aRoot := A } := by
            simp [addStep]
          have hs2 : addStep bTree
              { label := .t3, bStack := bStack, bP := some p, bQ := bQ,
                aStack := aStack, aP := some p, aCreated := aCr, aRoot := A } =
              .cont { label := .t2, bStack := p :: bStack, bP := none, bQ := bQ,
                      aStack := some p :: aStack, aP := none, aCreated := aCr,
                      aRoot := A } := by
            simp only [addStep, hfb, hchk]
            simp [TNode.isLeaf, TNode.left]
          have hs3 : addStep bTree
              { label := .t2, bStack := p :: bStack, bP := none, bQ := bQ,
                aStack := some p :: aStack, aP := none, aCreated := aCr, aRoot := A } =
              .cont { label := .t4, bStack := p :: bStack, bP := none, bQ := bQ,
                      aStack := some p :: aStack, aP := none, aCreated := aCr,
                      aRoot := A } := by
            simp [addStep]
          have hs4 : addStep bTree
              { label := .t4, bStack := p :: bStack, bP := none, bQ := bQ,
                aStack := some p :: aStack, aP := none, aCreated := aCr, aRoot := A } =
              .cont { label := .t5, bStack := bStack, bP := some p, bQ := bQ,
                      aStack := aStack, aP := some p, aCreated := aCr, aRoot := A } := by
            simp [addStep]
          have hsuffix : ∀ (crX : Option (List Bool)) (aR2 : TNode),
              aIsLeafCheck aR2 (some p) crX = some false →
              ∀ exitRoot : TNode,
                addStep bTree
                  { label := .t6, bStack := bStack, bP := some p,
                    bQ := some (p ++ [true]), aStack := aStack, aP := some p,
                    aCreated := crX, aRoot := aR2 } =
                .cont { label := .t4, bStack := bStack, bP := some p,
                        bQ := some p, aStack := aStack, aP := some p,
                        aCreated := crX, aRoot := exitRoot } →
                iterSteps (addStep bTree) 3
                  { label := .t4, bStack := p :: bStack, bP := some (p ++ [true]),
                    bQ := some (p ++ [true]), aStack := some p :: aStack,
                    aP := some (p ++ [true]), aCreated := crX, aRoot := aR2 } =
                some { label := .t4, bStack := bStack, bP := some p,
                       bQ := some p, aStack := aStack, aP := some p,
                       aCreated := crX, aRoot := exitRoot } := by
            intro crX aR2 hchk8 exitRoot hs8
            have hs6' : addStep bTree
                { label := .t4, bStack := p :: bStack, bP := some (p ++ [true]),
                  bQ := some (p ++ [true]), aStack := some p :: aStack,
                  aP := some (p ++ [true]), aCreated := crX, aRoot := aR2 } =
                .cont { label := .t5, bStack := bStack, bP := some p,
                        bQ := some (p ++ [true]), aStack := aStack, aP := some p,
                        aCreated := crX, aRoot := aR2 } := by
              simp [addStep]
            have hs7' : addStep bTree
                { label := .t5, bStack := bStack, bP := some p,
                  bQ := some (p ++ [true]), aStack := aStack, aP := some p,
                  aCreated := crX, aRoot := aR2 } =
                .cont { label := .t6, bStack := bStack, bP := some p,
                        bQ := some (p ++ [true]), aStack := aStack, aP := some p,
                        aCreated := crX, aRoot := aR2 } := by
              simp only [addStep, hchk8, hfb, TNode.right]
              simp
            simp only [iterSteps, hs6', hs7', hs8]
          cases ar with
          | none =>
            -- the a node has no right child: the machine creates one
            have hs5 : addStep bTree
                { label := .t5, bStack := bStack, bP := some p, bQ := bQ,
                  aStack := aStack, aP := some p, aCreated := aCr, aRoot := A } =
                .cont { label := .t2, bStack := p :: bStack, bP := some (p ++ [true]),
                        bQ := bQ, aStack := some p :: aStack, aP := some (p ++ [true]),
                        aCreated := some (p ++ [true]),
                        aRoot := A.updateAt p
                          (fun n => n.setRight (some (.mk (n.value + 1) none none))) } := by
              simp only [addStep, hchk, hfb, hfa, TNode.right, Bool.false_or]
              rw [hbq]
              rfl
            have hpre : iterSteps (addStep bTree) 5
                { label := .t2, bStack := bStack, bP := some p, bQ := bQ,
                  aStack := aStack, aP := some p, aCreated := aCr, aRoot := A } =
                some { label := .t2, bStack := p :: bStack, bP := some (p ++ [true]),
                       bQ := bQ, aStack := some p :: aStack, aP := some (p ++ [true]),
                       aCreated := some (p ++ [true]),
                       aRoot := A.updateAt p
                         (fun n => n.setRight (some (.mk (n.value + 1) none none))) } := by
              simp only [iterSteps, hs1, hs2, hs3, hs4, hs5]
            have hfa1 : (A.updateAt p
                (fun n => n.setRight (some (.mk (n.value + 1) none none)))).follow p =
                some (TNode.mk av al (some (TNode.mk (av + 1) none none))) :=
              follow_updateAt_self hfa _
            have hfar : (A.updateAt p
                (fun n => n.setRight (some (.mk (n.value + 1) none none)))).follow
                  (p ++ [true]) = some (TNode.mk (av + 1) none none) :=
              follow_snoc_true hfa1 rfl
            obtain ⟨kR, crR, hkR, hrunR, hcrR⟩ := ih bTree brc (p ++ [true])
              (p :: bStack) bQ (some p :: aStack) (some (p ++ [true]))
              (A.updateAt p (fun n => n.setRight (some (.mk (n.value + 1) none none))))
              (TNode.mk (av + 1) none none) hcount hfbr hfar hbQ' (Or.inl rfl)
            rw [show (decide ((some (p ++ [true]) : Option (List Bool)) =
              some (p ++ [true]))) = true from decide_eq_true rfl] at hrunR
            have hfa2 : ((A.updateAt p
                (fun n => n.setRight (some (.mk (n.value + 1) none none)))).updateAt
                  (p ++ [true])
                  (fun _ => mergeNode (TNode.mk (av + 1) none none) true brc)).follow p =
                some (TNode.mk av al
                  (some (mergeNode (TNode.mk (av + 1) none none) true brc))) := by
              rw [updateAt_append, updateAt_updateAt]
              exact follow_updateAt_self hfa _
            have hchk7 : aIsLeafCheck ((A.updateAt p
                (fun n => n.setRight (some (.mk (n.value + 1) none none)))).updateAt
                  (p ++ [true])
                  (fun _ => mergeNode (TNode.mk (av + 1) none none) true brc))
                (some p) crR = some false := by
              simp only [aIsLeafCheck]
              by_cases hc : some p = crR
              · rw [if_pos hc]
              · rw [if_neg hc]
                simp [hfa2, isLeaf_right_some]
            have hcrfin : crR = aCr ∨ ∃ s, s ≠ [] ∧ crR = some (p ++ s) := by
              rcases hcrR with h | ⟨s, hs, h⟩
              · exact Or.inr ⟨[true], by simp, h⟩
              · exact Or.inr ⟨true :: s, by simp,
                  by rw [h, List.append_assoc, List.singleton_append]⟩
            have hkbound : 5 + (kR + 3) ≤
                9 * (TNode.mk bv none (some brc)).nodeCount := by
              simp only [TNode.nodeCount]
              omega
            cases al with
            | none =>
              have hacp : aCr = some p := haL.resolve_right (by simp [TNode.isLeaf])
              have hs8 : addStep bTree
                  { label := .t6, bStack := bStack, bP := some p,
                    bQ := some (p ++ [true]), aStack := aStack, aP := some p,
                    aCreated := crR,
                    aRoot := (A.updateAt p
                      (fun n => n.setRight (some (.mk (n.value + 1) none none)))).updateAt
                        (p ++ [true])
                        (fun _ => mergeNode (TNode.mk (av + 1) none none) true brc) } =
                  .cont { label := .t4, bStack := bStack, bP := some p,
                          bQ := some p, aStack := aStack, aP := some p,
                          aCreated := crR,
                          aRoot := (A.updateAt p
                            (fun n => n.setRight (some (.mk (n.value + 1) none none)))).updateAt
                              (p ++ [true])
                              (fun _ => mergeNode (TNode.mk (av + 1) none none) true brc) } := by
                simp only [addStep, hfa2, TNode.left, TNode.right]
              have hroot : (A.updateAt p
                  (fun n => n.setRight (some (.mk (n.value + 1) none none)))).updateAt
                    (p ++ [true])
                    (fun _ => mergeNode (TNode.mk (av + 1) none none) true brc) =
                  A.updateAt p (fun _ => mergeNode (TNode.mk av none none)
                    (decide (aCr = some p)) (TNode.mk bv none (some brc))) := by
                rw [updateAt_append, updateAt_updateAt]
                apply updateAt_congr hfa
                show TNode.mk av none
                    (some (mergeNode (TNode.mk (av + 1) none none) true brc)) =
                  mergeNode (TNode.mk av none none) (decide (aCr = some p))
                    (TNode.mk bv none (some brc))
                rw [decide_eq_true hacp]
                rfl
              refine ⟨5 + (kR + 3), crR, hkbound, ?_, hcrfin⟩
              rw [iterSteps_append_some hpre, iterSteps_append_some hrunR, ← hroot]
              exact hsuffix crR _ hchk7 _ hs8
            | some alc =>
              have hM : mergeNode (TNode.mk av (some alc) none) (decide (aCr = some p))
                  (TNode.mk bv none (some brc)) =
                  (if (alc.isLeaf &&
                        (mergeNode (TNode.mk (av + 1) none none) true brc).isLeaf) = true
                   then TNode.mk av none none
                   else TNode.mk av (some alc)
                     (some (mergeNode (TNode.mk (av + 1) none none) true brc))) := by
                by_cases hc : aCr = some p
                · rw [decide_eq_true hc]
                  rfl
                · rw [decide_eq_false hc]
                  rfl
              by_cases hcol : (alc.isLeaf &&
                  (mergeNode (TNode.mk (av + 1) none none) true brc).isLeaf) = true
              · have hs8 : addStep bTree
                    { label := .t6, bStack := bStack, bP := some p,
                      bQ := some (p ++ [true]), aStack := aStack, aP := some p,
                      aCreated := crR,
                      aRoot := (A.updateAt p
                        (fun n => n.setRight (some (.mk (n.value + 1) none none)))).updateAt
                          (p ++ [true])
                          (fun _ => mergeNode (TNode.mk (av + 1) none none) true brc) } =
                    .cont { label := .t4, bStack := bStack, bP := some p,
                            bQ := some p, aStack := aStack, aP := some p,
                            aCreated := crR,
                            aRoot := ((A.updateAt p
                              (fun n => n.setRight (some (.mk (n.value + 1) none none)))).updateAt
                                (p ++ [true])
                                (fun _ => mergeNode (TNode.mk (av + 1) none none) true brc)).updateAt
                                p (fun n => .mk n.value none none) } := by
                  simp only [addStep, hfa2, TNode.left, TNode.right]
                  rw [if_pos hcol]
                have hroot : ((A.updateAt p
                    (fun n => n.setRight (some (.mk (n.value + 1) none none)))).updateAt
                      (p ++ [true])
                      (fun _ => mergeNode (TNode.mk (av + 1) none none) true brc)).updateAt
                      p (fun n => .mk n.value none none) =
                    A.updateAt p (fun _ => mergeNode (TNode.mk av (some alc) none)
                      (decide (aCr = some p)) (TNode.mk bv none (some brc))) := by
                  rw [updateAt_append, updateAt_updateAt, updateAt_updateAt]
                  apply updateAt_congr hfa
                  show TNode.mk av none none =
                    mergeNode (TNode.mk av (some alc) none) (decide (aCr = some p))
                      (TNode.mk bv none (some brc))
                  rw [hM, if_pos hcol]
                refine ⟨5 + (kR + 3), crR, hkbound, ?_, hcrfin⟩
                rw [iterSteps_append_some hpre, iterSteps_append_some hrunR, ← hroot]
                exact hsuffix crR _ hchk7 _ hs8
              · have hs8 : addStep bTree
                    { label := .t6, bStack := bStack, bP := some p,
                      bQ := some (p ++ [true]), aStack := aStack, aP := some p,
                      aCreated := crR,
                      aRoot := (A.updateAt p
                        (fun n => n.setRight (some (.mk (n.value + 1) none none)))).updateAt
                          (p ++ [true])
                          (fun _ => mergeNode (TNode.mk (av + 1) none none) true brc) } =
                    .cont { label := .t4, bStack := bStack, bP := some p,
                            bQ := some p, aStack := aStack, aP := some p,
                            aCreated := crR,
                            aRoot := (A.updateAt p
                              (fun n => n.setRight (some (.mk (n.value + 1) none none)))).updateAt
                                (p ++ [true])
                                (fun _ => mergeNode (TNode.mk (av + 1) none none) true brc) } := by
                  simp only [addStep, hfa2, TNode.left, TNode.right]
                  rw [if_neg hcol]
                have hroot : (A.updateAt p
                    (fun n => n.setRight (some (.mk (n.value + 1) none none)))).updateAt
                      (p ++ [true])
                      (fun _ => mergeNode (TNode.mk (av + 1) none none) true brc) =
                    A.updateAt p (fun _ => mergeNode (TNode.mk av (some alc) none)
                      (decide (aCr = some p)) (TNode.mk bv none (some brc))) := by
                  rw [updateAt_append, updateAt_updateAt]
                  apply updateAt_congr hfa
                  show TNode.mk av (some alc)
                      (some (mergeNode (TNode.mk (av + 1) none none) true brc)) =
                    mergeNode (TNode.mk av (some alc) none) (decide (aCr = some p))
                      (TNode.mk bv none (some brc))
                  rw [hM, if_neg hcol]
                refine ⟨5 + (kR + 3), crR, hkbound, ?_, hcrfin⟩
                rw [iterSteps_append_some hpre, iterSteps_append_some hrunR, ← hroot]
                exact hsuffix crR _ hchk7 _ hs8
          | some arc =>
            -- the a node already has a right child
            have hs5 : addStep bTree
                { label := .t5, bStack := bStack, bP := some p, bQ := bQ,
                  aStack := aStack, aP := some p, aCreated := aCr, aRoot := A } =
                .cont { label := .t2, bStack := p :: bStack, bP := some (p ++ [true]),
                        bQ := bQ, aStack := some p :: aStack, aP := some (p ++ [true]),
                        aCreated := aCr, aRoot := A } := by
              simp only [addStep, hchk, hfb, hfa, TNode.right, Bool.false_or]
              rw [hbq]
              rfl
            have hpre : iterSteps (addStep bTree) 5
                { label := .t2, bStack := bStack, bP := some p, bQ := bQ,
                  aStack := aStack, aP := some p, aCreated := aCr, aRoot := A } =
                some { label := .t2, bStack := p :: bStack, bP := some (p ++ [true]),
                       bQ := bQ, aStack := some p :: aStack, aP := some (p ++ [true]),
                       aCreated := aCr, aRoot := A } := by
              simp only [iterSteps, hs1, hs2, hs3, hs4, hs5]
            have hfar : A.follow (p ++ [true]) = some arc :=
              follow_snoc_true hfa rfl
            have hacr' : ∀ r, aCr = some r → ¬ underPath (p ++ [true]) r := by
              intro r hr hu
              rcases hacr with h | h
              · rw [h] at hr
                injection hr with hr
                subst hr
                exact not_underPath_shorter (by simp) hu
              · exact h r hr (underPath_of_extend hu)
            obtain ⟨kR, crR, hkR, hrunR, hcrR⟩ := ih bTree brc (p ++ [true])
              (p :: bStack) bQ (some p :: aStack) aCr A arc hcount hfbr hfar hbQ'
              (Or.inr hacr')
            have hflagR : decide (aCr = some (p ++ [true])) = false :=
              decide_eq_false (fun hq => hacr' (p ++ [true]) hq ⟨[], by simp⟩)
            rw [hflagR] at hrunR
            have hfa2 : (A.updateAt (p ++ [true])
                (fun _ => mergeNode arc false brc)).follow p =
                some (TNode.mk av al (some (mergeNode arc false brc))) := by
              rw [updateAt_append]
              exact follow_updateAt_self hfa _
            have hchk7 : aIsLeafCheck (A.updateAt (p ++ [true])
                (fun _ => mergeNode arc false brc)) (some p) crR = some false := by
              simp only [aIsLeafCheck]
              by_cases hc : some p = crR
              · rw [if_pos hc]
              · rw [if_neg hc]
                simp [hfa2, isLeaf_right_some]
            have hcrfin : crR = aCr ∨ ∃ s, s ≠ [] ∧ crR = some (p ++ s) := by
              rcases hcrR with h | ⟨s, hs, h⟩
              · exact Or.inl h
              · exact Or.inr ⟨true :: s, by simp,
                  by rw [h, List.append_assoc, List.singleton_append]⟩
            have hkbound : 5 + (kR + 3) ≤
                9 * (TNode.mk bv none (some brc)).nodeCount := by
              simp only [TNode.nodeCount]
              omega
            cases al with
            | none =>
              have hM : mergeNode (TNode.mk av none (some arc)) (decide (aCr = some p))
                  (TNode.mk bv none (some brc)) =
                  TNode.mk av none (some (mergeNode arc false brc)) := by
                by_cases hc : aCr = some p
                · rw [decide_eq_true hc]
                  rfl
                · rw [decide_eq_false hc]
                  rfl
              have hs8 : addStep bTree
                  { label := .t6, bStack := bStack, bP := some p,
                    bQ := some (p ++ [true]), aStack := aStack, aP := some p,
                    aCreated := crR,
                    aRoot := A.updateAt (p ++ [true])
                      (fun _ => mergeNode arc false brc) } =
                  .cont { label := .t4, bStack := bStack, bP := some p,
                          bQ := some p, aStack := aStack, aP := some p,
                          aCreated := crR,
                          aRoot := A.updateAt (p ++ [true])
                            (fun _ => mergeNode arc false brc) } := by
                simp only [addStep, hfa2, TNode.left, TNode.right]
              have hroot : A.updateAt (p ++ [true]) (fun _ => mergeNode arc false brc) =
                  A.updateAt p (fun _ => mergeNode (TNode.mk av none (some arc))
                    (decide (aCr = some p)) (TNode.mk bv none (some brc))) := by
                rw [updateAt_append]
                apply updateAt_congr hfa
                show TNode.mk av none (some (mergeNode arc false brc)) =
                  mergeNode (TNode.mk av none (some arc)) (decide (aCr = some p))
                    (TNode.mk bv none (some brc))
                rw [hM]
              refine ⟨5 + (kR + 3), crR, hkbound, ?_, hcrfin⟩
              rw [iterSteps_append_some hpre, iterSteps_append_some hrunR, ← hroot]
              exact hsuffix crR _ hchk7 _ hs8
            | some alc =>
              have hM : mergeNode (TNode.mk av (some alc) (some arc))
                  (decide (aCr = some p)) (TNode.mk bv none (some brc)) =
                  (if (alc.isLeaf && (mergeNode arc false brc).isLeaf) = true
                   then TNode.mk av none none
                   else TNode.mk av (some alc) (some (mergeNode arc false brc))) := by
                by_cases hc : aCr = some p
                · rw [decide_eq_true hc]
                  rfl
                · rw [decide_eq_false hc]
                  rfl
              by_cases hcol : (alc.isLeaf && (mergeNode arc false brc).isLeaf) = true
              · have hs8 : addStep bTree
                    { label := .t6, bStack := bStack, bP := some p,
                      bQ := some (p ++ [true]), aStack := aStack, aP := some p,
                      aCreated := crR,
                      aRoot := A.updateAt (p ++ [true])
                        (fun _ => mergeNode arc false brc) } =
                    .cont { label := .t4, bStack := bStack, bP := some p,
                            bQ := some p, aStack := aStack, aP := some p,
                            aCreated := crR,
                            aRoot := (A.updateAt (p ++ [true])
                              (fun _ => mergeNode arc false brc)).updateAt p
                                (fun n => .mk n.value none none) } := by
                  simp only [addStep, hfa2, TNode.left, TNode.right]
                  rw [if_pos hcol]
                have hroot : (A.updateAt (p ++ [true])
                    (fun _ => mergeNode arc false brc)).updateAt p
                      (fun n => .mk n.value none none) =
                    A.updateAt p (fun _ => mergeNode (TNode.mk av (some alc) (some arc))
                      (decide (aCr = some p)) (TNode.mk bv none (some brc))) := by
                  rw [updateAt_append, updateAt_updateAt]
                  apply updateAt_congr hfa
                  show TNode.mk av none none =
                    mergeNode (TNode.mk av (some alc) (some arc)) (decide (aCr = some p))
                      (TNode.mk bv none (some brc))
                  rw [hM, if_pos hcol]
                refine ⟨5 + (kR + 3), crR, hkbound, ?_, hcrfin⟩
                rw [iterSteps_append_some hpre, iterSteps_append_some hrunR, ← hroot]
                exact hsuffix crR _ hchk7 _ hs8
              · have hs8 : addStep bTree
                    { label := .t6, bStack := bStack, bP := some p,
                      bQ := some (p ++ [true]), aStack := aStack, aP := some p,
                      aCreated := crR,
                      aRoot := A.updateAt (p ++ [true])
                        (fun _ => mergeNode arc false brc) } =
                    .cont { label := .t4, bStack := bStack, bP := some p,
                            bQ := some p, aStack := aStack, aP := some p,
                            aCreated := crR,
                            aRoot := A.updateAt (p ++ [true])
                              (fun _ => mergeNode arc false brc) } := by
                  simp only [addStep, hfa2, TNode.left, TNode.right]
                  rw [if_neg hcol]
                have hroot : A.updateAt (p ++ [true]) (fun _ => mergeNode arc false brc) =
                    A.updateAt p (fun _ => mergeNode (TNode.mk av (some alc) (some arc))
                      (decide (aCr = some p)) (TNode.mk bv none (some brc))) := by
                  rw [updateAt_append]
                  apply updateAt_congr hfa
                  show TNode.mk av (some alc) (some (mergeNode arc false brc)) =
                    mergeNode (TNode.mk av (some alc) (some arc)) (decide (aCr = some p))
                      (TNode.mk bv none (some brc))
                  rw [hM, if_neg hcol]
                refine ⟨5 + (kR + 3), crR, hkbound, ?_, hcrfin⟩
                rw [iterSteps_append_some hpre, iterSteps_append_some hrunR, ← hroot]
                exact hsuffix crR _ hchk7 _ hs8
        · -- a is a real covering leaf: nothing changes
          push_neg at haL
          obtain ⟨hnacr, haleaf0⟩ := haL
          have haleaf : asub.isLeaf = true := by
            cases h : asub.isLeaf with
            | true => rfl
            | false => exact absurd h haleaf0
          have hchk : aIsLeafCheck A (some p) aCr = some true := by
            simp only [aIsLeafCheck]
            rw [if_neg (fun hc => hnacr hc.symm)]
            simp [hfa, haleaf]
          have hmerge : mergeNode asub (decide (aCr = some p)) (TNode.mk bv none (some brc)) =
              asub := by
            rw [decide_eq_false hnacr]
            exact mergeNode_aleaf asub bv none (some brc) haleaf
          have hrun : iterSteps (addStep bTree) 6
              { label := .t2, bStack := bStack, bP := some p, bQ := bQ,
                aStack := aStack, aP := some p, aCreated := aCr, aRoot := A } =
              some { label := .t4, bStack := bStack, bP := some p, bQ := some p,
                     aStack := aStack, aP := some p, aCreated := aCr, aRoot := A } := by
            have hs1 : addStep bTree
                { label := .t2, bStack := bStack, bP := some p, bQ := bQ,
                  aStack := aStack, aP := some p, aCreated := aCr, aRoot := A } =
                .cont { label := .t3, bStack := bStack, bP := some p, bQ := bQ,
                        aStack := aStack, aP := some p, aCreated := aCr, aRoot := A } := by
              simp [addStep]
            have hs2 : addStep bTree
                { label := .t3, bStack := bStack, bP := some p, bQ := bQ,
                  aStack := aStack, aP := some p, aCreated := aCr, aRoot := A } =
                .cont { label := .t2, bStack := p :: bStack, bP := none, bQ := bQ,
                        aStack := some p :: aStack, aP := none, aCreated := aCr,
                        aRoot := A } := by
              simp only [addStep, hfb, hchk]
              simp [TNode.isLeaf, TNode.left]
            have hs3 : addStep bTree
                { label := .t2, bStack := p :: bStack, bP := none, bQ := bQ,
                  aStack := some p :: aStack, aP := none, aCreated := aCr, aRoot := A } =
                .cont { label := .t4, bStack := p :: bStack, bP := none, bQ := bQ,
                        aStack := some p :: aStack, aP := none, aCreated := aCr,
                        aRoot := A } := by
              simp [addStep]
            have hs4 : addStep bTree
                { label := .t4, bStack := p :: bStack, bP := none, bQ := bQ,
                  aStack := some p :: aStack, aP := none, aCreated := aCr, aRoot := A } =
                .cont { label := .t5, bStack := bStack, bP := some p, bQ := bQ,
                        aStack := aStack, aP := some p, aCreated := aCr,
                        aRoot := A } := by
              simp [addStep]
            have hs5 : addStep bTree
                { label := .t5, bStack := bStack, bP := some p, bQ := bQ,
                  aStack := aStack, aP := some p, aCreated := aCr, aRoot := A } =
                .cont { label := .t6, bStack := bStack, bP := some p, bQ := bQ,
                        aStack := aStack, aP := some p, aCreated := aCr,
                        aRoot := A } := by
              simp only [addStep, hchk, hfb, TNode.right]
              try simp
            have hs6 : addStep bTree
                { label := .t6, bStack := bStack, bP := some p, bQ := bQ,
                  aStack := aStack, aP := some p, aCreated := aCr, aRoot := A } =
                .cont { label := .t4, bStack := bStack, bP := some p, bQ := some p,
                        aStack := aStack, aP := some p, aCreated := aCr,
                        aRoot := A } := by
              obtain ⟨av, al, ar⟩ := asub
              cases al with
              | some x => simp [TNode.isLeaf] at haleaf
              | none =>
                cases ar with
                | some y => simp [TNode.isLeaf] at haleaf
                | none =>
                  simp only [addStep, hfa]
                  rfl
            simp only [iterSteps, hs1, hs2, hs3, hs4, hs5, hs6]
          have hroot : A = A.updateAt p
              (fun _ => mergeNode asub (decide (aCr = some p))
                (TNode.mk bv none (some brc))) := by
            conv_lhs => rw [← updateAt_id A p]
            apply updateAt_congr hfa
            show asub = mergeNode asub (decide (aCr = some p)) (TNode.mk bv none (some brc))
            rw [hmerge]
          refine ⟨6, aCr, by simp only [TNode.nodeCount]; omega, ?_, Or.inl rfl⟩
          rw [hrun, ← hroot]
    | some blc =>
      have hfbl : bTree.follow (p ++ [false]) = some blc :=
        follow_snoc_false hfb rfl
      have hbQl : ∀ r, bQ = some r → ¬ underPath (p ++ [false]) r :=
        fun r hr hu => hbQ r hr (underPath_of_extend hu)
      cases br with
      | none =>
        -- CASE Lo: b internal with only a left child
        have hcountl : blc.nodeCount ≤ n := by
          simp only [TNode.nodeCount] at hn
          omega
        by_cases haL : aCr = some p ∨ asub.isLeaf = false
        · have hchk : aIsLeafCheck A (some p) aCr = some false := by
            rcases haL with h | h
            · simp [aIsLeafCheck, h]
            · simp only [aIsLeafCheck]
              by_cases hc : some p = aCr
              · rw [if_pos hc]
              · rw [if_neg hc]
                simp [hfa, h]
          obtain ⟨av, al, ar⟩ := asub
          have hs1 : addStep bTree
              { label := .t2, bStack := bStack, bP := some p, bQ := bQ,
                aStack := aStack, aP := some p, aCreated := aCr, aRoot := A } =
              .cont { label := .t3, bStack := bStack, bP := some p, bQ := bQ,
                      aStack := aStack, aP := some p, aCreated := aCr, aRoot := A } := by
            simp [addStep]
          have hsuffix : ∀ (crX : Option (List Bool)) (aR2 : TNode),
              aIsLeafCheck aR2 (some p) crX = some false →
              ∀ exitRoot : TNode,
                addStep bTree
                  { label := .t6, bStack := bStack, bP := some p,
                    bQ := some (p ++ [false]), aStack := aStack, aP := some p,
                    aCreated := crX, aRoot := aR2 } =
                .cont { label := .t4, bStack := bStack, bP := some p,
                        bQ := some p, aStack := aStack, aP := some p,
                        aCreated := crX, aRoot := exitRoot } →
                iterSteps (addStep bTree) 3
                  { label := .t4, bStack := p :: bStack, bP := some (p ++ [false]),
                    bQ := some (p ++ [false]), aStack := some p :: aStack,
                    aP := some (p ++ [false]), aCreated := crX, aRoot := aR2 } =
                some { label := .t4, bStack := bStack, bP := some p,
                       bQ := some p, aStack := aStack, aP := some p,
                       aCreated := crX, aRoot := exitRoot } := by
            intro crX aR2 hchk8 exitRoot hs8
            have hs6' : addStep bTree
                { label := .t4, bStack := p :: bStack, bP := some (p ++ [false]),
                  bQ := some (p ++ [false]), aStack := some p :: aStack,
                  aP := some (p ++ [false]), aCreated := crX, aRoot := aR2 } =
                .cont { label := .t5, bStack := bStack, bP := some p,
                        bQ := some (p ++ [false]), aStack := aStack, aP := some p,
                        aCreated := crX, aRoot := aR2 } := by
              simp [addStep]
            have hs7' : addStep bTree
                { label := .t5, bStack := bStack, bP := some p,
                  bQ := some (p ++ [false]), aStack := aStack, aP := some p,
                  aCreated := crX, aRoot := aR2 } =
                .cont { label := .t6, bStack := bStack, bP := some p,
                        bQ := some (p ++ [false]), aStack := aStack, aP := some p,
                        aCreated := crX, aRoot := aR2 } := by
              simp only [addStep, hchk8, hfb, TNode.right]
            simp only [iterSteps, hs6', hs7', hs8]
          cases al with
          | none =>
            -- left child created
            have hs2 : addStep bTree
                { label := .t3, bStack := bStack, bP := some p, bQ := bQ,
                  aStack := aStack, aP := some p, aCreated := aCr, aRoot := A } =
                .cont { label := .t2, bStack := p :: bStack, bP := some (p ++ [false]),
                        bQ := bQ, aStack := some p :: aStack, aP := some (p ++ [false]),
                        aCreated := some (p ++ [false]),
                        aRoot := A.updateAt p
                          (fun n => n.setLeft (some (.mk (n.value + 1) none none))) } := by
              simp only [addStep, hfb, hchk, hfa, TNode.left]
              rfl
            have hpre : iterSteps (addStep bTree) 2
                { label := .t2, bStack := bStack, bP := some p, bQ := bQ,
                  aStack := aStack, aP := some p, aCreated := aCr, aRoot := A } =
                some { label := .t2, bStack := p :: bStack, bP := some (p ++ [false]),
                       bQ := bQ, aStack := some p :: aStack, aP := some (p ++ [false]),
                       aCreated := some (p ++ [false]),
                       aRoot := A.updateAt p
                         (fun n => n.setLeft (some (.mk (n.value + 1) none none))) } := by
              simp only [iterSteps, hs1, hs2]
            have hfa1 : (A.updateAt p
                (fun n => n.setLeft (some (.mk (n.value + 1) none none)))).follow p =
                some (TNode.mk av (some (TNode.mk (av + 1) none none)) ar) :=
              follow_updateAt_self hfa _
            have hfal : (A.updateAt p
                (fun n => n.setLeft (some (.mk (n.value + 1) none none)))).follow
                  (p ++ [false]) = some (TNode.mk (av + 1) none none) :=
              follow_snoc_false hfa1 rfl
            obtain ⟨kL, crL, hkL, hrunL, hcrL⟩ := ih bTree blc (p ++ [false])
              (p :: bStack) bQ (some p :: aStack) (some (p ++ [false]))
              (A.updateAt p (fun n => n.setLeft (some (.mk (n.value + 1) none none))))
              (TNode.mk (av + 1) none none) hcountl hfbl hfal hbQl (Or.inl rfl)
            rw [show (decide ((some (p ++ [false]) : Option (List Bool)) =
              some (p ++ [false]))) = true from decide_eq_true rfl] at hrunL
            have hfa2 : ((A.updateAt p (fun n => n.setLeft (some (.mk (n.value + 1) none none)))).updateAt (p ++ [false]) (fun _ => mergeNode (TNode.mk (av + 1) none none) true blc)).follow p =
                some (TNode.mk av
                  (some (mergeNode (TNode.mk (av + 1) none none) true blc)) ar) := by
              rw [updateAt_append, updateAt_updateAt]
              exact follow_updateAt_self hfa _
            have hchk7 : aIsLeafCheck ((A.updateAt p (fun n => n.setLeft (some (.mk (n.value + 1) none none)))).updateAt (p ++ [false]) (fun _ => mergeNode (TNode.mk (av + 1) none none) true blc))
                (some p) crL = some false := by
              simp only [aIsLeafCheck]
              by_cases hc : some p = crL
              · rw [if_pos hc]
              · rw [if_neg hc]
                simp only [hfa2]
                rfl
            have hcrfin : crL = aCr ∨ ∃ s, s ≠ [] ∧ crL = some (p ++ s) := by
              rcases hcrL with h | ⟨s, hs, h⟩
              · exact Or.inr ⟨[false], by simp, h⟩
              · exact Or.inr ⟨false :: s, by simp,
                  by rw [h, List.append_assoc, List.singleton_append]⟩
            have hkbound : 2 + (kL + 3) ≤
                9 * (TNode.mk bv (some blc) none).nodeCount := by
              simp only [TNode.nodeCount]
              omega
            cases ar with
            | none =>
              have hs8 : addStep bTree
                  { label := .t6, bStack := bStack, bP := some p,
                    bQ := some (p ++ [false]), aStack := aStack, aP := some p,
                    aCreated := crL,
                    aRoot := (A.updateAt p
                      (fun n => n.setLeft (some (.mk (n.value + 1) none none)))).updateAt
                        (p ++ [false])
                        (fun _ => mergeNode (TNode.mk (av + 1) none none) true blc) } =
                  .cont { label := .t4, bStack := bStack, bP := some p,
                          bQ := some p, aStack := aStack, aP := some p,
                          aCreated := crL,
                          aRoot := (A.updateAt p
                            (fun n => n.setLeft (some (.mk (n.value + 1) none none)))).updateAt
                              (p ++ [false])
                              (fun _ => mergeNode (TNode.mk (av + 1) none none) true blc) } := by
                simp only [addStep, hfa2, TNode.left, TNode.right]
              have hacp : aCr = some p := haL.resolve_right (by simp [TNode.isLeaf])
              have hroot : (A.updateAt p
                  (fun n => n.setLeft (some (.mk (n.value + 1) none none)))).updateAt
                    (p ++ [false])
                    (fun _ => mergeNode (TNode.mk (av + 1) none none) true blc) =
                  A.updateAt p (fun _ => mergeNode (TNode.mk av none none)
                    (decide (aCr = some p)) (TNode.mk bv (some blc) none)) := by
                rw [updateAt_append, updateAt_updateAt]
                apply updateAt_congr hfa
                show TNode.mk av
                    (some (mergeNode (TNode.mk (av + 1) none none) true blc)) none =
                  mergeNode (TNode.mk av none none) (decide (aCr = some p))
                    (TNode.mk bv (some blc) none)
                rw [decide_eq_true hacp]
                rfl
              refine ⟨2 + (kL + 3), crL, hkbound, ?_, hcrfin⟩
              rw [iterSteps_append_some hpre, iterSteps_append_some hrunL, ← hroot]
              exact hsuffix crL _ hchk7 _ hs8
            | some arc =>
              have hM : mergeNode (TNode.mk av none (some arc)) (decide (aCr = some p))
                  (TNode.mk bv (some blc) none) =
                  (if ((mergeNode (TNode.mk (av + 1) none none) true blc).isLeaf &&
                        arc.isLeaf) = true
                   then TNode.mk av none none
                   else TNode.mk av
                     (some (mergeNode (TNode.mk (av + 1) none none) true blc))
                     (some arc)) := by
                by_cases hc : aCr = some p
                · rw [decide_eq_true hc]
                  rfl
                · rw [decide_eq_false hc]
                  rfl
              by_cases hcol : ((mergeNode (TNode.mk (av + 1) none none) true blc).isLeaf &&
                  arc.isLeaf) = true
              · have hs8 : addStep bTree
                    { label := .t6, bStack := bStack, bP := some p,
                      bQ := some (p ++ [false]), aStack := aStack, aP := some p,
                      aCreated := crL,
                      aRoot := (A.updateAt p
                        (fun n => n.setLeft (some (.mk (n.value + 1) none none)))).updateAt
                          (p ++ [false])
                          (fun _ => mergeNode (TNode.mk (av + 1) none none) true blc) } =
                    .cont { label := .t4, bStack := bStack, bP := some p,
                            bQ := some p, aStack := aStack, aP := some p,
                            aCreated := crL,
                            aRoot := ((A.updateAt p
                              (fun n => n.setLeft (some (.mk (n.value + 1) none none)))).updateAt
                                (p ++ [false])
                                (fun _ => mergeNode (TNode.mk (av + 1) none none) true blc)).updateAt
                                p (fun n => .mk n.value none none) } := by
                  simp only [addStep, hfa2, TNode.left, TNode.right]
                  rw [if_pos hcol]
                have hroot : ((A.updateAt p
                    (fun n => n.setLeft (some (.mk (n.value + 1) none none)))).updateAt
                      (p ++ [false])
                      (fun _ => mergeNode (TNode.mk (av + 1) none none) true blc)).updateAt
                      p (fun n => .mk n.value none none) =
                    A.updateAt p (fun _ => mergeNode (TNode.mk av none (some arc))
                      (decide (aCr = some p)) (TNode.mk bv (some blc) none)) := by
                  rw [updateAt_append, updateAt_updateAt, updateAt_updateAt]
                  apply updateAt_congr hfa
                  show TNode.mk av none none =
                    mergeNode (TNode.mk av none (some arc)) (decide (aCr = some p))
                      (TNode.mk bv (some blc) none)
                  rw [hM, if_pos hcol]
                refine ⟨2 + (kL + 3), crL, hkbound, ?_, hcrfin⟩
                rw [iterSteps_append_some hpre, iterSteps_append_some hrunL, ← hroot]
                exact hsuffix crL _ hchk7 _ hs8
              · have hs8 : addStep bTree
                    { label := .t6, bStack := bStack, bP := some p,
                      bQ := some (p ++ [false]), aStack := aStack, aP := some p,
                      aCreated := crL,
                      aRoot := (A.updateAt p
                        (fun n => n.setLeft (some (.mk (n.value + 1) none none)))).updateAt
                          (p ++ [false])
                          (fun _ => mergeNode (TNode.mk (av + 1) none none) true blc) } =
                    .cont { label := .t4, bStack := bStack, bP := some p,
                            bQ := some p, aStack := aStack, aP := some p,
                            aCreated := crL,
                            aRoot := (A.updateAt p
                              (fun n => n.setLeft (some (.mk (n.value + 1) none none)))).updateAt
                                (p ++ [false])
                                (fun _ => mergeNode (TNode.mk (av + 1) none none) true blc) } := by
                  simp only [addStep, hfa2, TNode.left, TNode.right]
                  rw [if_neg hcol]
                have hroot : (A.updateAt p
                    (fun n => n.setLeft (some (.mk (n.value + 1) none none)))).updateAt
                      (p ++ [false])
                      (fun _ => mergeNode (TNode.mk (av + 1) none none) true blc) =
                    A.updateAt p (fun _ => mergeNode (TNode.mk av none (some arc))
                      (decide (aCr = some p)) (TNode.mk bv (some blc) none)) := by
                  rw [updateAt_append, updateAt_updateAt]
                  apply updateAt_congr hfa
                  show TNode.mk av
                      (some (mergeNode (TNode.mk (av + 1) none none) true blc))
                      (some arc) =
                    mergeNode (TNode.mk av none (some arc)) (decide (aCr = some p))
                      (TNode.mk bv (some blc) none)
                  rw [hM, if_neg hcol]
                refine ⟨2 + (kL + 3), crL, hkbound, ?_, hcrfin⟩
                rw [iterSteps_append_some hpre, iterSteps_append_some hrunL, ← hroot]
                exact hsuffix crL _ hchk7 _ hs8
          | some alc =>
            -- left child already present
            have hs2 : addStep bTree
                { label := .t3, bStack := bStack, bP := some p, bQ := bQ,
                  aStack := aStack, aP := some p, aCreated := aCr, aRoot := A } =
                .cont { label := .t2, bStack := p :: bStack, bP := some (p ++ [false]),
                        bQ := bQ, aStack := some p :: aStack, aP := some (p ++ [false]),
                        aCreated := aCr, aRoot := A } := by
              simp only [addStep, hfb, hchk, hfa, TNode.left]
              rfl
            have hpre : iterSteps (addStep bTree) 2
                { label := .t2, bStack := bStack, bP := some p, bQ := bQ,
                  aStack := aStack, aP := some p, aCreated := aCr, aRoot := A } =
                some { label := .t2, bStack := p :: bStack, bP := some (p ++ [false]),
                       bQ := bQ, aStack := some p :: aStack, aP := some (p ++ [false]),
                       aCreated := aCr, aRoot := A } := by
              simp only [iterSteps, hs1, hs2]
            have hfal : A.follow (p ++ [false]) = some alc :=
              follow_snoc_false hfa rfl
            have hacr' : ∀ r, aCr = some r → ¬ underPath (p ++ [false]) r := by
              intro r hr hu
              rcases hacr with h | h
              · rw [h] at hr
                injection hr with hr
                subst hr
                exact not_underPath_shorter (by simp) hu
              · exact h r hr (underPath_of_extend hu)
            obtain ⟨kL, crL, hkL, hrunL, hcrL⟩ := ih bTree blc (p ++ [false])
              (p :: bStack) bQ (some p :: aStack) aCr A alc hcountl hfbl hfal hbQl
              (Or.inr hacr')
            have hflagL : decide (aCr = some (p ++ [false])) = false :=
              decide_eq_false (fun hq => hacr' (p ++ [false]) hq ⟨[], by simp⟩)
            rw [hflagL] at hrunL
            have hfa2 : (A.updateAt (p ++ [false]) (fun _ => mergeNode alc false blc)).follow p =
                some (TNode.mk av (some (mergeNode alc false blc)) ar) := by
              rw [updateAt_append]
              exact follow_updateAt_self hfa _
            have hchk7 : aIsLeafCheck (A.updateAt (p ++ [false]) (fun _ => mergeNode alc false blc)) (some p) crL = some false := by
              simp only [aIsLeafCheck]
              by_cases hc : some p = crL
              · rw [if_pos hc]
              · rw [if_neg hc]
                simp only [hfa2]
                rfl
            have hcrfin : crL = aCr ∨ ∃ s, s ≠ [] ∧ crL = some (p ++ s) := by
              rcases hcrL with h | ⟨s, hs, h⟩
              · exact Or.inl h
              · exact Or.inr ⟨false :: s, by simp,
                  by rw [h, List.append_assoc, List.singleton_append]⟩
            have hkbound : 2 + (kL + 3) ≤
                9 * (TNode.mk bv (some blc) none).nodeCount := by
              simp only [TNode.nodeCount]
              omega
            cases ar with
            | none =>
              have hM : mergeNode (TNode.mk av (some alc) none) (decide (aCr = some p))
                  (TNode.mk bv (some blc) none) =
                  TNode.mk av (some (mergeNode alc false blc)) none := by
                by_cases hc : aCr = some p
                · rw [decide_eq_true hc]
                  rfl
                · rw [decide_eq_false hc]
                  rfl
              have hs8 : addStep bTree
                  { label := .t6, bStack := bStack, bP := some p,
                    bQ := some (p ++ [false]), aStack := aStack, aP := some p,
                    aCreated := crL,
                    aRoot := A.updateAt (p ++ [false])
                      (fun _ => mergeNode alc false blc) } =
                  .cont { label := .t4, bStack := bStack, bP := some p,
                          bQ := some p, aStack := aStack, aP := some p,
                          aCreated := crL,
                          aRoot := A.updateAt (p ++ [false])
                            (fun _ => mergeNode alc false blc) } := by
                simp only [addStep, hfa2, TNode.left, TNode.right]
              have hroot : A.updateAt (p ++ [false]) (fun _ => mergeNode alc false blc) =
                  A.updateAt p (fun _ => mergeNode (TNode.mk av (some alc) none)
                    (decide (aCr = some p)) (TNode.mk bv (some blc) none)) := by
                rw [updateAt_append]
                apply updateAt_congr hfa
                show TNode.mk av (some (mergeNode alc false blc)) none =
                  mergeNode (TNode.mk av (some alc) none) (decide (aCr = some p))
                    (TNode.mk bv (some blc) none)
                rw [hM]
              refine ⟨2 + (kL + 3), crL, hkbound, ?_, hcrfin⟩
              rw [iterSteps_append_some hpre, iterSteps_append_some hrunL, ← hroot]
              exact hsuffix crL _ hchk7 _ hs8
            | some arc =>
              have hM : mergeNode (TNode.mk av (some alc) (some arc))
                  (decide (aCr = some p)) (TNode.mk bv (some blc) none) =
                  (if ((mergeNode alc false blc).isLeaf && arc.isLeaf) = true
                   then TNode.mk av none none
                   else TNode.mk av (some (mergeNode alc false blc)) (some arc)) := by
                by_cases hc : aCr = some p
                · rw [decide_eq_true hc]
                  rfl
                · rw [decide_eq_false hc]
                  rfl
              by_cases hcol : ((mergeNode alc false blc).isLeaf && arc.isLeaf) = true
              · have hs8 : addStep bTree
                    { label := .t6, bStack := bStack, bP := some p,
                      bQ := some (p ++ [false]), aStack := aStack, aP := some p,
                      aCreated := crL,
                      aRoot := A.updateAt (p ++ [false])
                        (fun _ => mergeNode alc false blc) } =
                    .cont { label := .t4, bStack := bStack, bP := some p,
                            bQ := some p, aStack := aStack, aP := some p,
                            aCreated := crL,
                            aRoot := (A.updateAt (p ++ [false])
                              (fun _ => mergeNode alc false blc)).updateAt p
                                (fun n => .mk n.value none none) } := by
                  simp only [addStep, hfa2, TNode.left, TNode.right]
                  rw [if_pos hcol]
                have hroot : (A.updateAt (p ++ [false])
                    (fun _ => mergeNode alc false blc)).updateAt p
                      (fun n => .mk n.value none none) =
                    A.updateAt p (fun _ => mergeNode (TNode.mk av (some alc) (some arc))
                      (decide (aCr = some p)) (TNode.mk bv (some blc) none)) := by
                  rw [updateAt_append, updateAt_updateAt]
                  apply updateAt_congr hfa
                  show TNode.mk av none none =
                    mergeNode (TNode.mk av (some alc) (some arc)) (decide (aCr = some p))
                      (TNode.mk bv (some blc) none)
                  rw [hM, if_pos hcol]
                refine ⟨2 + (kL + 3), crL, hkbound, ?_, hcrfin⟩
                rw [iterSteps_append_some hpre, iterSteps_append_some hrunL, ← hroot]
                exact hsuffix crL _ hchk7 _ hs8
              · have hs8 : addStep bTree
                    { label := .t6, bStack := bStack, bP := some p,
                      bQ := some (p ++ [false]), aStack := aStack, aP := some p,
                      aCreated := crL,
                      aRoot := A.updateAt (p ++ [false])
                        (fun _ => mergeNode alc false blc) } =
                    .cont { label := .t4, bStack := bStack, bP := some p,
                            bQ := some p, aStack := aStack, aP := some p,
                            aCreated := crL,
                            aRoot := A.updateAt (p ++ [false])
                              (fun _ => mergeNode alc false blc) } := by
                  simp only [addStep, hfa2, TNode.left, TNode.right]
                  rw [if_neg hcol]
                have hroot : A.updateAt (p ++ [false]) (fun _ => mergeNode alc false blc) =
                    A.updateAt p (fun _ => mergeNode (TNode.mk av (some alc) (some arc))
                      (decide (aCr = some p)) (TNode.mk bv (some blc) none)) := by
                  rw [updateAt_append]
                  apply updateAt_congr hfa
                  show TNode.mk av (some (mergeNode alc false blc)) (some arc) =
                    mergeNode (TNode.mk av (some alc) (some arc)) (decide (aCr = some p))
                      (TNode.mk bv (some blc) none)
                  rw [hM, if_neg hcol]
                refine ⟨2 + (kL + 3), crL, hkbound, ?_, hcrfin⟩
                rw [iterSteps_append_some hpre, iterSteps_append_some hrunL, ← hroot]
                exact hsuffix crL _ hchk7 _ hs8
        · -- a is a real covering leaf: nothing changes
          push_neg at haL
          obtain ⟨hnacr, haleaf0⟩ := haL
          have haleaf : asub.isLeaf = true := by
            cases h : asub.isLeaf with
            | true => rfl
            | false => exact absurd h haleaf0
          have hchk : aIsLeafCheck A (some p) aCr = some true := by
            simp only [aIsLeafCheck]
            rw [if_neg (fun hc => hnacr hc.symm)]
            simp [hfa, haleaf]
          have hmerge : mergeNode asub (decide (aCr = some p)) (TNode.mk bv (some blc) none) =
              asub := by
            rw [decide_eq_false hnacr]
            exact mergeNode_aleaf asub bv (some blc) none haleaf
          have hrun : iterSteps (addStep bTree) 6
              { label := .t2, bStack := bStack, bP := some p, bQ := bQ,
                aStack := aStack, aP := some p, aCreated := aCr, aRoot := A } =
              some { label := .t4, bStack := bStack, bP := some p, bQ := some p,
                     aStack := aStack, aP := some p, aCreated := aCr, aRoot := A } := by
            have hs1 : addStep bTree
                { label := .t2, bStack := bStack, bP := some p, bQ := bQ,
                  aStack := aStack, aP := some p, aCreated := aCr, aRoot := A } =
                .cont { label := .t3, bStack := bStack, bP := some p, bQ := bQ,
                        aStack := aStack, aP := some p, aCreated := aCr, aRoot := A } := by
              simp [addStep]
            have hs2 : addStep bTree
                { label := .t3, bStack := bStack, bP := some p, bQ := bQ,
                  aStack := aStack, aP := some p, aCreated := aCr, aRoot := A } =
                .cont { label := .t2, bStack := p :: bStack, bP := none, bQ := bQ,
                        aStack := some p :: aStack, aP := none, aCreated := aCr,
                        aRoot := A } := by
              simp only [addStep, hfb, hchk]
              simp [TNode.isLeaf, TNode.left]
            have hs3 : addStep bTree
                { label := .t2, bStack := p :: bStack, bP := none, bQ := bQ,
                  aStack := some p :: aStack, aP := none, aCreated := aCr, aRoot := A } =
                .cont { label := .t4, bStack := p :: bStack, bP := none, bQ := bQ,
                        aStack := some p :: aStack, aP := none, aCreated := aCr,
                        aRoot := A } := by
              simp [addStep]
            have hs4 : addStep bTree
                { label := .t4, bStack := p :: bStack, bP := none, bQ := bQ,
                  aStack := some p :: aStack, aP := none, aCreated := aCr, aRoot := A } =
                .cont { label := .t5, bStack := bStack, bP := some p, bQ := bQ,
                        aStack := aStack, aP := some p, aCreated := aCr,
                        aRoot := A } := by
              simp [addStep]
            have hs5 : addStep bTree
                { label := .t5, bStack := bStack, bP := some p, bQ := bQ,
                  aStack := aStack, aP := some p, aCreated := aCr, aRoot := A } =
                .cont { label := .t6, bStack := bStack, bP := some p, bQ := bQ,
                        aStack := aStack, aP := some p, aCreated := aCr,
                        aRoot := A } := by
              simp only [addStep, hchk, hfb, TNode.right]
              try simp
            have hs6 : addStep bTree
                { label := .t6, bStack := bStack, bP := some p, bQ := bQ,
                  aStack := aStack, aP := some p, aCreated := aCr, aRoot := A } =
                .cont { label := .t4, bStack := bStack, bP := some p, bQ := some p,
                        aStack := aStack, aP := some p, aCreated := aCr,
                        aRoot := A } := by
              obtain ⟨av, al, ar⟩ := asub
              cases al with
              | some x => simp [TNode.isLeaf] at haleaf
              | none =>
                cases ar with
                | some y => simp [TNode.isLeaf] at haleaf
                | none =>
                  simp only [addStep, hfa]
                  rfl
            simp only [iterSteps, hs1, hs2, hs3, hs4, hs5, hs6]
          have hroot : A = A.updateAt p
              (fun _ => mergeNode asub (decide (aCr = some p))
                (TNode.mk bv (some blc) none)) := by
            conv_lhs => rw [← updateAt_id A p]
            apply updateAt_congr hfa
            show asub = mergeNode asub (decide (aCr = some p)) (TNode.mk bv (some blc) none)
            rw [hmerge]
          refine ⟨6, aCr, by simp only [TNode.nodeCount]; omega, ?_, Or.inl rfl⟩
          rw [hrun, ← hroot]
      | some brc =>
        -- CASE B: b internal with both children
        have hfbr : bTree.follow (p ++ [true]) = some brc :=
          follow_snoc_true hfb rfl
        have hcountl : blc.nodeCount ≤ n := by
          have h1 := nodeCount_pos brc
          simp only [TNode.nodeCount] at hn
          omega
        have hcountr : brc.nodeCount ≤ n := by
          have h1 := nodeCount_pos blc
          simp only [TNode.nodeCount] at hn
          omega
        have hbq2 : ((some (p ++ [true]) : Option (List Bool)) ==
            some (p ++ [false])) = false := by
          rw [beq_eq_false_iff_ne]
          intro hq
          injection hq with hq
          have h2 := List.append_cancel_left hq
          simp at h2
        have hbQr : ∀ r, (some (p ++ [false]) : Option (List Bool)) = some r →
            ¬ underPath (p ++ [true]) r := by
          intro r hr hu
          injection hr with hr
          subst hr
          exact not_underPath_sibling p true false (by simp) [] hu
        by_cases haL : aCr = some p ∨ asub.isLeaf = false
        · have hchk : aIsLeafCheck A (some p) aCr = some false := by
            rcases haL with h | h
            · simp [aIsLeafCheck, h]
            · simp only [aIsLeafCheck]
              by_cases hc : some p = aCr
              · rw [if_pos hc]
              · rw [if_neg hc]
                simp [hfa, h]
          obtain ⟨av, al, ar⟩ := asub
          have hs1 : addStep bTree
              { label := .t2, bStack := bStack, bP := some p, bQ := bQ,
                aStack := aStack, aP := some p, aCreated := aCr, aRoot := A } =
              .cont { label := .t3, bStack := bStack, bP := some p, bQ := bQ,
                      aStack := aStack, aP := some p, aCreated := aCr, aRoot := A } := by
            simp [addStep]
          have hsuffix : ∀ (crX : Option (List Bool)) (aR2 : TNode),
              aIsLeafCheck aR2 (some p) crX = some false →
              ∀ exitRoot : TNode,
                addStep bTree
                  { label := .t6, bStack := bStack, bP := some p,
                    bQ := some (p ++ [true]), aStack := aStack, aP := some p,
                    aCreated := crX, aRoot := aR2 } =
                .cont { label := .t4, bStack := bStack, bP := some p,
                        bQ := some p, aStack := aStack, aP := some p,
                        aCreated := crX, aRoot := exitRoot } →
                iterSteps (addStep bTree) 3
                  { label := .t4, bStack := p :: bStack, bP := some (p ++ [true]),
                    bQ := some (p ++ [true]), aStack := some p :: aStack,
                    aP := some (p ++ [true]), aCreated := crX, aRoot := aR2 } =
                some { label := .t4, bStack := bStack, bP := some p,
                       bQ := some p, aStack := aStack, aP := some p,
                       aCreated := crX, aRoot := exitRoot } := by
            intro crX aR2 hchk8 exitRoot hs8
            have hs6x : addStep bTree
                { label := .t4, bStack := p :: bStack, bP := some (p ++ [true]),
                  bQ := some (p ++ [true]), aStack := some p :: aStack,
                  aP := some (p ++ [true]), aCreated := crX, aRoot := aR2 } =
                .cont { label := .t5, bStack := bStack, bP := some p,
                        bQ := some (p ++ [true]), aStack := aStack, aP := some p,
                        aCreated := crX, aRoot := aR2 } := by
              simp [addStep]
            have hs7x : addStep bTree
                { label := .t5, bStack := bStack, bP := some p,
                  bQ := some (p ++ [true]), aStack := aStack, aP := some p,
                  aCreated := crX, aRoot := aR2 } =
                .cont { label := .t6, bStack := bStack, bP := some p,
                        bQ := some (p ++ [true]), aStack := aStack, aP := some p,
                        aCreated := crX, aRoot := aR2 } := by
              simp only [addStep, hchk8, hfb, TNode.right]
              simp
            simp only [iterSteps, hs6x, hs7x, hs8]
          cases al with
          | none =>
            have hs2 : addStep bTree
                { label := .t3, bStack := bStack, bP := some p, bQ := bQ,
                  aStack := aStack, aP := some p, aCreated := aCr, aRoot := A } =
                .cont { label := .t2, bStack := p :: bStack, bP := some (p ++ [false]),
                        bQ := bQ, aStack := some p :: aStack, aP := some (p ++ [false]),
                        aCreated := some (p ++ [false]),
                        aRoot := A.updateAt p
                          (fun n => n.setLeft (some (.mk (n.value + 1) none none))) } := by
              simp only [addStep, hfb, hchk, hfa, TNode.left]
              rfl
            have hpre : iterSteps (addStep bTree) 2
                { label := .t2, bStack := bStack, bP := some p, bQ := bQ,
                  aStack := aStack, aP := some p, aCreated := aCr, aRoot := A } =
                some { label := .t2, bStack := p :: bStack, bP := some (p ++ [false]),
                       bQ := bQ, aStack := some p :: aStack, aP := some (p ++ [false]),
                       aCreated := some (p ++ [false]),
                       aRoot := A.updateAt p
                         (fun n => n.setLeft (some (.mk (n.value + 1) none none))) } := by
              simp only [iterSteps, hs1, hs2]
            have hfa1 : (A.updateAt p
                (fun n => n.setLeft (some (.mk (n.value + 1) none none)))).follow p =
                some (TNode.mk av (some (TNode.mk (av + 1) none none)) ar) :=
              follow_updateAt_self hfa _
            have hfal : (A.updateAt p
                (fun n => n.setLeft (some (.mk (n.value + 1) none none)))).follow
                  (p ++ [false]) = some (TNode.mk (av + 1) none none) :=
              follow_snoc_false hfa1 rfl
            obtain ⟨kL, crL, hkL, hrunL, hcrL⟩ := ih bTree blc (p ++ [false])
              (p :: bStack) bQ (some p :: aStack) (some (p ++ [false]))
              (A.updateAt p (fun n => n.setLeft (some (.mk (n.value + 1) none none))))
              (TNode.mk (av + 1) none none) hcountl hfbl hfal hbQl (Or.inl rfl)
            rw [show (decide ((some (p ++ [false]) : Option (List Bool)) =
              some (p ++ [false]))) = true from decide_eq_true rfl] at hrunL
            have hfaM : ((A.updateAt p (fun n => n.setLeft (some (.mk (n.value + 1) none none)))).updateAt (p ++ [false]) (fun _ => mergeNode (TNode.mk (av + 1) none none) true blc)).follow p = some (TNode.mk av (some (mergeNode (TNode.mk (av + 1) none none) true blc)) ar) := by
              simp only [updateAt_append, updateAt_updateAt]
              exact follow_updateAt_self hfa _
            have hchkM : aIsLeafCheck ((A.updateAt p (fun n => n.setLeft (some (.mk (n.value + 1) none none)))).updateAt (p ++ [false]) (fun _ => mergeNode (TNode.mk (av + 1) none none) true blc)) (some p) crL = some false := by
              simp only [aIsLeafCheck]
              by_cases hc : some p = crL
              · rw [if_pos hc]
              · rw [if_neg hc]
                simp only [hfaM]
                rfl
            have hcrfinL : crL = aCr ∨ ∃ s, s ≠ [] ∧ crL = some (p ++ s) := by
              rcases hcrL with h | ⟨s, hs, h⟩
              · exact Or.inr ⟨[false], by simp, h⟩
              · exact Or.inr ⟨false :: s, by simp,
                  by rw [h, List.append_assoc, List.singleton_append]⟩
            have hsMpop : addStep bTree
                { label := .t4, bStack := p :: bStack, bP := some (p ++ [false]),
                  bQ := some (p ++ [false]), aStack := some p :: aStack,
                  aP := some (p ++ [false]), aCreated := crL, aRoot := (A.updateAt p (fun n => n.setLeft (some (.mk (n.value + 1) none none)))).updateAt (p ++ [false]) (fun _ => mergeNode (TNode.mk (av + 1) none none) true blc) } =
                .cont { label := .t5, bStack := bStack, bP := some p,
                        bQ := some (p ++ [false]), aStack := aStack, aP := some p,
                        aCreated := crL, aRoot := (A.updateAt p (fun n => n.setLeft (some (.mk (n.value + 1) none none)))).updateAt (p ++ [false]) (fun _ => mergeNode (TNode.mk (av + 1) none none) true blc) } := by
              simp [addStep]
            cases ar with
            | none =>
              have hsMdesc : addStep bTree
                  { label := .t5, bStack := bStack, bP := some p,
                    bQ := some (p ++ [false]), aStack := aStack, aP := some p,
                    aCreated := crL, aRoot := (A.updateAt p (fun n => n.setLeft (some (.mk (n.value + 1) none none)))).updateAt (p ++ [false]) (fun _ => mergeNode (TNode.mk (av + 1) none none) true blc) } =
                  .cont { label := .t2, bStack := p :: bStack, bP := some (p ++ [true]),
                          bQ := some (p ++ [false]), aStack := some p :: aStack,
                          aP := some (p ++ [true]), aCreated := some (p ++ [true]),
                          aRoot := ((A.updateAt p (fun n => n.setLeft (some (.mk (n.value + 1) none none)))).updateAt (p ++ [false]) (fun _ => mergeNode (TNode.mk (av + 1) none none) true blc)).updateAt p (fun n => n.setRight (some (.mk (n.value + 1) none none))) } := by
                simp only [addStep, hchkM, hfb, TNode.right, Bool.false_or]
                rw [hbq2]
                simp only [hfaM, TNode.right]
                rfl
              have hmid : iterSteps (addStep bTree) 2
                  { label := .t4, bStack := p :: bStack, bP := some (p ++ [false]),
                    bQ := some (p ++ [false]), aStack := some p :: aStack,
                    aP := some (p ++ [false]), aCreated := crL, aRoot := (A.updateAt p (fun n => n.setLeft (some (.mk (n.value + 1) none none)))).updateAt (p ++ [false]) (fun _ => mergeNode (TNode.mk (av + 1) none none) true blc) } =
                  some { label := .t2, bStack := p :: bStack, bP := some (p ++ [true]),
                         bQ := some (p ++ [false]), aStack := some p :: aStack,
                         aP := some (p ++ [true]), aCreated := some (p ++ [true]),
                         aRoot := ((A.updateAt p (fun n => n.setLeft (some (.mk (n.value + 1) none none)))).updateAt (p ++ [false]) (fun _ => mergeNode (TNode.mk (av + 1) none none) true blc)).updateAt p (fun n => n.setRight (some (.mk (n.value + 1) none none))) } := by
                simp only [iterSteps, hsMpop, hsMdesc]
              have hfa3 : (((A.updateAt p (fun n => n.setLeft (some (.mk (n.value + 1) none none)))).updateAt (p ++ [false]) (fun _ => mergeNode (TNode.mk (av + 1) none none) true blc)).updateAt p (fun n => n.setRight (some (.mk (n.value + 1) none none)))).follow p =
                  some (TNode.mk av (some (mergeNode (TNode.mk (av + 1) none none) true blc))
                    (some (TNode.mk (av + 1) none none))) := by
                simp only [updateAt_append, updateAt_updateAt]
                exact follow_updateAt_self hfa _
              have hfar : (((A.updateAt p (fun n => n.setLeft (some (.mk (n.value + 1) none none)))).updateAt (p ++ [false]) (fun _ => mergeNode (TNode.mk (av + 1) none none) true blc)).updateAt p (fun n => n.setRight (some (.mk (n.value + 1) none none)))).follow (p ++ [true]) =
                  some (TNode.mk (av + 1) none none) :=
                follow_snoc_true hfa3 rfl
              obtain ⟨kR, crR, hkR, hrunR, hcrR⟩ := ih bTree brc (p ++ [true])
                (p :: bStack) (some (p ++ [false])) (some p :: aStack)
                (some (p ++ [true]))
                (((A.updateAt p (fun n => n.setLeft (some (.mk (n.value + 1) none none)))).updateAt (p ++ [false]) (fun _ => mergeNode (TNode.mk (av + 1) none none) true blc)).updateAt p (fun n => n.setRight (some (.mk (n.value + 1) none none))))
                (TNode.mk (av + 1) none none) hcountr hfbr hfar hbQr (Or.inl rfl)
              rw [show (decide ((some (p ++ [true]) : Option (List Bool)) =
                some (p ++ [true]))) = true from decide_eq_true rfl] at hrunR
              have hcrfin : crR = aCr ∨ ∃ s, s ≠ [] ∧ crR = some (p ++ s) := by
                rcases hcrR with h | ⟨s, hs, h⟩
                · exact Or.inr ⟨[true], by simp, h⟩
                · exact Or.inr ⟨true :: s, by simp,
                    by rw [h, List.append_assoc, List.singleton_append]⟩
              have hfa2 : ((((A.updateAt p (fun n => n.setLeft (some (.mk (n.value + 1) none none)))).updateAt (p ++ [false]) (fun _ => mergeNode (TNode.mk (av + 1) none none) true blc)).updateAt p (fun n => n.setRight (some (.mk (n.value + 1) none none)))).updateAt (p ++ [true]) (fun _ => mergeNode (TNode.mk (av + 1) none none) true brc)).follow p =
                  some (TNode.mk av (some (mergeNode (TNode.mk (av + 1) none none) true blc)) (some (mergeNode (TNode.mk (av + 1) none none) true brc))) := by
                simp only [updateAt_append, updateAt_updateAt]
                exact follow_updateAt_self hfa _
              have hchk7 : aIsLeafCheck ((((A.updateAt p (fun n => n.setLeft (some (.mk (n.value + 1) none none)))).updateAt (p ++ [false]) (fun _ => mergeNode (TNode.mk (av + 1) none none) true blc)).updateAt p (fun n => n.setRight (some (.mk (n.value + 1) none none)))).updateAt (p ++ [true]) (fun _ => mergeNode (TNode.mk (av + 1) none none) true brc)) (some p) crR = some false := by
                simp only [aIsLeafCheck]
                by_cases hc : some p = crR
                · rw [if_pos hc]
                · rw [if_neg hc]
                  simp only [hfa2]
                  rfl
              have hkbound : 2 + (kL + (2 + (kR + 3))) ≤
                  9 * (TNode.mk bv (some blc) (some brc)).nodeCount := by
                simp only [TNode.nodeCount]
                omega
              have hM : mergeNode (TNode.mk av none none) (decide (aCr = some p))
                  (TNode.mk bv (some blc) (some brc)) =
                  (if ((mergeNode (TNode.mk (av + 1) none none) true blc).isLeaf && (mergeNode (TNode.mk (av + 1) none none) true brc).isLeaf) = true
                   then TNode.mk av none none
                   else TNode.mk av (some (mergeNode (TNode.mk (av + 1) none none) true blc)) (some (mergeNode (TNode.mk (av + 1) none none) true brc))) := by
                have hacp : aCr = some p := haL.resolve_right (by simp [TNode.isLeaf])
                rw [decide_eq_true hacp]
                rfl
              by_cases hcol : ((mergeNode (TNode.mk (av + 1) none none) true blc).isLeaf && (mergeNode (TNode.mk (av + 1) none none) true brc).isLeaf) = true
              · have hs8 : addStep bTree
                    { label := .t6, bStack := bStack, bP := some p,
                      bQ := some (p ++ [true]), aStack := aStack, aP := some p,
                      aCreated := crR,
                      aRoot := (((A.updateAt p (fun n => n.setLeft (some (.mk (n.value + 1) none none)))).updateAt (p ++ [false]) (fun _ => mergeNode (TNode.mk (av + 1) none none) true blc)).updateAt p (fun n => n.setRight (some (.mk (n.value + 1) none none)))).updateAt (p ++ [true]) (fun _ => mergeNode (TNode.mk (av + 1) none none) true brc) } =
                    .cont { label := .t4, bStack := bStack, bP := some p,
                            bQ := some p, aStack := aStack, aP := some p,
                            aCreated := crR,
                            aRoot := ((((A.updateAt p (fun n => n.setLeft (some (.mk (n.value + 1) none none)))).updateAt (p ++ [false]) (fun _ => mergeNode (TNode.mk (av + 1) none none) true blc)).updateAt p (fun n => n.setRight (some (.mk (n.value + 1) none none)))).updateAt (p ++ [true]) (fun _ => mergeNode (TNode.mk (av + 1) none none) true brc)).updateAt p (fun n => .mk n.value none none) } := by
                  simp only [addStep, hfa2, TNode.left, TNode.right]
                  rw [if_pos hcol]
                have hroot : ((((A.updateAt p (fun n => n.setLeft (some (.mk (n.value + 1) none none)))).updateAt (p ++ [false]) (fun _ => mergeNode (TNode.mk (av + 1) none none) true blc)).updateAt p (fun n => n.setRight (some (.mk (n.value + 1) none none)))).updateAt (p ++ [true]) (fun _ => mergeNode (TNode.mk (av + 1) none none) true brc)).updateAt p (fun n => .mk n.value none none) =
                    A.updateAt p (fun _ => mergeNode (TNode.mk av none none)
                      (decide (aCr = some p)) (TNode.mk bv (some blc) (some brc))) := by
                  simp only [updateAt_append, updateAt_updateAt]
                  apply updateAt_congr hfa
                  show TNode.mk av none none =
                    mergeNode (TNode.mk av none none) (decide (aCr = some p))
                      (TNode.mk bv (some blc) (some brc))
                  rw [hM, if_pos hcol]
                refine ⟨2 + (kL + (2 + (kR + 3))), crR, hkbound, ?_, hcrfin⟩
                rw [iterSteps_append_some hpre, iterSteps_append_some hrunL,
                  iterSteps_append_some hmid, iterSteps_append_some hrunR, ← hroot]
                exact hsuffix crR _ hchk7 _ hs8
              · have hs8 : addStep bTree
                    { label := .t6, bStack := bStack, bP := some p,
                      bQ := some (p ++ [true]), aStack := aStack, aP := some p,
                      aCreated := crR,
                      aRoot := (((A.updateAt p (fun n => n.setLeft (some (.mk (n.value + 1) none none)))).updateAt (p ++ [false]) (fun _ => mergeNode (TNode.mk (av + 1) none none) true blc)).updateAt p (fun n => n.setRight (some (.mk (n.value + 1) none none)))).updateAt (p ++ [true]) (fun _ => mergeNode (TNode.mk (av + 1) none none) true brc) } =
                    .cont { label := .t4, bStack := bStack, bP := some p,
                            bQ := some p, aStack := aStack, aP := some p,
                            aCreated := crR,
                            aRoot := (((A.updateAt p (fun n => n.setLeft (some (.mk (n.value + 1) none none)))).updateAt (p ++ [false]) (fun _ => mergeNode (TNode.mk (av + 1) none none) true blc)).updateAt p (fun n => n.setRight (some (.mk (n.value + 1) none none)))).updateAt (p ++ [true]) (fun _ => mergeNode (TNode.mk (av + 1) none none) true brc) } := by
                  simp only [addStep, hfa2, TNode.left, TNode.right]
                  rw [if_neg hcol]
                have hroot : ((((A.updateAt p (fun n => n.setLeft (some (.mk (n.value + 1) none none)))).updateAt (p ++ [false]) (fun _ => mergeNode (TNode.mk (av + 1) none none) true blc)).updateAt p (fun n => n.setRight (some (.mk (n.value + 1) none none)))).updateAt (p ++ [true]) (fun _ => mergeNode (TNode.mk (av + 1) none none) true brc)) =
                    A.updateAt p (fun _ => mergeNode (TNode.mk av none none)
                      (decide (aCr = some p)) (TNode.mk bv (some blc) (some brc))) := by
                  simp only [updateAt_append, updateAt_updateAt]
                  apply updateAt_congr hfa
                  show TNode.mk av (some (mergeNode (TNode.mk (av + 1) none none) true blc)) (some (mergeNode (TNode.mk (av + 1) none none) true brc)) =
                    mergeNode (TNode.mk av none none) (decide (aCr = some p))
                      (TNode.mk bv (some blc) (some brc))
                  rw [hM, if_neg hcol]
                refine ⟨2 + (kL + (2 + (kR + 3))), crR, hkbound, ?_, hcrfin⟩
                rw [iterSteps_append_some hpre, iterSteps_append_some hrunL,
                  iterSteps_append_some hmid, iterSteps_append_some hrunR, ← hroot]
                exact hsuffix crR _ hchk7 _ hs8
            | some arc =>
              have hsMdesc : addStep bTree
                  { label := .t5, bStack := bStack, bP := some p,
                    bQ := some (p ++ [false]), aStack := aStack, aP := some p,
                    aCreated := crL, aRoot := (A.updateAt p (fun n => n.setLeft (some (.mk (n.value + 1) none none)))).updateAt (p ++ [false]) (fun _ => mergeNode (TNode.mk (av + 1) none none) true blc) } =
                  .cont { label := .t2, bStack := p :: bStack, bP := some (p ++ [true]),
                          bQ := some (p ++ [false]), aStack := some p :: aStack,
                          aP := some (p ++ [true]), aCreated := crL,
                          aRoot := (A.updateAt p (fun n => n.setLeft (some (.mk (n.value + 1) none none)))).updateAt (p ++ [false]) (fun _ => mergeNode (TNode.mk (av + 1) none none) true blc) } := by
                simp only [addStep, hchkM, hfb, TNode.right, Bool.false_or]
                rw [hbq2]
                simp only [hfaM, TNode.right]
                rfl
              have hmid : iterSteps (addStep bTree) 2
                  { label := .t4, bStack := p :: bStack, bP := some (p ++ [false]),
                    bQ := some (p ++ [false]), aStack := some p :: aStack,
                    aP := some (p ++ [false]), aCreated := crL, aRoot := (A.updateAt p (fun n => n.setLeft (some (.mk (n.value + 1) none none)))).updateAt (p ++ [false]) (fun _ => mergeNode (TNode.mk (av + 1) none none) true blc) } =
                  some { label := .t2, bStack := p :: bStack, bP := some (p ++ [true]),
                         bQ := some (p ++ [false]), aStack := some p :: aStack,
                         aP := some (p ++ [true]), aCreated := crL,
                         aRoot := (A.updateAt p (fun n => n.setLeft (some (.mk (n.value + 1) none none)))).updateAt (p ++ [false]) (fun _ => mergeNode (TNode.mk (av + 1) none none) true blc) } := by
                simp only [iterSteps, hsMpop, hsMdesc]
              have hfar : ((A.updateAt p (fun n => n.setLeft (some (.mk (n.value + 1) none none)))).updateAt (p ++ [false]) (fun _ => mergeNode (TNode.mk (av + 1) none none) true blc)).follow (p ++ [true]) = some arc :=
                follow_snoc_true hfaM rfl
              have hacr2 : ∀ r, crL = some r → ¬ underPath (p ++ [true]) r := by
                intro r hr hu
                rcases hcrL with h | ⟨s, hs, h⟩
                · rw [h] at hr
                  injection hr with hr
                  subst hr
                  exact not_underPath_sibling p true false (by simp) [] hu
                · rw [h] at hr
                  injection hr with hr
                  subst hr
                  rw [List.append_assoc, List.singleton_append] at hu
                  exact not_underPath_sibling p true false (by simp) s hu
              obtain ⟨kR, crR, hkR, hrunR, hcrR⟩ := ih bTree brc (p ++ [true])
                (p :: bStack) (some (p ++ [false])) (some p :: aStack) crL
                ((A.updateAt p (fun n => n.setLeft (some (.mk (n.value + 1) none none)))).updateAt (p ++ [false]) (fun _ => mergeNode (TNode.mk (av + 1) none none) true blc)) arc hcountr hfbr hfar hbQr (Or.inr hacr2)
              have hflagR : decide (crL = some (p ++ [true])) = false :=
                decide_eq_false (fun hq => hacr2 (p ++ [true]) hq ⟨[], by simp⟩)
              rw [hflagR] at hrunR
              have hcrfin : crR = aCr ∨ ∃ s, s ≠ [] ∧ crR = some (p ++ s) := by
                rcases hcrR with h | ⟨s, hs, h⟩
                · rw [h]
                  exact hcrfinL
                · exact Or.inr ⟨true :: s, by simp,
                    by rw [h, List.append_assoc, List.singleton_append]⟩
              have hfa2 : (((A.updateAt p (fun n => n.setLeft (some (.mk (n.value + 1) none none)))).updateAt (p ++ [false]) (fun _ => mergeNode (TNode.mk (av + 1) none none) true blc)).updateAt (p ++ [true]) (fun _ => mergeNode arc false brc)).follow p =
                  some (TNode.mk av (some (mergeNode (TNode.mk (av + 1) none none) true blc)) (some (mergeNode arc false brc))) := by
                simp only [updateAt_append, updateAt_updateAt]
                exact follow_updateAt_self hfa _
              have hchk7 : aIsLeafCheck (((A.updateAt p (fun n => n.setLeft (some (.mk (n.value + 1) none none)))).updateAt (p ++ [false]) (fun _ => mergeNode (TNode.mk (av + 1) none none) true blc)).updateAt (p ++ [true]) (fun _ => mergeNode arc false brc)) (some p) crR = some false := by
                simp only [aIsLeafCheck]
                by_cases hc : some p = crR
                · rw [if_pos hc]
                · rw [if_neg hc]
                  simp only [hfa2]
                  rfl
              have hkbound : 2 + (kL + (2 + (kR + 3))) ≤
                  9 * (TNode.mk bv (some blc) (some brc)).nodeCount := by
                simp only [TNode.nodeCount]
                omega
              have hM : mergeNode (TNode.mk av none (some arc)) (decide (aCr = some p))
                  (TNode.mk bv (some blc) (some brc)) =
                  (if ((mergeNode (TNode.mk (av + 1) none none) true blc).isLeaf && (mergeNode arc false brc).isLeaf) = true
                   then TNode.mk av none none
                   else TNode.mk av (some (mergeNode (TNode.mk (av + 1) none none) true blc)) (some (mergeNode arc false brc))) := by
                by_cases hc : aCr = some p
                · rw [decide_eq_true hc]
                  rfl
                · rw [decide_eq_false hc]
                  rfl
              by_cases hcol : ((mergeNode (TNode.mk (av + 1) none none) true blc).isLeaf && (mergeNode arc false brc).isLeaf) = true
              · have hs8 : addStep bTree
                    { label := .t6, bStack := bStack, bP := some p,
                      bQ := some (p ++ [true]), aStack := aStack, aP := some p,
                      aCreated := crR,
                      aRoot := ((A.updateAt p (fun n => n.setLeft (some (.mk (n.value + 1) none none)))).updateAt (p ++ [false]) (fun _ => mergeNode (TNode.mk (av + 1) none none) true blc)).updateAt (p ++ [true]) (fun _ => mergeNode arc false brc) } =
                    .cont { label := .t4, bStack := bStack, bP := some p,
                            bQ := some p, aStack := aStack, aP := some p,
                            aCreated := crR,
                            aRoot := (((A.updateAt p (fun n => n.setLeft (some (.mk (n.value + 1) none none)))).updateAt (p ++ [false]) (fun _ => mergeNode (TNode.mk (av + 1) none none) true blc)).updateAt (p ++ [true]) (fun _ => mergeNode arc false brc)).updateAt p (fun n => .mk n.value none none) } := by
                  simp only [addStep, hfa2, TNode.left, TNode.right]
                  rw [if_pos hcol]
                have hroot : (((A.updateAt p (fun n => n.setLeft (some (.mk (n.value + 1) none none)))).updateAt (p ++ [false]) (fun _ => mergeNode (TNode.mk (av + 1) none none) true blc)).updateAt (p ++ [true]) (fun _ => mergeNode arc false brc)).updateAt p (fun n => .mk n.value none none) =
                    A.updateAt p (fun _ => mergeNode (TNode.mk av none (some arc))
                      (decide (aCr = some p)) (TNode.mk bv (some blc) (some brc))) := by
                  simp only [updateAt_append, updateAt_updateAt]
                  apply updateAt_congr hfa
                  show TNode.mk av none none =
                    mergeNode (TNode.mk av none (some arc)) (decide (aCr = some p))
                      (TNode.mk bv (some blc) (some brc))
                  rw [hM, if_pos hcol]
                refine ⟨2 + (kL + (2 + (kR + 3))), crR, hkbound, ?_, hcrfin⟩
                rw [iterSteps_append_some hpre, iterSteps_append_some hrunL,
                  iterSteps_append_some hmid, iterSteps_append_some hrunR, ← hroot]
                exact hsuffix crR _ hchk7 _ hs8
              · have hs8 : addStep bTree
                    { label := .t6, bStack := bStack, bP := some p,
                      bQ := some (p ++ [true]), aStack := aStack, aP := some p,
                      aCreated := crR,
                      aRoot := ((A.updateAt p (fun n => n.setLeft (some (.mk (n.value + 1) none none)))).updateAt (p ++ [false]) (fun _ => mergeNode (TNode.mk (av + 1) none none) true blc)).updateAt (p ++ [true]) (fun _ => mergeNode arc false brc) } =
                    .cont { label := .t4, bStack := bStack, bP := some p,
                            bQ := some p, aStack := aStack, aP := some p,
                            aCreated := crR,
                            aRoot := ((A.updateAt p (fun n => n.setLeft (some (.mk (n.value + 1) none none)))).updateAt (p ++ [false]) (fun _ => mergeNode (TNode.mk (av + 1) none none) true blc)).updateAt (p ++ [true]) (fun _ => mergeNode arc false brc) } := by
                  simp only [addStep, hfa2, TNode.left, TNode.right]
                  rw [if_neg hcol]
                have hroot : (((A.updateAt p (fun n => n.setLeft (some (.mk (n.value + 1) none none)))).updateAt (p ++ [false]) (fun _ => mergeNode (TNode.mk (av + 1) none none) true blc)).updateAt (p ++ [true]) (fun _ => mergeNode arc false brc)) =
                    A.updateAt p (fun _ => mergeNode (TNode.mk av none (some arc))
                      (decide (aCr = some p)) (TNode.mk bv (some blc) (some brc))) := by
                  simp only [updateAt_append, updateAt_updateAt]
                  apply updateAt_congr hfa
                  show TNode.mk av (some (mergeNode (TNode.mk (av + 1) none none) true blc)) (some (mergeNode arc false brc)) =
                    mergeNode (TNode.mk av none (some arc)) (decide (aCr = some p))
                      (TNode.mk bv (some blc) (some brc))
                  rw [hM, if_neg hcol]
                refine ⟨2 + (kL + (2 + (kR + 3))), crR, hkbound, ?_, hcrfin⟩
                rw [iterSteps_append_some hpre, iterSteps_append_some hrunL,
                  iterSteps_append_some hmid, iterSteps_append_some hrunR, ← hroot]
                exact hsuffix crR _ hchk7 _ hs8
          | some alc =>
            have hs2 : addStep bTree
                { label := .t3, bStack := bStack, bP := some p, bQ := bQ,
                  aStack := aStack, aP := some p, aCreated := aCr, aRoot := A } =
                .cont { label := .t2, bStack := p :: bStack, bP := some (p ++ [false]),
                        bQ := bQ, aStack := some p :: aStack, aP := some (p ++ [false]),
                        aCreated := aCr, aRoot := A } := by
              simp only [addStep, hfb, hchk, hfa, TNode.left]
              rfl
            have hpre : iterSteps (addStep bTree) 2
                { label := .t2, bStack := bStack, bP := some p, bQ := bQ,
                  aStack := aStack, aP := some p, aCreated := aCr, aRoot := A } =
                some { label := .t2, bStack := p :: bStack, bP := some (p ++ [false]),
                       bQ := bQ, aStack := some p :: aStack, aP := some (p ++ [false]),
                       aCreated := aCr, aRoot := A } := by
              simp only [iterSteps, hs1, hs2]
            have hfal : A.follow (p ++ [false]) = some alc :=
              follow_snoc_false hfa rfl
            have hacrl : ∀ r, aCr = some r → ¬ underPath (p ++ [false]) r := by
              intro r hr hu
              rcases hacr with h | h
              · rw [h] at hr
                injection hr with hr
                subst hr
                exact not_underPath_shorter (by simp) hu
              · exact h r hr (underPath_of_extend hu)
            obtain ⟨kL, crL, hkL, hrunL, hcrL⟩ := ih bTree blc (p ++ [false])
              (p :: bStack) bQ (some p :: aStack) aCr A alc hcountl hfbl hfal hbQl
              (Or.inr hacrl)
            have hflagL : decide (aCr = some (p ++ [false])) = false :=
              decide_eq_false (fun hq => hacrl (p ++ [false]) hq ⟨[], by simp⟩)
            rw [hflagL] at hrunL
            have hfaM : (A.updateAt (p ++ [false]) (fun _ => mergeNode alc false blc)).follow p = some (TNode.mk av (some (mergeNode alc false blc)) ar) := by
              simp only [updateAt_append, updateAt_updateAt]
              exact follow_updateAt_self hfa _
            have hchkM : aIsLeafCheck (A.updateAt (p ++ [false]) (fun _ => mergeNode alc false blc)) (some p) crL = some false := by
              simp only [aIsLeafCheck]
              by_cases hc : some p = crL
              · rw [if_pos hc]
              · rw [if_neg hc]
                simp only [hfaM]
                rfl
            have hcrfinL : crL = aCr ∨ ∃ s, s ≠ [] ∧ crL = some (p ++ s) := by
              rcases hcrL with h | ⟨s, hs, h⟩
              · exact Or.inl h
              · exact Or.inr ⟨false :: s, by simp,
                  by rw [h, List.append_assoc, List.singleton_append]⟩
            have hsMpop : addStep bTree
                { label := .t4, bStack := p :: bStack, bP := some (p ++ [false]),
                  bQ := some (p ++ [false]), aStack := some p :: aStack,
                  aP := some (p ++ [false]), aCreated := crL, aRoot := A.updateAt (p ++ [false]) (fun _ => mergeNode alc false blc) } =
                .cont { label := .t5, bStack := bStack, bP := some p,
                        bQ := some (p ++ [false]), aStack := aStack, aP := some p,
                        aCreated := crL, aRoot := A.updateAt (p ++ [false]) (fun _ => mergeNode alc false blc) } := by
              simp [addStep]
            cases ar with
            | none =>
              have hsMdesc : addStep bTree
                  { label := .t5, bStack := bStack, bP := some p,
                    bQ := some (p ++ [false]), aStack := aStack, aP := some p,
                    aCreated := crL, aRoot := A.updateAt (p ++ [false]) (fun _ => mergeNode alc false blc) } =
                  .cont { label := .t2, bStack := p :: bStack, bP := some (p ++ [true]),
                          bQ := some (p ++ [false]), aStack := some p :: aStack,
                          aP := some (p ++ [true]), aCreated := some (p ++ [true]),
                          aRoot := (A.updateAt (p ++ [false]) (fun _ => mergeNode alc false blc)).updateAt p (fun n => n.setRight (some (.mk (n.value + 1) none none))) } := by
                simp only [addStep, hchkM, hfb, TNode.right, Bool.false_or]
                rw [hbq2]
                simp only [hfaM, TNode.right]
                rfl
              have hmid : iterSteps (addStep bTree) 2
                  { label := .t4, bStack := p :: bStack, bP := some (p ++ [false]),
                    bQ := some (p ++ [false]), aStack := some p :: aStack,
                    aP := some (p ++ [false]), aCreated := crL, aRoot := A.updateAt (p ++ [false]) (fun _ => mergeNode alc false blc) } =
                  some { label := .t2, bStack := p :: bStack, bP := some (p ++ [true]),
                         bQ := some (p ++ [false]), aStack := some p :: aStack,
                         aP := some (p ++ [true]), aCreated := some (p ++ [true]),
                         aRoot := (A.updateAt (p ++ [false]) (fun _ => mergeNode alc false blc)).updateAt p (fun n => n.setRight (some (.mk (n.value + 1) none none))) } := by
                simp only [iterSteps, hsMpop, hsMdesc]
              have hfa3 : ((A.updateAt (p ++ [false]) (fun _ => mergeNode alc false blc)).updateAt p (fun n => n.setRight (some (.mk (n.value + 1) none none)))).follow p =
                  some (TNode.mk av (some (mergeNode alc false blc))
                    (some (TNode.mk (av + 1) none none))) := by
                simp only [updateAt_append, updateAt_updateAt]
                exact follow_updateAt_self hfa _
              have hfar : ((A.updateAt (p ++ [false]) (fun _ => mergeNode alc false blc)).updateAt p (fun n => n.setRight (some (.mk (n.value + 1) none none)))).follow (p ++ [true]) =
                  some (TNode.mk (av + 1) none none) :=
                follow_snoc_true hfa3 rfl
              obtain ⟨kR, crR, hkR, hrunR, hcrR⟩ := ih bTree brc (p ++ [true])
                (p :: bStack) (some (p ++ [false])) (some p :: aStack)
                (some (p ++ [true]))
                ((A.updateAt (p ++ [false]) (fun _ => mergeNode alc false blc)).updateAt p (fun n => n.setRight (some (.mk (n.value + 1) none none))))
                (TNode.mk (av + 1) none none) hcountr hfbr hfar hbQr (Or.inl rfl)
              rw [show (decide ((some (p ++ [true]) : Option (List Bool)) =
                some (p ++ [true]))) = true from decide_eq_true rfl] at hrunR
              have hcrfin : crR = aCr ∨ ∃ s, s ≠ [] ∧ crR = some (p ++ s) := by
                rcases hcrR with h | ⟨s, hs, h⟩
                · exact Or.inr ⟨[true], by simp, h⟩
                · exact Or.inr ⟨true :: s, by simp,
                    by rw [h, List.append_assoc, List.singleton_append]⟩
              have hfa2 : (((A.updateAt (p ++ [false]) (fun _ => mergeNode alc false blc)).updateAt p (fun n => n.setRight (some (.mk (n.value + 1) none none)))).updateAt (p ++ [true]) (fun _ => mergeNode (TNode.mk (av + 1) none none) true brc)).follow p =
                  some (TNode.mk av (some (mergeNode alc false blc)) (some (mergeNode (TNode.mk (av + 1) none none) true brc))) := by
                simp only [updateAt_append, updateAt_updateAt]
                exact follow_updateAt_self hfa _
              have hchk7 : aIsLeafCheck (((A.updateAt (p ++ [false]) (fun _ => mergeNode alc false blc)).updateAt p (fun n => n.setRight (some (.mk (n.value + 1) none none)))).updateAt (p ++ [true]) (fun _ => mergeNode (TNode.mk (av + 1) none none) true brc)) (some p) crR = some false := by
                simp only [aIsLeafCheck]
                by_cases hc : some p = crR
                · rw [if_pos hc]
                · rw [if_neg hc]
                  simp only [hfa2]
                  rfl
              have hkbound : 2 + (kL + (2 + (kR + 3))) ≤
                  9 * (TNode.mk bv (some blc) (some brc)).nodeCount := by
                simp only [TNode.nodeCount]
                omega
              have hM : mergeNode (TNode.mk av (some alc) none) (decide (aCr = some p))
                  (TNode.mk bv (some blc) (some brc)) =
                  (if ((mergeNode alc false blc).isLeaf && (mergeNode (TNode.mk (av + 1) none none) true brc).isLeaf) = true
                   then TNode.mk av none none
                   else TNode.mk av (some (mergeNode alc false blc)) (some (mergeNode (TNode.mk (av + 1) none none) true brc))) := by
                by_cases hc : aCr = some p
                · rw [decide_eq_true hc]
                  rfl
                · rw [decide_eq_false hc]
                  rfl
              by_cases hcol : ((mergeNode alc false blc).isLeaf && (mergeNode (TNode.mk (av + 1) none none) true brc).isLeaf) = true
              · have hs8 : addStep bTree
                    { label := .t6, bStack := bStack, bP := some p,
                      bQ := some (p ++ [true]), aStack := aStack, aP := some p,
                      aCreated := crR,
                      aRoot := ((A.updateAt (p ++ [false]) (fun _ => mergeNode alc false blc)).updateAt p (fun n => n.setRight (some (.mk (n.value + 1) none none)))).updateAt (p ++ [true]) (fun _ => mergeNode (TNode.mk (av + 1) none none) true brc) } =
                    .cont { label := .t4, bStack := bStack, bP := some p,
                            bQ := some p, aStack := aStack, aP := some p,
                            aCreated := crR,
                            aRoot := (((A.updateAt (p ++ [false]) (fun _ => mergeNode alc false blc)).updateAt p (fun n => n.setRight (some (.mk (n.value + 1) none none)))).updateAt (p ++ [true]) (fun _ => mergeNode (TNode.mk (av + 1) none none) true brc)).updateAt p (fun n => .mk n.value none none) } := by
                  simp only [addStep, hfa2, TNode.left, TNode.right]
                  rw [if_pos hcol]
                have hroot : (((A.updateAt (p ++ [false]) (fun _ => mergeNode alc false blc)).updateAt p (fun n => n.setRight (some (.mk (n.value + 1) none none)))).updateAt (p ++ [true]) (fun _ => mergeNode (TNode.mk (av + 1) none none) true brc)).updateAt p (fun n => .mk n.value none none) =
                    A.updateAt p (fun _ => mergeNode (TNode.mk av (some alc) none)
                      (decide (aCr = some p)) (TNode.mk bv (some blc) (some brc))) := by
                  simp only [updateAt_append, updateAt_updateAt]
                  apply updateAt_congr hfa
                  show TNode.mk av none none =
                    mergeNode (TNode.mk av (some alc) none) (decide (aCr = some p))
                      (TNode.mk bv (some blc) (some brc))
                  rw [hM, if_pos hcol]
                refine ⟨2 + (kL + (2 + (kR + 3))), crR, hkbound, ?_, hcrfin⟩
                rw [iterSteps_append_some hpre, iterSteps_append_some hrunL,
                  iterSteps_append_some hmid, iterSteps_append_some hrunR, ← hroot]
                exact hsuffix crR _ hchk7 _ hs8
              · have hs8 : addStep bTree
                    { label := .t6, bStack := bStack, bP := some p,
                      bQ := some (p ++ [true]), aStack := aStack, aP := some p,
                      aCreated := crR,
                      aRoot := ((A.updateAt (p ++ [false]) (fun _ => mergeNode alc false blc)).updateAt p (fun n => n.setRight (some (.mk (n.value + 1) none none)))).updateAt (p ++ [true]) (fun _ => mergeNode (TNode.mk (av + 1) none none) true brc) } =
                    .cont { label := .t4, bStack := bStack, bP := some p,
                            bQ := some p, aStack := aStack, aP := some p,
                            aCreated := crR,
                            aRoot := ((A.updateAt (p ++ [false]) (fun _ => mergeNode alc false blc)).updateAt p (fun n => n.setRight (some (.mk (n.value + 1) none none)))).updateAt (p ++ [true]) (fun _ => mergeNode (TNode.mk (av + 1) none none) true brc) } := by
                  simp only [addStep, hfa2, TNode.left, TNode.right]
                  rw [if_neg hcol]
                have hroot : (((A.updateAt (p ++ [false]) (fun _ => mergeNode alc false blc)).updateAt p (fun n => n.setRight (some (.mk (n.value + 1) none none)))).updateAt (p ++ [true]) (fun _ => mergeNode (TNode.mk (av + 1) none none) true brc)) =
                    A.updateAt p (fun _ => mergeNode (TNode.mk av (some alc) none)
                      (decide (aCr = some p)) (TNode.mk bv (some blc) (some brc))) := by
                  simp only [updateAt_append, updateAt_updateAt]
                  apply updateAt_congr hfa
                  show TNode.mk av (some (mergeNode alc false blc)) (some (mergeNode (TNode.mk (av + 1) none none) true brc)) =
                    mergeNode (TNode.mk av (some alc) none) (decide (aCr = some p))
                      (TNode.mk bv (some blc) (some brc))
                  rw [hM, if_neg hcol]
                refine ⟨2 + (kL + (2 + (kR + 3))), crR, hkbound, ?_, hcrfin⟩
                rw [iterSteps_append_some hpre, iterSteps_append_some hrunL,
                  iterSteps_append_some hmid, iterSteps_append_some hrunR, ← hroot]
                exact hsuffix crR _ hchk7 _ hs8
            | some arc =>
              have hsMdesc : addStep bTree
                  { label := .t5, bStack := bStack, bP := some p,
                    bQ := some (p ++ [false]), aStack := aStack, aP := some p,
                    aCreated := crL, aRoot := A.updateAt (p ++ [false]) (fun _ => mergeNode alc false blc) } =
                  .cont { label := .t2, bStack := p :: bStack, bP := some (p ++ [true]),
                          bQ := some (p ++ [false]), aStack := some p :: aStack,
                          aP := some (p ++ [true]), aCreated := crL,
                          aRoot := A.updateAt (p ++ [false]) (fun _ => mergeNode alc false blc) } := by
                simp only [addStep, hchkM, hfb, TNode.right, Bool.false_or]
                rw [hbq2]
                simp only [hfaM, TNode.right]
                rfl
              have hmid : iterSteps (addStep bTree) 2
                  { label := .t4, bStack := p :: bStack, bP := some (p ++ [false]),
                    bQ := some (p ++ [false]), aStack := some p :: aStack,
                    aP := some (p ++ [false]), aCreated := crL, aRoot := A.updateAt (p ++ [false]) (fun _ => mergeNode alc false blc) } =
                  some { label := .t2, bStack := p :: bStack, bP := some (p ++ [true]),
                         bQ := some (p ++ [false]), aStack := some p :: aStack,
                         aP := some (p ++ [true]), aCreated := crL,
                         aRoot := A.updateAt (p ++ [false]) (fun _ => mergeNode alc false blc) } := by
                simp only [iterSteps, hsMpop, hsMdesc]
              have hfar : (A.updateAt (p ++ [false]) (fun _ => mergeNode alc false blc)).follow (p ++ [true]) = some arc :=
                follow_snoc_true hfaM rfl
              have hacr2 : ∀ r, crL = some r → ¬ underPath (p ++ [true]) r := by
                intro r hr hu
                rcases hcrL with h | ⟨s, hs, h⟩
                · rw [h] at hr
                  rcases hacr with h1 | h1
                  · rw [h1] at hr
                    injection hr with hr
                    subst hr
                    exact not_underPath_shorter (by simp) hu
                  · exact h1 r hr (underPath_of_extend hu)
                · rw [h] at hr
                  injection hr with hr
                  subst hr
                  rw [List.append_assoc, List.singleton_append] at hu
                  exact not_underPath_sibling p true false (by simp) s hu
              obtain ⟨kR, crR, hkR, hrunR, hcrR⟩ := ih bTree brc (p ++ [true])
                (p :: bStack) (some (p ++ [false])) (some p :: aStack) crL
                (A.updateAt (p ++ [false]) (fun _ => mergeNode alc false blc)) arc hcountr hfbr hfar hbQr (Or.inr hacr2)
              have hflagR : decide (crL = some (p ++ [true])) = false :=
                decide_eq_false (fun hq => hacr2 (p ++ [true]) hq ⟨[], by simp⟩)
              rw [hflagR] at hrunR
              have hcrfin : crR = aCr ∨ ∃ s, s ≠ [] ∧ crR = some (p ++ s) := by
                rcases hcrR with h | ⟨s, hs, h⟩
                · rw [h]
                  exact hcrfinL
                · exact Or.inr ⟨true :: s, by simp,
                    by rw [h, List.append_assoc, List.singleton_append]⟩
              have hfa2 : ((A.updateAt (p ++ [false]) (fun _ => mergeNode alc false blc)).updateAt (p ++ [true]) (fun _ => mergeNode arc false brc)).follow p =
                  some (TNode.mk av (some (mergeNode alc false blc)) (some (mergeNode arc false brc))) := by
                simp only [updateAt_append, updateAt_updateAt]
                exact follow_updateAt_self hfa _
              have hchk7 : aIsLeafCheck ((A.updateAt (p ++ [false]) (fun _ => mergeNode alc false blc)).updateAt (p ++ [true]) (fun _ => mergeNode arc false brc)) (some p) crR = some false := by
                simp only [aIsLeafCheck]
                by_cases hc : some p = crR
                · rw [if_pos hc]
                · rw [if_neg hc]
                  simp only [hfa2]
                  rfl
              have hkbound : 2 + (kL + (2 + (kR + 3))) ≤
                  9 * (TNode.mk bv (some blc) (some brc)).nodeCount := by
                simp only [TNode.nodeCount]
                omega
              have hM : mergeNode (TNode.mk av (some alc) (some arc)) (decide (aCr = some p))
                  (TNode.mk bv (some blc) (some brc)) =
                  (if ((mergeNode alc false blc).isLeaf && (mergeNode arc false brc).isLeaf) = true
                   then TNode.mk av none none
                   else TNode.mk av (some (mergeNode alc false blc)) (some (mergeNode arc false brc))) := by
                by_cases hc : aCr = some p
                · rw [decide_eq_true hc]
                  rfl
                · rw [decide_eq_false hc]
                  rfl
              by_cases hcol : ((mergeNode alc false blc).isLeaf && (mergeNode arc false brc).isLeaf) = true
              · have hs8 : addStep bTree
                    { label := .t6, bStack := bStack, bP := some p,
                      bQ := some (p ++ [true]), aStack := aStack, aP := some p,
                      aCreated := crR,
                      aRoot := (A.updateAt (p ++ [false]) (fun _ => mergeNode alc false blc)).updateAt (p ++ [true]) (fun _ => mergeNode arc false brc) } =
                    .cont { label := .t4, bStack := bStack, bP := some p,
                            bQ := some p, aStack := aStack, aP := some p,
                            aCreated := crR,
                            aRoot := ((A.updateAt (p ++ [false]) (fun _ => mergeNode alc false blc)).updateAt (p ++ [true]) (fun _ => mergeNode arc false brc)).updateAt p (fun n => .mk n.value none none) } := by
                  simp only [addStep, hfa2, TNode.left, TNode.right]
                  rw [if_pos hcol]
                have hroot : ((A.updateAt (p ++ [false]) (fun _ => mergeNode alc false blc)).updateAt (p ++ [true]) (fun _ => mergeNode arc false brc)).updateAt p (fun n => .mk n.value none none) =
                    A.updateAt p (fun _ => mergeNode (TNode.mk av (some alc) (some arc))
                      (decide (aCr = some p)) (TNode.mk bv (some blc) (some brc))) := by
                  simp only [updateAt_append, updateAt_updateAt]
                  apply updateAt_congr hfa
                  show TNode.mk av none none =
                    mergeNode (TNode.mk av (some alc) (some arc)) (decide (aCr = some p))
                      (TNode.mk bv (some blc) (some brc))
                  rw [hM, if_pos hcol]
                refine ⟨2 + (kL + (2 + (kR + 3))), crR, hkbound, ?_, hcrfin⟩
                rw [iterSteps_append_some hpre, iterSteps_append_some hrunL,
                  iterSteps_append_some hmid, iterSteps_append_some hrunR, ← hroot]
                exact hsuffix crR _ hchk7 _ hs8
              · have hs8 : addStep bTree
                    { label := .t6, bStack := bStack, bP := some p,
                      bQ := some (p ++ [true]), aStack := aStack, aP := some p,
                      aCreated := crR,
                      aRoot := (A.updateAt (p ++ [false]) (fun _ => mergeNode alc false blc)).updateAt (p ++ [true]) (fun _ => mergeNode arc false brc) } =
                    .cont { label := .t4, bStack := bStack, bP := some p,
                            bQ := some p, aStack := aStack, aP := some p,
                            aCreated := crR,
                            aRoot := (A.updateAt (p ++ [false]) (fun _ => mergeNode alc false blc)).updateAt (p ++ [true]) (fun _ => mergeNode arc false brc) } := by
                  simp only [addStep, hfa2, TNode.left, TNode.right]
                  rw [if_neg hcol]
                have hroot : ((A.updateAt (p ++ [false]) (fun _ => mergeNode alc false blc)).updateAt (p ++ [true]) (fun _ => mergeNode arc false brc)) =
                    A.updateAt p (fun _ => mergeNode (TNode.mk av (some alc) (some arc))
                      (decide (aCr = some p)) (TNode.mk bv (some blc) (some brc))) := by
                  simp only [updateAt_append, updateAt_updateAt]
                  apply updateAt_congr hfa
                  show TNode.mk av (some (mergeNode alc false blc)) (some (mergeNode arc false brc)) =
                    mergeNode (TNode.mk av (some alc) (some arc)) (decide (aCr = some p))
                      (TNode.mk bv (some blc) (some brc))
                  rw [hM, if_neg hcol]
                refine ⟨2 + (kL + (2 + (kR + 3))), crR, hkbound, ?_, hcrfin⟩
                rw [iterSteps_append_some hpre, iterSteps_append_some hrunL,
                  iterSteps_append_some hmid, iterSteps_append_some hrunR, ← hroot]
                exact hsuffix crR _ hchk7 _ hs8
        · -- a is a real covering leaf: nothing changes
          push_neg at haL
          obtain ⟨hnacr, haleaf0⟩ := haL
          have haleaf : asub.isLeaf = true := by
            cases h : asub.isLeaf with
            | true => rfl
            | false => exact absurd h haleaf0
          have hchk : aIsLeafCheck A (some p) aCr = some true := by
            simp only [aIsLeafCheck]
            rw [if_neg (fun hc => hnacr hc.symm)]
            simp [hfa, haleaf]
          have hmerge : mergeNode asub (decide (aCr = some p))
              (TNode.mk bv (some blc) (some brc)) = asub := by
            rw [decide_eq_false hnacr]
            exact mergeNode_aleaf asub bv (some blc) (some brc) haleaf
          have hrun : iterSteps (addStep bTree) 6
              { label := .t2, bStack := bStack, bP := some p, bQ := bQ,
                aStack := aStack, aP := some p, aCreated := aCr, aRoot := A } =
              some { label := .t4, bStack := bStack, bP := some p, bQ := some p,
                     aStack := aStack, aP := some p, aCreated := aCr, aRoot := A } := by
            have hs1 : addStep bTree
                { label := .t2, bStack := bStack, bP := some p, bQ := bQ,
                  aStack := aStack, aP := some p, aCreated := aCr, aRoot := A } =
                .cont { label := .t3, bStack := bStack, bP := some p, bQ := bQ,
                        aStack := aStack, aP := some p, aCreated := aCr, aRoot := A } := by
              simp [addStep]
            have hs2 : addStep bTree
                { label := .t3, bStack := bStack, bP := some p, bQ := bQ,
                  aStack := aStack, aP := some p, aCreated := aCr, aRoot := A } =
                .cont { label := .t2, bStack := p :: bStack, bP := none, bQ := bQ,
                        aStack := some p :: aStack, aP := none, aCreated := aCr,
                        aRoot := A } := by
              simp only [addStep, hfb, hchk]
              simp [TNode.isLeaf, TNode.left]
            have hs3 : addStep bTree
                { label := .t2, bStack := p :: bStack, bP := none, bQ := bQ,
                  aStack := some p :: aStack, aP := none, aCreated := aCr, aRoot := A } =
                .cont { label := .t4, bStack := p :: bStack, bP := none, bQ := bQ,
                        aStack := some p :: aStack, aP := none, aCreated := aCr,
                        aRoot := A } := by
              simp [addStep]
            have hs4 : addStep bTree
                { label := .t4, bStack := p :: bStack, bP := none, bQ := bQ,
                  aStack := some p :: aStack, aP := none, aCreated := aCr, aRoot := A } =
                .cont { label := .t5, bStack := bStack, bP := some p, bQ := bQ,
                        aStack := aStack, aP := some p, aCreated := aCr,
                        aRoot := A } := by
              simp [addStep]
            have hs5 : addStep bTree
                { label := .t5, bStack := bStack, bP := some p, bQ := bQ,
                  aStack := aStack, aP := some p, aCreated := aCr, aRoot := A } =
                .cont { label := .t6, bStack := bStack, bP := some p, bQ := bQ,
                        aStack := aStack, aP := some p, aCreated := aCr,
                        aRoot := A } := by
              simp only [addStep, hchk, hfb, TNode.right]
              try simp
            have hs6 : addStep bTree
                { label := .t6, bStack := bStack, bP := some p, bQ := bQ,
                  aStack := aStack, aP := some p, aCreated := aCr, aRoot := A } =
                .cont { label := .t4, bStack := bStack, bP := some p, bQ := some p,
                        aStack := aStack, aP := some p, aCreated := aCr,
                        aRoot := A } := by
              obtain ⟨av, al, ar⟩ := asub
              cases al with
              | some x => simp [TNode.isLeaf] at haleaf
              | none =>
                cases ar with
                | some y => simp [TNode.isLeaf] at haleaf
                | none =>
                  simp only [addStep, hfa]
                  rfl
            simp only [iterSteps, hs1, hs2, hs3, hs4, hs5, hs6]
          have hroot : A = A.updateAt p
              (fun _ => mergeNode asub (decide (aCr = some p))
                (TNode.mk bv (some blc) (some brc))) := by
            conv_lhs => rw [← updateAt_id A p]
            apply updateAt_congr hfa
            show asub = mergeNode asub (decide (aCr = some p))
              (TNode.mk bv (some blc) (some brc))
            rw [hmerge]
          refine ⟨6, aCr, by simp only [TNode.nodeCount]; omega, ?_, Or.inl rfl⟩
          rw [hrun, ← hroot]

/-- Every tree has at least one leaf. -/
theorem leafCount_pos (n : Nat) : ∀ t : TNode, t.nodeCount ≤ n → 1 ≤ t.leafCount := by
  induction n with
  | zero =>
    intro t hle
    exact absurd (le_trans (nodeCount_pos t) hle) (by omega)
  | succ n ih =>
    intro t hle
    obtain ⟨v, l, r⟩ := t
    cases l with
    | none =>
      cases r with
      | none => simp [TNode.leafCount]
      | some rc =>
        simp only [TNode.nodeCount] at hle
        simp only [TNode.leafCount]
        exact ih rc (by omega)
    | some lc =>
      cases r with
      | none =>
        simp only [TNode.nodeCount] at hle
        simp only [TNode.leafCount]
        exact ih lc (by omega)
      | some rc =>
        have h1 := nodeCount_pos rc
        simp only [TNode.nodeCount] at hle
        simp only [TNode.leafCount]
        have h2 := ih lc (by omega)
        omega

/-- On two non-empty sets, `__add__` terminates and returns exactly the
`mergeNode` of the two roots. -/
theorem opAddSets_merge {a b : CidrSet} {ra rb : TNode}
    (hra : a.root = some ra) (hrb : b.root = some rb) :
    a.opAddSets b = some ⟨some (mergeNode ra false rb)⟩ := by
  obtain ⟨k, cr', hk, hrun, _⟩ := addSegment rb.nodeCount rb rb [] [] none [] none ra ra
    le_rfl rfl rfl (fun r hr => absurd hr (by simp))
    (Or.inr (fun r hr => absurd hr (by simp)))
  rw [show (decide ((none : Option (List Bool)) = some ([] : List Bool))) = false from rfl]
    at hrun
  have hnc := nodeCount_pos rb
  have h1 := runMach_of_iterSteps k _ _ hrun (100 * (rb.nodeCount + 1)) (by omega)
  have hfin : addStep rb
      { label := .t4, bStack := [], bP := some [], bQ := some [],
        aStack := [], aP := some [], aCreated := cr',
        aRoot := ra.updateAt [] (fun _ => mergeNode ra false rb) } =
      .done (some (ra.updateAt [] (fun _ => mergeNode ra false rb))) := by
    simp [addStep]
  obtain ⟨m, hm⟩ : ∃ m, 100 * (rb.nodeCount + 1) - k = m + 1 :=
    ⟨100 * (rb.nodeCount + 1) - k - 1, by omega⟩
  have h2 : runMach (addStep rb) (m + 1)
      { label := .t4, bStack := [], bP := some [], bQ := some [],
        aStack := [], aP := some [], aCreated := cr',
        aRoot := ra.updateAt [] (fun _ => mergeNode ra false rb) } =
      some (some (ra.updateAt [] (fun _ => mergeNode ra false rb))) := by
    simp only [runMach, hfin]
  have h0 : travInit ra =
      { label := .t2, bStack := [], bP := some [], bQ := none,
        aStack := [], aP := some [], aCreated := none, aRoot := ra } := rfl
  have h3 : runAdd rb (100 * (rb.nodeCount + 1)) (travInit ra) =
      some (some (mergeNode ra false rb)) := by
    simp only [runAdd]
    rw [h0, h1, hm]
    exact h2
  have hsz : ¬(a.size = 0) := by
    simp only [CidrSet.size, hra]
    have := leafCount_pos ra.nodeCount ra le_rfl
    omega
  have hszb : ¬(b.size = 0) := by
    simp only [CidrSet.size, hrb]
    have := leafCount_pos rb.nodeCount rb le_rfl
    omega
  simp only [CidrSet.opAddSets, if_neg hsz, if_neg hszb, hra, hrb, h3]

/-- A leaf contains every prefix. -/
theorem containsNode_of_leaf {t : TNode} (h : t.isLeaf = true) (q : Cidr) :
    CidrSet.containsNode t q = true := by
  obtain ⟨v, l, r⟩ := t
  cases l with
  | some x => simp [TNode.isLeaf] at h
  | none =>
    cases r with
    | some y => simp [TNode.isLeaf] at h
    | none => rfl

/-- A node whose two children are both leaves contains every prefix finer
than its own depth. -/
theorem containsNode_two_leaves {v : Nat} {l r : TNode} (hl : l.isLeaf = true)
    (hr : r.isLeaf = true) {q : Cidr} (hq : ¬(q.bitmask = v)) :
    CidrSet.containsNode (TNode.mk v (some l) (some r)) q = true := by
  rw [containsNode_node (by simp), if_neg hq]
  split
  · exact containsNode_of_leaf hl q
  · exact containsNode_of_leaf hr q

/-- Collapsing two leaf children into the parent does not change membership
of prefixes finer than the parent. -/
theorem containsNode_collapse_if {v : Nat} {l r : TNode} {q : Cidr}
    (hq : ¬(q.bitmask = v)) :
    CidrSet.containsNode
      (if (l.isLeaf && r.isLeaf) = true then TNode.mk v none none
       else TNode.mk v (some l) (some r)) q =
    CidrSet.containsNode (TNode.mk v (some l) (some r)) q := by
  split
  · rename_i hcol
    rw [Bool.and_eq_true] at hcol
    exact (show CidrSet.containsNode (TNode.mk v none none) q = true from rfl).trans
      (containsNode_two_leaves hcol.1 hcol.2 hq).symm
  · rfl

/-- Membership of the `__add__` merge: a prefix is in the merged tree iff it
is in the (non-created) `a` tree or in the `b` tree. -/
theorem mergeNode_mem (n : Nat) :
    ∀ (B A : TNode) (cr : Bool) (d : Nat) (q : Cidr),
      B.nodeCount ≤ n →
      A.depthsOk d = true → A.bounded = true →
      B.depthsOk d = true → B.bounded = true →
      q.bitmask = 32 →
      (cr = true → A = TNode.mk d none none) →
      CidrSet.containsNode (mergeNode A cr B) q =
        ((!cr && CidrSet.containsNode A q) || CidrSet.containsNode B q) := by
  induction n with
  | zero =>
    intro B A cr d q hn
    exact absurd (le_trans (nodeCount_pos B) hn) (by omega)
  | succ n ih =>
    intro B A cr d q hn hAD hAB hBD hBB hq32 hcr
    obtain ⟨bv, bl, br⟩ := B
    have hbv : d = bv := (depthsOk_value hBD).symm
    subst hbv
    cases bl with
    | none =>
      cases br with
      | none =>
        -- B leaf: both sides are true
        cases cr with
        | true =>
          rw [hcr rfl, mergeNode_bleaf_created]
          rfl
        | false =>
          by_cases hAleaf : A.isLeaf = true
          · rw [mergeNode_aleaf A d none none hAleaf, containsNode_of_leaf hAleaf q]
            rfl
          · rw [mergeNode_bleaf_real A d
              (by revert hAleaf; cases A.isLeaf <;> simp)]
            rw [show CidrSet.containsNode (TNode.mk d none none) q = true from rfl,
              Bool.or_true]
            rfl
      | some brc =>
        -- B has only a right child
        have hd31 : d ≤ 31 := by
          have h1 := value_of_depthsOk (depthsOk_right hBD brc rfl)
          have h2 := value_of_bounded (bounded_right hBB brc rfl)
          omega
        have hqd : ¬(q.bitmask = d) := by omega
        have hBDr := depthsOk_right hBD brc rfl
        have hBBr := bounded_right hBB brc rfl
        have hcnt : brc.nodeCount ≤ n := by
          simp only [TNode.nodeCount] at hn
          omega
        have hPD : (TNode.mk (d + 1) (none : Option TNode) (none : Option TNode)).depthsOk
            (d + 1) = true := by
          simp [TNode.depthsOk]
        have hPB : (TNode.mk (d + 1) (none : Option TNode) (none : Option TNode)).bounded
            = true := by
          simp [TNode.bounded]
          omega
        have ihc := ih brc (TNode.mk (d + 1) none none) true (d + 1) q hcnt hPD hPB
          hBDr hBBr hq32 (fun _ => rfl)
        simp only [Bool.not_true, Bool.false_and, Bool.false_or] at ihc
        have hRB : CidrSet.containsNode (TNode.mk d none (some brc)) q =
            (if q.bit (d + 1) = 0 then false else CidrSet.containsNode brc q) := by
          rw [containsNode_node (by simp), if_neg hqd]
        cases cr with
        | true =>
          rw [hcr rfl]
          rw [show mergeNode (TNode.mk d none none) true (TNode.mk d none (some brc)) =
            TNode.mk d none (some (mergeNode (TNode.mk (d + 1) none none) true brc))
            from rfl]
          rw [containsNode_node (by simp), if_neg hqd, hRB]
          simp only [Bool.not_true, Bool.false_and, Bool.false_or]
          by_cases hbit : q.bit (d + 1) = 0
          · rw [if_pos hbit, if_pos hbit]
          · rw [if_neg hbit, if_neg hbit]
            exact ihc
        | false =>
          by_cases hAleaf : A.isLeaf = true
          · rw [mergeNode_aleaf A d none (some brc) hAleaf,
              containsNode_of_leaf hAleaf q]
            rfl
          · obtain ⟨av, al, ar⟩ := A
            have hav : d = av := (depthsOk_value hAD).symm
            subst hav
            cases ar with
            | none =>
              cases al with
              | none => simp [TNode.isLeaf] at hAleaf
              | some alc =>
                rw [show mergeNode (TNode.mk d (some alc) none) false
                    (TNode.mk d none (some brc)) =
                  (if (alc.isLeaf &&
                      (mergeNode (TNode.mk (d + 1) none none) true brc).isLeaf) = true
                   then TNode.mk d none none
                   else TNode.mk d (some alc)
                     (some (mergeNode (TNode.mk (d + 1) none none) true brc))) from rfl]
                rw [containsNode_collapse_if hqd]
                rw [containsNode_node (by simp), if_neg hqd]
                have hRA : CidrSet.containsNode (TNode.mk d (some alc) none) q =
                    (if q.bit (d + 1) = 0 then CidrSet.containsNode alc q else false) := by
                  rw [containsNode_node (by simp), if_neg hqd]
                rw [hRA, hRB]
                simp only [Bool.not_false, Bool.true_and]
                by_cases hbit : q.bit (d + 1) = 0
                · rw [if_pos hbit, if_pos hbit, if_pos hbit, Bool.or_false]
                · rw [if_neg hbit, if_neg hbit, if_neg hbit, ihc, Bool.false_or]
            | some arc =>
              have hADr := depthsOk_right hAD arc rfl
              have hABr := bounded_right hAB arc rfl
              have ihe := ih brc arc false (d + 1) q hcnt hADr hABr hBDr hBBr hq32
                (fun h => nomatch h)
              simp only [Bool.not_false, Bool.true_and] at ihe
              cases al with
              | none =>
                rw [show mergeNode (TNode.mk d none (some arc)) false
                    (TNode.mk d none (some brc)) =
                  TNode.mk d none (some (mergeNode arc false brc)) from rfl]
                rw [containsNode_node (by simp), if_neg hqd]
                have hRA : CidrSet.containsNode (TNode.mk d none (some arc)) q =
                    (if q.bit (d + 1) = 0 then false else CidrSet.containsNode arc q) := by
                  rw [containsNode_node (by simp), if_neg hqd]
                rw [hRA, hRB]
                simp only [Bool.not_false, Bool.true_and]
                by_cases hbit : q.bit (d + 1) = 0
                · rw [if_pos hbit, if_pos hbit, if_pos hbit, Bool.or_false]
                · rw [if_neg hbit, if_neg hbit, if_neg hbit, ihe]
              | some alc =>
                rw [show mergeNode (TNode.mk d (some alc) (some arc)) false
                    (TNode.mk d none (some brc)) =
                  (if (alc.isLeaf && (mergeNode arc false brc).isLeaf) = true
                   then TNode.mk d none none
                   else TNode.mk d (some alc) (some (mergeNode arc false brc))) from rfl]
                rw [containsNode_collapse_if hqd]
                rw [containsNode_node (by simp), if_neg hqd]
                have hRA : CidrSet.containsNode (TNode.mk d (some alc) (some arc)) q =
                    (if q.bit (d + 1) = 0 then CidrSet.containsNode alc q
                     else CidrSet.containsNode arc q) := by
                  rw [containsNode_node (by simp), if_neg hqd]
                rw [hRA, hRB]
                simp only [Bool.not_false, Bool.true_and]
                by_cases hbit : q.bit (d + 1) = 0
                · rw [if_pos hbit, if_pos hbit, if_pos hbit, Bool.or_false]
                · rw [if_neg hbit, if_neg hbit, if_neg hbit, ihe]
    | some blc =>
      have hd31 : d ≤ 31 := by
        have h1 := value_of_depthsOk (depthsOk_left hBD blc rfl)
        have h2 := value_of_bounded (bounded_left hBB blc rfl)
        omega
      have hqd : ¬(q.bitmask = d) := by omega
      have hBDl := depthsOk_left hBD blc rfl
      have hBBl := bounded_left hBB blc rfl
      have hPD : (TNode.mk (d + 1) (none : Option TNode) (none : Option TNode)).depthsOk
          (d + 1) = true := by
        simp [TNode.depthsOk]
      have hPB : (TNode.mk (d + 1) (none : Option TNode) (none : Option TNode)).bounded
          = true := by
        simp [TNode.bounded]
        omega
      cases br with
      | none =>
        -- B has only a left child
        have hcnt : blc.nodeCount ≤ n := by
          simp only [TNode.nodeCount] at hn
          omega
        have ihc := ih blc (TNode.mk (d + 1) none none) true (d + 1) q hcnt hPD hPB
          hBDl hBBl hq32 (fun _ => rfl)
        simp only [Bool.not_true, Bool.false_and, Bool.false_or] at ihc
        have hRB : CidrSet.containsNode (TNode.mk d (some blc) none) q =
            (if q.bit (d + 1) = 0 then CidrSet.containsNode blc q else false) := by
          rw [containsNode_node (by simp), if_neg hqd]
        cases cr with
        | true =>
          rw [hcr rfl]
          rw [show mergeNode (TNode.mk d none none) true (TNode.mk d (some blc) none) =
            TNode.mk d (some (mergeNode (TNode.mk (d + 1) none none) true blc)) none
            from rfl]
          rw [containsNode_node (by simp), if_neg hqd, hRB]
          simp only [Bool.not_true, Bool.false_and, Bool.false_or]
          by_cases hbit : q.bit (d + 1) = 0
          · rw [if_pos hbit, if_pos hbit]
            exact ihc
          · rw [if_neg hbit, if_neg hbit]
        | false =>
          by_cases hAleaf : A.isLeaf = true
          · rw [mergeNode_aleaf A d (some blc) none hAleaf,
              containsNode_of_leaf hAleaf q]
            rfl
          · obtain ⟨av, al, ar⟩ := A
            have hav : d = av := (depthsOk_value hAD).symm
            subst hav
            cases al with
            | none =>
              cases ar with
              | none => simp [TNode.isLeaf] at hAleaf
              | some arc =>
                rw [show mergeNode (TNode.mk d none (some arc)) false
                    (TNode.mk d (some blc) none) =
                  (if ((mergeNode (TNode.mk (d + 1) none none) true blc).isLeaf &&
                      arc.isLeaf) = true
                   then TNode.mk d none none
                   else TNode.mk d
                     (some (mergeNode (TNode.mk (d + 1) none none) true blc))
                     (some arc)) from rfl]
                rw [containsNode_collapse_if hqd]
                rw [containsNode_node (by simp), if_neg hqd]
                have hRA : CidrSet.containsNode (TNode.mk d none (some arc)) q =
                    (if q.bit (d + 1) = 0 then false else CidrSet.containsNode arc q) := by
                  rw [containsNode_node (by simp), if_neg hqd]
                rw [hRA, hRB]
                simp only [Bool.not_false, Bool.true_and]
                by_cases hbit : q.bit (d + 1) = 0
                · rw [if_pos hbit, if_pos hbit, if_pos hbit, ihc, Bool.false_or]
                · rw [if_neg hbit, if_neg hbit, if_neg hbit, Bool.or_false]
            | some alc =>
              have hADl := depthsOk_left hAD alc rfl
              have hABl := bounded_left hAB alc rfl
              have ihe := ih blc alc false (d + 1) q hcnt hADl hABl hBDl hBBl hq32
                (fun h => nomatch h)
              simp only [Bool.not_false, Bool.true_and] at ihe
              cases ar with
              | none =>
                rw [show mergeNode (TNode.mk d (some alc) none) false
                    (TNode.mk d (some blc) none) =
                  TNode.mk d (some (mergeNode alc false blc)) none from rfl]
                rw [containsNode_node (by simp), if_neg hqd]
                have hRA : CidrSet.containsNode (TNode.mk d (some alc) none) q =
                    (if q.bit (d + 1) = 0 then CidrSet.containsNode alc q else false) := by
                  rw [containsNode_node (by simp), if_neg hqd]
                rw [hRA, hRB]
                simp only [Bool.not_false, Bool.true_and]
                by_cases hbit : q.bit (d + 1) = 0
                · rw [if_pos hbit, if_pos hbit, if_pos hbit, ihe]
                · rw [if_neg hbit, if_neg hbit, if_neg hbit, Bool.or_false]
              | some arc =>
                rw [show mergeNode (TNode.mk d (some alc) (some arc)) false
                    (TNode.mk d (some blc) none) =
                  (if ((mergeNode alc false blc).isLeaf && arc.isLeaf) = true
                   then TNode.mk d none none
                   else TNode.mk d (some (mergeNode alc false blc)) (some arc))
                  from rfl]
                rw [containsNode_collapse_if hqd]
                rw [containsNode_node (by simp), if_neg hqd]
                have hRA : CidrSet.containsNode (TNode.mk d (some alc) (some arc)) q =
                    (if q.bit (d + 1) = 0 then CidrSet.containsNode alc q
                     else CidrSet.containsNode arc q) := by
                  rw [containsNode_node (by simp), if_neg hqd]
                rw [hRA, hRB]
                simp only [Bool.not_false, Bool.true_and]
                by_cases hbit : q.bit (d + 1) = 0
                · rw [if_pos hbit, if_pos hbit, if_pos hbit, ihe]
                · rw [if_neg hbit, if_neg hbit, if_neg hbit, Bool.or_false]
      | some brc =>
        -- B has both children
        have hBDr := depthsOk_right hBD brc rfl
        have hBBr := bounded_right hBB brc rfl
        have hcntl : blc.nodeCount ≤ n := by
          have h1 := nodeCount_pos brc
          simp only [TNode.nodeCount] at hn
          omega
        have hcntr : brc.nodeCount ≤ n := by
          have h1 := nodeCount_pos blc
          simp only [TNode.nodeCount] at hn
          omega
        have ihcl := ih blc (TNode.mk (d + 1) none none) true (d + 1) q hcntl hPD hPB
          hBDl hBBl hq32 (fun _ => rfl)
        simp only [Bool.not_true, Bool.false_and, Bool.false_or] at ihcl
        have ihcr := ih brc (TNode.mk (d + 1) none none) true (d + 1) q hcntr hPD hPB
          hBDr hBBr hq32 (fun _ => rfl)
        simp only [Bool.not_true, Bool.false_and, Bool.false_or] at ihcr
        have hRB : CidrSet.containsNode (TNode.mk d (some blc) (some brc)) q =
            (if q.bit (d + 1) = 0 then CidrSet.containsNode blc q
             else CidrSet.containsNode brc q) := by
          rw [containsNode_node (by simp), if_neg hqd]
        cases cr with
        | true =>
          rw [hcr rfl]
          rw [show mergeNode (TNode.mk d none none) true
              (TNode.mk d (some blc) (some brc)) =
            (if ((mergeNode (TNode.mk (d + 1) none none) true blc).isLeaf &&
                (mergeNode (TNode.mk (d + 1) none none) true brc).isLeaf) = true
             then TNode.mk d none none
             else TNode.mk d
               (some (mergeNode (TNode.mk (d + 1) none none) true blc))
               (some (mergeNode (TNode.mk (d + 1) none none) true brc))) from rfl]
          rw [containsNode_collapse_if hqd]
          rw [containsNode_node (by simp), if_neg hqd, hRB]
          simp only [Bool.not_true, Bool.false_and, Bool.false_or]
          by_cases hbit : q.bit (d + 1) = 0
          · rw [if_pos hbit, if_pos hbit]
            exact ihcl
          · rw [if_neg hbit, if_neg hbit]
            exact ihcr
        | false =>
          by_cases hAleaf : A.isLeaf = true
          · rw [mergeNode_aleaf A d (some blc) (some brc) hAleaf,
              containsNode_of_leaf hAleaf q]
            rfl
          · obtain ⟨av, al, ar⟩ := A
            have hav : d = av := (depthsOk_value hAD).symm
            subst hav
            cases al with
            | none =>
              cases ar with
              | none => simp [TNode.isLeaf] at hAleaf
              | some arc =>
                have hADr := depthsOk_right hAD arc rfl
                have hABr := bounded_right hAB arc rfl
                have iher := ih brc arc false (d + 1) q hcntr hADr hABr hBDr hBBr hq32
                  (fun h => nomatch h)
                simp only [Bool.not_false, Bool.true_and] at iher
                rw [show mergeNode (TNode.mk d none (some arc)) false
                    (TNode.mk d (some blc) (some brc)) =
                  (if ((mergeNode (TNode.mk (d + 1) none none) true blc).isLeaf &&
                      (mergeNode arc false brc).isLeaf) = true
                   then TNode.mk d none none
                   else TNode.mk d
                     (some (mergeNode (TNode.mk (d + 1) none none) true blc))
                     (some (mergeNode arc false brc))) from rfl]
                rw [containsNode_collapse_if hqd]
                rw [containsNode_node (by simp), if_neg hqd]
                have hRA : CidrSet.containsNode (TNode.mk d none (some arc)) q =
                    (if q.bit (d + 1) = 0 then false else CidrSet.containsNode arc q) := by
                  rw [containsNode_node (by simp), if_neg hqd]
                rw [hRA, hRB]
                simp only [Bool.not_false, Bool.true_and]
                by_cases hbit : q.bit (d + 1) = 0
                · rw [if_pos hbit, if_pos hbit, if_pos hbit, ihcl, Bool.false_or]
                · rw [if_neg hbit, if_neg hbit, if_neg hbit, iher]
            | some alc =>
              have hADl := depthsOk_left hAD alc rfl
              have hABl := bounded_left hAB alc rfl
              have ihel := ih blc alc false (d + 1) q hcntl hADl hABl hBDl hBBl hq32
                (fun h => nomatch h)
              simp only [Bool.not_false, Bool.true_and] at ihel
              cases ar with
              | none =>
                rw [show mergeNode (TNode.mk d (some alc) none) false
                    (TNode.mk d (some blc) (some brc)) =
                  (if ((mergeNode alc false blc).isLeaf &&
                      (mergeNode (TNode.mk (d + 1) none none) true brc).isLeaf) = true
                   then TNode.mk d none none
                   else TNode.mk d (some (mergeNode alc false blc))
                     (some (mergeNode (TNode.mk (d + 1) none none) true brc))) from rfl]
                rw [containsNode_collapse_if hqd]
                rw [containsNode_node (by simp), if_neg hqd]
                have hRA : CidrSet.containsNode (TNode.mk d (some alc) none) q =
                    (if q.bit (d + 1) = 0 then CidrSet.containsNode alc q else false) := by
                  rw [containsNode_node (by simp), if_neg hqd]
                rw [hRA, hRB]
                simp only [Bool.not_false, Bool.true_and]
                by_cases hbit : q.bit (d + 1) = 0
                · rw [if_pos hbit, if_pos hbit, if_pos hbit, ihel]
                · rw [if_neg hbit, if_neg hbit, if_neg hbit, ihcr, Bool.false_or]
              | some arc =>
                have hADr := depthsOk_right hAD arc rfl
                have hABr := bounded_right hAB arc rfl
                have iher := ih brc arc false (d + 1) q hcntr hADr hABr hBDr hBBr hq32
                  (fun h => nomatch h)
                simp only [Bool.not_false, Bool.true_and] at iher
                rw [show mergeNode (TNode.mk d (some alc) (some arc)) false
                    (TNode.mk d (some blc) (some brc)) =
                  (if ((mergeNode alc false blc).isLeaf &&
                      (mergeNode arc false brc).isLeaf) = true
                   then TNode.mk d none none
                   else TNode.mk d (some (mergeNode alc false blc))
                     (some (mergeNode arc false brc))) from rfl]
                rw [containsNode_collapse_if hqd]
                rw [containsNode_node (by simp), if_neg hqd]
                have hRA : CidrSet.containsNode (TNode.mk d (some alc) (some arc)) q =
                    (if q.bit (d + 1) = 0 then CidrSet.containsNode alc q
                     else CidrSet.containsNode arc q) := by
                  rw [containsNode_node (by simp), if_neg hqd]
                rw [hRA, hRB]
                simp only [Bool.not_false, Bool.true_and]
                by_cases hbit : q.bit (d + 1) = 0
                · rw [if_pos hbit, if_pos hbit, if_pos hbit, ihel]
                · rw [if_neg hbit, if_neg hbit, if_neg hbit, iher]

/-- C1: for all `CidrSet` values `a` and `b` reachable through the public
API, the union `a + b` succeeds, and every 32-bit address `x` is a member of
`a + b` if and only if it is a member of `a` or a member of `b`. -/
theorem union_membership {a b : CidrSet} (ha : Reachable a) (hb : Reachable b) :
    ∃ u, a.opAddSets b = some u ∧
      ∀ x : Nat, u.memAddr x = (a.memAddr x || b.memAddr x) := by
  cases hra : a.root with
  | none =>
    have hsz : a.size = 0 := by simp [CidrSet.size, hra]
    refine ⟨b, by simp only [CidrSet.opAddSets, if_pos hsz], ?_⟩
    intro x
    simp [CidrSet.memAddr, CidrSet.contains, hra]
  | some ra =>
    have hsza : ¬(a.size = 0) := by
      simp only [CidrSet.size, hra]
      have := leafCount_pos ra.nodeCount ra le_rfl
      omega
    cases hrb : b.root with
    | none =>
      have hszb : b.size = 0 := by simp [CidrSet.size, hrb]
      refine ⟨a, by simp only [CidrSet.opAddSets, if_neg hsza, if_pos hszb], ?_⟩
      intro x
      simp [CidrSet.memAddr, CidrSet.contains, hrb]
    | some rb =>
      refine ⟨⟨some (mergeNode ra false rb)⟩, opAddSets_merge hra hrb, ?_⟩
      intro x
      have hsa := reachable_shape ha ra hra
      have hsb := reachable_shape hb rb hrb
      have h := mergeNode_mem rb.nodeCount rb ra false 0 ⟨x, 32⟩ le_rfl
        hsa.1 hsa.2 hsb.1 hsb.2 rfl (fun h => nomatch h)
      simp only [Bool.not_false, Bool.true_and] at h
      simp only [CidrSet.memAddr, CidrSet.contains, hra, hrb]
      exact h

theorem union_membership_witness :
    ∃ u, (CidrSet.add ⟨none⟩ ⟨0, 1⟩).opAddSets (CidrSet.add ⟨none⟩ ⟨2 ^ 31, 1⟩) =
        some u ∧
      ∀ x : Nat, u.memAddr x =
        ((CidrSet.add ⟨none⟩ ⟨0, 1⟩).memAddr x ||
          (CidrSet.add ⟨none⟩ ⟨2 ^ 31, 1⟩).memAddr x) :=
  union_membership (Reachable.add Reachable.empty (by decide))
    (Reachable.add Reachable.empty (by decide))


-- Normalizing the `T6` removal blocks of `__sub__` to node-level edits.

theorem subT6Left_at {A : TNode} {p : List Bool} {anode : TNode} (bnode : TNode)
    (hfa : A.follow p = some anode) :
    subT6Left A p anode bnode =
      A.updateAt p (fun _ => subT6Left anode [] anode bnode) := by
  have hid : A.updateAt p (fun _ => anode) = A :=
    (updateAt_congr hfa (show (fun _ => anode) anode = (fun n => n) anode from rfl)).trans
      (updateAt_id A p)
  by_cases hg : anode.left = none
  · have hnode : subT6Left anode [] anode bnode = anode := by
      unfold subT6Left
      rw [if_neg (by simp [hg])]
    rw [hnode, hid]
    unfold subT6Left
    rw [if_neg (by simp [hg])]
  · cases hbl : bnode.left with
    | none =>
      have hnode : subT6Left anode [] anode bnode = anode := by
        unfold subT6Left
        rw [if_pos (by simp [hg])]
        simp only [hbl]
      rw [hnode, hid]
      unfold subT6Left
      rw [if_pos (by simp [hg])]
      simp only [hbl]
    | some bl =>
      cases hbll : bl.left with
      | none =>
        cases hblr : bl.right with
        | none =>
          have hnode : subT6Left anode [] anode bnode = anode.setLeft none := by
            unfold subT6Left
            rw [if_pos (by simp [hg])]
            simp only [hbl, hbll, hblr]
            rfl
          rw [hnode]
          unfold subT6Left
          rw [if_pos (by simp [hg])]
          simp only [hbl, hbll, hblr]
          exact updateAt_congr hfa rfl
        | some blr =>
          by_cases hc : blr.left ≠ none ∧ blr.right ≠ none
          · have hnode : subT6Left anode [] anode bnode =
                anode.updateAt [false] (fun n => n.setRight none) := by
              unfold subT6Left
              rw [if_pos (by simp [hg])]
              simp only [hbl, hbll, hblr]
              rw [if_pos hc]
              rfl
            rw [hnode]
            unfold subT6Left
            rw [if_pos (by simp [hg])]
            simp only [hbl, hbll, hblr]
            rw [if_pos hc, updateAt_append]
            exact updateAt_congr hfa rfl
          · have hnode : subT6Left anode [] anode bnode = anode := by
              unfold subT6Left
              rw [if_pos (by simp [hg])]
              simp only [hbl, hbll, hblr]
              rw [if_neg hc]
            rw [hnode, hid]
            unfold subT6Left
            rw [if_pos (by simp [hg])]
            simp only [hbl, hbll, hblr]
            rw [if_neg hc]
      | some bll =>
        cases hblr : bl.right with
        | none =>
          by_cases hc : bll.left ≠ none ∧ bll.right ≠ none
          · have hnode : subT6Left anode [] anode bnode =
                anode.updateAt [false] (fun n => n.setLeft none) := by
              unfold subT6Left
              rw [if_pos (by simp [hg])]
              simp only [hbl, hbll, hblr]
              rw [if_pos hc]
              rfl
            rw [hnode]
            unfold subT6Left
            rw [if_pos (by simp [hg])]
            simp only [hbl, hbll, hblr]
            rw [if_pos hc, updateAt_append]
            exact updateAt_congr hfa rfl
          · have hnode : subT6Left anode [] anode bnode = anode := by
              unfold subT6Left
              rw [if_pos (by simp [hg])]
              simp only [hbl, hbll, hblr]
              rw [if_neg hc]
            rw [hnode, hid]
            unfold subT6Left
            rw [if_pos (by simp [hg])]
            simp only [hbl, hbll, hblr]
            rw [if_neg hc]
        | some blr =>
          have hnode : subT6Left anode [] anode bnode = anode := by
            unfold subT6Left
            rw [if_pos (by simp [hg])]
            simp only [hbl, hbll, hblr]
          rw [hnode, hid]
          unfold subT6Left
          rw [if_pos (by simp [hg])]
          simp only [hbl, hbll, hblr]

theorem subT6Right_at {A1 : TNode} {p : List Bool} {an1 : TNode} (bnode : TNode)
    (hfa : A1.follow p = some an1) :
    subT6Right A1 p bnode = A1.updateAt p (fun _ => subT6Right an1 [] bnode) := by
  have hid : A1.updateAt p (fun _ => an1) = A1 :=
    (updateAt_congr hfa (show (fun _ => an1) an1 = (fun n => n) an1 from rfl)).trans
      (updateAt_id A1 p)
  have hf0 : an1.follow [] = some an1 := rfl
  by_cases hg : an1.right = none
  · have hnode : subT6Right an1 [] bnode = an1 := by
      simp only [subT6Right, hf0]
      rw [if_neg (by simp [hg])]
    rw [hnode, hid]
    simp only [subT6Right, hfa]
    rw [if_neg (by simp [hg])]
  · cases hbr : bnode.right with
    | none =>
      have hnode : subT6Right an1 [] bnode = an1 := by
        simp only [subT6Right, hf0]
        rw [if_pos (by simp [hg])]
        simp only [hbr]
      rw [hnode, hid]
      simp only [subT6Right, hfa]
      rw [if_pos (by simp [hg])]
      simp only [hbr]
    | some br =>
      cases hbrl : br.left with
      | none =>
        cases hbrr : br.right with
        | none =>
          have hnode : subT6Right an1 [] bnode = an1.setRight none := by
            simp only [subT6Right, hf0]
            rw [if_pos (by simp [hg])]
            simp only [hbr, hbrl, hbrr]
            rfl
          rw [hnode]
          simp only [subT6Right, hfa]
          rw [if_pos (by simp [hg])]
          simp only [hbr, hbrl, hbrr]
          exact updateAt_congr hfa rfl
        | some brr =>
          by_cases hc : brr.left ≠ none ∧ brr.right ≠ none
          · have hnode : subT6Right an1 [] bnode =
                an1.updateAt [true] (fun n => n.setRight none) := by
              simp only [subT6Right, hf0]
              rw [if_pos (by simp [hg])]
              simp only [hbr, hbrl, hbrr]
              rw [if_pos hc]
              rfl
            rw [hnode]
            simp only [subT6Right, hfa]
            rw [if_pos (by simp [hg])]
            simp only [hbr, hbrl, hbrr]
            rw [if_pos hc, updateAt_append]
            exact updateAt_congr hfa rfl
          · have hnode : subT6Right an1 [] bnode = an1 := by
              simp only [subT6Right, hf0]
              rw [if_pos (by simp [hg])]
              simp only [hbr, hbrl, hbrr]
              rw [if_neg hc]
            rw [hnode, hid]
            simp only [subT6Right, hfa]
            rw [if_pos (by simp [hg])]
            simp only [hbr, hbrl, hbrr]
            rw [if_neg hc]
      | some brl =>
        cases hbrr : br.right with
        | none =>
          by_cases hc : brl.left ≠ none ∧ brl.right ≠ none
          · have hnode : subT6Right an1 [] bnode =
                an1.updateAt [true] (fun n => n.setLeft none) := by
              simp only [subT6Right, hf0]
              rw [if_pos (by simp [hg])]
              simp only [hbr, hbrl, hbrr]
              rw [if_pos hc]
              rfl
            rw [hnode]
            simp only [subT6Right, hfa]
            rw [if_pos (by simp [hg])]
            simp only [hbr, hbrl, hbrr]
            rw [if_pos hc, updateAt_append]
            exact updateAt_congr hfa rfl
          · have hnode : subT6Right an1 [] bnode = an1 := by
              simp only [subT6Right, hf0]
              rw [if_pos (by simp [hg])]
              simp only [hbr, hbrl, hbrr]
              rw [if_neg hc]
            rw [hnode, hid]
            simp only [subT6Right, hfa]
            rw [if_pos (by simp [hg])]
            simp only [hbr, hbrl, hbrr]
            rw [if_neg hc]
        | some brr =>
          have hnode : subT6Right an1 [] bnode = an1 := by
            simp only [subT6Right, hf0]
            rw [if_pos (by simp [hg])]
            simp only [hbr, hbrl, hbrr]
          rw [hnode, hid]
          simp only [subT6Right, hfa]
          rw [if_pos (by simp [hg])]
          simp only [hbr, hbrl, hbrr]

theorem subT6_at {A : TNode} {p : List Bool} {anode : TNode} (bnode : TNode)
    (hfa : A.follow p = some anode) :
    subT6Right (subT6Left A p anode bnode) p bnode =
      A.updateAt p (fun _ => subT6Right (subT6Left anode [] anode bnode) [] bnode) := by
  rw [subT6Left_at bnode hfa]
  rw [subT6Right_at bnode (follow_updateAt_self hfa _)]
  rw [updateAt_updateAt]

/-- The `__sub__` loop, entered at `T2` with both cursors at a shared path
`p`, runs one complete postorder segment over the `b` subtree there and
returns to `T4` with the same stacks, having replaced the `a` subtree at `p`
by its `subMergeNode` with the `b` subtree. -/
theorem subSegment (n : Nat) :
    ∀ (bTree bsub : TNode) (p : List Bool)
      (bStack : List (List Bool)) (bQ : Option (List Bool))
      (aStack : List (Option (List Bool))) (aCr : Option (List Bool))
      (A asub : TNode),
      bsub.nodeCount ≤ n →
      bTree.follow p = some bsub →
      A.follow p = some asub →
      (∀ r, bQ = some r → ¬ underPath p r) →
      ∃ k, k ≤ 9 * bsub.nodeCount ∧
        iterSteps (subStep bTree) k
          { label := .t2, bStack := bStack, bP := some p, bQ := bQ,
            aStack := aStack, aP := some p, aCreated := aCr, aRoot := A } =
          some { label := .t4, bStack := bStack, bP := some p, bQ := some p,
                 aStack := aStack, aP := some p, aCreated := aCr,
                 aRoot := A.updateAt p (fun _ => subMergeNode asub bsub) } := by
  induction n with
  | zero =>
    intro bTree bsub p bStack bQ aStack aCr A asub hn
    exact absurd (le_trans (nodeCount_pos bsub) hn) (by omega)
  | succ n ih =>
    intro bTree bsub p bStack bQ aStack aCr A asub hn hfb hfa hbQ
    obtain ⟨bv, bl, br⟩ := bsub
    cases bl with
    | none =>
      cases br with
      | none =>
        -- CASE L: b leaf, six administrative steps, a tree unchanged
        have hs1 : subStep bTree
            { label := .t2, bStack := bStack, bP := some p, bQ := bQ,
              aStack := aStack, aP := some p, aCreated := aCr, aRoot := A } =
            .cont { label := .t3, bStack := bStack, bP := some p, bQ := bQ,
                    aStack := aStack, aP := some p, aCreated := aCr, aRoot := A } := by
          simp [subStep]
        have hs2 : subStep bTree
            { label := .t3, bStack := bStack, bP := some p, bQ := bQ,
              aStack := aStack, aP := some p, aCreated := aCr, aRoot := A } =
            .cont { label := .t2, bStack := p :: bStack, bP := none, bQ := bQ,
                    aStack := some p :: aStack,
                    aP := if asub.left = none then none else some (p ++ [false]),
                    aCreated := aCr, aRoot := A } := by
          simp only [subStep, hfb, hfa, TNode.left, TNode.right]
          rfl
        have hs3 : subStep bTree
            { label := .t2, bStack := p :: bStack, bP := none, bQ := bQ,
              aStack := some p :: aStack,
              aP := if asub.left = none then none else some (p ++ [false]),
              aCreated := aCr, aRoot := A } =
            .cont { label := .t4, bStack := p :: bStack, bP := none, bQ := bQ,
                    aStack := some p :: aStack,
                    aP := if asub.left = none then none else some (p ++ [false]),
                    aCreated := aCr, aRoot := A } := by
          simp [subStep]
        have hs4 : subStep bTree
            { label := .t4, bStack := p :: bStack, bP := none, bQ := bQ,
              aStack := some p :: aStack,
              aP := if asub.left = none then none else some (p ++ [false]),
              aCreated := aCr, aRoot := A } =
            .cont { label := .t5, bStack := bStack, bP := some p, bQ := bQ,
                    aStack := aStack, aP := some p, aCreated := aCr, aRoot := A } := by
          simp [subStep]
        have hs5 : subStep bTree
            { label := .t5, bStack := bStack, bP := some p, bQ := bQ,
              aStack := aStack, aP := some p, aCreated := aCr, aRoot := A } =
            .cont { label := .t6, bStack := bStack, bP := some p, bQ := bQ,
                    aStack := aStack, aP := some p, aCreated := aCr, aRoot := A } := by
          simp only [subStep, hfb, TNode.right]
        have hs6 : subStep bTree
            { label := .t6, bStack := bStack, bP := some p, bQ := bQ,
              aStack := aStack, aP := some p, aCreated := aCr, aRoot := A } =
            .cont { label := .t4, bStack := bStack, bP := some p, bQ := some p,
                    aStack := aStack, aP := some p, aCreated := aCr,
                    aRoot := subT6Right (subT6Left A p asub (TNode.mk bv none none)) p
                      (TNode.mk bv none none) } := by
          simp only [subStep, hfa, hfb]
        have hroot : subT6Right (subT6Left A p asub (TNode.mk bv none none)) p
            (TNode.mk bv none none) =
            A.updateAt p (fun _ => subMergeNode asub (TNode.mk bv none none)) := by
          rw [subT6_at _ hfa]
          apply updateAt_congr hfa
          show subT6Right (subT6Left asub [] asub (TNode.mk bv none none)) []
              (TNode.mk bv none none) = subMergeNode asub (TNode.mk bv none none)
          have h1 : subT6Left asub [] asub (TNode.mk bv none none) = asub := by
            unfold subT6Left
            split <;> rfl
          have h2 : subT6Right asub [] (TNode.mk bv none none) = asub := by
            simp only [subT6Right]
            split <;> rfl
          rw [h1, h2]
          rfl
        refine ⟨6, by simp only [TNode.nodeCount]; omega, ?_⟩
        simp only [iterSteps, hs1, hs2, hs3, hs4, hs5, hs6, hroot]
      | some brx =>
        -- CASE R: b has only a right child
        have hcnt : brx.nodeCount ≤ n := by
          simp only [TNode.nodeCount] at hn
          omega
        have hfr : bTree.follow (p ++ [true]) = some brx := follow_snoc_true hfb rfl
        have hbQ' : ∀ r, bQ = some r → ¬ underPath (p ++ [true]) r :=
          fun r hr hu => hbQ r hr (underPath_of_extend hu)
        have hbqf : (some (p ++ [true]) == bQ) = false := by
          rw [beq_eq_false_iff_ne]
          intro h
          exact hbQ _ h.symm ⟨[true], rfl⟩
        obtain ⟨av, aL, aR⟩ := asub
        cases aL with
        | none =>
          cases aR with
          | none =>
            have hs1 : subStep bTree
                { label := .t2, bStack := bStack, bP := some p, bQ := bQ,
                  aStack := aStack, aP := some p, aCreated := aCr, aRoot := A } =
                .cont { label := .t3, bStack := bStack, bP := some p, bQ := bQ,
                        aStack := aStack, aP := some p, aCreated := aCr, aRoot := A } := by
              simp [subStep]
            have hs2 : subStep bTree
                { label := .t3, bStack := bStack, bP := some p, bQ := bQ,
                  aStack := aStack, aP := some p, aCreated := aCr, aRoot := A } =
                .cont { label := .t2, bStack := p :: bStack, bP := none, bQ := bQ,
                        aStack := some p :: aStack, aP := some (p ++ [false]),
                        aCreated := aCr, aRoot := (A.updateAt p (fun n => n.setLeft (some (TNode.mk (n.value + 1) none none)))).updateAt p (fun n => n.setRight (some (TNode.mk (n.value + 1) none none))) } := by
              simp only [subStep, hfb, hfa, TNode.left, TNode.right]
              rfl
            have hA2 : (A.updateAt p (fun n => n.setLeft (some (TNode.mk (n.value + 1) none none)))).updateAt p (fun n => n.setRight (some (TNode.mk (n.value + 1) none none))) = A.updateAt p (fun _ => (TNode.mk av (some (TNode.mk (av + 1) none none)) (some (TNode.mk (av + 1) none none)))) := by
              rw [updateAt_updateAt]
              apply updateAt_congr hfa
              rfl
            rw [hA2] at hs2
            have hfa2 : (A.updateAt p (fun _ => (TNode.mk av (some (TNode.mk (av + 1) none none)) (some (TNode.mk (av + 1) none none))))).follow p = some (TNode.mk av (some (TNode.mk (av + 1) none none)) (some (TNode.mk (av + 1) none none))) := follow_updateAt_self hfa _
            have hfa2R : (A.updateAt p (fun _ => (TNode.mk av (some (TNode.mk (av + 1) none none)) (some (TNode.mk (av + 1) none none))))).follow (p ++ [true]) = some (TNode.mk (av + 1) none none) :=
              follow_snoc_true hfa2 rfl
            obtain ⟨k2, hk2, hrun2⟩ := ih bTree brx (p ++ [true]) (p :: bStack) bQ
              (some p :: aStack) aCr (A.updateAt p (fun _ => (TNode.mk av (some (TNode.mk (av + 1) none none)) (some (TNode.mk (av + 1) none none))))) (TNode.mk (av + 1) none none) hcnt hfr hfa2R hbQ'
            have hA4 : (A.updateAt p (fun _ => (TNode.mk av (some (TNode.mk (av + 1) none none)) (some (TNode.mk (av + 1) none none))))).updateAt (p ++ [true]) (fun _ => subMergeNode (TNode.mk (av + 1) none none) brx) =
                A.updateAt p (fun _ => (TNode.mk av (some (TNode.mk (av + 1) none none)) (some (subMergeNode (TNode.mk (av + 1) none none) brx)))) := by
              rw [updateAt_append, updateAt_updateAt]
              apply updateAt_congr hfa
              rfl
            rw [hA4] at hrun2
            have hs3 : subStep bTree
                { label := .t2, bStack := p :: bStack, bP := none, bQ := bQ,
                  aStack := some p :: aStack, aP := some (p ++ [false]),
                  aCreated := aCr, aRoot := A.updateAt p (fun _ => (TNode.mk av (some (TNode.mk (av + 1) none none)) (some (TNode.mk (av + 1) none none)))) } =
                .cont { label := .t4, bStack := p :: bStack, bP := none, bQ := bQ,
                        aStack := some p :: aStack, aP := some (p ++ [false]),
                        aCreated := aCr, aRoot := A.updateAt p (fun _ => (TNode.mk av (some (TNode.mk (av + 1) none none)) (some (TNode.mk (av + 1) none none)))) } := by
              simp [subStep]
            have hs4 : subStep bTree
                { label := .t4, bStack := p :: bStack, bP := none, bQ := bQ,
                  aStack := some p :: aStack, aP := some (p ++ [false]),
                  aCreated := aCr, aRoot := A.updateAt p (fun _ => (TNode.mk av (some (TNode.mk (av + 1) none none)) (some (TNode.mk (av + 1) none none)))) } =
                .cont { label := .t5, bStack := bStack, bP := some p, bQ := bQ,
                        aStack := aStack, aP := some p, aCreated := aCr,
                        aRoot := A.updateAt p (fun _ => (TNode.mk av (some (TNode.mk (av + 1) none none)) (some (TNode.mk (av + 1) none none)))) } := by
              simp [subStep]
            have hs5 : subStep bTree
                { label := .t5, bStack := bStack, bP := some p, bQ := bQ,
                  aStack := aStack, aP := some p, aCreated := aCr, aRoot := A.updateAt p (fun _ => (TNode.mk av (some (TNode.mk (av + 1) none none)) (some (TNode.mk (av + 1) none none)))) } =
                .cont { label := .t2, bStack := p :: bStack, bP := some (p ++ [true]),
                        bQ := bQ, aStack := some p :: aStack, aP := some (p ++ [true]),
                        aCreated := aCr, aRoot := A.updateAt p (fun _ => (TNode.mk av (some (TNode.mk (av + 1) none none)) (some (TNode.mk (av + 1) none none)))) } := by
              simp only [subStep, hfb, TNode.right, hbqf, hfa2]
              rfl
            have hpre : iterSteps (subStep bTree) 5
                { label := .t2, bStack := bStack, bP := some p, bQ := bQ,
                  aStack := aStack, aP := some p, aCreated := aCr, aRoot := A } =
                some { label := .t2, bStack := p :: bStack, bP := some (p ++ [true]),
                        bQ := bQ, aStack := some p :: aStack, aP := some (p ++ [true]),
                        aCreated := aCr, aRoot := A.updateAt p (fun _ => (TNode.mk av (some (TNode.mk (av + 1) none none)) (some (TNode.mk (av + 1) none none)))) } := by
              simp only [iterSteps, hs1, hs2, hs3, hs4, hs5]
            have hmid : iterSteps (subStep bTree) (5 + k2)
                { label := .t2, bStack := bStack, bP := some p, bQ := bQ,
                  aStack := aStack, aP := some p, aCreated := aCr, aRoot := A } =
                some { label := .t4, bStack := p :: bStack, bP := some (p ++ [true]),
                        bQ := some (p ++ [true]), aStack := some p :: aStack,
                        aP := some (p ++ [true]), aCreated := aCr, aRoot := A.updateAt p (fun _ => (TNode.mk av (some (TNode.mk (av + 1) none none)) (some (subMergeNode (TNode.mk (av + 1) none none) brx)))) } := by
              rw [iterSteps_append_some hpre k2]
              exact hrun2
            have hfa4 : (A.updateAt p (fun _ => (TNode.mk av (some (TNode.mk (av + 1) none none)) (some (subMergeNode (TNode.mk (av + 1) none none) brx))))).follow p = some (TNode.mk av (some (TNode.mk (av + 1) none none)) (some (subMergeNode (TNode.mk (av + 1) none none) brx))) := follow_updateAt_self hfa _
            have hs6 : subStep bTree
                { label := .t4, bStack := p :: bStack, bP := some (p ++ [true]),
                  bQ := some (p ++ [true]), aStack := some p :: aStack,
                  aP := some (p ++ [true]), aCreated := aCr, aRoot := A.updateAt p (fun _ => (TNode.mk av (some (TNode.mk (av + 1) none none)) (some (subMergeNode (TNode.mk (av + 1) none none) brx)))) } =
                .cont { label := .t5, bStack := bStack, bP := some p,
                        bQ := some (p ++ [true]), aStack := aStack, aP := some p,
                        aCreated := aCr, aRoot := A.updateAt p (fun _ => (TNode.mk av (some (TNode.mk (av + 1) none none)) (some (subMergeNode (TNode.mk (av + 1) none none) brx)))) } := by
              simp [subStep]
            have hs7 : subStep bTree
                { label := .t5, bStack := bStack, bP := some p,
                  bQ := some (p ++ [true]), aStack := aStack, aP := some p,
                  aCreated := aCr, aRoot := A.updateAt p (fun _ => (TNode.mk av (some (TNode.mk (av + 1) none none)) (some (subMergeNode (TNode.mk (av + 1) none none) brx)))) } =
                .cont { label := .t6, bStack := bStack, bP := some p,
                        bQ := some (p ++ [true]), aStack := aStack, aP := some p,
                        aCreated := aCr, aRoot := A.updateAt p (fun _ => (TNode.mk av (some (TNode.mk (av + 1) none none)) (some (subMergeNode (TNode.mk (av + 1) none none) brx)))) } := by
              simp only [subStep, hfb, TNode.right, beq_self_eq_true]
              rfl
            have hroot : subT6Right (subT6Left (A.updateAt p (fun _ => (TNode.mk av (some (TNode.mk (av + 1) none none)) (some (subMergeNode (TNode.mk (av + 1) none none) brx))))) p (TNode.mk av (some (TNode.mk (av + 1) none none)) (some (subMergeNode (TNode.mk (av + 1) none none) brx)))
                (TNode.mk bv none (some brx))) p (TNode.mk bv none (some brx)) =
                A.updateAt p (fun _ => subMergeNode (TNode.mk av none none)
                  (TNode.mk bv none (some brx))) := by
              rw [subT6_at _ hfa4, updateAt_updateAt]
              apply updateAt_congr hfa
              rfl
            have hs8 : subStep bTree
                { label := .t6, bStack := bStack, bP := some p,
                  bQ := some (p ++ [true]), aStack := aStack, aP := some p,
                  aCreated := aCr, aRoot := A.updateAt p (fun _ => (TNode.mk av (some (TNode.mk (av + 1) none none)) (some (subMergeNode (TNode.mk (av + 1) none none) brx)))) } =
                .cont { label := .t4, bStack := bStack, bP := some p, bQ := some p,
                        aStack := aStack, aP := some p, aCreated := aCr,
                        aRoot := A.updateAt p (fun _ => subMergeNode (TNode.mk av none none)
                          (TNode.mk bv none (some brx))) } := by
              simp only [subStep, hfa4, hfb]
              rw [hroot]
            refine ⟨5 + k2 + 3, by simp only [TNode.nodeCount]; omega, ?_⟩
            have hpost : iterSteps (subStep bTree) 3
                { label := .t4, bStack := p :: bStack, bP := some (p ++ [true]),
                  bQ := some (p ++ [true]), aStack := some p :: aStack,
                  aP := some (p ++ [true]), aCreated := aCr, aRoot := A.updateAt p (fun _ => (TNode.mk av (some (TNode.mk (av + 1) none none)) (some (subMergeNode (TNode.mk (av + 1) none none) brx)))) } =
                some { label := .t4, bStack := bStack, bP := some p, bQ := some p,
                        aStack := aStack, aP := some p, aCreated := aCr,
                        aRoot := A.updateAt p (fun _ => subMergeNode (TNode.mk av none none)
                          (TNode.mk bv none (some brx))) } := by
              simp only [iterSteps, hs6, hs7, hs8]
            rw [iterSteps_append_some hmid 3]
            exact hpost
          | some arc =>
            have hs1 : subStep bTree
                { label := .t2, bStack := bStack, bP := some p, bQ := bQ,
                  aStack := aStack, aP := some p, aCreated := aCr, aRoot := A } =
                .cont { label := .t3, bStack := bStack, bP := some p, bQ := bQ,
                        aStack := aStack, aP := some p, aCreated := aCr, aRoot := A } := by
              simp [subStep]
            have hs2 : subStep bTree
                { label := .t3, bStack := bStack, bP := some p, bQ := bQ,
                  aStack := aStack, aP := some p, aCreated := aCr, aRoot := A } =
                .cont { label := .t2, bStack := p :: bStack, bP := none, bQ := bQ,
                        aStack := some p :: aStack, aP := some (p ++ [false]),
                        aCreated := aCr, aRoot := A.updateAt p (fun n => n.setLeft (some (TNode.mk (n.value + 1) none none))) } := by
              simp only [subStep, hfb, hfa, TNode.left, TNode.right]
              rfl
            have hA2 : A.updateAt p (fun n => n.setLeft (some (TNode.mk (n.value + 1) none none))) = A.updateAt p (fun _ => (TNode.mk av (some (TNode.mk (av + 1) none none)) (some arc))) := by
              apply updateAt_congr hfa
              rfl
            rw [hA2] at hs2
            have hfa2 : (A.updateAt p (fun _ => (TNode.mk av (some (TNode.mk (av + 1) none none)) (some arc)))).follow p = some (TNode.mk av (some (TNode.mk (av + 1) none none)) (some arc)) := follow_updateAt_self hfa _
            have hfa2R : (A.updateAt p (fun _ => (TNode.mk av (some (TNode.mk (av + 1) none none)) (some arc)))).follow (p ++ [true]) = some arc :=
              follow_snoc_true hfa2 rfl
            obtain ⟨k2, hk2, hrun2⟩ := ih bTree brx (p ++ [true]) (p :: bStack) bQ
              (some p :: aStack) aCr (A.updateAt p (fun _ => (TNode.mk av (some (TNode.mk (av + 1) none none)) (some arc)))) arc hcnt hfr hfa2R hbQ'
            have hA4 : (A.updateAt p (fun _ => (TNode.mk av (some (TNode.mk (av + 1) none none)) (some arc)))).updateAt (p ++ [true]) (fun _ => subMergeNode arc brx) =
                A.updateAt p (fun _ => (TNode.mk av (some (TNode.mk (av + 1) none none)) (some (subMergeNode arc brx)))) := by
              rw [updateAt_append, updateAt_updateAt]
              apply updateAt_congr hfa
              rfl
            rw [hA4] at hrun2
            have hs3 : subStep bTree
                { label := .t2, bStack := p :: bStack, bP := none, bQ := bQ,
                  aStack := some p :: aStack, aP := some (p ++ [false]),
                  aCreated := aCr, aRoot := A.updateAt p (fun _ => (TNode.mk av (some (TNode.mk (av + 1) none none)) (some arc))) } =
                .cont { label := .t4, bStack := p :: bStack, bP := none, bQ := bQ,
                        aStack := some p :: aStack, aP := some (p ++ [false]),
                        aCreated := aCr, aRoot := A.updateAt p (fun _ => (TNode.mk av (some (TNode.mk (av + 1) none none)) (some arc))) } := by
              simp [subStep]
            have hs4 : subStep bTree
                { label := .t4, bStack := p :: bStack, bP := none, bQ := bQ,
                  aStack := some p :: aStack, aP := some (p ++ [false]),
                  aCreated := aCr, aRoot := A.updateAt p (fun _ => (TNode.mk av (some (TNode.mk (av + 1) none none)) (some arc))) } =
                .cont { label := .t5, bStack := bStack, bP := some p, bQ := bQ,
                        aStack := aStack, aP := some p, aCreated := aCr,
                        aRoot := A.updateAt p (fun _ => (TNode.mk av (some (TNode.mk (av + 1) none none)) (some arc))) } := by
              simp [subStep]
            have hs5 : subStep bTree
                { label := .t5, bStack := bStack, bP := some p, bQ := bQ,
                  aStack := aStack, aP := some p, aCreated := aCr, aRoot := A.updateAt p (fun _ => (TNode.mk av (some (TNode.mk (av + 1) none none)) (some arc))) } =
                .cont { label := .t2, bStack := p :: bStack, bP := some (p ++ [true]),
                        bQ := bQ, aStack := some p :: aStack, aP := some (p ++ [true]),
                        aCreated := aCr, aRoot := A.updateAt p (fun _ => (TNode.mk av (some (TNode.mk (av + 1) none none)) (some arc))) } := by
              simp only [subStep, hfb, TNode.right, hbqf, hfa2]
              rfl
            have hpre : iterSteps (subStep bTree) 5
                { label := .t2, bStack := bStack, bP := some p, bQ := bQ,
                  aStack := aStack, aP := some p, aCreated := aCr, aRoot := A } =
                some { label := .t2, bStack := p :: bStack, bP := some (p ++ [true]),
                        bQ := bQ, aStack := some p :: aStack, aP := some (p ++ [true]),
                        aCreated := aCr, aRoot := A.updateAt p (fun _ => (TNode.mk av (some (TNode.mk (av + 1) none none)) (some arc))) } := by
              simp only [iterSteps, hs1, hs2, hs3, hs4, hs5]
            have hmid : iterSteps (subStep bTree) (5 + k2)
                { label := .t2, bStack := bStack, bP := some p, bQ := bQ,
                  aStack := aStack, aP := some p, aCreated := aCr, aRoot := A } =
                some { label := .t4, bStack := p :: bStack, bP := some (p ++ [true]),
                        bQ := some (p ++ [true]), aStack := some p :: aStack,
                        aP := some (p ++ [true]), aCreated := aCr, aRoot := A.updateAt p (fun _ => (TNode.mk av (some (TNode.mk (av + 1) none none)) (some (subMergeNode arc brx)))) } := by
              rw [iterSteps_append_some hpre k2]
              exact hrun2
            have hfa4 : (A.updateAt p (fun _ => (TNode.mk av (some (TNode.mk (av + 1) none none)) (some (subMergeNode arc brx))))).follow p = some (TNode.mk av (some (TNode.mk (av + 1) none none)) (some (subMergeNode arc brx))) := follow_updateAt_self hfa _
            have hs6 : subStep bTree
                { label := .t4, bStack := p :: bStack, bP := some (p ++ [true]),
                  bQ := some (p ++ [true]), aStack := some p :: aStack,
                  aP := some (p ++ [true]), aCreated := aCr, aRoot := A.updateAt p (fun _ => (TNode.mk av (some (TNode.mk (av + 1) none none)) (some (subMergeNode arc brx)))) } =
                .cont { label := .t5, bStack := bStack, bP := some p,
                        bQ := some (p ++ [true]), aStack := aStack, aP := some p,
                        aCreated := aCr, aRoot := A.updateAt p (fun _ => (TNode.mk av (some (TNode.mk (av + 1) none none)) (some (subMergeNode arc brx)))) } := by
              simp [subStep]
            have hs7 : subStep bTree
                { label := .t5, bStack := bStack, bP := some p,
                  bQ := some (p ++ [true]), aStack := aStack, aP := some p,
                  aCreated := aCr, aRoot := A.updateAt p (fun _ => (TNode.mk av (some (TNode.mk (av + 1) none none)) (some (subMergeNode arc brx)))) } =
                .cont { label := .t6, bStack := bStack, bP := some p,
                        bQ := some (p ++ [true]), aStack := aStack, aP := some p,
                        aCreated := aCr, aRoot := A.updateAt p (fun _ => (TNode.mk av (some (TNode.mk (av + 1) none none)) (some (subMergeNode arc brx)))) } := by
              simp only [subStep, hfb, TNode.right, beq_self_eq_true]
              rfl
            have hroot : subT6Right (subT6Left (A.updateAt p (fun _ => (TNode.mk av (some (TNode.mk (av + 1) none none)) (some (subMergeNode arc brx))))) p (TNode.mk av (some (TNode.mk (av + 1) none none)) (some (subMergeNode arc brx)))
                (TNode.mk bv none (some brx))) p (TNode.mk bv none (some brx)) =
                A.updateAt p (fun _ => subMergeNode (TNode.mk av none (some arc))
                  (TNode.mk bv none (some brx))) := by
              rw [subT6_at _ hfa4, updateAt_updateAt]
              apply updateAt_congr hfa
              rfl
            have hs8 : subStep bTree
                { label := .t6, bStack := bStack, bP := some p,
                  bQ := some (p ++ [true]), aStack := aStack, aP := some p,
                  aCreated := aCr, aRoot := A.updateAt p (fun _ => (TNode.mk av (some (TNode.mk (av + 1) none none)) (some (subMergeNode arc brx)))) } =
                .cont { label := .t4, bStack := bStack, bP := some p, bQ := some p,
                        aStack := aStack, aP := some p, aCreated := aCr,
                        aRoot := A.updateAt p (fun _ => subMergeNode (TNode.mk av none (some arc))
                          (TNode.mk bv none (some brx))) } := by
              simp only [subStep, hfa4, hfb]
              rw [hroot]
            refine ⟨5 + k2 + 3, by simp only [TNode.nodeCount]; omega, ?_⟩
            have hpost : iterSteps (subStep bTree) 3
                { label := .t4, bStack := p :: bStack, bP := some (p ++ [true]),
                  bQ := some (p ++ [true]), aStack := some p :: aStack,
                  aP := some (p ++ [true]), aCreated := aCr, aRoot := A.updateAt p (fun _ => (TNode.mk av (some (TNode.mk (av + 1) none none)) (some (subMergeNode arc brx)))) } =
                some { label := .t4, bStack := bStack, bP := some p, bQ := some p,
                        aStack := aStack, aP := some p, aCreated := aCr,
                        aRoot := A.updateAt p (fun _ => subMergeNode (TNode.mk av none (some arc))
                          (TNode.mk bv none (some brx))) } := by
              simp only [iterSteps, hs6, hs7, hs8]
            rw [iterSteps_append_some hmid 3]
            exact hpost
        | some alc =>
          cases aR with
          | none =>
            have hs1 : subStep bTree
                { label := .t2, bStack := bStack, bP := some p, bQ := bQ,
                  aStack := aStack, aP := some p, aCreated := aCr, aRoot := A } =
                .cont { label := .t3, bStack := bStack, bP := some p, bQ := bQ,
                        aStack := aStack, aP := some p, aCreated := aCr, aRoot := A } := by
              simp [subStep]
            have hs2 : subStep bTree
                { label := .t3, bStack := bStack, bP := some p, bQ := bQ,
                  aStack := aStack, aP := some p, aCreated := aCr, aRoot := A } =
                .cont { label := .t2, bStack := p :: bStack, bP := none, bQ := bQ,
                        aStack := some p :: aStack, aP := some (p ++ [false]),
                        aCreated := aCr, aRoot := A.updateAt p (fun n => n.setRight (some (TNode.mk (n.value + 1) none none))) } := by
              simp only [subStep, hfb, hfa, TNode.left, TNode.right]
              rfl
            have hA2 : A.updateAt p (fun n => n.setRight (some (TNode.mk (n.value + 1) none none))) = A.updateAt p (fun _ => (TNode.mk av (some alc) (some (TNode.mk (av + 1) none none)))) := by
              apply updateAt_congr hfa
              rfl
            rw [hA2] at hs2
            have hfa2 : (A.updateAt p (fun _ => (TNode.mk av (some alc) (some (TNode.mk (av + 1) none none))))).follow p = some (TNode.mk av (some alc) (some (TNode.mk (av + 1) none none))) := follow_updateAt_self hfa _
            have hfa2R : (A.updateAt p (fun _ => (TNode.mk av (some alc) (some (TNode.mk (av + 1) none none))))).follow (p ++ [true]) = some (TNode.mk (av + 1) none none) :=
              follow_snoc_true hfa2 rfl
            obtain ⟨k2, hk2, hrun2⟩ := ih bTree brx (p ++ [true]) (p :: bStack) bQ
              (some p :: aStack) aCr (A.updateAt p (fun _ => (TNode.mk av (some alc) (some (TNode.mk (av + 1) none none))))) (TNode.mk (av + 1) none none) hcnt hfr hfa2R hbQ'
            have hA4 : (A.updateAt p (fun _ => (TNode.mk av (some alc) (some (TNode.mk (av + 1) none none))))).updateAt (p ++ [true]) (fun _ => subMergeNode (TNode.mk (av + 1) none none) brx) =
                A.updateAt p (fun _ => (TNode.mk av (some alc) (some (subMergeNode (TNode.mk (av + 1) none none) brx)))) := by
              rw [updateAt_append, updateAt_updateAt]
              apply updateAt_congr hfa
              rfl
            rw [hA4] at hrun2
            have hs3 : subStep bTree
                { label := .t2, bStack := p :: bStack, bP := none, bQ := bQ,
                  aStack := some p :: aStack, aP := some (p ++ [false]),
                  aCreated := aCr, aRoot := A.updateAt p (fun _ => (TNode.mk av (some alc) (some (TNode.mk (av + 1) none none)))) } =
                .cont { label := .t4, bStack := p :: bStack, bP := none, bQ := bQ,
                        aStack := some p :: aStack, aP := some (p ++ [false]),
                        aCreated := aCr, aRoot := A.updateAt p (fun _ => (TNode.mk av (some alc) (some (TNode.mk (av + 1) none none)))) } := by
              simp [subStep]
            have hs4 : subStep bTree
                { label := .t4, bStack := p :: bStack, bP := none, bQ := bQ,
                  aStack := some p :: aStack, aP := some (p ++ [false]),
                  aCreated := aCr, aRoot := A.updateAt p (fun _ => (TNode.mk av (some alc) (some (TNode.mk (av + 1) none none)))) } =
                .cont { label := .t5, bStack := bStack, bP := some p, bQ := bQ,
                        aStack := aStack, aP := some p, aCreated := aCr,
                        aRoot := A.updateAt p (fun _ => (TNode.mk av (some alc) (some (TNode.mk (av + 1) none none)))) } := by
              simp [subStep]
            have hs5 : subStep bTree
                { label := .t5, bStack := bStack, bP := some p, bQ := bQ,
                  aStack := aStack, aP := some p, aCreated := aCr, aRoot := A.updateAt p (fun _ => (TNode.mk av (some alc) (some (TNode.mk (av + 1) none none)))) } =
                .cont { label := .t2, bStack := p :: bStack, bP := some (p ++ [true]),
                        bQ := bQ, aStack := some p :: aStack, aP := some (p ++ [true]),
                        aCreated := aCr, aRoot := A.updateAt p (fun _ => (TNode.mk av (some alc) (some (TNode.mk (av + 1) none none)))) } := by
              simp only [subStep, hfb, TNode.right, hbqf, hfa2]
              rfl
            have hpre : iterSteps (subStep bTree) 5
                { label := .t2, bStack := bStack, bP := some p, bQ := bQ,
                  aStack := aStack, aP := some p, aCreated := aCr, aRoot := A } =
                some { label := .t2, bStack := p :: bStack, bP := some (p ++ [true]),
                        bQ := bQ, aStack := some p :: aStack, aP := some (p ++ [true]),
                        aCreated := aCr, aRoot := A.updateAt p (fun _ => (TNode.mk av (some alc) (some (TNode.mk (av + 1) none none)))) } := by
              simp only [iterSteps, hs1, hs2, hs3, hs4, hs5]
            have hmid : iterSteps (subStep bTree) (5 + k2)
                { label := .t2, bStack := bStack, bP := some p, bQ := bQ,
                  aStack := aStack, aP := some p, aCreated := aCr, aRoot := A } =
                some { label := .t4, bStack := p :: bStack, bP := some (p ++ [true]),
                        bQ := some (p ++ [true]), aStack := some p :: aStack,
                        aP := some (p ++ [true]), aCreated := aCr, aRoot := A.updateAt p (fun _ => (TNode.mk av (some alc) (some (subMergeNode (TNode.mk (av + 1) none none) brx)))) } := by
              rw [iterSteps_append_some hpre k2]
              exact hrun2
            have hfa4 : (A.updateAt p (fun _ => (TNode.mk av (some alc) (some (subMergeNode (TNode.mk (av + 1) none none) brx))))).follow p = some (TNode.mk av (some alc) (some (subMergeNode (TNode.mk (av + 1) none none) brx))) := follow_updateAt_self hfa _
            have hs6 : subStep bTree
                { label := .t4, bStack := p :: bStack, bP := some (p ++ [true]),
                  bQ := some (p ++ [true]), aStack := some p :: aStack,
                  aP := some (p ++ [true]), aCreated := aCr, aRoot := A.updateAt p (fun _ => (TNode.mk av (some alc) (some (subMergeNode (TNode.mk (av + 1) none none) brx)))) } =
                .cont { label := .t5, bStack := bStack, bP := some p,
                        bQ := some (p ++ [true]), aStack := aStack, aP := some p,
                        aCreated := aCr, aRoot := A.updateAt p (fun _ => (TNode.mk av (some alc) (some (subMergeNode (TNode.mk (av + 1) none none) brx)))) } := by
              simp [subStep]
            have hs7 : subStep bTree
                { label := .t5, bStack := bStack, bP := some p,
                  bQ := some (p ++ [true]), aStack := aStack, aP := some p,
                  aCreated := aCr, aRoot := A.updateAt p (fun _ => (TNode.mk av (some alc) (some (subMergeNode (TNode.mk (av + 1) none none) brx)))) } =
                .cont { label := .t6, bStack := bStack, bP := some p,
                        bQ := some (p ++ [true]), aStack := aStack, aP := some p,
                        aCreated := aCr, aRoot := A.updateAt p (fun _ => (TNode.mk av (some alc) (some (subMergeNode (TNode.mk (av + 1) none none) brx)))) } := by
              simp only [subStep, hfb, TNode.right, beq_self_eq_true]
              rfl
            have hroot : subT6Right (subT6Left (A.updateAt p (fun _ => (TNode.mk av (some alc) (some (subMergeNode (TNode.mk (av + 1) none none) brx))))) p (TNode.mk av (some alc) (some (subMergeNode (TNode.mk (av + 1) none none) brx)))
                (TNode.mk bv none (some brx))) p (TNode.mk bv none (some brx)) =
                A.updateAt p (fun _ => subMergeNode (TNode.mk av (some alc) none)
                  (TNode.mk bv none (some brx))) := by
              rw [subT6_at _ hfa4, updateAt_updateAt]
              apply updateAt_congr hfa
              rfl
            have hs8 : subStep bTree
                { label := .t6, bStack := bStack, bP := some p,
                  bQ := some (p ++ [true]), aStack := aStack, aP := some p,
                  aCreated := aCr, aRoot := A.updateAt p (fun _ => (TNode.mk av (some alc) (some (subMergeNode (TNode.mk (av + 1) none none) brx)))) } =
                .cont { label := .t4, bStack := bStack, bP := some p, bQ := some p,
                        aStack := aStack, aP := some p, aCreated := aCr,
                        aRoot := A.updateAt p (fun _ => subMergeNode (TNode.mk av (some alc) none)
                          (TNode.mk bv none (some brx))) } := by
              simp only [subStep, hfa4, hfb]
              rw [hroot]
            refine ⟨5 + k2 + 3, by simp only [TNode.nodeCount]; omega, ?_⟩
            have hpost : iterSteps (subStep bTree) 3
                { label := .t4, bStack := p :: bStack, bP := some (p ++ [true]),
                  bQ := some (p ++ [true]), aStack := some p :: aStack,
                  aP := some (p ++ [true]), aCreated := aCr, aRoot := A.updateAt p (fun _ => (TNode.mk av (some alc) (some (subMergeNode (TNode.mk (av + 1) none none) brx)))) } =
                some { label := .t4, bStack := bStack, bP := some p, bQ := some p,
                        aStack := aStack, aP := some p, aCreated := aCr,
                        aRoot := A.updateAt p (fun _ => subMergeNode (TNode.mk av (some alc) none)
                          (TNode.mk bv none (some brx))) } := by
              simp only [iterSteps, hs6, hs7, hs8]
            rw [iterSteps_append_some hmid 3]
            exact hpost
          | some arc =>
            have hs1 : subStep bTree
                { label := .t2, bStack := bStack, bP := some p, bQ := bQ,
                  aStack := aStack, aP := some p, aCreated := aCr, aRoot := A } =
                .cont { label := .t3, bStack := bStack, bP := some p, bQ := bQ,
                        aStack := aStack, aP := some p, aCreated := aCr, aRoot := A } := by
              simp [subStep]
            have hs2 : subStep bTree
                { label := .t3, bStack := bStack, bP := some p, bQ := bQ,
                  aStack := aStack, aP := some p, aCreated := aCr, aRoot := A } =
                .cont { label := .t2, bStack := p :: bStack, bP := none, bQ := bQ,
                        aStack := some p :: aStack, aP := some (p ++ [false]),
                        aCreated := aCr, aRoot := A } := by
              simp only [subStep, hfb, hfa, TNode.left, TNode.right]
              rfl
            have hfa2R : A.follow (p ++ [true]) = some arc := follow_snoc_true hfa rfl
            obtain ⟨k2, hk2, hrun2⟩ := ih bTree brx (p ++ [true]) (p :: bStack) bQ
              (some p :: aStack) aCr A arc hcnt hfr hfa2R hbQ'
            have hA4 : A.updateAt (p ++ [true]) (fun _ => subMergeNode arc brx) =
                A.updateAt p (fun _ => (TNode.mk av (some alc) (some (subMergeNode arc brx)))) := by
              rw [updateAt_append]
              apply updateAt_congr hfa
              rfl
            rw [hA4] at hrun2
            have hs3 : subStep bTree
                { label := .t2, bStack := p :: bStack, bP := none, bQ := bQ,
                  aStack := some p :: aStack, aP := some (p ++ [false]),
                  aCreated := aCr, aRoot := A } =
                .cont { label := .t4, bStack := p :: bStack, bP := none, bQ := bQ,
                        aStack := some p :: aStack, aP := some (p ++ [false]),
                        aCreated := aCr, aRoot := A } := by
              simp [subStep]
            have hs4 : subStep bTree
                { label := .t4, bStack := p :: bStack, bP := none, bQ := bQ,
                  aStack := some p :: aStack, aP := some (p ++ [false]),
                  aCreated := aCr, aRoot := A } =
                .cont { label := .t5, bStack := bStack, bP := some p, bQ := bQ,
                        aStack := aStack, aP := some p, aCreated := aCr,
                        aRoot := A } := by
              simp [subStep]
            have hs5 : subStep bTree
                { label := .t5, bStack := bStack, bP := some p, bQ := bQ,
                  aStack := aStack, aP := some p, aCreated := aCr, aRoot := A } =
                .cont { label := .t2, bStack := p :: bStack, bP := some (p ++ [true]),
                        bQ := bQ, aStack := some p :: aStack, aP := some (p ++ [true]),
                        aCreated := aCr, aRoot := A } := by
              simp only [subStep, hfb, TNode.right, hbqf, hfa]
              rfl
            have hpre : iterSteps (subStep bTree) 5
                { label := .t2, bStack := bStack, bP := some p, bQ := bQ,
                  aStack := aStack, aP := some p, aCreated := aCr, aRoot := A } =
                some { label := .t2, bStack := p :: bStack, bP := some (p ++ [true]),
                        bQ := bQ, aStack := some p :: aStack, aP := some (p ++ [true]),
                        aCreated := aCr, aRoot := A } := by
              simp only [iterSteps, hs1, hs2, hs3, hs4, hs5]
            have hmid : iterSteps (subStep bTree) (5 + k2)
                { label := .t2, bStack := bStack, bP := some p, bQ := bQ,
                  aStack := aStack, aP := some p, aCreated := aCr, aRoot := A } =
                some { label := .t4, bStack := p :: bStack, bP := some (p ++ [true]),
                        bQ := some (p ++ [true]), aStack := some p :: aStack,
                        aP := some (p ++ [true]), aCreated := aCr, aRoot := A.updateAt p (fun _ => (TNode.mk av (some alc) (some (subMergeNode arc brx)))) } := by
              rw [iterSteps_append_some hpre k2]
              exact hrun2
            have hfa4 : (A.updateAt p (fun _ => (TNode.mk av (some alc) (some (subMergeNode arc brx))))).follow p = some (TNode.mk av (some alc) (some (subMergeNode arc brx))) := follow_updateAt_self hfa _
            have hs6 : subStep bTree
                { label := .t4, bStack := p :: bStack, bP := some (p ++ [true]),
                  bQ := some (p ++ [true]), aStack := some p :: aStack,
                  aP := some (p ++ [true]), aCreated := aCr, aRoot := A.updateAt p (fun _ => (TNode.mk av (some alc) (some (subMergeNode arc brx)))) } =
                .cont { label := .t5, bStack := bStack, bP := some p,
                        bQ := some (p ++ [true]), aStack := aStack, aP := some p,
                        aCreated := aCr, aRoot := A.updateAt p (fun _ => (TNode.mk av (some alc) (some (subMergeNode arc brx)))) } := by
              simp [subStep]
            have hs7 : subStep bTree
                { label := .t5, bStack := bStack, bP := some p,
                  bQ := some (p ++ [true]), aStack := aStack, aP := some p,
                  aCreated := aCr, aRoot := A.updateAt p (fun _ => (TNode.mk av (some alc) (some (subMergeNode arc brx)))) } =
                .cont { label := .t6, bStack := bStack, bP := some p,
                        bQ := some (p ++ [true]), aStack := aStack, aP := some p,
                        aCreated := aCr, aRoot := A.updateAt p (fun _ => (TNode.mk av (some alc) (some (subMergeNode arc brx)))) } := by
              simp only [subStep, hfb, TNode.right, beq_self_eq_true]
              rfl
            have hroot : subT6Right (subT6Left (A.updateAt p (fun _ => (TNode.mk av (some alc) (some (subMergeNode arc brx))))) p (TNode.mk av (some alc) (some (subMergeNode arc brx)))
                (TNode.mk bv none (some brx))) p (TNode.mk bv none (some brx)) =
                A.updateAt p (fun _ => subMergeNode (TNode.mk av (some alc) (some arc))
                  (TNode.mk bv none (some brx))) := by
              rw [subT6_at _ hfa4, updateAt_updateAt]
              apply updateAt_congr hfa
              rfl
            have hs8 : subStep bTree
                { label := .t6, bStack := bStack, bP := some p,
                  bQ := some (p ++ [true]), aStack := aStack, aP := some p,
                  aCreated := aCr, aRoot := A.updateAt p (fun _ => (TNode.mk av (some alc) (some (subMergeNode arc brx)))) } =
                .cont { label := .t4, bStack := bStack, bP := some p, bQ := some p,
                        aStack := aStack, aP := some p, aCreated := aCr,
                        aRoot := A.updateAt p (fun _ => subMergeNode (TNode.mk av (some alc) (some arc))
                          (TNode.mk bv none (some brx))) } := by
              simp only [subStep, hfa4, hfb]
              rw [hroot]
            refine ⟨5 + k2 + 3, by simp only [TNode.nodeCount]; omega, ?_⟩
            have hpost : iterSteps (subStep bTree) 3
                { label := .t4, bStack := p :: bStack, bP := some (p ++ [true]),
                  bQ := some (p ++ [true]), aStack := some p :: aStack,
                  aP := some (p ++ [true]), aCreated := aCr, aRoot := A.updateAt p (fun _ => (TNode.mk av (some alc) (some (subMergeNode arc brx)))) } =
                some { label := .t4, bStack := bStack, bP := some p, bQ := some p,
                        aStack := aStack, aP := some p, aCreated := aCr,
                        aRoot := A.updateAt p (fun _ => subMergeNode (TNode.mk av (some alc) (some arc))
                          (TNode.mk bv none (some brx))) } := by
              simp only [iterSteps, hs6, hs7, hs8]
            rw [iterSteps_append_some hmid 3]
            exact hpost
    | some blx =>
      have hfl : bTree.follow (p ++ [false]) = some blx := follow_snoc_false hfb rfl
      have hbQl : ∀ r, bQ = some r → ¬ underPath (p ++ [false]) r :=
        fun r hr hu => hbQ r hr (underPath_of_extend hu)
      cases br with
      | none =>
        -- CASE OL: b has only a left child
        have hcnt : blx.nodeCount ≤ n := by
          simp only [TNode.nodeCount] at hn
          omega
        obtain ⟨av, aL, aR⟩ := asub
        cases aL with
        | none =>
          cases aR with
          | none =>
            have hs1 : subStep bTree
                { label := .t2, bStack := bStack, bP := some p, bQ := bQ,
                  aStack := aStack, aP := some p, aCreated := aCr, aRoot := A } =
                .cont { label := .t3, bStack := bStack, bP := some p, bQ := bQ,
                        aStack := aStack, aP := some p, aCreated := aCr, aRoot := A } := by
              simp [subStep]
            have hs2 : subStep bTree
                { label := .t3, bStack := bStack, bP := some p, bQ := bQ,
                  aStack := aStack, aP := some p, aCreated := aCr, aRoot := A } =
                .cont { label := .t2, bStack := p :: bStack, bP := some (p ++ [false]),
                        bQ := bQ, aStack := some p :: aStack, aP := some (p ++ [false]),
                        aCreated := aCr, aRoot := (A.updateAt p (fun n => n.setLeft (some (TNode.mk (n.value + 1) none none)))).updateAt p (fun n => n.setRight (some (TNode.mk (n.value + 1) none none))) } := by
              simp only [subStep, hfb, hfa, TNode.left, TNode.right]
              rfl
            have hA2 : (A.updateAt p (fun n => n.setLeft (some (TNode.mk (n.value + 1) none none)))).updateAt p (fun n => n.setRight (some (TNode.mk (n.value + 1) none none))) = A.updateAt p (fun _ => (TNode.mk av (some (TNode.mk (av + 1) none none)) (some (TNode.mk (av + 1) none none)))) := by
              rw [updateAt_updateAt]
              apply updateAt_congr hfa
              rfl
            rw [hA2] at hs2
            have hfa2 : (A.updateAt p (fun _ => (TNode.mk av (some (TNode.mk (av + 1) none none)) (some (TNode.mk (av + 1) none none))))).follow p = some (TNode.mk av (some (TNode.mk (av + 1) none none)) (some (TNode.mk (av + 1) none none))) :=
              follow_updateAt_self hfa _
            have hfa2L : (A.updateAt p (fun _ => (TNode.mk av (some (TNode.mk (av + 1) none none)) (some (TNode.mk (av + 1) none none))))).follow (p ++ [false]) = some (TNode.mk (av + 1) none none) :=
              follow_snoc_false hfa2 rfl
            obtain ⟨k1, hk1, hrun1⟩ := ih bTree blx (p ++ [false]) (p :: bStack) bQ
              (some p :: aStack) aCr (A.updateAt p (fun _ => (TNode.mk av (some (TNode.mk (av + 1) none none)) (some (TNode.mk (av + 1) none none))))) (TNode.mk (av + 1) none none) hcnt hfl hfa2L hbQl
            have hA3 : (A.updateAt p (fun _ => (TNode.mk av (some (TNode.mk (av + 1) none none)) (some (TNode.mk (av + 1) none none))))).updateAt (p ++ [false]) (fun _ => subMergeNode (TNode.mk (av + 1) none none) blx) =
                A.updateAt p (fun _ => (TNode.mk av (some (subMergeNode (TNode.mk (av + 1) none none) blx)) (some (TNode.mk (av + 1) none none)))) := by
              rw [updateAt_append, updateAt_updateAt]
              apply updateAt_congr hfa
              rfl
            rw [hA3] at hrun1
            have hpre : iterSteps (subStep bTree) 2
                { label := .t2, bStack := bStack, bP := some p, bQ := bQ,
                  aStack := aStack, aP := some p, aCreated := aCr, aRoot := A } =
                some { label := .t2, bStack := p :: bStack, bP := some (p ++ [false]),
                        bQ := bQ, aStack := some p :: aStack, aP := some (p ++ [false]),
                        aCreated := aCr, aRoot := A.updateAt p (fun _ => (TNode.mk av (some (TNode.mk (av + 1) none none)) (some (TNode.mk (av + 1) none none)))) } := by
              simp only [iterSteps, hs1, hs2]
            have hmid : iterSteps (subStep bTree) (2 + k1)
                { label := .t2, bStack := bStack, bP := some p, bQ := bQ,
                  aStack := aStack, aP := some p, aCreated := aCr, aRoot := A } =
                some { label := .t4, bStack := p :: bStack, bP := some (p ++ [false]),
                        bQ := some (p ++ [false]), aStack := some p :: aStack,
                        aP := some (p ++ [false]), aCreated := aCr, aRoot := A.updateAt p (fun _ => (TNode.mk av (some (subMergeNode (TNode.mk (av + 1) none none) blx)) (some (TNode.mk (av + 1) none none)))) } := by
              rw [iterSteps_append_some hpre k1]
              exact hrun1
            have hfa3 : (A.updateAt p (fun _ => (TNode.mk av (some (subMergeNode (TNode.mk (av + 1) none none) blx)) (some (TNode.mk (av + 1) none none))))).follow p = some (TNode.mk av (some (subMergeNode (TNode.mk (av + 1) none none) blx)) (some (TNode.mk (av + 1) none none))) := follow_updateAt_self hfa _
            have hs3 : subStep bTree
                { label := .t4, bStack := p :: bStack, bP := some (p ++ [false]),
                  bQ := some (p ++ [false]), aStack := some p :: aStack,
                  aP := some (p ++ [false]), aCreated := aCr, aRoot := A.updateAt p (fun _ => (TNode.mk av (some (subMergeNode (TNode.mk (av + 1) none none) blx)) (some (TNode.mk (av + 1) none none)))) } =
                .cont { label := .t5, bStack := bStack, bP := some p,
                        bQ := some (p ++ [false]), aStack := aStack, aP := some p,
                        aCreated := aCr, aRoot := A.updateAt p (fun _ => (TNode.mk av (some (subMergeNode (TNode.mk (av + 1) none none) blx)) (some (TNode.mk (av + 1) none none)))) } := by
              simp [subStep]
            have hs4 : subStep bTree
                { label := .t5, bStack := bStack, bP := some p,
                  bQ := some (p ++ [false]), aStack := aStack, aP := some p,
                  aCreated := aCr, aRoot := A.updateAt p (fun _ => (TNode.mk av (some (subMergeNode (TNode.mk (av + 1) none none) blx)) (some (TNode.mk (av + 1) none none)))) } =
                .cont { label := .t6, bStack := bStack, bP := some p,
                        bQ := some (p ++ [false]), aStack := aStack, aP := some p,
                        aCreated := aCr, aRoot := A.updateAt p (fun _ => (TNode.mk av (some (subMergeNode (TNode.mk (av + 1) none none) blx)) (some (TNode.mk (av + 1) none none)))) } := by
              simp only [subStep, hfb, TNode.right]
            have hroot : subT6Right (subT6Left (A.updateAt p (fun _ => (TNode.mk av (some (subMergeNode (TNode.mk (av + 1) none none) blx)) (some (TNode.mk (av + 1) none none))))) p (TNode.mk av (some (subMergeNode (TNode.mk (av + 1) none none) blx)) (some (TNode.mk (av + 1) none none))) (TNode.mk bv (some blx) none)) p (TNode.mk bv (some blx) none) =
                A.updateAt p (fun _ => subMergeNode (TNode.mk av none none) (TNode.mk bv (some blx) none)) := by
              rw [subT6_at _ hfa3, updateAt_updateAt]
              apply updateAt_congr hfa
              rfl
            have hs5 : subStep bTree
                { label := .t6, bStack := bStack, bP := some p,
                  bQ := some (p ++ [false]), aStack := aStack, aP := some p,
                  aCreated := aCr, aRoot := A.updateAt p (fun _ => (TNode.mk av (some (subMergeNode (TNode.mk (av + 1) none none) blx)) (some (TNode.mk (av + 1) none none)))) } =
                .cont { label := .t4, bStack := bStack, bP := some p, bQ := some p,
                        aStack := aStack, aP := some p, aCreated := aCr,
                        aRoot := A.updateAt p (fun _ => subMergeNode (TNode.mk av none none)
                          (TNode.mk bv (some blx) none)) } := by
              simp only [subStep, hfa3, hfb]
              rw [hroot]
            refine ⟨2 + k1 + 3, by simp only [TNode.nodeCount]; omega, ?_⟩
            have hpost : iterSteps (subStep bTree) 3
                { label := .t4, bStack := p :: bStack, bP := some (p ++ [false]),
                  bQ := some (p ++ [false]), aStack := some p :: aStack,
                  aP := some (p ++ [false]), aCreated := aCr, aRoot := A.updateAt p (fun _ => (TNode.mk av (some (subMergeNode (TNode.mk (av + 1) none none) blx)) (some (TNode.mk (av + 1) none none)))) } =
                some { label := .t4, bStack := bStack, bP := some p, bQ := some p,
                        aStack := aStack, aP := some p, aCreated := aCr,
                        aRoot := A.updateAt p (fun _ => subMergeNode (TNode.mk av none none)
                          (TNode.mk bv (some blx) none)) } := by
              simp only [iterSteps, hs3, hs4, hs5]
            rw [iterSteps_append_some hmid 3]
            exact hpost
          | some arc =>
            have hs1 : subStep bTree
                { label := .t2, bStack := bStack, bP := some p, bQ := bQ,
                  aStack := aStack, aP := some p, aCreated := aCr, aRoot := A } =
                .cont { label := .t3, bStack := bStack, bP := some p, bQ := bQ,
                        aStack := aStack, aP := some p, aCreated := aCr, aRoot := A } := by
              simp [subStep]
            have hs2 : subStep bTree
                { label := .t3, bStack := bStack, bP := some p, bQ := bQ,
                  aStack := aStack, aP := some p, aCreated := aCr, aRoot := A } =
                .cont { label := .t2, bStack := p :: bStack, bP := some (p ++ [false]),
                        bQ := bQ, aStack := some p :: aStack, aP := some (p ++ [false]),
                        aCreated := aCr, aRoot := A.updateAt p (fun n => n.setLeft (some (TNode.mk (n.value + 1) none none))) } := by
              simp only [subStep, hfb, hfa, TNode.left, TNode.right]
              rfl
            have hA2 : A.updateAt p (fun n => n.setLeft (some (TNode.mk (n.value + 1) none none))) = A.updateAt p (fun _ => (TNode.mk av (some (TNode.mk (av + 1) none none)) (some arc))) := by
              apply updateAt_congr hfa
              rfl
            rw [hA2] at hs2
            have hfa2 : (A.updateAt p (fun _ => (TNode.mk av (some (TNode.mk (av + 1) none none)) (some arc)))).follow p = some (TNode.mk av (some (TNode.mk (av + 1) none none)) (some arc)) :=
              follow_updateAt_self hfa _
            have hfa2L : (A.updateAt p (fun _ => (TNode.mk av (some (TNode.mk (av + 1) none none)) (some arc)))).follow (p ++ [false]) = some (TNode.mk (av + 1) none none) :=
              follow_snoc_false hfa2 rfl
            obtain ⟨k1, hk1, hrun1⟩ := ih bTree blx (p ++ [false]) (p :: bStack) bQ
              (some p :: aStack) aCr (A.updateAt p (fun _ => (TNode.mk av (some (TNode.mk (av + 1) none none)) (some arc)))) (TNode.mk (av + 1) none none) hcnt hfl hfa2L hbQl
            have hA3 : (A.updateAt p (fun _ => (TNode.mk av (some (TNode.mk (av + 1) none none)) (some arc)))).updateAt (p ++ [false]) (fun _ => subMergeNode (TNode.mk (av + 1) none none) blx) =
                A.updateAt p (fun _ => (TNode.mk av (some (subMergeNode (TNode.mk (av + 1) none none) blx)) (some arc))) := by
              rw [updateAt_append, updateAt_updateAt]
              apply updateAt_congr hfa
              rfl
            rw [hA3] at hrun1
            have hpre : iterSteps (subStep bTree) 2
                { label := .t2, bStack := bStack, bP := some p, bQ := bQ,
                  aStack := aStack, aP := some p, aCreated := aCr, aRoot := A } =
                some { label := .t2, bStack := p :: bStack, bP := some (p ++ [false]),
                        bQ := bQ, aStack := some p :: aStack, aP := some (p ++ [false]),
                        aCreated := aCr, aRoot := A.updateAt p (fun _ => (TNode.mk av (some (TNode.mk (av + 1) none none)) (some arc))) } := by
              simp only [iterSteps, hs1, hs2]
            have hmid : iterSteps (subStep bTree) (2 + k1)
                { label := .t2, bStack := bStack, bP := some p, bQ := bQ,
                  aStack := aStack, aP := some p, aCreated := aCr, aRoot := A } =
                some { label := .t4, bStack := p :: bStack, bP := some (p ++ [false]),
                        bQ := some (p ++ [false]), aStack := some p :: aStack,
                        aP := some (p ++ [false]), aCreated := aCr, aRoot := A.updateAt p (fun _ => (TNode.mk av (some (subMergeNode (TNode.mk (av + 1) none none) blx)) (some arc))) } := by
              rw [iterSteps_append_some hpre k1]
              exact hrun1
            have hfa3 : (A.updateAt p (fun _ => (TNode.mk av (some (subMergeNode (TNode.mk (av + 1) none none) blx)) (some arc)))).follow p = some (TNode.mk av (some (subMergeNode (TNode.mk (av + 1) none none) blx)) (some arc)) := follow_updateAt_self hfa _
            have hs3 : subStep bTree
                { label := .t4, bStack := p :: bStack, bP := some (p ++ [false]),
                  bQ := some (p ++ [false]), aStack := some p :: aStack,
                  aP := some (p ++ [false]), aCreated := aCr, aRoot := A.updateAt p (fun _ => (TNode.mk av (some (subMergeNode (TNode.mk (av + 1) none none) blx)) (some arc))) } =
                .cont { label := .t5, bStack := bStack, bP := some p,
                        bQ := some (p ++ [false]), aStack := aStack, aP := some p,
                        aCreated := aCr, aRoot := A.updateAt p (fun _ => (TNode.mk av (some (subMergeNode (TNode.mk (av + 1) none none) blx)) (some arc))) } := by
              simp [subStep]
            have hs4 : subStep bTree
                { label := .t5, bStack := bStack, bP := some p,
                  bQ := some (p ++ [false]), aStack := aStack, aP := some p,
                  aCreated := aCr, aRoot := A.updateAt p (fun _ => (TNode.mk av (some (subMergeNode (TNode.mk (av + 1) none none) blx)) (some arc))) } =
                .cont { label := .t6, bStack := bStack, bP := some p,
                        bQ := some (p ++ [false]), aStack := aStack, aP := some p,
                        aCreated := aCr, aRoot := A.updateAt p (fun _ => (TNode.mk av (some (subMergeNode (TNode.mk (av + 1) none none) blx)) (some arc))) } := by
              simp only [subStep, hfb, TNode.right]
            have hroot : subT6Right (subT6Left (A.updateAt p (fun _ => (TNode.mk av (some (subMergeNode (TNode.mk (av + 1) none none) blx)) (some arc)))) p (TNode.mk av (some (subMergeNode (TNode.mk (av + 1) none none) blx)) (some arc)) (TNode.mk bv (some blx) none)) p (TNode.mk bv (some blx) none) =
                A.updateAt p (fun _ => subMergeNode (TNode.mk av none (some arc)) (TNode.mk bv (some blx) none)) := by
              rw [subT6_at _ hfa3, updateAt_updateAt]
              apply updateAt_congr hfa
              rfl
            have hs5 : subStep bTree
                { label := .t6, bStack := bStack, bP := some p,
                  bQ := some (p ++ [false]), aStack := aStack, aP := some p,
                  aCreated := aCr, aRoot := A.updateAt p (fun _ => (TNode.mk av (some (subMergeNode (TNode.mk (av + 1) none none) blx)) (some arc))) } =
                .cont { label := .t4, bStack := bStack, bP := some p, bQ := some p,
                        aStack := aStack, aP := some p, aCreated := aCr,
                        aRoot := A.updateAt p (fun _ => subMergeNode (TNode.mk av none (some arc))
                          (TNode.mk bv (some blx) none)) } := by
              simp only [subStep, hfa3, hfb]
              rw [hroot]
            refine ⟨2 + k1 + 3, by simp only [TNode.nodeCount]; omega, ?_⟩
            have hpost : iterSteps (subStep bTree) 3
                { label := .t4, bStack := p :: bStack, bP := some (p ++ [false]),
                  bQ := some (p ++ [false]), aStack := some p :: aStack,
                  aP := some (p ++ [false]), aCreated := aCr, aRoot := A.updateAt p (fun _ => (TNode.mk av (some (subMergeNode (TNode.mk (av + 1) none none) blx)) (some arc))) } =
                some { label := .t4, bStack := bStack, bP := some p, bQ := some p,
                        aStack := aStack, aP := some p, aCreated := aCr,
                        aRoot := A.updateAt p (fun _ => subMergeNode (TNode.mk av none (some arc))
                          (TNode.mk bv (some blx) none)) } := by
              simp only [iterSteps, hs3, hs4, hs5]
            rw [iterSteps_append_some hmid 3]
            exact hpost
        | some alc =>
          cases aR with
          | none =>
            have hs1 : subStep bTree
                { label := .t2, bStack := bStack, bP := some p, bQ := bQ,
                  aStack := aStack, aP := some p, aCreated := aCr, aRoot := A } =
                .cont { label := .t3, bStack := bStack, bP := some p, bQ := bQ,
                        aStack := aStack, aP := some p, aCreated := aCr, aRoot := A } := by
              simp [subStep]
            have hs2 : subStep bTree
                { label := .t3, bStack := bStack, bP := some p, bQ := bQ,
                  aStack := aStack, aP := some p, aCreated := aCr, aRoot := A } =
                .cont { label := .t2, bStack := p :: bStack, bP := some (p ++ [false]),
                        bQ := bQ, aStack := some p :: aStack, aP := some (p ++ [false]),
                        aCreated := aCr, aRoot := A.updateAt p (fun n => n.setRight (some (TNode.mk (n.value + 1) none none))) } := by
              simp only [subStep, hfb, hfa, TNode.left, TNode.right]
              rfl
            have hA2 : A.updateAt p (fun n => n.setRight (some (TNode.mk (n.value + 1) none none))) = A.updateAt p (fun _ => (TNode.mk av (some alc) (some (TNode.mk (av + 1) none none)))) := by
              apply updateAt_congr hfa
              rfl
            rw [hA2] at hs2
            have hfa2 : (A.updateAt p (fun _ => (TNode.mk av (some alc) (some (TNode.mk (av + 1) none none))))).follow p = some (TNode.mk av (some alc) (some (TNode.mk (av + 1) none none))) :=
              follow_updateAt_self hfa _
            have hfa2L : (A.updateAt p (fun _ => (TNode.mk av (some alc) (some (TNode.mk (av + 1) none none))))).follow (p ++ [false]) = some alc :=
              follow_snoc_false hfa2 rfl
            obtain ⟨k1, hk1, hrun1⟩ := ih bTree blx (p ++ [false]) (p :: bStack) bQ
              (some p :: aStack) aCr (A.updateAt p (fun _ => (TNode.mk av (some alc) (some (TNode.mk (av + 1) none none))))) alc hcnt hfl hfa2L hbQl
            have hA3 : (A.updateAt p (fun _ => (TNode.mk av (some alc) (some (TNode.mk (av + 1) none none))))).updateAt (p ++ [false]) (fun _ => subMergeNode alc blx) =
                A.updateAt p (fun _ => (TNode.mk av (some (subMergeNode alc blx)) (some (TNode.mk (av + 1) none none)))) := by
              rw [updateAt_append, updateAt_updateAt]
              apply updateAt_congr hfa
              rfl
            rw [hA3] at hrun1
            have hpre : iterSteps (subStep bTree) 2
                { label := .t2, bStack := bStack, bP := some p, bQ := bQ,
                  aStack := aStack, aP := some p, aCreated := aCr, aRoot := A } =
                some { label := .t2, bStack := p :: bStack, bP := some (p ++ [false]),
                        bQ := bQ, aStack := some p :: aStack, aP := some (p ++ [false]),
                        aCreated := aCr, aRoot := A.updateAt p (fun _ => (TNode.mk av (some alc) (some (TNode.mk (av + 1) none none)))) } := by
              simp only [iterSteps, hs1, hs2]
            have hmid : iterSteps (subStep bTree) (2 + k1)
                { label := .t2, bStack := bStack, bP := some p, bQ := bQ,
                  aStack := aStack, aP := some p, aCreated := aCr, aRoot := A } =
                some { label := .t4, bStack := p :: bStack, bP := some (p ++ [false]),
                        bQ := some (p ++ [false]), aStack := some p :: aStack,
                        aP := some (p ++ [false]), aCreated := aCr, aRoot := A.updateAt p (fun _ => (TNode.mk av (some (subMergeNode alc blx)) (some (TNode.mk (av + 1) none none)))) } := by
              rw [iterSteps_append_some hpre k1]
              exact hrun1
            have hfa3 : (A.updateAt p (fun _ => (TNode.mk av (some (subMergeNode alc blx)) (some (TNode.mk (av + 1) none none))))).follow p = some (TNode.mk av (some (subMergeNode alc blx)) (some (TNode.mk (av + 1) none none))) := follow_updateAt_self hfa _
            have hs3 : subStep bTree
                { label := .t4, bStack := p :: bStack, bP := some (p ++ [false]),
                  bQ := some (p ++ [false]), aStack := some p :: aStack,
                  aP := some (p ++ [false]), aCreated := aCr, aRoot := A.updateAt p (fun _ => (TNode.mk av (some (subMergeNode alc blx)) (some (TNode.mk (av + 1) none none)))) } =
                .cont { label := .t5, bStack := bStack, bP := some p,
                        bQ := some (p ++ [false]), aStack := aStack, aP := some p,
                        aCreated := aCr, aRoot := A.updateAt p (fun _ => (TNode.mk av (some (subMergeNode alc blx)) (some (TNode.mk (av + 1) none none)))) } := by
              simp [subStep]
            have hs4 : subStep bTree
                { label := .t5, bStack := bStack, bP := some p,
                  bQ := some (p ++ [false]), aStack := aStack, aP := some p,
                  aCreated := aCr, aRoot := A.updateAt p (fun _ => (TNode.mk av (some (subMergeNode alc blx)) (some (TNode.mk (av + 1) none none)))) } =
                .cont { label := .t6, bStack := bStack, bP := some p,
                        bQ := some (p ++ [false]), aStack := aStack, aP := some p,
                        aCreated := aCr, aRoot := A.updateAt p (fun _ => (TNode.mk av (some (subMergeNode alc blx)) (some (TNode.mk (av + 1) none none)))) } := by
              simp only [subStep, hfb, TNode.right]
            have hroot : subT6Right (subT6Left (A.updateAt p (fun _ => (TNode.mk av (some (subMergeNode alc blx)) (some (TNode.mk (av + 1) none none))))) p (TNode.mk av (some (subMergeNode alc blx)) (some (TNode.mk (av + 1) none none))) (TNode.mk bv (some blx) none)) p (TNode.mk bv (some blx) none) =
                A.updateAt p (fun _ => subMergeNode (TNode.mk av (some alc) none) (TNode.mk bv (some blx) none)) := by
              rw [subT6_at _ hfa3, updateAt_updateAt]
              apply updateAt_congr hfa
              rfl
            have hs5 : subStep bTree
                { label := .t6, bStack := bStack, bP := some p,
                  bQ := some (p ++ [false]), aStack := aStack, aP := some p,
                  aCreated := aCr, aRoot := A.updateAt p (fun _ => (TNode.mk av (some (subMergeNode alc blx)) (some (TNode.mk (av + 1) none none)))) } =
                .cont { label := .t4, bStack := bStack, bP := some p, bQ := some p,
                        aStack := aStack, aP := some p, aCreated := aCr,
                        aRoot := A.updateAt p (fun _ => subMergeNode (TNode.mk av (some alc) none)
                          (TNode.mk bv (some blx) none)) } := by
              simp only [subStep, hfa3, hfb]
              rw [hroot]
            refine ⟨2 + k1 + 3, by simp only [TNode.nodeCount]; omega, ?_⟩
            have hpost : iterSteps (subStep bTree) 3
                { label := .t4, bStack := p :: bStack, bP := some (p ++ [false]),
                  bQ := some (p ++ [false]), aStack := some p :: aStack,
                  aP := some (p ++ [false]), aCreated := aCr, aRoot := A.updateAt p (fun _ => (TNode.mk av (some (subMergeNode alc blx)) (some (TNode.mk (av + 1) none none)))) } =
                some { label := .t4, bStack := bStack, bP := some p, bQ := some p,
                        aStack := aStack, aP := some p, aCreated := aCr,
                        aRoot := A.updateAt p (fun _ => subMergeNode (TNode.mk av (some alc) none)
                          (TNode.mk bv (some blx) none)) } := by
              simp only [iterSteps, hs3, hs4, hs5]
            rw [iterSteps_append_some hmid 3]
            exact hpost
          | some arc =>
            have hs1 : subStep bTree
                { label := .t2, bStack := bStack, bP := some p, bQ := bQ,
                  aStack := aStack, aP := some p, aCreated := aCr, aRoot := A } =
                .cont { label := .t3, bStack := bStack, bP := some p, bQ := bQ,
                        aStack := aStack, aP := some p, aCreated := aCr, aRoot := A } := by
              simp [subStep]
            have hs2 : subStep bTree
                { label := .t3, bStack := bStack, bP := some p, bQ := bQ,
                  aStack := aStack, aP := some p, aCreated := aCr, aRoot := A } =
                .cont { label := .t2, bStack := p :: bStack, bP := some (p ++ [false]),
                        bQ := bQ, aStack := some p :: aStack, aP := some (p ++ [false]),
                        aCreated := aCr, aRoot := A } := by
              simp only [subStep, hfb, hfa, TNode.left, TNode.right]
              rfl
            have hfa2L : (A).follow (p ++ [false]) = some alc :=
              follow_snoc_false hfa rfl
            obtain ⟨k1, hk1, hrun1⟩ := ih bTree blx (p ++ [false]) (p :: bStack) bQ
              (some p :: aStack) aCr (A) alc hcnt hfl hfa2L hbQl
            have hA3 : (A).updateAt (p ++ [false]) (fun _ => subMergeNode alc blx) =
                A.updateAt p (fun _ => (TNode.mk av (some (subMergeNode alc blx)) (some arc))) := by
              rw [updateAt_append]
              apply updateAt_congr hfa
              rfl
            rw [hA3] at hrun1
            have hpre : iterSteps (subStep bTree) 2
                { label := .t2, bStack := bStack, bP := some p, bQ := bQ,
                  aStack := aStack, aP := some p, aCreated := aCr, aRoot := A } =
                some { label := .t2, bStack := p :: bStack, bP := some (p ++ [false]),
                        bQ := bQ, aStack := some p :: aStack, aP := some (p ++ [false]),
                        aCreated := aCr, aRoot := A } := by
              simp only [iterSteps, hs1, hs2]
            have hmid : iterSteps (subStep bTree) (2 + k1)
                { label := .t2, bStack := bStack, bP := some p, bQ := bQ,
                  aStack := aStack, aP := some p, aCreated := aCr, aRoot := A } =
                some { label := .t4, bStack := p :: bStack, bP := some (p ++ [false]),
                        bQ := some (p ++ [false]), aStack := some p :: aStack,
                        aP := some (p ++ [false]), aCreated := aCr, aRoot := A.updateAt p (fun _ => (TNode.mk av (some (subMergeNode alc blx)) (some arc))) } := by
              rw [iterSteps_append_some hpre k1]
              exact hrun1
            have hfa3 : (A.updateAt p (fun _ => (TNode.mk av (some (subMergeNode alc blx)) (some arc)))).follow p = some (TNode.mk av (some (subMergeNode alc blx)) (some arc)) := follow_updateAt_self hfa _
            have hs3 : subStep bTree
                { label := .t4, bStack := p :: bStack, bP := some (p ++ [false]),
                  bQ := some (p ++ [false]), aStack := some p :: aStack,
                  aP := some (p ++ [false]), aCreated := aCr, aRoot := A.updateAt p (fun _ => (TNode.mk av (some (subMergeNode alc blx)) (some arc))) } =
                .cont { label := .t5, bStack := bStack, bP := some p,
                        bQ := some (p ++ [false]), aStack := aStack, aP := some p,
                        aCreated := aCr, aRoot := A.updateAt p (fun _ => (TNode.mk av (some (subMergeNode alc blx)) (some arc))) } := by
              simp [subStep]
            have hs4 : subStep bTree
                { label := .t5, bStack := bStack, bP := some p,
                  bQ := some (p ++ [false]), aStack := aStack, aP := some p,
                  aCreated := aCr, aRoot := A.updateAt p (fun _ => (TNode.mk av (some (subMergeNode alc blx)) (some arc))) } =
                .cont { label := .t6, bStack := bStack, bP := some p,
                        bQ := some (p ++ [false]), aStack := aStack, aP := some p,
                        aCreated := aCr, aRoot := A.updateAt p (fun _ => (TNode.mk av (some (subMergeNode alc blx)) (some arc))) } := by
              simp only [subStep, hfb, TNode.right]
            have hroot : subT6Right (subT6Left (A.updateAt p (fun _ => (TNode.mk av (some (subMergeNode alc blx)) (some arc)))) p (TNode.mk av (some (subMergeNode alc blx)) (some arc)) (TNode.mk bv (some blx) none)) p (TNode.mk bv (some blx) none) =
                A.updateAt p (fun _ => subMergeNode (TNode.mk av (some alc) (some arc)) (TNode.mk bv (some blx) none)) := by
              rw [subT6_at _ hfa3, updateAt_updateAt]
              apply updateAt_congr hfa
              rfl
            have hs5 : subStep bTree
                { label := .t6, bStack := bStack, bP := some p,
                  bQ := some (p ++ [false]), aStack := aStack, aP := some p,
                  aCreated := aCr, aRoot := A.updateAt p (fun _ => (TNode.mk av (some (subMergeNode alc blx)) (some arc))) } =
                .cont { label := .t4, bStack := bStack, bP := some p, bQ := some p,
                        aStack := aStack, aP := some p, aCreated := aCr,
                        aRoot := A.updateAt p (fun _ => subMergeNode (TNode.mk av (some alc) (some arc))
                          (TNode.mk bv (some blx) none)) } := by
              simp only [subStep, hfa3, hfb]
              rw [hroot]
            refine ⟨2 + k1 + 3, by simp only [TNode.nodeCount]; omega, ?_⟩
            have hpost : iterSteps (subStep bTree) 3
                { label := .t4, bStack := p :: bStack, bP := some (p ++ [false]),
                  bQ := some (p ++ [false]), aStack := some p :: aStack,
                  aP := some (p ++ [false]), aCreated := aCr, aRoot := A.updateAt p (fun _ => (TNode.mk av (some (subMergeNode alc blx)) (some arc))) } =
                some { label := .t4, bStack := bStack, bP := some p, bQ := some p,
                        aStack := aStack, aP := some p, aCreated := aCr,
                        aRoot := A.updateAt p (fun _ => subMergeNode (TNode.mk av (some alc) (some arc))
                          (TNode.mk bv (some blx) none)) } := by
              simp only [iterSteps, hs3, hs4, hs5]
            rw [iterSteps_append_some hmid 3]
            exact hpost
      | some brx =>
        -- CASE B: b has both children
        have hcntl : blx.nodeCount ≤ n := by
          have h1 := nodeCount_pos brx
          simp only [TNode.nodeCount] at hn
          omega
        have hcntr : brx.nodeCount ≤ n := by
          have h1 := nodeCount_pos blx
          simp only [TNode.nodeCount] at hn
          omega
        have hfr : bTree.follow (p ++ [true]) = some brx := follow_snoc_true hfb rfl
        have hbqf2 : (some (p ++ [true]) == (some (p ++ [false]) : Option (List Bool))) =
            false := by
          rw [beq_eq_false_iff_ne]
          intro h
          injection h with h
          have h2 := List.append_cancel_left h
          simp at h2
        have hbQr : ∀ r, (some (p ++ [false]) : Option (List Bool)) = some r →
            ¬ underPath (p ++ [true]) r := by
          intro r hr
          injection hr with hr
          subst hr
          exact not_underPath_sibling p true false (by simp) []
        obtain ⟨av, aL, aR⟩ := asub
        cases aL with
        | none =>
          cases aR with
          | none =>
            have hs1 : subStep bTree
                { label := .t2, bStack := bStack, bP := some p, bQ := bQ,
                  aStack := aStack, aP := some p, aCreated := aCr, aRoot := A } =
                .cont { label := .t3, bStack := bStack, bP := some p, bQ := bQ,
                        aStack := aStack, aP := some p, aCreated := aCr, aRoot := A } := by
              simp [subStep]
            have hs2 : subStep bTree
                { label := .t3, bStack := bStack, bP := some p, bQ := bQ,
                  aStack := aStack, aP := some p, aCreated := aCr, aRoot := A } =
                .cont { label := .t2, bStack := p :: bStack, bP := some (p ++ [false]),
                        bQ := bQ, aStack := some p :: aStack, aP := some (p ++ [false]),
                        aCreated := aCr, aRoot := (A.updateAt p (fun n => n.setLeft (some (TNode.mk (n.value + 1) none none)))).updateAt p (fun n => n.setRight (some (TNode.mk (n.value + 1) none none))) } := by
              simp only [subStep, hfb, hfa, TNode.left, TNode.right]
              rfl
            have hA2 : (A.updateAt p (fun n => n.setLeft (some (TNode.mk (n.value + 1) none none)))).updateAt p (fun n => n.setRight (some (TNode.mk (n.value + 1) none none))) = A.updateAt p (fun _ => (TNode.mk av (some (TNode.mk (av + 1) none none)) (some (TNode.mk (av + 1) none none)))) := by
              rw [updateAt_updateAt]
              apply updateAt_congr hfa
              rfl
            rw [hA2] at hs2
            have hfa2 : (A.updateAt p (fun _ => (TNode.mk av (some (TNode.mk (av + 1) none none)) (some (TNode.mk (av + 1) none none))))).follow p = some (TNode.mk av (some (TNode.mk (av + 1) none none)) (some (TNode.mk (av + 1) none none))) :=
              follow_updateAt_self hfa _
            have hfa2L : (A.updateAt p (fun _ => (TNode.mk av (some (TNode.mk (av + 1) none none)) (some (TNode.mk (av + 1) none none))))).follow (p ++ [false]) = some (TNode.mk (av + 1) none none) :=
              follow_snoc_false hfa2 rfl
            obtain ⟨k1, hk1, hrun1⟩ := ih bTree blx (p ++ [false]) (p :: bStack) bQ
              (some p :: aStack) aCr (A.updateAt p (fun _ => (TNode.mk av (some (TNode.mk (av + 1) none none)) (some (TNode.mk (av + 1) none none))))) (TNode.mk (av + 1) none none) hcntl hfl hfa2L hbQl
            have hA3 : (A.updateAt p (fun _ => (TNode.mk av (some (TNode.mk (av + 1) none none)) (some (TNode.mk (av + 1) none none))))).updateAt (p ++ [false]) (fun _ => subMergeNode (TNode.mk (av + 1) none none) blx) =
                A.updateAt p (fun _ => (TNode.mk av (some (subMergeNode (TNode.mk (av + 1) none none) blx)) (some (TNode.mk (av + 1) none none)))) := by
              rw [updateAt_append, updateAt_updateAt]
              apply updateAt_congr hfa
              rfl
            rw [hA3] at hrun1
            have hpre : iterSteps (subStep bTree) 2
                { label := .t2, bStack := bStack, bP := some p, bQ := bQ,
                  aStack := aStack, aP := some p, aCreated := aCr, aRoot := A } =
                some { label := .t2, bStack := p :: bStack, bP := some (p ++ [false]),
                        bQ := bQ, aStack := some p :: aStack, aP := some (p ++ [false]),
                        aCreated := aCr, aRoot := A.updateAt p (fun _ => (TNode.mk av (some (TNode.mk (av + 1) none none)) (some (TNode.mk (av + 1) none none)))) } := by
              simp only [iterSteps, hs1, hs2]
            have hc1 : iterSteps (subStep bTree) (2 + k1)
                { label := .t2, bStack := bStack, bP := some p, bQ := bQ,
                  aStack := aStack, aP := some p, aCreated := aCr, aRoot := A } =
                some { label := .t4, bStack := p :: bStack, bP := some (p ++ [false]),
                        bQ := some (p ++ [false]), aStack := some p :: aStack,
                        aP := some (p ++ [false]), aCreated := aCr, aRoot := A.updateAt p (fun _ => (TNode.mk av (some (subMergeNode (TNode.mk (av + 1) none none) blx)) (some (TNode.mk (av + 1) none none)))) } := by
              rw [iterSteps_append_some hpre k1]
              exact hrun1
            have hfa3 : (A.updateAt p (fun _ => (TNode.mk av (some (subMergeNode (TNode.mk (av + 1) none none) blx)) (some (TNode.mk (av + 1) none none))))).follow p = some (TNode.mk av (some (subMergeNode (TNode.mk (av + 1) none none) blx)) (some (TNode.mk (av + 1) none none))) := follow_updateAt_self hfa _
            have hfa3R : (A.updateAt p (fun _ => (TNode.mk av (some (subMergeNode (TNode.mk (av + 1) none none) blx)) (some (TNode.mk (av + 1) none none))))).follow (p ++ [true]) = some (TNode.mk (av + 1) none none) :=
              follow_snoc_true hfa3 rfl
            have hs3 : subStep bTree
                { label := .t4, bStack := p :: bStack, bP := some (p ++ [false]),
                  bQ := some (p ++ [false]), aStack := some p :: aStack,
                  aP := some (p ++ [false]), aCreated := aCr, aRoot := A.updateAt p (fun _ => (TNode.mk av (some (subMergeNode (TNode.mk (av + 1) none none) blx)) (some (TNode.mk (av + 1) none none)))) } =
                .cont { label := .t5, bStack := bStack, bP := some p,
                        bQ := some (p ++ [false]), aStack := aStack, aP := some p,
                        aCreated := aCr, aRoot := A.updateAt p (fun _ => (TNode.mk av (some (subMergeNode (TNode.mk (av + 1) none none) blx)) (some (TNode.mk (av + 1) none none)))) } := by
              simp [subStep]
            have hs4 : subStep bTree
                { label := .t5, bStack := bStack, bP := some p,
                  bQ := some (p ++ [false]), aStack := aStack, aP := some p,
                  aCreated := aCr, aRoot := A.updateAt p (fun _ => (TNode.mk av (some (subMergeNode (TNode.mk (av + 1) none none) blx)) (some (TNode.mk (av + 1) none none)))) } =
                .cont { label := .t2, bStack := p :: bStack, bP := some (p ++ [true]),
                        bQ := some (p ++ [false]), aStack := some p :: aStack,
                        aP := some (p ++ [true]), aCreated := aCr, aRoot := A.updateAt p (fun _ => (TNode.mk av (some (subMergeNode (TNode.mk (av + 1) none none) blx)) (some (TNode.mk (av + 1) none none)))) } := by
              simp only [subStep, hfb, TNode.right, hbqf2, hfa3]
              rfl
            have hc2 : iterSteps (subStep bTree) (2 + k1 + 2)
                { label := .t2, bStack := bStack, bP := some p, bQ := bQ,
                  aStack := aStack, aP := some p, aCreated := aCr, aRoot := A } =
                some { label := .t2, bStack := p :: bStack, bP := some (p ++ [true]),
                        bQ := some (p ++ [false]), aStack := some p :: aStack,
                        aP := some (p ++ [true]), aCreated := aCr, aRoot := A.updateAt p (fun _ => (TNode.mk av (some (subMergeNode (TNode.mk (av + 1) none none) blx)) (some (TNode.mk (av + 1) none none)))) } := by
              rw [iterSteps_append_some hc1 2]
              simp only [iterSteps, hs3, hs4]
            obtain ⟨k2, hk2, hrun2⟩ := ih bTree brx (p ++ [true]) (p :: bStack)
              (some (p ++ [false])) (some p :: aStack) aCr (A.updateAt p (fun _ => (TNode.mk av (some (subMergeNode (TNode.mk (av + 1) none none) blx)) (some (TNode.mk (av + 1) none none))))) (TNode.mk (av + 1) none none) hcntr hfr
              hfa3R hbQr
            have hA4 : (A.updateAt p (fun _ => (TNode.mk av (some (subMergeNode (TNode.mk (av + 1) none none) blx)) (some (TNode.mk (av + 1) none none))))).updateAt (p ++ [true]) (fun _ => subMergeNode (TNode.mk (av + 1) none none) brx) =
                A.updateAt p (fun _ => (TNode.mk av (some (subMergeNode (TNode.mk (av + 1) none none) blx)) (some (subMergeNode (TNode.mk (av + 1) none none) brx)))) := by
              rw [updateAt_append, updateAt_updateAt]
              apply updateAt_congr hfa
              rfl
            rw [hA4] at hrun2
            have hc3 : iterSteps (subStep bTree) (2 + k1 + 2 + k2)
                { label := .t2, bStack := bStack, bP := some p, bQ := bQ,
                  aStack := aStack, aP := some p, aCreated := aCr, aRoot := A } =
                some { label := .t4, bStack := p :: bStack, bP := some (p ++ [true]),
                        bQ := some (p ++ [true]), aStack := some p :: aStack,
                        aP := some (p ++ [true]), aCreated := aCr, aRoot := A.updateAt p (fun _ => (TNode.mk av (some (subMergeNode (TNode.mk (av + 1) none none) blx)) (some (subMergeNode (TNode.mk (av + 1) none none) brx)))) } := by
              rw [iterSteps_append_some hc2 k2]
              exact hrun2
            have hfa4 : (A.updateAt p (fun _ => (TNode.mk av (some (subMergeNode (TNode.mk (av + 1) none none) blx)) (some (subMergeNode (TNode.mk (av + 1) none none) brx))))).follow p = some (TNode.mk av (some (subMergeNode (TNode.mk (av + 1) none none) blx)) (some (subMergeNode (TNode.mk (av + 1) none none) brx))) := follow_updateAt_self hfa _
            have hs5 : subStep bTree
                { label := .t4, bStack := p :: bStack, bP := some (p ++ [true]),
                  bQ := some (p ++ [true]), aStack := some p :: aStack,
                  aP := some (p ++ [true]), aCreated := aCr, aRoot := A.updateAt p (fun _ => (TNode.mk av (some (subMergeNode (TNode.mk (av + 1) none none) blx)) (some (subMergeNode (TNode.mk (av + 1) none none) brx)))) } =
                .cont { label := .t5, bStack := bStack, bP := some p,
                        bQ := some (p ++ [true]), aStack := aStack, aP := some p,
                        aCreated := aCr, aRoot := A.updateAt p (fun _ => (TNode.mk av (some (subMergeNode (TNode.mk (av + 1) none none) blx)) (some (subMergeNode (TNode.mk (av + 1) none none) brx)))) } := by
              simp [subStep]
            have hs6 : subStep bTree
                { label := .t5, bStack := bStack, bP := some p,
                  bQ := some (p ++ [true]), aStack := aStack, aP := some p,
                  aCreated := aCr, aRoot := A.updateAt p (fun _ => (TNode.mk av (some (subMergeNode (TNode.mk (av + 1) none none) blx)) (some (subMergeNode (TNode.mk (av + 1) none none) brx)))) } =
                .cont { label := .t6, bStack := bStack, bP := some p,
                        bQ := some (p ++ [true]), aStack := aStack, aP := some p,
                        aCreated := aCr, aRoot := A.updateAt p (fun _ => (TNode.mk av (some (subMergeNode (TNode.mk (av + 1) none none) blx)) (some (subMergeNode (TNode.mk (av + 1) none none) brx)))) } := by
              simp only [subStep, hfb, TNode.right, beq_self_eq_true]
              rfl
            have hroot : subT6Right (subT6Left (A.updateAt p (fun _ => (TNode.mk av (some (subMergeNode (TNode.mk (av + 1) none none) blx)) (some (subMergeNode (TNode.mk (av + 1) none none) brx))))) p (TNode.mk av (some (subMergeNode (TNode.mk (av + 1) none none) blx)) (some (subMergeNode (TNode.mk (av + 1) none none) brx))) (TNode.mk bv (some blx) (some brx))) p (TNode.mk bv (some blx) (some brx)) =
                A.updateAt p (fun _ => subMergeNode (TNode.mk av none none) (TNode.mk bv (some blx) (some brx))) := by
              rw [subT6_at _ hfa4, updateAt_updateAt]
              apply updateAt_congr hfa
              rfl
            have hs7 : subStep bTree
                { label := .t6, bStack := bStack, bP := some p,
                  bQ := some (p ++ [true]), aStack := aStack, aP := some p,
                  aCreated := aCr, aRoot := A.updateAt p (fun _ => (TNode.mk av (some (subMergeNode (TNode.mk (av + 1) none none) blx)) (some (subMergeNode (TNode.mk (av + 1) none none) brx)))) } =
                .cont { label := .t4, bStack := bStack, bP := some p, bQ := some p,
                        aStack := aStack, aP := some p, aCreated := aCr,
                        aRoot := A.updateAt p (fun _ => subMergeNode (TNode.mk av none none)
                          (TNode.mk bv (some blx) (some brx))) } := by
              simp only [subStep, hfa4, hfb]
              rw [hroot]
            refine ⟨2 + k1 + 2 + k2 + 3, by simp only [TNode.nodeCount]; omega, ?_⟩
            have hpost : iterSteps (subStep bTree) 3
                { label := .t4, bStack := p :: bStack, bP := some (p ++ [true]),
                  bQ := some (p ++ [true]), aStack := some p :: aStack,
                  aP := some (p ++ [true]), aCreated := aCr, aRoot := A.updateAt p (fun _ => (TNode.mk av (some (subMergeNode (TNode.mk (av + 1) none none) blx)) (some (subMergeNode (TNode.mk (av + 1) none none) brx)))) } =
                some { label := .t4, bStack := bStack, bP := some p, bQ := some p,
                        aStack := aStack, aP := some p, aCreated := aCr,
                        aRoot := A.updateAt p (fun _ => subMergeNode (TNode.mk av none none)
                          (TNode.mk bv (some blx) (some brx))) } := by
              simp only [iterSteps, hs5, hs6, hs7]
            rw [iterSteps_append_some hc3 3]
            exact hpost
          | some arc =>
            have hs1 : subStep bTree
                { label := .t2, bStack := bStack, bP := some p, bQ := bQ,
                  aStack := aStack, aP := some p, aCreated := aCr, aRoot := A } =
                .cont { label := .t3, bStack := bStack, bP := some p, bQ := bQ,
                        aStack := aStack, aP := some p, aCreated := aCr, aRoot := A } := by
              simp [subStep]
            have hs2 : subStep bTree
                { label := .t3, bStack := bStack, bP := some p, bQ := bQ,
                  aStack := aStack, aP := some p, aCreated := aCr, aRoot := A } =
                .cont { label := .t2, bStack := p :: bStack, bP := some (p ++ [false]),
                        bQ := bQ, aStack := some p :: aStack, aP := some (p ++ [false]),
                        aCreated := aCr, aRoot := A.updateAt p (fun n => n.setLeft (some (TNode.mk (n.value + 1) none none))) } := by
              simp only [subStep, hfb, hfa, TNode.left, TNode.right]
              rfl
            have hA2 : A.updateAt p (fun n => n.setLeft (some (TNode.mk (n.value + 1) none none))) = A.updateAt p (fun _ => (TNode.mk av (some (TNode.mk (av + 1) none none)) (some arc))) := by
              apply updateAt_congr hfa
              rfl
            rw [hA2] at hs2
            have hfa2 : (A.updateAt p (fun _ => (TNode.mk av (some (TNode.mk (av + 1) none none)) (some arc)))).follow p = some (TNode.mk av (some (TNode.mk (av + 1) none none)) (some arc)) :=
              follow_updateAt_self hfa _
            have hfa2L : (A.updateAt p (fun _ => (TNode.mk av (some (TNode.mk (av + 1) none none)) (some arc)))).follow (p ++ [false]) = some (TNode.mk (av + 1) none none) :=
              follow_snoc_false hfa2 rfl
            obtain ⟨k1, hk1, hrun1⟩ := ih bTree blx (p ++ [false]) (p :: bStack) bQ
              (some p :: aStack) aCr (A.updateAt p (fun _ => (TNode.mk av (some (TNode.mk (av + 1) none none)) (some arc)))) (TNode.mk (av + 1) none none) hcntl hfl hfa2L hbQl
            have hA3 : (A.updateAt p (fun _ => (TNode.mk av (some (TNode.mk (av + 1) none none)) (some arc)))).updateAt (p ++ [false]) (fun _ => subMergeNode (TNode.mk (av + 1) none none) blx) =
                A.updateAt p (fun _ => (TNode.mk av (some (subMergeNode (TNode.mk (av + 1) none none) blx)) (some arc))) := by
              rw [updateAt_append, updateAt_updateAt]
              apply updateAt_congr hfa
              rfl
            rw [hA3] at hrun1
            have hpre : iterSteps (subStep bTree) 2
                { label := .t2, bStack := bStack, bP := some p, bQ := bQ,
                  aStack := aStack, aP := some p, aCreated := aCr, aRoot := A } =
                some { label := .t2, bStack := p :: bStack, bP := some (p ++ [false]),
                        bQ := bQ, aStack := some p :: aStack, aP := some (p ++ [false]),
                        aCreated := aCr, aRoot := A.updateAt p (fun _ => (TNode.mk av (some (TNode.mk (av + 1) none none)) (some arc))) } := by
              simp only [iterSteps, hs1, hs2]
            have hc1 : iterSteps (subStep bTree) (2 + k1)
                { label := .t2, bStack := bStack, bP := some p, bQ := bQ,
                  aStack := aStack, aP := some p, aCreated := aCr, aRoot := A } =
                some { label := .t4, bStack := p :: bStack, bP := some (p ++ [false]),
                        bQ := some (p ++ [false]), aStack := some p :: aStack,
                        aP := some (p ++ [false]), aCreated := aCr, aRoot := A.updateAt p (fun _ => (TNode.mk av (some (subMergeNode (TNode.mk (av + 1) none none) blx)) (some arc))) } := by
              rw [iterSteps_append_some hpre k1]
              exact hrun1
            have hfa3 : (A.updateAt p (fun _ => (TNode.mk av (some (subMergeNode (TNode.mk (av + 1) none none) blx)) (some arc)))).follow p = some (TNode.mk av (some (subMergeNode (TNode.mk (av + 1) none none) blx)) (some arc)) := follow_updateAt_self hfa _
            have hfa3R : (A.updateAt p (fun _ => (TNode.mk av (some (subMergeNode (TNode.mk (av + 1) none none) blx)) (some arc)))).follow (p ++ [true]) = some arc :=
              follow_snoc_true hfa3 rfl
            have hs3 : subStep bTree
                { label := .t4, bStack := p :: bStack, bP := some (p ++ [false]),
                  bQ := some (p ++ [false]), aStack := some p :: aStack,
                  aP := some (p ++ [false]), aCreated := aCr, aRoot := A.updateAt p (fun _ => (TNode.mk av (some (subMergeNode (TNode.mk (av + 1) none none) blx)) (some arc))) } =
                .cont { label := .t5, bStack := bStack, bP := some p,
                        bQ := some (p ++ [false]), aStack := aStack, aP := some p,
                        aCreated := aCr, aRoot := A.updateAt p (fun _ => (TNode.mk av (some (subMergeNode (TNode.mk (av + 1) none none) blx)) (some arc))) } := by
              simp [subStep]
            have hs4 : subStep bTree
                { label := .t5, bStack := bStack, bP := some p,
                  bQ := some (p ++ [false]), aStack := aStack, aP := some p,
                  aCreated := aCr, aRoot := A.updateAt p (fun _ => (TNode.mk av (some (subMergeNode (TNode.mk (av + 1) none none) blx)) (some arc))) } =
                .cont { label := .t2, bStack := p :: bStack, bP := some (p ++ [true]),
                        bQ := some (p ++ [false]), aStack := some p :: aStack,
                        aP := some (p ++ [true]), aCreated := aCr, aRoot := A.updateAt p (fun _ => (TNode.mk av (some (subMergeNode (TNode.mk (av + 1) none none) blx)) (some arc))) } := by
              simp only [subStep, hfb, TNode.right, hbqf2, hfa3]
              rfl
            have hc2 : iterSteps (subStep bTree) (2 + k1 + 2)
                { label := .t2, bStack := bStack, bP := some p, bQ := bQ,
                  aStack := aStack, aP := some p, aCreated := aCr, aRoot := A } =
                some { label := .t2, bStack := p :: bStack, bP := some (p ++ [true]),
                        bQ := some (p ++ [false]), aStack := some p :: aStack,
                        aP := some (p ++ [true]), aCreated := aCr, aRoot := A.updateAt p (fun _ => (TNode.mk av (some (subMergeNode (TNode.mk (av + 1) none none) blx)) (some arc))) } := by
              rw [iterSteps_append_some hc1 2]
              simp only [iterSteps, hs3, hs4]
            obtain ⟨k2, hk2, hrun2⟩ := ih bTree brx (p ++ [true]) (p :: bStack)
              (some (p ++ [false])) (some p :: aStack) aCr (A.updateAt p (fun _ => (TNode.mk av (some (subMergeNode (TNode.mk (av + 1) none none) blx)) (some arc)))) arc hcntr hfr
              hfa3R hbQr
            have hA4 : (A.updateAt p (fun _ => (TNode.mk av (some (subMergeNode (TNode.mk (av + 1) none none) blx)) (some arc)))).updateAt (p ++ [true]) (fun _ => subMergeNode arc brx) =
                A.updateAt p (fun _ => (TNode.mk av (some (subMergeNode (TNode.mk (av + 1) none none) blx)) (some (subMergeNode arc brx)))) := by
              rw [updateAt_append, updateAt_updateAt]
              apply updateAt_congr hfa
              rfl
            rw [hA4] at hrun2
            have hc3 : iterSteps (subStep bTree) (2 + k1 + 2 + k2)
                { label := .t2, bStack := bStack, bP := some p, bQ := bQ,
                  aStack := aStack, aP := some p, aCreated := aCr, aRoot := A } =
                some { label := .t4, bStack := p :: bStack, bP := some (p ++ [true]),
                        bQ := some (p ++ [true]), aStack := some p :: aStack,
                        aP := some (p ++ [true]), aCreated := aCr, aRoot := A.updateAt p (fun _ => (TNode.mk av (some (subMergeNode (TNode.mk (av + 1) none none) blx)) (some (subMergeNode arc brx)))) } := by
              rw [iterSteps_append_some hc2 k2]
              exact hrun2
            have hfa4 : (A.updateAt p (fun _ => (TNode.mk av (some (subMergeNode (TNode.mk (av + 1) none none) blx)) (some (subMergeNode arc brx))))).follow p = some (TNode.mk av (some (subMergeNode (TNode.mk (av + 1) none none) blx)) (some (subMergeNode arc brx))) := follow_updateAt_self hfa _
            have hs5 : subStep bTree
                { label := .t4, bStack := p :: bStack, bP := some (p ++ [true]),
                  bQ := some (p ++ [true]), aStack := some p :: aStack,
                  aP := some (p ++ [true]), aCreated := aCr, aRoot := A.updateAt p (fun _ => (TNode.mk av (some (subMergeNode (TNode.mk (av + 1) none none) blx)) (some (subMergeNode arc brx)))) } =
                .cont { label := .t5, bStack := bStack, bP := some p,
                        bQ := some (p ++ [true]), aStack := aStack, aP := some p,
                        aCreated := aCr, aRoot := A.updateAt p (fun _ => (TNode.mk av (some (subMergeNode (TNode.mk (av + 1) none none) blx)) (some (subMergeNode arc brx)))) } := by
              simp [subStep]
            have hs6 : subStep bTree
                { label := .t5, bStack := bStack, bP := some p,
                  bQ := some (p ++ [true]), aStack := aStack, aP := some p,
                  aCreated := aCr, aRoot := A.updateAt p (fun _ => (TNode.mk av (some (subMergeNode (TNode.mk (av + 1) none none) blx)) (some (subMergeNode arc brx)))) } =
                .cont { label := .t6, bStack := bStack, bP := some p,
                        bQ := some (p ++ [true]), aStack := aStack, aP := some p,
                        aCreated := aCr, aRoot := A.updateAt p (fun _ => (TNode.mk av (some (subMergeNode (TNode.mk (av + 1) none none) blx)) (some (subMergeNode arc brx)))) } := by
              simp only [subStep, hfb, TNode.right, beq_self_eq_true]
              rfl
            have hroot : subT6Right (subT6Left (A.updateAt p (fun _ => (TNode.mk av (some (subMergeNode (TNode.mk (av + 1) none none) blx)) (some (subMergeNode arc brx))))) p (TNode.mk av (some (subMergeNode (TNode.mk (av + 1) none none) blx)) (some (subMergeNode arc brx))) (TNode.mk bv (some blx) (some brx))) p (TNode.mk bv (some blx) (some brx)) =
                A.updateAt p (fun _ => subMergeNode (TNode.mk av none (some arc)) (TNode.mk bv (some blx) (some brx))) := by
              rw [subT6_at _ hfa4, updateAt_updateAt]
              apply updateAt_congr hfa
              rfl
            have hs7 : subStep bTree
                { label := .t6, bStack := bStack, bP := some p,
                  bQ := some (p ++ [true]), aStack := aStack, aP := some p,
                  aCreated := aCr, aRoot := A.updateAt p (fun _ => (TNode.mk av (some (subMergeNode (TNode.mk (av + 1) none none) blx)) (some (subMergeNode arc brx)))) } =
                .cont { label := .t4, bStack := bStack, bP := some p, bQ := some p,
                        aStack := aStack, aP := some p, aCreated := aCr,
                        aRoot := A.updateAt p (fun _ => subMergeNode (TNode.mk av none (some arc))
                          (TNode.mk bv (some blx) (some brx))) } := by
              simp only [subStep, hfa4, hfb]
              rw [hroot]
            refine ⟨2 + k1 + 2 + k2 + 3, by simp only [TNode.nodeCount]; omega, ?_⟩
            have hpost : iterSteps (subStep bTree) 3
                { label := .t4, bStack := p :: bStack, bP := some (p ++ [true]),
                  bQ := some (p ++ [true]), aStack := some p :: aStack,
                  aP := some (p ++ [true]), aCreated := aCr, aRoot := A.updateAt p (fun _ => (TNode.mk av (some (subMergeNode (TNode.mk (av + 1) none none) blx)) (some (subMergeNode arc brx)))) } =
                some { label := .t4, bStack := bStack, bP := some p, bQ := some p,
                        aStack := aStack, aP := some p, aCreated := aCr,
                        aRoot := A.updateAt p (fun _ => subMergeNode (TNode.mk av none (some arc))
                          (TNode.mk bv (some blx) (some brx))) } := by
              simp only [iterSteps, hs5, hs6, hs7]
            rw [iterSteps_append_some hc3 3]
            exact hpost
        | some alc =>
          cases aR with
          | none =>
            have hs1 : subStep bTree
                { label := .t2, bStack := bStack, bP := some p, bQ := bQ,
                  aStack := aStack, aP := some p, aCreated := aCr, aRoot := A } =
                .cont { label := .t3, bStack := bStack, bP := some p, bQ := bQ,
                        aStack := aStack, aP := some p, aCreated := aCr, aRoot := A } := by
              simp [subStep]
            have hs2 : subStep bTree
                { label := .t3, bStack := bStack, bP := some p, bQ := bQ,
                  aStack := aStack, aP := some p, aCreated := aCr, aRoot := A } =
                .cont { label := .t2, bStack := p :: bStack, bP := some (p ++ [false]),
                        bQ := bQ, aStack := some p :: aStack, aP := some (p ++ [false]),
                        aCreated := aCr, aRoot := A.updateAt p (fun n => n.setRight (some (TNode.mk (n.value + 1) none none))) } := by
              simp only [subStep, hfb, hfa, TNode.left, TNode.right]
              rfl
            have hA2 : A.updateAt p (fun n => n.setRight (some (TNode.mk (n.value + 1) none none))) = A.updateAt p (fun _ => (TNode.mk av (some alc) (some (TNode.mk (av + 1) none none)))) := by
              apply updateAt_congr hfa
              rfl
            rw [hA2] at hs2
            have hfa2 : (A.updateAt p (fun _ => (TNode.mk av (some alc) (some (TNode.mk (av + 1) none none))))).follow p = some (TNode.mk av (some alc) (some (TNode.mk (av + 1) none none))) :=
              follow_updateAt_self hfa _
            have hfa2L : (A.updateAt p (fun _ => (TNode.mk av (some alc) (some (TNode.mk (av + 1) none none))))).follow (p ++ [false]) = some alc :=
              follow_snoc_false hfa2 rfl
            obtain ⟨k1, hk1, hrun1⟩ := ih bTree blx (p ++ [false]) (p :: bStack) bQ
              (some p :: aStack) aCr (A.updateAt p (fun _ => (TNode.mk av (some alc) (some (TNode.mk (av + 1) none none))))) alc hcntl hfl hfa2L hbQl
            have hA3 : (A.updateAt p (fun _ => (TNode.mk av (some alc) (some (TNode.mk (av + 1) none none))))).updateAt (p ++ [false]) (fun _ => subMergeNode alc blx) =
                A.updateAt p (fun _ => (TNode.mk av (some (subMergeNode alc blx)) (some (TNode.mk (av + 1) none none)))) := by
              rw [updateAt_append, updateAt_updateAt]
              apply updateAt_congr hfa
              rfl
            rw [hA3] at hrun1
            have hpre : iterSteps (subStep bTree) 2
                { label := .t2, bStack := bStack, bP := some p, bQ := bQ,
                  aStack := aStack, aP := some p, aCreated := aCr, aRoot := A } =
                some { label := .t2, bStack := p :: bStack, bP := some (p ++ [false]),
                        bQ := bQ, aStack := some p :: aStack, aP := some (p ++ [false]),
                        aCreated := aCr, aRoot := A.updateAt p (fun _ => (TNode.mk av (some alc) (some (TNode.mk (av + 1) none none)))) } := by
              simp only [iterSteps, hs1, hs2]
            have hc1 : iterSteps (subStep bTree) (2 + k1)
                { label := .t2, bStack := bStack, bP := some p, bQ := bQ,
                  aStack := aStack, aP := some p, aCreated := aCr, aRoot := A } =
                some { label := .t4, bStack := p :: bStack, bP := some (p ++ [false]),
                        bQ := some (p ++ [false]), aStack := some p :: aStack,
                        aP := some (p ++ [false]), aCreated := aCr, aRoot := A.updateAt p (fun _ => (TNode.mk av (some (subMergeNode alc blx)) (some (TNode.mk (av + 1) none none)))) } := by
              rw [iterSteps_append_some hpre k1]
              exact hrun1
            have hfa3 : (A.updateAt p (fun _ => (TNode.mk av (some (subMergeNode alc blx)) (some (TNode.mk (av + 1) none none))))).follow p = some (TNode.mk av (some (subMergeNode alc blx)) (some (TNode.mk (av + 1) none none))) := follow_updateAt_self hfa _
            have hfa3R : (A.updateAt p (fun _ => (TNode.mk av (some (subMergeNode alc blx)) (some (TNode.mk (av + 1) none none))))).follow (p ++ [true]) = some (TNode.mk (av + 1) none none) :=
              follow_snoc_true hfa3 rfl
            have hs3 : subStep bTree
                { label := .t4, bStack := p :: bStack, bP := some (p ++ [false]),
                  bQ := some (p ++ [false]), aStack := some p :: aStack,
                  aP := some (p ++ [false]), aCreated := aCr, aRoot := A.updateAt p (fun _ => (TNode.mk av (some (subMergeNode alc blx)) (some (TNode.mk (av + 1) none none)))) } =
                .cont { label := .t5, bStack := bStack, bP := some p,
                        bQ := some (p ++ [false]), aStack := aStack, aP := some p,
                        aCreated := aCr, aRoot := A.updateAt p (fun _ => (TNode.mk av (some (subMergeNode alc blx)) (some (TNode.mk (av + 1) none none)))) } := by
              simp [subStep]
            have hs4 : subStep bTree
                { label := .t5, bStack := bStack, bP := some p,
                  bQ := some (p ++ [false]), aStack := aStack, aP := some p,
                  aCreated := aCr, aRoot := A.updateAt p (fun _ => (TNode.mk av (some (subMergeNode alc blx)) (some (TNode.mk (av + 1) none none)))) } =
                .cont { label := .t2, bStack := p :: bStack, bP := some (p ++ [true]),
                        bQ := some (p ++ [false]), aStack := some p :: aStack,
                        aP := some (p ++ [true]), aCreated := aCr, aRoot := A.updateAt p (fun _ => (TNode.mk av (some (subMergeNode alc blx)) (some (TNode.mk (av + 1) none none)))) } := by
              simp only [subStep, hfb, TNode.right, hbqf2, hfa3]
              rfl
            have hc2 : iterSteps (subStep bTree) (2 + k1 + 2)
                { label := .t2, bStack := bStack, bP := some p, bQ := bQ,
                  aStack := aStack, aP := some p, aCreated := aCr, aRoot := A } =
                some { label := .t2, bStack := p :: bStack, bP := some (p ++ [true]),
                        bQ := some (p ++ [false]), aStack := some p :: aStack,
                        aP := some (p ++ [true]), aCreated := aCr, aRoot := A.updateAt p (fun _ => (TNode.mk av (some (subMergeNode alc blx)) (some (TNode.mk (av + 1) none none)))) } := by
              rw [iterSteps_append_some hc1 2]
              simp only [iterSteps, hs3, hs4]
            obtain ⟨k2, hk2, hrun2⟩ := ih bTree brx (p ++ [true]) (p :: bStack)
              (some (p ++ [false])) (some p :: aStack) aCr (A.updateAt p (fun _ => (TNode.mk av (some (subMergeNode alc blx)) (some (TNode.mk (av + 1) none none))))) (TNode.mk (av + 1) none none) hcntr hfr
              hfa3R hbQr
            have hA4 : (A.updateAt p (fun _ => (TNode.mk av (some (subMergeNode alc blx)) (some (TNode.mk (av + 1) none none))))).updateAt (p ++ [true]) (fun _ => subMergeNode (TNode.mk (av + 1) none none) brx) =
                A.updateAt p (fun _ => (TNode.mk av (some (subMergeNode alc blx)) (some (subMergeNode (TNode.mk (av + 1) none none) brx)))) := by
              rw [updateAt_append, updateAt_updateAt]
              apply updateAt_congr hfa
              rfl
            rw [hA4] at hrun2
            have hc3 : iterSteps (subStep bTree) (2 + k1 + 2 + k2)
                { label := .t2, bStack := bStack, bP := some p, bQ := bQ,
                  aStack := aStack, aP := some p, aCreated := aCr, aRoot := A } =
                some { label := .t4, bStack := p :: bStack, bP := some (p ++ [true]),
                        bQ := some (p ++ [true]), aStack := some p :: aStack,
                        aP := some (p ++ [true]), aCreated := aCr, aRoot := A.updateAt p (fun _ => (TNode.mk av (some (subMergeNode alc blx)) (some (subMergeNode (TNode.mk (av + 1) none none) brx)))) } := by
              rw [iterSteps_append_some hc2 k2]
              exact hrun2
            have hfa4 : (A.updateAt p (fun _ => (TNode.mk av (some (subMergeNode alc blx)) (some (subMergeNode (TNode.mk (av + 1) none none) brx))))).follow p = some (TNode.mk av (some (subMergeNode alc blx)) (some (subMergeNode (TNode.mk (av + 1) none none) brx))) := follow_updateAt_self hfa _
            have hs5 : subStep bTree
                { label := .t4, bStack := p :: bStack, bP := some (p ++ [true]),
                  bQ := some (p ++ [true]), aStack := some p :: aStack,
                  aP := some (p ++ [true]), aCreated := aCr, aRoot := A.updateAt p (fun _ => (TNode.mk av (some (subMergeNode alc blx)) (some (subMergeNode (TNode.mk (av + 1) none none) brx)))) } =
                .cont { label := .t5, bStack := bStack, bP := some p,
                        bQ := some (p ++ [true]), aStack := aStack, aP := some p,
                        aCreated := aCr, aRoot := A.updateAt p (fun _ => (TNode.mk av (some (subMergeNode alc blx)) (some (subMergeNode (TNode.mk (av + 1) none none) brx)))) } := by
              simp [subStep]
            have hs6 : subStep bTree
                { label := .t5, bStack := bStack, bP := some p,
                  bQ := some (p ++ [true]), aStack := aStack, aP := some p,
                  aCreated := aCr, aRoot := A.updateAt p (fun _ => (TNode.mk av (some (subMergeNode alc blx)) (some (subMergeNode (TNode.mk (av + 1) none none) brx)))) } =
                .cont { label := .t6, bStack := bStack, bP := some p,
                        bQ := some (p ++ [true]), aStack := aStack, aP := some p,
                        aCreated := aCr, aRoot := A.updateAt p (fun _ => (TNode.mk av (some (subMergeNode alc blx)) (some (subMergeNode (TNode.mk (av + 1) none none) brx)))) } := by
              simp only [subStep, hfb, TNode.right, beq_self_eq_true]
              rfl
            have hroot : subT6Right (subT6Left (A.updateAt p (fun _ => (TNode.mk av (some (subMergeNode alc blx)) (some (subMergeNode (TNode.mk (av + 1) none none) brx))))) p (TNode.mk av (some (subMergeNode alc blx)) (some (subMergeNode (TNode.mk (av + 1) none none) brx))) (TNode.mk bv (some blx) (some brx))) p (TNode.mk bv (some blx) (some brx)) =
                A.updateAt p (fun _ => subMergeNode (TNode.mk av (some alc) none) (TNode.mk bv (some blx) (some brx))) := by
              rw [subT6_at _ hfa4, updateAt_updateAt]
              apply updateAt_congr hfa
              rfl
            have hs7 : subStep bTree
                { label := .t6, bStack := bStack, bP := some p,
                  bQ := some (p ++ [true]), aStack := aStack, aP := some p,
                  aCreated := aCr, aRoot := A.updateAt p (fun _ => (TNode.mk av (some (subMergeNode alc blx)) (some (subMergeNode (TNode.mk (av + 1) none none) brx)))) } =
                .cont { label := .t4, bStack := bStack, bP := some p, bQ := some p,
                        aStack := aStack, aP := some p, aCreated := aCr,
                        aRoot := A.updateAt p (fun _ => subMergeNode (TNode.mk av (some alc) none)
                          (TNode.mk bv (some blx) (some brx))) } := by
              simp only [subStep, hfa4, hfb]
              rw [hroot]
            refine ⟨2 + k1 + 2 + k2 + 3, by simp only [TNode.nodeCount]; omega, ?_⟩
            have hpost : iterSteps (subStep bTree) 3
                { label := .t4, bStack := p :: bStack, bP := some (p ++ [true]),
                  bQ := some (p ++ [true]), aStack := some p :: aStack,
                  aP := some (p ++ [true]), aCreated := aCr, aRoot := A.updateAt p (fun _ => (TNode.mk av (some (subMergeNode alc blx)) (some (subMergeNode (TNode.mk (av + 1) none none) brx)))) } =
                some { label := .t4, bStack := bStack, bP := some p, bQ := some p,
                        aStack := aStack, aP := some p, aCreated := aCr,
                        aRoot := A.updateAt p (fun _ => subMergeNode (TNode.mk av (some alc) none)
                          (TNode.mk bv (some blx) (some brx))) } := by
              simp only [iterSteps, hs5, hs6, hs7]
            rw [iterSteps_append_some hc3 3]
            exact hpost
          | some arc =>
            have hs1 : subStep bTree
                { label := .t2, bStack := bStack, bP := some p, bQ := bQ,
                  aStack := aStack, aP := some p, aCreated := aCr, aRoot := A } =
                .cont { label := .t3, bStack := bStack, bP := some p, bQ := bQ,
                        aStack := aStack, aP := some p, aCreated := aCr, aRoot := A } := by
              simp [subStep]
            have hs2 : subStep bTree
                { label := .t3, bStack := bStack, bP := some p, bQ := bQ,
                  aStack := aStack, aP := some p, aCreated := aCr, aRoot := A } =
                .cont { label := .t2, bStack := p :: bStack, bP := some (p ++ [false]),
                        bQ := bQ, aStack := some p :: aStack, aP := some (p ++ [false]),
                        aCreated := aCr, aRoot := A } := by
              simp only [subStep, hfb, hfa, TNode.left, TNode.right]
              rfl
            have hfa2L : (A).follow (p ++ [false]) = some alc :=
              follow_snoc_false hfa rfl
            obtain ⟨k1, hk1, hrun1⟩ := ih bTree blx (p ++ [false]) (p :: bStack) bQ
              (some p :: aStack) aCr (A) alc hcntl hfl hfa2L hbQl
            have hA3 : (A).updateAt (p ++ [false]) (fun _ => subMergeNode alc blx) =
                A.updateAt p (fun _ => (TNode.mk av (some (subMergeNode alc blx)) (some arc))) := by
              rw [updateAt_append]
              apply updateAt_congr hfa
              rfl
            rw [hA3] at hrun1
            have hpre : iterSteps (subStep bTree) 2
                { label := .t2, bStack := bStack, bP := some p, bQ := bQ,
                  aStack := aStack, aP := some p, aCreated := aCr, aRoot := A } =
                some { label := .t2, bStack := p :: bStack, bP := some (p ++ [false]),
                        bQ := bQ, aStack := some p :: aStack, aP := some (p ++ [false]),
                        aCreated := aCr, aRoot := A } := by
              simp only [iterSteps, hs1, hs2]
            have hc1 : iterSteps (subStep bTree) (2 + k1)
                { label := .t2, bStack := bStack, bP := some p, bQ := bQ,
                  aStack := aStack, aP := some p, aCreated := aCr, aRoot := A } =
                some { label := .t4, bStack := p :: bStack, bP := some (p ++ [false]),
                        bQ := some (p ++ [false]), aStack := some p :: aStack,
                        aP := some (p ++ [false]), aCreated := aCr, aRoot := A.updateAt p (fun _ => (TNode.mk av (some (subMergeNode alc blx)) (some arc))) } := by
              rw [iterSteps_append_some hpre k1]
              exact hrun1
            have hfa3 : (A.updateAt p (fun _ => (TNode.mk av (some (subMergeNode alc blx)) (some arc)))).follow p = some (TNode.mk av (some (subMergeNode alc blx)) (some arc)) := follow_updateAt_self hfa _
            have hfa3R : (A.updateAt p (fun _ => (TNode.mk av (some (subMergeNode alc blx)) (some arc)))).follow (p ++ [true]) = some arc :=
              follow_snoc_true hfa3 rfl
            have hs3 : subStep bTree
                { label := .t4, bStack := p :: bStack, bP := some (p ++ [false]),
                  bQ := some (p ++ [false]), aStack := some p :: aStack,
                  aP := some (p ++ [false]), aCreated := aCr, aRoot := A.updateAt p (fun _ => (TNode.mk av (some (subMergeNode alc blx)) (some arc))) } =
                .cont { label := .t5, bStack := bStack, bP := some p,
                        bQ := some (p ++ [false]), aStack := aStack, aP := some p,
                        aCreated := aCr, aRoot := A.updateAt p (fun _ => (TNode.mk av (some (subMergeNode alc blx)) (some arc))) } := by
              simp [subStep]
            have hs4 : subStep bTree
                { label := .t5, bStack := bStack, bP := some p,
                  bQ := some (p ++ [false]), aStack := aStack, aP := some p,
                  aCreated := aCr, aRoot := A.updateAt p (fun _ => (TNode.mk av (some (subMergeNode alc blx)) (some arc))) } =
                .cont { label := .t2, bStack := p :: bStack, bP := some (p ++ [true]),
                        bQ := some (p ++ [false]), aStack := some p :: aStack,
                        aP := some (p ++ [true]), aCreated := aCr, aRoot := A.updateAt p (fun _ => (TNode.mk av (some (subMergeNode alc blx)) (some arc))) } := by
              simp only [subStep, hfb, TNode.right, hbqf2, hfa3]
              rfl
            have hc2 : iterSteps (subStep bTree) (2 + k1 + 2)
                { label := .t2, bStack := bStack, bP := some p, bQ := bQ,
                  aStack := aStack, aP := some p, aCreated := aCr, aRoot := A } =
                some { label := .t2, bStack := p :: bStack, bP := some (p ++ [true]),
                        bQ := some (p ++ [false]), aStack := some p :: aStack,
                        aP := some (p ++ [true]), aCreated := aCr, aRoot := A.updateAt p (fun _ => (TNode.mk av (some (subMergeNode alc blx)) (some arc))) } := by
              rw [iterSteps_append_some hc1 2]
              simp only [iterSteps, hs3, hs4]
            obtain ⟨k2, hk2, hrun2⟩ := ih bTree brx (p ++ [true]) (p :: bStack)
              (some (p ++ [false])) (some p :: aStack) aCr (A.updateAt p (fun _ => (TNode.mk av (some (subMergeNode alc blx)) (some arc)))) arc hcntr hfr
              hfa3R hbQr
            have hA4 : (A.updateAt p (fun _ => (TNode.mk av (some (subMergeNode alc blx)) (some arc)))).updateAt (p ++ [true]) (fun _ => subMergeNode arc brx) =
                A.updateAt p (fun _ => (TNode.mk av (some (subMergeNode alc blx)) (some (subMergeNode arc brx)))) := by
              rw [updateAt_append, updateAt_updateAt]
              apply updateAt_congr hfa
              rfl
            rw [hA4] at hrun2
            have hc3 : iterSteps (subStep bTree) (2 + k1 + 2 + k2)
                { label := .t2, bStack := bStack, bP := some p, bQ := bQ,
                  aStack := aStack, aP := some p, aCreated := aCr, aRoot := A } =
                some { label := .t4, bStack := p :: bStack, bP := some (p ++ [true]),
                        bQ := some (p ++ [true]), aStack := some p :: aStack,
                        aP := some (p ++ [true]), aCreated := aCr, aRoot := A.updateAt p (fun _ => (TNode.mk av (some (subMergeNode alc blx)) (some (subMergeNode arc brx)))) } := by
              rw [iterSteps_append_some hc2 k2]
              exact hrun2
            have hfa4 : (A.updateAt p (fun _ => (TNode.mk av (some (subMergeNode alc blx)) (some (subMergeNode arc brx))))).follow p = some (TNode.mk av (some (subMergeNode alc blx)) (some (subMergeNode arc brx))) := follow_updateAt_self hfa _
            have hs5 : subStep bTree
                { label := .t4, bStack := p :: bStack, bP := some (p ++ [true]),
                  bQ := some (p ++ [true]), aStack := some p :: aStack,
                  aP := some (p ++ [true]), aCreated := aCr, aRoot := A.updateAt p (fun _ => (TNode.mk av (some (subMergeNode alc blx)) (some (subMergeNode arc brx)))) } =
                .cont { label := .t5, bStack := bStack, bP := some p,
                        bQ := some (p ++ [true]), aStack := aStack, aP := some p,
                        aCreated := aCr, aRoot := A.updateAt p (fun _ => (TNode.mk av (some (subMergeNode alc blx)) (some (subMergeNode arc brx)))) } := by
              simp [subStep]
            have hs6 : subStep bTree
                { label := .t5, bStack := bStack, bP := some p,
                  bQ := some (p ++ [true]), aStack := aStack, aP := some p,
                  aCreated := aCr, aRoot := A.updateAt p (fun _ => (TNode.mk av (some (subMergeNode alc blx)) (some (subMergeNode arc brx)))) } =
                .cont { label := .t6, bStack := bStack, bP := some p,
                        bQ := some (p ++ [true]), aStack := aStack, aP := some p,
                        aCreated := aCr, aRoot := A.updateAt p (fun _ => (TNode.mk av (some (subMergeNode alc blx)) (some (subMergeNode arc brx)))) } := by
              simp only [subStep, hfb, TNode.right, beq_self_eq_true]
              rfl
            have hroot : subT6Right (subT6Left (A.updateAt p (fun _ => (TNode.mk av (some (subMergeNode alc blx)) (some (subMergeNode arc brx))))) p (TNode.mk av (some (subMergeNode alc blx)) (some (subMergeNode arc brx))) (TNode.mk bv (some blx) (some brx))) p (TNode.mk bv (some blx) (some brx)) =
                A.updateAt p (fun _ => subMergeNode (TNode.mk av (some alc) (some arc)) (TNode.mk bv (some blx) (some brx))) := by
              rw [subT6_at _ hfa4, updateAt_updateAt]
              apply updateAt_congr hfa
              rfl
            have hs7 : subStep bTree
                { label := .t6, bStack := bStack, bP := some p,
                  bQ := some (p ++ [true]), aStack := aStack, aP := some p,
                  aCreated := aCr, aRoot := A.updateAt p (fun _ => (TNode.mk av (some (subMergeNode alc blx)) (some (subMergeNode arc brx)))) } =
                .cont { label := .t4, bStack := bStack, bP := some p, bQ := some p,
                        aStack := aStack, aP := some p, aCreated := aCr,
                        aRoot := A.updateAt p (fun _ => subMergeNode (TNode.mk av (some alc) (some arc))
                          (TNode.mk bv (some blx) (some brx))) } := by
              simp only [subStep, hfa4, hfb]
              rw [hroot]
            refine ⟨2 + k1 + 2 + k2 + 3, by simp only [TNode.nodeCount]; omega, ?_⟩
            have hpost : iterSteps (subStep bTree) 3
                { label := .t4, bStack := p :: bStack, bP := some (p ++ [true]),
                  bQ := some (p ++ [true]), aStack := some p :: aStack,
                  aP := some (p ++ [true]), aCreated := aCr, aRoot := A.updateAt p (fun _ => (TNode.mk av (some (subMergeNode alc blx)) (some (subMergeNode arc brx)))) } =
                some { label := .t4, bStack := bStack, bP := some p, bQ := some p,
                        aStack := aStack, aP := some p, aCreated := aCr,
                        aRoot := A.updateAt p (fun _ => subMergeNode (TNode.mk av (some alc) (some arc))
                          (TNode.mk bv (some blx) (some brx))) } := by
              simp only [iterSteps, hs5, hs6, hs7]
            rw [iterSteps_append_some hc3 3]
            exact hpost

/-- `__sub__` on two nonempty sets computes exactly the recursive
`subMergeNode` of the two roots followed by the root fix-up. -/
theorem opSubSets_sub {a b : CidrSet} {ra rb : TNode}
    (hra : a.root = some ra) (hrb : b.root = some rb) :
    a.opSubSets b = some ⟨subFixRoot rb (subMergeNode ra rb)⟩ := by
  obtain ⟨k, hk, hrun⟩ := subSegment rb.nodeCount rb rb [] [] none [] none ra ra
    le_rfl rfl rfl (fun r hr => absurd hr (by simp))
  have hnc := nodeCount_pos rb
  have h1 := runMach_of_iterSteps k _ _ hrun (100 * (rb.nodeCount + 1)) (by omega)
  have hfin : subStep rb
      { label := .t4, bStack := [], bP := some [], bQ := some [],
        aStack := [], aP := some [], aCreated := none,
        aRoot := ra.updateAt [] (fun _ => subMergeNode ra rb) } =
      .done (subFixRoot rb (ra.updateAt [] (fun _ => subMergeNode ra rb))) := by
    simp [subStep]
  obtain ⟨m, hm⟩ : ∃ m, 100 * (rb.nodeCount + 1) - k = m + 1 :=
    ⟨100 * (rb.nodeCount + 1) - k - 1, by omega⟩
  have h2 : runMach (subStep rb) (m + 1)
      { label := .t4, bStack := [], bP := some [], bQ := some [],
        aStack := [], aP := some [], aCreated := none,
        aRoot := ra.updateAt [] (fun _ => subMergeNode ra rb) } =
      some (subFixRoot rb (ra.updateAt [] (fun _ => subMergeNode ra rb))) := by
    simp only [runMach, hfin]
  have h0 : travInit ra =
      { label := .t2, bStack := [], bP := some [], bQ := none,
        aStack := [], aP := some [], aCreated := none, aRoot := ra } := rfl
  have h3 : runSub rb (100 * (rb.nodeCount + 1)) (travInit ra) =
      some (subFixRoot rb (ra.updateAt [] (fun _ => subMergeNode ra rb))) := by
    simp only [runSub]
    rw [h0, h1, hm]
    exact h2
  have hsz : ¬(a.size = 0 ∨ b.size = 0) := by
    simp only [CidrSet.size, hra, hrb]
    have ha1 := leafCount_pos ra.nodeCount ra le_rfl
    have hb1 := leafCount_pos rb.nodeCount rb le_rfl
    omega
  simp only [CidrSet.opSubSets, if_neg hsz, hra, hrb, h3]
  rfl

-- Canonicity interface lemmas

theorem canonical_left {v : Nat} {l r : Option TNode} {x : TNode}
    (h : (TNode.mk v l r).canonical = true) (hl : l = some x) : x.canonical = true := by
  subst hl
  cases r with
  | none =>
    simp only [TNode.canonical, Bool.and_eq_true] at h
    exact h.1.2
  | some y =>
    simp only [TNode.canonical, Bool.and_eq_true] at h
    exact h.1.2

theorem canonical_right {v : Nat} {l r : Option TNode} {x : TNode}
    (h : (TNode.mk v l r).canonical = true) (hr : r = some x) : x.canonical = true := by
  subst hr
  cases l with
  | none =>
    simp only [TNode.canonical, Bool.and_eq_true] at h
    exact h.2
  | some y =>
    simp only [TNode.canonical, Bool.and_eq_true] at h
    exact h.2

theorem canonical_pair {v : Nat} {x y : TNode}
    (h : (TNode.mk v (some x) (some y)).canonical = true) :
    (x.isLeaf && y.isLeaf) = false := by
  simp only [TNode.canonical, Bool.and_eq_true] at h
  have h1 := h.1.1
  revert h1
  cases hxy : (x.isLeaf && y.isLeaf) with
  | false => intro _; rfl
  | true => intro h1; simp at h1

theorem canonical_setLeft_none {t : TNode} (h : t.canonical = true) :
    (t.setLeft none).canonical = true := by
  obtain ⟨v, l, r⟩ := t
  cases r with
  | none => rfl
  | some y =>
    have hy := canonical_right h rfl
    simp [TNode.setLeft, TNode.canonical, hy]

theorem canonical_setRight_none {t : TNode} (h : t.canonical = true) :
    (t.setRight none).canonical = true := by
  obtain ⟨v, l, r⟩ := t
  cases l with
  | none => rfl
  | some x =>
    have hx := canonical_left h rfl
    simp [TNode.setRight, TNode.canonical, hx]

theorem isLeaf_iff {t : TNode} : t.isLeaf = true ↔ t.left = none ∧ t.right = none := by
  obtain ⟨v, l, r⟩ := t
  cases l <;> cases r <;> simp [TNode.isLeaf, TNode.left, TNode.right]

theorem subFixRoot_canonical {b M t : TNode} (hM : M.canonical = true)
    (h : subFixRoot b M = some t) : t.canonical = true := by
  obtain ⟨bv, bl, br⟩ := b
  cases bl with
  | none =>
    cases br with
    | none => exact Option.noConfusion h
    | some brx =>
      simp only [subFixRoot, TNode.left, TNode.right] at h
      split at h
      · injection h with h
        subst h
        exact canonical_setRight_none hM
      · injection h with h
        subst h
        exact hM
  | some blx =>
    cases br with
    | none =>
      simp only [subFixRoot, TNode.left, TNode.right] at h
      split at h
      · injection h with h
        subst h
        exact canonical_setLeft_none hM
      · injection h with h
        subst h
        exact hM
    | some brx =>
      simp only [subFixRoot, TNode.left, TNode.right] at h
      injection h with h
      subst h
      exact hM

theorem subT6Left_bnoneL {v : Nat} {l r : Option TNode} {bv : Nat} {br : Option TNode} :
    subT6Left (TNode.mk v l r) [] (TNode.mk v l r) (TNode.mk bv none br) =
      TNode.mk v l r := by
  unfold subT6Left
  split <;> rfl

theorem subT6Right_bnoneR {X : TNode} {bv : Nat} {bl : Option TNode} :
    subT6Right X [] (TNode.mk bv bl none) = X := by
  simp only [subT6Right]
  split <;> rfl

theorem subT6Left_spec {v : Nat} {L : TNode} {R : Option TNode} {bv : Nat}
    {blx : TNode} {br : Option TNode}
    (hLc : L.canonical = true)
    (hl : blx.left = none → blx.right ≠ none → L.left ≠ none)
    (hr : blx.right = none → blx.left ≠ none → L.right ≠ none)
    (hnl : blx.isLeaf = false → L.isLeaf = false) :
    ∃ l2, subT6Left (TNode.mk v (some L) R) [] (TNode.mk v (some L) R)
        (TNode.mk bv (some blx) br) = TNode.mk v l2 R ∧
      (l2 = none ↔ blx.isLeaf = true) ∧
      (∀ L2, l2 = some L2 → L2.canonical = true ∧ L2.isLeaf = false) := by
  obtain ⟨xv, xl, xr⟩ := blx
  cases xl with
  | none =>
    cases xr with
    | none =>
      exact ⟨none, rfl, iff_of_true rfl rfl, fun L2 h => Option.noConfusion h⟩
    | some blr =>
      by_cases hc : blr.left ≠ none ∧ blr.right ≠ none
      · refine ⟨some (L.setRight none), ?_, ?_, ?_⟩
        · show (if blr.left ≠ none ∧ blr.right ≠ none then
              (TNode.mk v (some L) R).updateAt ([] ++ [false])
                (fun n => n.setRight none)
            else TNode.mk v (some L) R) = TNode.mk v (some (L.setRight none)) R
          rw [if_pos hc]
          obtain ⟨lv, ll, lr⟩ := L
          rfl
        · exact iff_of_false (fun h => Option.noConfusion h) (fun h => Bool.noConfusion h)
        · intro L2 hL2
          injection hL2 with hL2
          subst hL2
          refine ⟨canonical_setRight_none hLc, ?_⟩
          have hLl := hl rfl (fun h => Option.noConfusion h)
          obtain ⟨lv, ll, lr⟩ := L
          cases ll with
          | none => exact absurd rfl hLl
          | some z => rfl
      · refine ⟨some L, ?_, ?_, ?_⟩
        · show (if blr.left ≠ none ∧ blr.right ≠ none then
              (TNode.mk v (some L) R).updateAt ([] ++ [false])
                (fun n => n.setRight none)
            else TNode.mk v (some L) R) = TNode.mk v (some L) R
          rw [if_neg hc]
        · exact iff_of_false (fun h => Option.noConfusion h) (fun h => Bool.noConfusion h)
        · intro L2 hL2
          injection hL2 with hL2
          subst hL2
          exact ⟨hLc, hnl rfl⟩
  | some bll =>
    cases xr with
    | none =>
      by_cases hc : bll.left ≠ none ∧ bll.right ≠ none
      · refine ⟨some (L.setLeft none), ?_, ?_, ?_⟩
        · show (if bll.left ≠ none ∧ bll.right ≠ none then
              (TNode.mk v (some L) R).updateAt ([] ++ [false])
                (fun n => n.setLeft none)
            else TNode.mk v (some L) R) = TNode.mk v (some (L.setLeft none)) R
          rw [if_pos hc]
          obtain ⟨lv, ll, lr⟩ := L
          rfl
        · exact iff_of_false (fun h => Option.noConfusion h) (fun h => Bool.noConfusion h)
        · intro L2 hL2
          injection hL2 with hL2
          subst hL2
          refine ⟨canonical_setLeft_none hLc, ?_⟩
          have hLr := hr rfl (fun h => Option.noConfusion h)
          obtain ⟨lv, ll, lr⟩ := L
          cases lr with
          | none => exact absurd rfl hLr
          | some z => cases ll <;> rfl
      · refine ⟨some L, ?_, ?_, ?_⟩
        · show (if bll.left ≠ none ∧ bll.right ≠ none then
              (TNode.mk v (some L) R).updateAt ([] ++ [false])
                (fun n => n.setLeft none)
            else TNode.mk v (some L) R) = TNode.mk v (some L) R
          rw [if_neg hc]
        · exact iff_of_false (fun h => Option.noConfusion h) (fun h => Bool.noConfusion h)
        · intro L2 hL2
          injection hL2 with hL2
          subst hL2
          exact ⟨hLc, hnl rfl⟩
    | some blr =>
      refine ⟨some L, rfl, ?_, ?_⟩
      · exact iff_of_false (fun h => Option.noConfusion h) (fun h => Bool.noConfusion h)
      · intro L2 hL2
        injection hL2 with hL2
        subst hL2
        exact ⟨hLc, hnl rfl⟩

theorem subT6Right_spec {v : Nat} {l2 : Option TNode} {R : TNode} {bv : Nat}
    {bl : Option TNode} {brx : TNode}
    (hRc : R.canonical = true)
    (hl : brx.left = none → brx.right ≠ none → R.left ≠ none)
    (hr : brx.right = none → brx.left ≠ none → R.right ≠ none)
    (hnl : brx.isLeaf = false → R.isLeaf = false) :
    ∃ r2, subT6Right (TNode.mk v l2 (some R)) [] (TNode.mk bv bl (some brx)) =
        TNode.mk v l2 r2 ∧
      (r2 = none ↔ brx.isLeaf = true) ∧
      (∀ R2, r2 = some R2 → R2.canonical = true ∧ R2.isLeaf = false) := by
  obtain ⟨xv, xl, xr⟩ := brx
  cases xl with
  | none =>
    cases xr with
    | none =>
      refine ⟨none, ?_, iff_of_true rfl rfl, fun R2 h => Option.noConfusion h⟩
      obtain ⟨lv, ll, lr⟩ := R
      cases l2 <;> rfl
    | some brr =>
      by_cases hc : brr.left ≠ none ∧ brr.right ≠ none
      · refine ⟨some (R.setRight none), ?_, ?_, ?_⟩
        · show (if brr.left ≠ none ∧ brr.right ≠ none then
              (TNode.mk v l2 (some R)).updateAt ([] ++ [true])
                (fun n => n.setRight none)
            else TNode.mk v l2 (some R)) = TNode.mk v l2 (some (R.setRight none))
          rw [if_pos hc]
          obtain ⟨rv, rl, rr⟩ := R
          cases l2 <;> rfl
        · exact iff_of_false (fun h => Option.noConfusion h) (fun h => Bool.noConfusion h)
        · intro R2 hR2
          injection hR2 with hR2
          subst hR2
          refine ⟨canonical_setRight_none hRc, ?_⟩
          have hRl := hl rfl (fun h => Option.noConfusion h)
          obtain ⟨rv, rl, rr⟩ := R
          cases rl with
          | none => exact absurd rfl hRl
          | some z => rfl
      · refine ⟨some R, ?_, ?_, ?_⟩
        · show (if brr.left ≠ none ∧ brr.right ≠ none then
              (TNode.mk v l2 (some R)).updateAt ([] ++ [true])
                (fun n => n.setRight none)
            else TNode.mk v l2 (some R)) = TNode.mk v l2 (some R)
          rw [if_neg hc]
        · exact iff_of_false (fun h => Option.noConfusion h) (fun h => Bool.noConfusion h)
        · intro R2 hR2
          injection hR2 with hR2
          subst hR2
          exact ⟨hRc, hnl rfl⟩
  | some brl =>
    cases xr with
    | none =>
      by_cases hc : brl.left ≠ none ∧ brl.right ≠ none
      · refine ⟨some (R.setLeft none), ?_, ?_, ?_⟩
        · show (if brl.left ≠ none ∧ brl.right ≠ none then
              (TNode.mk v l2 (some R)).updateAt ([] ++ [true])
                (fun n => n.setLeft none)
            else TNode.mk v l2 (some R)) = TNode.mk v l2 (some (R.setLeft none))
          rw [if_pos hc]
          obtain ⟨rv, rl, rr⟩ := R
          cases l2 <;> rfl
        · exact iff_of_false (fun h => Option.noConfusion h) (fun h => Bool.noConfusion h)
        · intro R2 hR2
          injection hR2 with hR2
          subst hR2
          refine ⟨canonical_setLeft_none hRc, ?_⟩
          have hRr := hr rfl (fun h => Option.noConfusion h)
          obtain ⟨rv, rl, rr⟩ := R
          cases rr with
          | none => exact absurd rfl hRr
          | some z => cases rl <;> rfl
      · refine ⟨some R, ?_, ?_, ?_⟩
        · show (if brl.left ≠ none ∧ brl.right ≠ none then
              (TNode.mk v l2 (some R)).updateAt ([] ++ [true])
                (fun n => n.setLeft none)
            else TNode.mk v l2 (some R)) = TNode.mk v l2 (some R)
          rw [if_neg hc]
        · exact iff_of_false (fun h => Option.noConfusion h) (fun h => Bool.noConfusion h)
        · intro R2 hR2
          injection hR2 with hR2
          subst hR2
          exact ⟨hRc, hnl rfl⟩
    | some brr =>
      refine ⟨some R, rfl, ?_, ?_⟩
      · exact iff_of_false (fun h => Option.noConfusion h) (fun h => Bool.noConfusion h)
      · intro R2 hR2
        injection hR2 with hR2
        subst hR2
        exact ⟨hRc, hnl rfl⟩

theorem merged_child_facts {LL : TNode} {xv : Nat} {xl xr : Option TNode}
    (hBx : (TNode.mk xv xl xr).canonical = true)
    (h2 : ¬(xl = none ∧ xr = none) →
      ((LL.left = none ↔ ∃ x, xl = some x ∧ x.isLeaf = true) ∧
       (LL.right = none ↔ ∃ x, xr = some x ∧ x.isLeaf = true))) :
    ((TNode.mk xv xl xr).left = none → (TNode.mk xv xl xr).right ≠ none →
      LL.left ≠ none) ∧
    ((TNode.mk xv xl xr).right = none → (TNode.mk xv xl xr).left ≠ none →
      LL.right ≠ none) ∧
    ((TNode.mk xv xl xr).isLeaf = false → LL.isLeaf = false) := by
  refine ⟨?_, ?_, ?_⟩
  · intro h1 h2x hc
    have hInt : ¬(xl = none ∧ xr = none) := fun hp => h2x hp.2
    obtain ⟨x, hx, _⟩ := ((h2 hInt).1).mp hc
    rw [show xl = none from h1] at hx
    exact Option.noConfusion hx
  · intro h1 h2x hc
    have hInt : ¬(xl = none ∧ xr = none) := fun hp => h2x hp.1
    obtain ⟨x, hx, _⟩ := ((h2 hInt).2).mp hc
    rw [show xr = none from h1] at hx
    exact Option.noConfusion hx
  · intro h
    have hInt : ¬(xl = none ∧ xr = none) := by
      intro hp
      obtain ⟨ha, hb⟩ := hp
      subst ha
      subst hb
      simp [TNode.isLeaf] at h
    cases hLLleaf : LL.isLeaf with
    | false => rfl
    | true =>
      obtain ⟨hn1, hn2⟩ := isLeaf_iff.mp hLLleaf
      obtain ⟨x, hx1, hx2⟩ := ((h2 hInt).1).mp hn1
      obtain ⟨y, hy1, hy2⟩ := ((h2 hInt).2).mp hn2
      subst hx1
      subst hy1
      have hp := canonical_pair hBx
      rw [hx2, hy2] at hp
      simp at hp

/-- Canonicity and child-presence characterization of the `__sub__` merge. -/
theorem subMergeNode_canonical (n : Nat) : ∀ (b a : TNode), b.nodeCount ≤ n →
    a.canonical = true → b.canonical = true →
    (subMergeNode a b).canonical = true ∧
    (∀ bv bl br, b = TNode.mk bv bl br → ¬(bl = none ∧ br = none) →
      ((subMergeNode a b).left = none ↔ ∃ x, bl = some x ∧ x.isLeaf = true) ∧
      ((subMergeNode a b).right = none ↔ ∃ x, br = some x ∧ x.isLeaf = true)) := by
  induction n with
  | zero =>
    intro b a hn
    exact absurd (le_trans (nodeCount_pos b) hn) (by omega)
  | succ n ih =>
    intro b a hn hA hB
    obtain ⟨bv, bl, br⟩ := b
    cases bl with
    | none =>
      cases br with
      | none =>
        refine ⟨hA, ?_⟩
        intro bv2 bl2 br2 hbeq hne2
        injection hbeq with e1 e2 e3
        subst e2
        subst e3
        exact absurd ⟨rfl, rfl⟩ hne2
      | some brx =>
        obtain ⟨yv, yl, yr⟩ := brx
        have hcnt : (TNode.mk yv yl yr).nodeCount ≤ n := by
          simp only [TNode.nodeCount] at hn
          omega
        obtain ⟨av, aL, aR⟩ := a
        cases aL with
        | none =>
          cases aR with
          | none =>
            have hBr : ((TNode.mk yv yl yr)).canonical = true := canonical_right hB rfl
            have hLc2 : ((TNode.mk (av + 1) none none)).canonical = true := rfl
            have hRc2 : ((TNode.mk (av + 1) none none)).canonical = true := rfl
            obtain ⟨hRRc, hRR2⟩ := ih (TNode.mk yv yl yr) (TNode.mk (av + 1) none none) hcnt hRc2 hBr
            obtain ⟨hfl, hfr, hfnl⟩ := merged_child_facts hBr (hRR2 yv yl yr rfl)
            obtain ⟨r2, hT6R, hr2iff, hr2some⟩ := subT6Right_spec hRRc hfl hfr hfnl
            have hM : subMergeNode (TNode.mk av none none) (TNode.mk bv none (some (TNode.mk yv yl yr))) =
                TNode.mk av (some (TNode.mk (av + 1) none none)) r2 := by
              rw [show subMergeNode (TNode.mk av none none) (TNode.mk bv none (some (TNode.mk yv yl yr))) =
                  subT6Right (subT6Left (TNode.mk av (some (TNode.mk (av + 1) none none)) (some (subMergeNode (TNode.mk (av + 1) none none) (TNode.mk yv yl yr)))) [] (TNode.mk av (some (TNode.mk (av + 1) none none)) (some (subMergeNode (TNode.mk (av + 1) none none) (TNode.mk yv yl yr)))) (TNode.mk bv none (some (TNode.mk yv yl yr)))) [] (TNode.mk bv none (some (TNode.mk yv yl yr))) from rfl]
              rw [subT6Left_bnoneL, hT6R]
            refine ⟨?_, ?_⟩
            · rw [hM]
              cases r2 with
              | none => simp [TNode.canonical, hLc2]
              | some R2 =>
                obtain ⟨hc2, hnl2⟩ := hr2some R2 rfl
                simp [TNode.canonical, hc2, hLc2, hnl2]
            · intro bv2 bl2 br2 hbeq hne2
              injection hbeq with e1 e2 e3
              subst e1
              subst e2
              subst e3
              rw [hM]
              refine ⟨⟨?_, ?_⟩, ⟨?_, ?_⟩⟩
              · intro h
                exact Option.noConfusion h
              · rintro ⟨x, hx, hleaf⟩
                exact Option.noConfusion hx
              · intro h
                exact ⟨(TNode.mk yv yl yr), rfl, hr2iff.mp h⟩
              · rintro ⟨x, hx, hleaf⟩
                injection hx with hx
                subst hx
                exact hr2iff.mpr hleaf
          | some arc =>
            have hBr : ((TNode.mk yv yl yr)).canonical = true := canonical_right hB rfl
            have hLc2 : ((TNode.mk (av + 1) none none)).canonical = true := rfl
            have hRc2 : (arc).canonical = true := canonical_right hA rfl
            obtain ⟨hRRc, hRR2⟩ := ih (TNode.mk yv yl yr) arc hcnt hRc2 hBr
            obtain ⟨hfl, hfr, hfnl⟩ := merged_child_facts hBr (hRR2 yv yl yr rfl)
            obtain ⟨r2, hT6R, hr2iff, hr2some⟩ := subT6Right_spec hRRc hfl hfr hfnl
            have hM : subMergeNode (TNode.mk av none (some arc)) (TNode.mk bv none (some (TNode.mk yv yl yr))) =
                TNode.mk av (some (TNode.mk (av + 1) none none)) r2 := by
              rw [show subMergeNode (TNode.mk av none (some arc)) (TNode.mk bv none (some (TNode.mk yv yl yr))) =
                  subT6Right (subT6Left (TNode.mk av (some (TNode.mk (av + 1) none none)) (some (subMergeNode arc (TNode.mk yv yl yr)))) [] (TNode.mk av (some (TNode.mk (av + 1) none none)) (some (subMergeNode arc (TNode.mk yv yl yr)))) (TNode.mk bv none (some (TNode.mk yv yl yr)))) [] (TNode.mk bv none (some (TNode.mk yv yl yr))) from rfl]
              rw [subT6Left_bnoneL, hT6R]
            refine ⟨?_, ?_⟩
            · rw [hM]
              cases r2 with
              | none => simp [TNode.canonical, hLc2]
              | some R2 =>
                obtain ⟨hc2, hnl2⟩ := hr2some R2 rfl
                simp [TNode.canonical, hc2, hLc2, hnl2]
            · intro bv2 bl2 br2 hbeq hne2
              injection hbeq with e1 e2 e3
              subst e1
              subst e2
              subst e3
              rw [hM]
              refine ⟨⟨?_, ?_⟩, ⟨?_, ?_⟩⟩
              · intro h
                exact Option.noConfusion h
              · rintro ⟨x, hx, hleaf⟩
                exact Option.noConfusion hx
              · intro h
                exact ⟨(TNode.mk yv yl yr), rfl, hr2iff.mp h⟩
              · rintro ⟨x, hx, hleaf⟩
                injection hx with hx
                subst hx
                exact hr2iff.mpr hleaf
        | some alc =>
          cases aR with
          | none =>
            have hBr : ((TNode.mk yv yl yr)).canonical = true := canonical_right hB rfl
            have hLc2 : (alc).canonical = true := canonical_left hA rfl
            have hRc2 : ((TNode.mk (av + 1) none none)).canonical = true := rfl
            obtain ⟨hRRc, hRR2⟩ := ih (TNode.mk yv yl yr) (TNode.mk (av + 1) none none) hcnt hRc2 hBr
            obtain ⟨hfl, hfr, hfnl⟩ := merged_child_facts hBr (hRR2 yv yl yr rfl)
            obtain ⟨r2, hT6R, hr2iff, hr2some⟩ := subT6Right_spec hRRc hfl hfr hfnl
            have hM : subMergeNode (TNode.mk av (some alc) none) (TNode.mk bv none (some (TNode.mk yv yl yr))) =
                TNode.mk av (some alc) r2 := by
              rw [show subMergeNode (TNode.mk av (some alc) none) (TNode.mk bv none (some (TNode.mk yv yl yr))) =
                  subT6Right (subT6Left (TNode.mk av (some alc) (some (subMergeNode (TNode.mk (av + 1) none none) (TNode.mk yv yl yr)))) [] (TNode.mk av (some alc) (some (subMergeNode (TNode.mk (av + 1) none none) (TNode.mk yv yl yr)))) (TNode.mk bv none (some (TNode.mk yv yl yr)))) [] (TNode.mk bv none (some (TNode.mk yv yl yr))) from rfl]
              rw [subT6Left_bnoneL, hT6R]
            refine ⟨?_, ?_⟩
            · rw [hM]
              cases r2 with
              | none => simp [TNode.canonical, hLc2]
              | some R2 =>
                obtain ⟨hc2, hnl2⟩ := hr2some R2 rfl
                simp [TNode.canonical, hc2, hLc2, hnl2]
            · intro bv2 bl2 br2 hbeq hne2
              injection hbeq with e1 e2 e3
              subst e1
              subst e2
              subst e3
              rw [hM]
              refine ⟨⟨?_, ?_⟩, ⟨?_, ?_⟩⟩
              · intro h
                exact Option.noConfusion h
              · rintro ⟨x, hx, hleaf⟩
                exact Option.noConfusion hx
              · intro h
                exact ⟨(TNode.mk yv yl yr), rfl, hr2iff.mp h⟩
              · rintro ⟨x, hx, hleaf⟩
                injection hx with hx
                subst hx
                exact hr2iff.mpr hleaf
          | some arc =>
            have hBr : ((TNode.mk yv yl yr)).canonical = true := canonical_right hB rfl
            have hLc2 : (alc).canonical = true := canonical_left hA rfl
            have hRc2 : (arc).canonical = true := canonical_right hA rfl
            obtain ⟨hRRc, hRR2⟩ := ih (TNode.mk yv yl yr) arc hcnt hRc2 hBr
            obtain ⟨hfl, hfr, hfnl⟩ := merged_child_facts hBr (hRR2 yv yl yr rfl)
            obtain ⟨r2, hT6R, hr2iff, hr2some⟩ := subT6Right_spec hRRc hfl hfr hfnl
            have hM : subMergeNode (TNode.mk av (some alc) (some arc)) (TNode.mk bv none (some (TNode.mk yv yl yr))) =
                TNode.mk av (some alc) r2 := by
              rw [show subMergeNode (TNode.mk av (some alc) (some arc)) (TNode.mk bv none (some (TNode.mk yv yl yr))) =
                  subT6Right (subT6Left (TNode.mk av (some alc) (some (subMergeNode arc (TNode.mk yv yl yr)))) [] (TNode.mk av (some alc) (some (subMergeNode arc (TNode.mk yv yl yr)))) (TNode.mk bv none (some (TNode.mk yv yl yr)))) [] (TNode.mk bv none (some (TNode.mk yv yl yr))) from rfl]
              rw [subT6Left_bnoneL, hT6R]
            refine ⟨?_, ?_⟩
            · rw [hM]
              cases r2 with
              | none => simp [TNode.canonical, hLc2]
              | some R2 =>
                obtain ⟨hc2, hnl2⟩ := hr2some R2 rfl
                simp [TNode.canonical, hc2, hLc2, hnl2]
            · intro bv2 bl2 br2 hbeq hne2
              injection hbeq with e1 e2 e3
              subst e1
              subst e2
              subst e3
              rw [hM]
              refine ⟨⟨?_, ?_⟩, ⟨?_, ?_⟩⟩
              · intro h
                exact Option.noConfusion h
              · rintro ⟨x, hx, hleaf⟩
                exact Option.noConfusion hx
              · intro h
                exact ⟨(TNode.mk yv yl yr), rfl, hr2iff.mp h⟩
              · rintro ⟨x, hx, hleaf⟩
                injection hx with hx
                subst hx
                exact hr2iff.mpr hleaf
    | some blx =>
      obtain ⟨xv, xl, xr⟩ := blx
      cases br with
      | none =>
        have hcnt : (TNode.mk xv xl xr).nodeCount ≤ n := by
          simp only [TNode.nodeCount] at hn
          omega
        obtain ⟨av, aL, aR⟩ := a
        cases aL with
        | none =>
          cases aR with
          | none =>
            have hBl : ((TNode.mk xv xl xr)).canonical = true := canonical_left hB rfl
            have hLc2 : ((TNode.mk (av + 1) none none)).canonical = true := rfl
            have hRc2 : ((TNode.mk (av + 1) none none)).canonical = true := rfl
            obtain ⟨hLLc, hLL2⟩ := ih (TNode.mk xv xl xr) (TNode.mk (av + 1) none none) hcnt hLc2 hBl
            obtain ⟨hfl, hfr, hfnl⟩ := merged_child_facts hBl (hLL2 xv xl xr rfl)
            obtain ⟨l2, hT6L, hl2iff, hl2some⟩ := subT6Left_spec hLLc hfl hfr hfnl
            have hM : subMergeNode (TNode.mk av none none) (TNode.mk bv (some (TNode.mk xv xl xr)) none) =
                TNode.mk av l2 (some (TNode.mk (av + 1) none none)) := by
              rw [show subMergeNode (TNode.mk av none none) (TNode.mk bv (some (TNode.mk xv xl xr)) none) =
                  subT6Right (subT6Left (TNode.mk av (some (subMergeNode (TNode.mk (av + 1) none none) (TNode.mk xv xl xr))) (some (TNode.mk (av + 1) none none))) [] (TNode.mk av (some (subMergeNode (TNode.mk (av + 1) none none) (TNode.mk xv xl xr))) (some (TNode.mk (av + 1) none none))) (TNode.mk bv (some (TNode.mk xv xl xr)) none)) [] (TNode.mk bv (some (TNode.mk xv xl xr)) none) from rfl]
              rw [hT6L, subT6Right_bnoneR]
            refine ⟨?_, ?_⟩
            · rw [hM]
              cases l2 with
              | none => simp [TNode.canonical, hRc2]
              | some L2 =>
                obtain ⟨hc2, hnl2⟩ := hl2some L2 rfl
                simp [TNode.canonical, hc2, hRc2, hnl2]
            · intro bv2 bl2 br2 hbeq hne2
              injection hbeq with e1 e2 e3
              subst e1
              subst e2
              subst e3
              rw [hM]
              refine ⟨⟨?_, ?_⟩, ⟨?_, ?_⟩⟩
              · intro h
                exact ⟨(TNode.mk xv xl xr), rfl, hl2iff.mp h⟩
              · rintro ⟨x, hx, hleaf⟩
                injection hx with hx
                subst hx
                exact hl2iff.mpr hleaf
              · intro h
                exact Option.noConfusion h
              · rintro ⟨x, hx, hleaf⟩
                exact Option.noConfusion hx
          | some arc =>
            have hBl : ((TNode.mk xv xl xr)).canonical = true := canonical_left hB rfl
            have hLc2 : ((TNode.mk (av + 1) none none)).canonical = true := rfl
            have hRc2 : (arc).canonical = true := canonical_right hA rfl
            obtain ⟨hLLc, hLL2⟩ := ih (TNode.mk xv xl xr) (TNode.mk (av + 1) none none) hcnt hLc2 hBl
            obtain ⟨hfl, hfr, hfnl⟩ := merged_child_facts hBl (hLL2 xv xl xr rfl)
            obtain ⟨l2, hT6L, hl2iff, hl2some⟩ := subT6Left_spec hLLc hfl hfr hfnl
            have hM : subMergeNode (TNode.mk av none (some arc)) (TNode.mk bv (some (TNode.mk xv xl xr)) none) =
                TNode.mk av l2 (some arc) := by
              rw [show subMergeNode (TNode.mk av none (some arc)) (TNode.mk bv (some (TNode.mk xv xl xr)) none) =
                  subT6Right (subT6Left (TNode.mk av (some (subMergeNode (TNode.mk (av + 1) none none) (TNode.mk xv xl xr))) (some arc)) [] (TNode.mk av (some (subMergeNode (TNode.mk (av + 1) none none) (TNode.mk xv xl xr))) (some arc)) (TNode.mk bv (some (TNode.mk xv xl xr)) none)) [] (TNode.mk bv (some (TNode.mk xv xl xr)) none) from rfl]
              rw [hT6L, subT6Right_bnoneR]
            refine ⟨?_, ?_⟩
            · rw [hM]
              cases l2 with
              | none => simp [TNode.canonical, hRc2]
              | some L2 =>
                obtain ⟨hc2, hnl2⟩ := hl2some L2 rfl
                simp [TNode.canonical, hc2, hRc2, hnl2]
            · intro bv2 bl2 br2 hbeq hne2
              injection hbeq with e1 e2 e3
              subst e1
              subst e2
              subst e3
              rw [hM]
              refine ⟨⟨?_, ?_⟩, ⟨?_, ?_⟩⟩
              · intro h
                exact ⟨(TNode.mk xv xl xr), rfl, hl2iff.mp h⟩
              · rintro ⟨x, hx, hleaf⟩
                injection hx with hx
                subst hx
                exact hl2iff.mpr hleaf
              · intro h
                exact Option.noConfusion h
              · rintro ⟨x, hx, hleaf⟩
                exact Option.noConfusion hx
        | some alc =>
          cases aR with
          | none =>
            have hBl : ((TNode.mk xv xl xr)).canonical = true := canonical_left hB rfl
            have hLc2 : (alc).canonical = true := canonical_left hA rfl
            have hRc2 : ((TNode.mk (av + 1) none none)).canonical = true := rfl
            obtain ⟨hLLc, hLL2⟩ := ih (TNode.mk xv xl xr) alc hcnt hLc2 hBl
            obtain ⟨hfl, hfr, hfnl⟩ := merged_child_facts hBl (hLL2 xv xl xr rfl)
            obtain ⟨l2, hT6L, hl2iff, hl2some⟩ := subT6Left_spec hLLc hfl hfr hfnl
            have hM : subMergeNode (TNode.mk av (some alc) none) (TNode.mk bv (some (TNode.mk xv xl xr)) none) =
                TNode.mk av l2 (some (TNode.mk (av + 1) none none)) := by
              rw [show subMergeNode (TNode.mk av (some alc) none) (TNode.mk bv (some (TNode.mk xv xl xr)) none) =
                  subT6Right (subT6Left (TNode.mk av (some (subMergeNode alc (TNode.mk xv xl xr))) (some (TNode.mk (av + 1) none none))) [] (TNode.mk av (some (subMergeNode alc (TNode.mk xv xl xr))) (some (TNode.mk (av + 1) none none))) (TNode.mk bv (some (TNode.mk xv xl xr)) none)) [] (TNode.mk bv (some (TNode.mk xv xl xr)) none) from rfl]
              rw [hT6L, subT6Right_bnoneR]
            refine ⟨?_, ?_⟩
            · rw [hM]
              cases l2 with
              | none => simp [TNode.canonical, hRc2]
              | some L2 =>
                obtain ⟨hc2, hnl2⟩ := hl2some L2 rfl
                simp [TNode.canonical, hc2, hRc2, hnl2]
            · intro bv2 bl2 br2 hbeq hne2
              injection hbeq with e1 e2 e3
              subst e1
              subst e2
              subst e3
              rw [hM]
              refine ⟨⟨?_, ?_⟩, ⟨?_, ?_⟩⟩
              · intro h
                exact ⟨(TNode.mk xv xl xr), rfl, hl2iff.mp h⟩
              · rintro ⟨x, hx, hleaf⟩
                injection hx with hx
                subst hx
                exact hl2iff.mpr hleaf
              · intro h
                exact Option.noConfusion h
              · rintro ⟨x, hx, hleaf⟩
                exact Option.noConfusion hx
          | some arc =>
            have hBl : ((TNode.mk xv xl xr)).canonical = true := canonical_left hB rfl
            have hLc2 : (alc).canonical = true := canonical_left hA rfl
            have hRc2 : (arc).canonical = true := canonical_right hA rfl
            obtain ⟨hLLc, hLL2⟩ := ih (TNode.mk xv xl xr) alc hcnt hLc2 hBl
            obtain ⟨hfl, hfr, hfnl⟩ := merged_child_facts hBl (hLL2 xv xl xr rfl)
            obtain ⟨l2, hT6L, hl2iff, hl2some⟩ := subT6Left_spec hLLc hfl hfr hfnl
            have hM : subMergeNode (TNode.mk av (some alc) (some arc)) (TNode.mk bv (some (TNode.mk xv xl xr)) none) =
                TNode.mk av l2 (some arc) := by
              rw [show subMergeNode (TNode.mk av (some alc) (some arc)) (TNode.mk bv (some (TNode.mk xv xl xr)) none) =
                  subT6Right (subT6Left (TNode.mk av (some (subMergeNode alc (TNode.mk xv xl xr))) (some arc)) [] (TNode.mk av (some (subMergeNode alc (TNode.mk xv xl xr))) (some arc)) (TNode.mk bv (some (TNode.mk xv xl xr)) none)) [] (TNode.mk bv (some (TNode.mk xv xl xr)) none) from rfl]
              rw [hT6L, subT6Right_bnoneR]
            refine ⟨?_, ?_⟩
            · rw [hM]
              cases l2 with
              | none => simp [TNode.canonical, hRc2]
              | some L2 =>
                obtain ⟨hc2, hnl2⟩ := hl2some L2 rfl
                simp [TNode.canonical, hc2, hRc2, hnl2]
            · intro bv2 bl2 br2 hbeq hne2
              injection hbeq with e1 e2 e3
              subst e1
              subst e2
              subst e3
              rw [hM]
              refine ⟨⟨?_, ?_⟩, ⟨?_, ?_⟩⟩
              · intro h
                exact ⟨(TNode.mk xv xl xr), rfl, hl2iff.mp h⟩
              · rintro ⟨x, hx, hleaf⟩
                injection hx with hx
                subst hx
                exact hl2iff.mpr hleaf
              · intro h
                exact Option.noConfusion h
              · rintro ⟨x, hx, hleaf⟩
                exact Option.noConfusion hx
      | some brx =>
        obtain ⟨yv, yl, yr⟩ := brx
        have hcntl : (TNode.mk xv xl xr).nodeCount ≤ n := by
          have h1 := nodeCount_pos (TNode.mk yv yl yr)
          simp only [TNode.nodeCount] at hn
          omega
        have hcntr : (TNode.mk yv yl yr).nodeCount ≤ n := by
          have h1 := nodeCount_pos (TNode.mk xv xl xr)
          simp only [TNode.nodeCount] at hn
          omega
        obtain ⟨av, aL, aR⟩ := a
        cases aL with
        | none =>
          cases aR with
          | none =>
            have hBl : ((TNode.mk xv xl xr)).canonical = true := canonical_left hB rfl
            have hBr : ((TNode.mk yv yl yr)).canonical = true := canonical_right hB rfl
            have hLc2 : ((TNode.mk (av + 1) none none)).canonical = true := rfl
            have hRc2 : ((TNode.mk (av + 1) none none)).canonical = true := rfl
            obtain ⟨hLLc, hLL2⟩ := ih (TNode.mk xv xl xr) (TNode.mk (av + 1) none none) hcntl hLc2 hBl
            obtain ⟨hRRc, hRR2⟩ := ih (TNode.mk yv yl yr) (TNode.mk (av + 1) none none) hcntr hRc2 hBr
            obtain ⟨hfl1, hfr1, hfnl1⟩ := merged_child_facts hBl (hLL2 xv xl xr rfl)
            obtain ⟨hfl2, hfr2, hfnl2⟩ := merged_child_facts hBr (hRR2 yv yl yr rfl)
            obtain ⟨l2, hT6L, hl2iff, hl2some⟩ := subT6Left_spec hLLc hfl1 hfr1 hfnl1
            obtain ⟨r2, hT6R, hr2iff, hr2some⟩ := subT6Right_spec hRRc hfl2 hfr2 hfnl2
            have hM : subMergeNode (TNode.mk av none none) (TNode.mk bv (some (TNode.mk xv xl xr)) (some (TNode.mk yv yl yr))) =
                TNode.mk av l2 r2 := by
              rw [show subMergeNode (TNode.mk av none none) (TNode.mk bv (some (TNode.mk xv xl xr)) (some (TNode.mk yv yl yr))) =
                  subT6Right (subT6Left (TNode.mk av (some (subMergeNode (TNode.mk (av + 1) none none) (TNode.mk xv xl xr))) (some (subMergeNode (TNode.mk (av + 1) none none) (TNode.mk yv yl yr)))) [] (TNode.mk av (some (subMergeNode (TNode.mk (av + 1) none none) (TNode.mk xv xl xr))) (some (subMergeNode (TNode.mk (av + 1) none none) (TNode.mk yv yl yr)))) (TNode.mk bv (some (TNode.mk xv xl xr)) (some (TNode.mk yv yl yr)))) [] (TNode.mk bv (some (TNode.mk xv xl xr)) (some (TNode.mk yv yl yr))) from rfl]
              rw [hT6L, hT6R]
            refine ⟨?_, ?_⟩
            · rw [hM]
              cases l2 with
              | none =>
                cases r2 with
                | none => rfl
                | some R2 => simp [TNode.canonical, (hr2some R2 rfl).1]
              | some L2 =>
                cases r2 with
                | none => simp [TNode.canonical, (hl2some L2 rfl).1]
                | some R2 =>
                  simp [TNode.canonical, (hl2some L2 rfl).1, (hr2some R2 rfl).1,
                    (hl2some L2 rfl).2]
            · intro bv2 bl2 br2 hbeq hne2
              injection hbeq with e1 e2 e3
              subst e1
              subst e2
              subst e3
              rw [hM]
              refine ⟨⟨?_, ?_⟩, ⟨?_, ?_⟩⟩
              · intro h
                exact ⟨(TNode.mk xv xl xr), rfl, hl2iff.mp h⟩
              · rintro ⟨x, hx, hleaf⟩
                injection hx with hx
                subst hx
                exact hl2iff.mpr hleaf
              · intro h
                exact ⟨(TNode.mk yv yl yr), rfl, hr2iff.mp h⟩
              · rintro ⟨x, hx, hleaf⟩
                injection hx with hx
                subst hx
                exact hr2iff.mpr hleaf
          | some arc =>
            have hBl : ((TNode.mk xv xl xr)).canonical = true := canonical_left hB rfl
            have hBr : ((TNode.mk yv yl yr)).canonical = true := canonical_right hB rfl
            have hLc2 : ((TNode.mk (av + 1) none none)).canonical = true := rfl
            have hRc2 : (arc).canonical = true := canonical_right hA rfl
            obtain ⟨hLLc, hLL2⟩ := ih (TNode.mk xv xl xr) (TNode.mk (av + 1) none none) hcntl hLc2 hBl
            obtain ⟨hRRc, hRR2⟩ := ih (TNode.mk yv yl yr) arc hcntr hRc2 hBr
            obtain ⟨hfl1, hfr1, hfnl1⟩ := merged_child_facts hBl (hLL2 xv xl xr rfl)
            obtain ⟨hfl2, hfr2, hfnl2⟩ := merged_child_facts hBr (hRR2 yv yl yr rfl)
            obtain ⟨l2, hT6L, hl2iff, hl2some⟩ := subT6Left_spec hLLc hfl1 hfr1 hfnl1
            obtain ⟨r2, hT6R, hr2iff, hr2some⟩ := subT6Right_spec hRRc hfl2 hfr2 hfnl2
            have hM : subMergeNode (TNode.mk av none (some arc)) (TNode.mk bv (some (TNode.mk xv xl xr)) (some (TNode.mk yv yl yr))) =
                TNode.mk av l2 r2 := by
              rw [show subMergeNode (TNode.mk av none (some arc)) (TNode.mk bv (some (TNode.mk xv xl xr)) (some (TNode.mk yv yl yr))) =
                  subT6Right (subT6Left (TNode.mk av (some (subMergeNode (TNode.mk (av + 1) none none) (TNode.mk xv xl xr))) (some (subMergeNode arc (TNode.mk yv yl yr)))) [] (TNode.mk av (some (subMergeNode (TNode.mk (av + 1) none none) (TNode.mk xv xl xr))) (some (subMergeNode arc (TNode.mk yv yl yr)))) (TNode.mk bv (some (TNode.mk xv xl xr)) (some (TNode.mk yv yl yr)))) [] (TNode.mk bv (some (TNode.mk xv xl xr)) (some (TNode.mk yv yl yr))) from rfl]
              rw [hT6L, hT6R]
            refine ⟨?_, ?_⟩
            · rw [hM]
              cases l2 with
              | none =>
                cases r2 with
                | none => rfl
                | some R2 => simp [TNode.canonical, (hr2some R2 rfl).1]
              | some L2 =>
                cases r2 with
                | none => simp [TNode.canonical, (hl2some L2 rfl).1]
                | some R2 =>
                  simp [TNode.canonical, (hl2some L2 rfl).1, (hr2some R2 rfl).1,
                    (hl2some L2 rfl).2]
            · intro bv2 bl2 br2 hbeq hne2
              injection hbeq with e1 e2 e3
              subst e1
              subst e2
              subst e3
              rw [hM]
              refine ⟨⟨?_, ?_⟩, ⟨?_, ?_⟩⟩
              · intro h
                exact ⟨(TNode.mk xv xl xr), rfl, hl2iff.mp h⟩
              · rintro ⟨x, hx, hleaf⟩
                injection hx with hx
                subst hx
                exact hl2iff.mpr hleaf
              · intro h
                exact ⟨(TNode.mk yv yl yr), rfl, hr2iff.mp h⟩
              · rintro ⟨x, hx, hleaf⟩
                injection hx with hx
                subst hx
                exact hr2iff.mpr hleaf
        | some alc =>
          cases aR with
          | none =>
            have hBl : ((TNode.mk xv xl xr)).canonical = true := canonical_left hB rfl
            have hBr : ((TNode.mk yv yl yr)).canonical = true := canonical_right hB rfl
            have hLc2 : (alc).canonical = true := canonical_left hA rfl
            have hRc2 : ((TNode.mk (av + 1) none none)).canonical = true := rfl
            obtain ⟨hLLc, hLL2⟩ := ih (TNode.mk xv xl xr) alc hcntl hLc2 hBl
            obtain ⟨hRRc, hRR2⟩ := ih (TNode.mk yv yl yr) (TNode.mk (av + 1) none none) hcntr hRc2 hBr
            obtain ⟨hfl1, hfr1, hfnl1⟩ := merged_child_facts hBl (hLL2 xv xl xr rfl)
            obtain ⟨hfl2, hfr2, hfnl2⟩ := merged_child_facts hBr (hRR2 yv yl yr rfl)
            obtain ⟨l2, hT6L, hl2iff, hl2some⟩ := subT6Left_spec hLLc hfl1 hfr1 hfnl1
            obtain ⟨r2, hT6R, hr2iff, hr2some⟩ := subT6Right_spec hRRc hfl2 hfr2 hfnl2
            have hM : subMergeNode (TNode.mk av (some alc) none) (TNode.mk bv (some (TNode.mk xv xl xr)) (some (TNode.mk yv yl yr))) =
                TNode.mk av l2 r2 := by
              rw [show subMergeNode (TNode.mk av (some alc) none) (TNode.mk bv (some (TNode.mk xv xl xr)) (some (TNode.mk yv yl yr))) =
                  subT6Right (subT6Left (TNode.mk av (some (subMergeNode alc (TNode.mk xv xl xr))) (some (subMergeNode (TNode.mk (av + 1) none none) (TNode.mk yv yl yr)))) [] (TNode.mk av (some (subMergeNode alc (TNode.mk xv xl xr))) (some (subMergeNode (TNode.mk (av + 1) none none) (TNode.mk yv yl yr)))) (TNode.mk bv (some (TNode.mk xv xl xr)) (some (TNode.mk yv yl yr)))) [] (TNode.mk bv (some (TNode.mk xv xl xr)) (some (TNode.mk yv yl yr))) from rfl]
              rw [hT6L, hT6R]
            refine ⟨?_, ?_⟩
            · rw [hM]
              cases l2 with
              | none =>
                cases r2 with
                | none => rfl
                | some R2 => simp [TNode.canonical, (hr2some R2 rfl).1]
              | some L2 =>
                cases r2 with
                | none => simp [TNode.canonical, (hl2some L2 rfl).1]
                | some R2 =>
                  simp [TNode.canonical, (hl2some L2 rfl).1, (hr2some R2 rfl).1,
                    (hl2some L2 rfl).2]
            · intro bv2 bl2 br2 hbeq hne2
              injection hbeq with e1 e2 e3
              subst e1
              subst e2
              subst e3
              rw [hM]
              refine ⟨⟨?_, ?_⟩, ⟨?_, ?_⟩⟩
              · intro h
                exact ⟨(TNode.mk xv xl xr), rfl, hl2iff.mp h⟩
              · rintro ⟨x, hx, hleaf⟩
                injection hx with hx
                subst hx
                exact hl2iff.mpr hleaf
              · intro h
                exact ⟨(TNode.mk yv yl yr), rfl, hr2iff.mp h⟩
              · rintro ⟨x, hx, hleaf⟩
                injection hx with hx
                subst hx
                exact hr2iff.mpr hleaf
          | some arc =>
            have hBl : ((TNode.mk xv xl xr)).canonical = true := canonical_left hB rfl
            have hBr : ((TNode.mk yv yl yr)).canonical = true := canonical_right hB rfl
            have hLc2 : (alc).canonical = true := canonical_left hA rfl
            have hRc2 : (arc).canonical = true := canonical_right hA rfl
            obtain ⟨hLLc, hLL2⟩ := ih (TNode.mk xv xl xr) alc hcntl hLc2 hBl
            obtain ⟨hRRc, hRR2⟩ := ih (TNode.mk yv yl yr) arc hcntr hRc2 hBr
            obtain ⟨hfl1, hfr1, hfnl1⟩ := merged_child_facts hBl (hLL2 xv xl xr rfl)
            obtain ⟨hfl2, hfr2, hfnl2⟩ := merged_child_facts hBr (hRR2 yv yl yr rfl)
            obtain ⟨l2, hT6L, hl2iff, hl2some⟩ := subT6Left_spec hLLc hfl1 hfr1 hfnl1
            obtain ⟨r2, hT6R, hr2iff, hr2some⟩ := subT6Right_spec hRRc hfl2 hfr2 hfnl2
            have hM : subMergeNode (TNode.mk av (some alc) (some arc)) (TNode.mk bv (some (TNode.mk xv xl xr)) (some (TNode.mk yv yl yr))) =
                TNode.mk av l2 r2 := by
              rw [show subMergeNode (TNode.mk av (some alc) (some arc)) (TNode.mk bv (some (TNode.mk xv xl xr)) (some (TNode.mk yv yl yr))) =
                  subT6Right (subT6Left (TNode.mk av (some (subMergeNode alc (TNode.mk xv xl xr))) (some (subMergeNode arc (TNode.mk yv yl yr)))) [] (TNode.mk av (some (subMergeNode alc (TNode.mk xv xl xr))) (some (subMergeNode arc (TNode.mk yv yl yr)))) (TNode.mk bv (some (TNode.mk xv xl xr)) (some (TNode.mk yv yl yr)))) [] (TNode.mk bv (some (TNode.mk xv xl xr)) (some (TNode.mk yv yl yr))) from rfl]
              rw [hT6L, hT6R]
            refine ⟨?_, ?_⟩
            · rw [hM]
              cases l2 with
              | none =>
                cases r2 with
                | none => rfl
                | some R2 => simp [TNode.canonical, (hr2some R2 rfl).1]
              | some L2 =>
                cases r2 with
                | none => simp [TNode.canonical, (hl2some L2 rfl).1]
                | some R2 =>
                  simp [TNode.canonical, (hl2some L2 rfl).1, (hr2some R2 rfl).1,
                    (hl2some L2 rfl).2]
            · intro bv2 bl2 br2 hbeq hne2
              injection hbeq with e1 e2 e3
              subst e1
              subst e2
              subst e3
              rw [hM]
              refine ⟨⟨?_, ?_⟩, ⟨?_, ?_⟩⟩
              · intro h
                exact ⟨(TNode.mk xv xl xr), rfl, hl2iff.mp h⟩
              · rintro ⟨x, hx, hleaf⟩
                injection hx with hx
                subst hx
                exact hl2iff.mpr hleaf
              · intro h
                exact ⟨(TNode.mk yv yl yr), rfl, hr2iff.mp h⟩
              · rintro ⟨x, hx, hleaf⟩
                injection hx with hx
                subst hx
                exact hr2iff.mpr hleaf

/-- The `__add__` merge of a canonical tree with any operand tree is
canonical. -/
theorem mergeNode_canonical (n : Nat) : ∀ (B A : TNode) (cr : Bool),
    B.nodeCount ≤ n → A.canonical = true → (mergeNode A cr B).canonical = true := by
  induction n with
  | zero =>
    intro B A cr hn
    exact absurd (le_trans (nodeCount_pos B) hn) (by omega)
  | succ n ih =>
    intro B A cr hn hA
    obtain ⟨bv, bl, br⟩ := B
    cases bl with
    | none =>
      cases br with
      | none =>
        cases cr with
        | true =>
          rw [mergeNode_bleaf_created A bv]
          rfl
        | false =>
          by_cases hAleaf : A.isLeaf = true
          · rw [mergeNode_aleaf A bv none none hAleaf]
            exact hA
          · rw [mergeNode_bleaf_real A bv
              (by revert hAleaf; cases A.isLeaf <;> simp)]
            rfl
      | some brx =>
        have hcnt : brx.nodeCount ≤ n := by
          simp only [TNode.nodeCount] at hn
          omega
        cases cr with
        | true =>
          obtain ⟨av, al, ar⟩ := A
          cases al with
          | none =>
            cases ar with
            | none =>
              rw [show mergeNode (TNode.mk av none none) true (TNode.mk bv none (some brx)) =
                  TNode.mk av none (some (mergeNode (TNode.mk (av + 1) none none) true brx)) from rfl]
              simp [TNode.canonical, (ih brx (TNode.mk (av + 1) none none) true hcnt rfl)]
            | some arc =>
              rw [show mergeNode (TNode.mk av none (some arc)) true (TNode.mk bv none (some brx)) =
                  TNode.mk av none (some (mergeNode arc false brx)) from rfl]
              simp [TNode.canonical, (ih brx arc false hcnt (canonical_right hA rfl))]
          | some alc =>
            cases ar with
            | none =>
              rw [show mergeNode (TNode.mk av (some alc) none) true (TNode.mk bv none (some brx)) =
                  (if (alc.isLeaf && (mergeNode (TNode.mk (av + 1) none none) true brx).isLeaf) = true then TNode.mk av none none
                   else TNode.mk av (some alc) (some (mergeNode (TNode.mk (av + 1) none none) true brx))) from rfl]
              split
              · rfl
              · rename_i hcol
                have hcolf : (alc.isLeaf && (mergeNode (TNode.mk (av + 1) none none) true brx).isLeaf) = false := by
                  cases hxy : (alc.isLeaf && (mergeNode (TNode.mk (av + 1) none none) true brx).isLeaf) with
                  | false => rfl
                  | true => exact absurd hxy hcol
                simp [TNode.canonical, hcolf, (canonical_left hA rfl), (ih brx (TNode.mk (av + 1) none none) true hcnt rfl)]
            | some arc =>
              rw [show mergeNode (TNode.mk av (some alc) (some arc)) true (TNode.mk bv none (some brx)) =
                  (if (alc.isLeaf && (mergeNode arc false brx).isLeaf) = true then TNode.mk av none none
                   else TNode.mk av (some alc) (some (mergeNode arc false brx))) from rfl]
              split
              · rfl
              · rename_i hcol
                have hcolf : (alc.isLeaf && (mergeNode arc false brx).isLeaf) = false := by
                  cases hxy : (alc.isLeaf && (mergeNode arc false brx).isLeaf) with
                  | false => rfl
                  | true => exact absurd hxy hcol
                simp [TNode.canonical, hcolf, (canonical_left hA rfl), (ih brx arc false hcnt (canonical_right hA rfl))]
        | false =>
          by_cases hAleaf : A.isLeaf = true
          · rw [mergeNode_aleaf A bv none (some brx) hAleaf]
            exact hA
          · obtain ⟨av, al, ar⟩ := A
            cases al with
            | none =>
              cases ar with
              | none => simp [TNode.isLeaf] at hAleaf
              | some arc =>
                rw [show mergeNode (TNode.mk av none (some arc)) false (TNode.mk bv none (some brx)) =
                    TNode.mk av none (some (mergeNode arc false brx)) from rfl]
                simp [TNode.canonical, (ih brx arc false hcnt (canonical_right hA rfl))]
            | some alc =>
              cases ar with
              | none =>
                rw [show mergeNode (TNode.mk av (some alc) none) false (TNode.mk bv none (some brx)) =
                    (if (alc.isLeaf && (mergeNode (TNode.mk (av + 1) none none) true brx).isLeaf) = true then TNode.mk av none none
                     else TNode.mk av (some alc) (some (mergeNode (TNode.mk (av + 1) none none) true brx))) from rfl]
                split
                · rfl
                · rename_i hcol
                  have hcolf : (alc.isLeaf && (mergeNode (TNode.mk (av + 1) none none) true brx).isLeaf) = false := by
                    cases hxy : (alc.isLeaf && (mergeNode (TNode.mk (av + 1) none none) true brx).isLeaf) with
                    | false => rfl
                    | true => exact absurd hxy hcol
                  simp [TNode.canonical, hcolf, (canonical_left hA rfl), (ih brx (TNode.mk (av + 1) none none) true hcnt rfl)]
              | some arc =>
                rw [show mergeNode (TNode.mk av (some alc) (some arc)) false (TNode.mk bv none (some brx)) =
                    (if (alc.isLeaf && (mergeNode arc false brx).isLeaf) = true then TNode.mk av none none
                     else TNode.mk av (some alc) (some (mergeNode arc false brx))) from rfl]
                split
                · rfl
                · rename_i hcol
                  have hcolf : (alc.isLeaf && (mergeNode arc false brx).isLeaf) = false := by
                    cases hxy : (alc.isLeaf && (mergeNode arc false brx).isLeaf) with
                    | false => rfl
                    | true => exact absurd hxy hcol
                  simp [TNode.canonical, hcolf, (canonical_left hA rfl), (ih brx arc false hcnt (canonical_right hA rfl))]
    | some blx =>
      cases br with
      | none =>
        have hcnt : blx.nodeCount ≤ n := by
          simp only [TNode.nodeCount] at hn
          omega
        cases cr with
        | true =>
          obtain ⟨av, al, ar⟩ := A
          cases al with
          | none =>
            cases ar with
            | none =>
              rw [show mergeNode (TNode.mk av none none) true (TNode.mk bv (some blx) none) =
                  TNode.mk av (some (mergeNode (TNode.mk (av + 1) none none) true blx)) none from rfl]
              simp [TNode.canonical, (ih blx (TNode.mk (av + 1) none none) true hcnt rfl)]
            | some arc =>
              rw [show mergeNode (TNode.mk av none (some arc)) true (TNode.mk bv (some blx) none) =
                  (if ((mergeNode (TNode.mk (av + 1) none none) true blx).isLeaf && arc.isLeaf) = true then TNode.mk av none none
                   else TNode.mk av (some (mergeNode (TNode.mk (av + 1) none none) true blx)) (some arc)) from rfl]
              split
              · rfl
              · rename_i hcol
                have hcolf : ((mergeNode (TNode.mk (av + 1) none none) true blx).isLeaf && arc.isLeaf) = false := by
                  cases hxy : ((mergeNode (TNode.mk (av + 1) none none) true blx).isLeaf && arc.isLeaf) with
                  | false => rfl
                  | true => exact absurd hxy hcol
                simp [TNode.canonical, hcolf, (ih blx (TNode.mk (av + 1) none none) true hcnt rfl), (canonical_right hA rfl)]
          | some alc =>
            cases ar with
            | none =>
              rw [show mergeNode (TNode.mk av (some alc) none) true (TNode.mk bv (some blx) none) =
                  TNode.mk av (some (mergeNode alc false blx)) none from rfl]
              simp [TNode.canonical, (ih blx alc false hcnt (canonical_left hA rfl))]
            | some arc =>
              rw [show mergeNode (TNode.mk av (some alc) (some arc)) true (TNode.mk bv (some blx) none) =
                  (if ((mergeNode alc false blx).isLeaf && arc.isLeaf) = true then TNode.mk av none none
                   else TNode.mk av (some (mergeNode alc false blx)) (some arc)) from rfl]
              split
              · rfl
              · rename_i hcol
                have hcolf : ((mergeNode alc false blx).isLeaf && arc.isLeaf) = false := by
                  cases hxy : ((mergeNode alc false blx).isLeaf && arc.isLeaf) with
                  | false => rfl
                  | true => exact absurd hxy hcol
                simp [TNode.canonical, hcolf, (ih blx alc false hcnt (canonical_left hA rfl)), (canonical_right hA rfl)]
        | false =>
          by_cases hAleaf : A.isLeaf = true
          · rw [mergeNode_aleaf A bv (some blx) none hAleaf]
            exact hA
          · obtain ⟨av, al, ar⟩ := A
            cases al with
            | none =>
              cases ar with
              | none => simp [TNode.isLeaf] at hAleaf
              | some arc =>
                rw [show mergeNode (TNode.mk av none (some arc)) false (TNode.mk bv (some blx) none) =
                    (if ((mergeNode (TNode.mk (av + 1) none none) true blx).isLeaf && arc.isLeaf) = true then TNode.mk av none none
                     else TNode.mk av (some (mergeNode (TNode.mk (av + 1) none none) true blx)) (some arc)) from rfl]
                split
                · rfl
                · rename_i hcol
                  have hcolf : ((mergeNode (TNode.mk (av + 1) none none) true blx).isLeaf && arc.isLeaf) = false := by
                    cases hxy : ((mergeNode (TNode.mk (av + 1) none none) true blx).isLeaf && arc.isLeaf) with
                    | false => rfl
                    | true => exact absurd hxy hcol
                  simp [TNode.canonical, hcolf, (ih blx (TNode.mk (av + 1) none none) true hcnt rfl), (canonical_right hA rfl)]
            | some alc =>
              cases ar with
              | none =>
                rw [show mergeNode (TNode.mk av (some alc) none) false (TNode.mk bv (some blx) none) =
                    TNode.mk av (some (mergeNode alc false blx)) none from rfl]
                simp [TNode.canonical, (ih blx alc false hcnt (canonical_left hA rfl))]
              | some arc =>
                rw [show mergeNode (TNode.mk av (some alc) (some arc)) false (TNode.mk bv (some blx) none) =
                    (if ((mergeNode alc false blx).isLeaf && arc.isLeaf) = true then TNode.mk av none none
                     else TNode.mk av (some (mergeNode alc false blx)) (some arc)) from rfl]
                split
                · rfl
                · rename_i hcol
                  have hcolf : ((mergeNode alc false blx).isLeaf && arc.isLeaf) = false := by
                    cases hxy : ((mergeNode alc false blx).isLeaf && arc.isLeaf) with
                    | false => rfl
                    | true => exact absurd hxy hcol
                  simp [TNode.canonical, hcolf, (ih blx alc false hcnt (canonical_left hA rfl)), (canonical_right hA rfl)]
      | some brx =>
        have hcntl : blx.nodeCount ≤ n := by
          have h1 := nodeCount_pos brx
          simp only [TNode.nodeCount] at hn
          omega
        have hcntr : brx.nodeCount ≤ n := by
          have h1 := nodeCount_pos blx
          simp only [TNode.nodeCount] at hn
          omega
        cases cr with
        | true =>
          obtain ⟨av, al, ar⟩ := A
          cases al with
          | none =>
            cases ar with
            | none =>
              rw [show mergeNode (TNode.mk av none none) true (TNode.mk bv (some blx) (some brx)) =
                  (if ((mergeNode (TNode.mk (av + 1) none none) true blx).isLeaf && (mergeNode (TNode.mk (av + 1) none none) true brx).isLeaf) = true then TNode.mk av none none
                   else TNode.mk av (some (mergeNode (TNode.mk (av + 1) none none) true blx)) (some (mergeNode (TNode.mk (av + 1) none none) true brx))) from rfl]
              split
              · rfl
              · rename_i hcol
                have hcolf : ((mergeNode (TNode.mk (av + 1) none none) true blx).isLeaf && (mergeNode (TNode.mk (av + 1) none none) true brx).isLeaf) = false := by
                  cases hxy : ((mergeNode (TNode.mk (av + 1) none none) true blx).isLeaf && (mergeNode (TNode.mk (av + 1) none none) true brx).isLeaf) with
                  | false => rfl
                  | true => exact absurd hxy hcol
                simp [TNode.canonical, hcolf, (ih blx (TNode.mk (av + 1) none none) true hcntl rfl), (ih brx (TNode.mk (av + 1) none none) true hcntr rfl)]
            | some arc =>
              rw [show mergeNode (TNode.mk av none (some arc)) true (TNode.mk bv (some blx) (some brx)) =
                  (if ((mergeNode (TNode.mk (av + 1) none none) true blx).isLeaf && (mergeNode arc false brx).isLeaf) = true then TNode.mk av none none
                   else TNode.mk av (some (mergeNode (TNode.mk (av + 1) none none) true blx)) (some (mergeNode arc false brx))) from rfl]
              split
              · rfl
              · rename_i hcol
                have hcolf : ((mergeNode (TNode.mk (av + 1) none none) true blx).isLeaf && (mergeNode arc false brx).isLeaf) = false := by
                  cases hxy : ((mergeNode (TNode.mk (av + 1) none none) true blx).isLeaf && (mergeNode arc false brx).isLeaf) with
                  | false => rfl
                  | true => exact absurd hxy hcol
                simp [TNode.canonical, hcolf, (ih blx (TNode.mk (av + 1) none none) true hcntl rfl), (ih brx arc false hcntr (canonical_right hA rfl))]
          | some alc =>
            cases ar with
            | none =>
              rw [show mergeNode (TNode.mk av (some alc) none) true (TNode.mk bv (some blx) (some brx)) =
                  (if ((mergeNode alc false blx).isLeaf && (mergeNode (TNode.mk (av + 1) none none) true brx).isLeaf) = true then TNode.mk av none none
                   else TNode.mk av (some (mergeNode alc false blx)) (some (mergeNode (TNode.mk (av + 1) none none) true brx))) from rfl]
              split
              · rfl
              · rename_i hcol
                have hcolf : ((mergeNode alc false blx).isLeaf && (mergeNode (TNode.mk (av + 1) none none) true brx).isLeaf) = false := by
                  cases hxy : ((mergeNode alc false blx).isLeaf && (mergeNode (TNode.mk (av + 1) none none) true brx).isLeaf) with
                  | false => rfl
                  | true => exact absurd hxy hcol
                simp [TNode.canonical, hcolf, (ih blx alc false hcntl (canonical_left hA rfl)), (ih brx (TNode.mk (av + 1) none none) true hcntr rfl)]
            | some arc =>
              rw [show mergeNode (TNode.mk av (some alc) (some arc)) true (TNode.mk bv (some blx) (some brx)) =
                  (if ((mergeNode alc false blx).isLeaf && (mergeNode arc false brx).isLeaf) = true then TNode.mk av none none
                   else TNode.mk av (some (mergeNode alc false blx)) (some (mergeNode arc false brx))) from rfl]
              split
              · rfl
              · rename_i hcol
                have hcolf : ((mergeNode alc false blx).isLeaf && (mergeNode arc false brx).isLeaf) = false := by
                  cases hxy : ((mergeNode alc false blx).isLeaf && (mergeNode arc false brx).isLeaf) with
                  | false => rfl
                  | true => exact absurd hxy hcol
                simp [TNode.canonical, hcolf, (ih blx alc false hcntl (canonical_left hA rfl)), (ih brx arc false hcntr (canonical_right hA rfl))]
        | false =>
          by_cases hAleaf : A.isLeaf = true
          · rw [mergeNode_aleaf A bv (some blx) (some brx) hAleaf]
            exact hA
          · obtain ⟨av, al, ar⟩ := A
            cases al with
            | none =>
              cases ar with
              | none => simp [TNode.isLeaf] at hAleaf
              | some arc =>
                rw [show mergeNode (TNode.mk av none (some arc)) false (TNode.mk bv (some blx) (some brx)) =
                    (if ((mergeNode (TNode.mk (av + 1) none none) true blx).isLeaf && (mergeNode arc false brx).isLeaf) = true then TNode.mk av none none
                     else TNode.mk av (some (mergeNode (TNode.mk (av + 1) none none) true blx)) (some (mergeNode arc false brx))) from rfl]
                split
                · rfl
                · rename_i hcol
                  have hcolf : ((mergeNode (TNode.mk (av + 1) none none) true blx).isLeaf && (mergeNode arc false brx).isLeaf) = false := by
                    cases hxy : ((mergeNode (TNode.mk (av + 1) none none) true blx).isLeaf && (mergeNode arc false brx).isLeaf) with
                    | false => rfl
                    | true => exact absurd hxy hcol
                  simp [TNode.canonical, hcolf, (ih blx (TNode.mk (av + 1) none none) true hcntl rfl), (ih brx arc false hcntr (canonical_right hA rfl))]
            | some alc =>
              cases ar with
              | none =>
                rw [show mergeNode (TNode.mk av (some alc) none) false (TNode.mk bv (some blx) (some brx)) =
                    (if ((mergeNode alc false blx).isLeaf && (mergeNode (TNode.mk (av + 1) none none) true brx).isLeaf) = true then TNode.mk av none none
                     else TNode.mk av (some (mergeNode alc false blx)) (some (mergeNode (TNode.mk (av + 1) none none) true brx))) from rfl]
                split
                · rfl
                · rename_i hcol
                  have hcolf : ((mergeNode alc false blx).isLeaf && (mergeNode (TNode.mk (av + 1) none none) true brx).isLeaf) = false := by
                    cases hxy : ((mergeNode alc false blx).isLeaf && (mergeNode (TNode.mk (av + 1) none none) true brx).isLeaf) with
                    | false => rfl
                    | true => exact absurd hxy hcol
                  simp [TNode.canonical, hcolf, (ih blx alc false hcntl (canonical_left hA rfl)), (ih brx (TNode.mk (av + 1) none none) true hcntr rfl)]
              | some arc =>
                rw [show mergeNode (TNode.mk av (some alc) (some arc)) false (TNode.mk bv (some blx) (some brx)) =
                    (if ((mergeNode alc false blx).isLeaf && (mergeNode arc false brx).isLeaf) = true then TNode.mk av none none
                     else TNode.mk av (some (mergeNode alc false blx)) (some (mergeNode arc false brx))) from rfl]
                split
                · rfl
                · rename_i hcol
                  have hcolf : ((mergeNode alc false blx).isLeaf && (mergeNode arc false brx).isLeaf) = false := by
                    cases hxy : ((mergeNode alc false blx).isLeaf && (mergeNode arc false brx).isLeaf) with
                    | false => rfl
                    | true => exact absurd hxy hcol
                  simp [TNode.canonical, hcolf, (ih blx alc false hcntl (canonical_left hA rfl)), (ih brx arc false hcntr (canonical_right hA rfl))]

theorem bool_eq_false {b : Bool} (h : ¬ b = true) : b = false := by
  cases b
  · rfl
  · exact absurd rfl h

theorem addNode_canonical (fuel : Nat) :
    ∀ (node : TNode) (nw : Bool) (c : Cidr),
      node.canonical = true → (CidrSet.addNode fuel node nw c).canonical = true := by
  induction fuel with
  | zero =>
    intro node nw c h
    exact h
  | succ fuel ih =>
    intro node nw c hcan
    obtain ⟨v, l, r⟩ := node
    simp only [CidrSet.addNode, TNode.value, TNode.left, TNode.right,
      TNode.setLeft, TNode.setRight]
    by_cases h1 : c.bitmask = v
    · rw [if_pos h1]
      rfl
    · rw [if_neg h1]
      by_cases h2 : (!nw && (TNode.mk v l r).isLeaf) = true
      · rw [if_pos h2]
        exact hcan
      · rw [if_neg h2]
        by_cases h3 : c.bit (v + 1) = 0
        · rw [if_pos h3]
          cases l with
          | none =>
            have hrec := ih (TNode.mk (v + 1) none none) true c rfl
            cases r with
            | none => simp [TNode.canonical, hrec]
            | some rc =>
              have hrc := canonical_right hcan rfl
              dsimp only [TNode.left, TNode.right, TNode.value]
              split
              · rfl
              · rename_i hcol
                simp [TNode.canonical, bool_eq_false hcol, hrec, hrc]
          | some lc =>
            have hrec := ih lc false c (canonical_left hcan rfl)
            cases r with
            | none => simp [TNode.canonical, hrec]
            | some rc =>
              have hrc := canonical_right hcan rfl
              dsimp only [TNode.left, TNode.right, TNode.value]
              split
              · rfl
              · rename_i hcol
                simp [TNode.canonical, bool_eq_false hcol, hrec, hrc]
        · rw [if_neg h3]
          cases r with
          | none =>
            have hrec := ih (TNode.mk (v + 1) none none) true c rfl
            cases l with
            | none => simp [TNode.canonical, hrec]
            | some lc =>
              have hlc := canonical_left hcan rfl
              dsimp only [TNode.left, TNode.right, TNode.value]
              split
              · rfl
              · rename_i hcol
                simp [TNode.canonical, bool_eq_false hcol, hrec, hlc]
          | some rc =>
            have hrec := ih rc false c (canonical_right hcan rfl)
            cases l with
            | none => simp [TNode.canonical, hrec]
            | some lc =>
              have hlc := canonical_left hcan rfl
              dsimp only [TNode.left, TNode.right, TNode.value]
              split
              · rfl
              · rename_i hcol
                simp [TNode.canonical, bool_eq_false hcol, hrec, hlc]

theorem removeNode_canonical (fuel : Nat) :
    ∀ (node : TNode) (c : Cidr) (d : Nat),
      node.depthsOk d = true → node.canonical = true →
      d ≤ c.bitmask → c.bitmask < fuel + d →
      ∀ t, CidrSet.removeNode fuel node c = some t →
        t.canonical = true ∧ t.isLeaf = false := by
  induction fuel with
  | zero =>
    intro node c d hD hcan h1 h2 t ht
    omega
  | succ fuel ih =>
    intro node c d hD hcan hdle hflt t ht
    obtain ⟨v, l, r⟩ := node
    have hv : v = d := depthsOk_value hD
    simp only [CidrSet.removeNode, TNode.value, TNode.left, TNode.right,
      TNode.setLeft, TNode.setRight] at ht
    split at ht
    · exact Option.noConfusion ht
    · rename_i h1
      have hlt : d < c.bitmask := by omega
      have hfD : (TNode.mk (v + 1) (none : Option TNode) (none : Option TNode)).depthsOk
          (d + 1) = true := by
        simp [TNode.depthsOk]
        omega
      split at ht
      · -- next bit 0: descend left
        split at ht
        · -- leaf expansion
          split at ht
          · rename_i heqr
            split at ht
            · exact Option.noConfusion ht
            · injection ht with ht
              subst ht
              exact ⟨by simp [TNode.canonical], rfl⟩
          · rename_i l' heqr
            have hl' := ih (TNode.mk (v + 1) none none) c (d + 1) hfD rfl
              (by omega) (by omega) l' heqr
            injection ht with ht
            subst ht
            exact ⟨by simp [TNode.canonical, hl'.1, hl'.2], rfl⟩
        · -- left missing, right present: unchanged
          rename_i rc
          injection ht with ht
          subst ht
          exact ⟨hcan, rfl⟩
        · -- recurse into the real left child
          rename_i lc
          split at ht
          · rename_i heqr
            split at ht
            · exact Option.noConfusion ht
            · rename_i hrne
              cases r with
              | none => exact absurd rfl hrne
              | some rc =>
                injection ht with ht
                subst ht
                exact ⟨by simp [TNode.canonical, canonical_right hcan rfl], rfl⟩
          · rename_i l' heqr
            have hl' := ih lc c (d + 1) (depthsOk_left hD lc rfl)
              (canonical_left hcan rfl) (by omega) (by omega) l' heqr
            injection ht with ht
            subst ht
            cases r with
            | none => exact ⟨by simp [TNode.canonical, hl'.1], rfl⟩
            | some rc =>
              exact ⟨by simp [TNode.canonical, hl'.1, hl'.2,
                canonical_right hcan rfl], rfl⟩
      · -- next bit 1: descend right
        split at ht
        · -- leaf expansion
          split at ht
          · rename_i heqr
            split at ht
            · exact Option.noConfusion ht
            · injection ht with ht
              subst ht
              exact ⟨by simp [TNode.canonical], rfl⟩
          · rename_i r' heqr
            have hr' := ih (TNode.mk (v + 1) none none) c (d + 1) hfD rfl
              (by omega) (by omega) r' heqr
            injection ht with ht
            subst ht
            refine ⟨by simp [TNode.canonical, hr'.1, hr'.2], ?_⟩
            rfl
        · -- right missing, left present: unchanged
          rename_i lc
          injection ht with ht
          subst ht
          exact ⟨hcan, rfl⟩
        · -- recurse into the real right child
          rename_i rc
          split at ht
          · rename_i heqr
            split at ht
            · exact Option.noConfusion ht
            · rename_i hlne
              cases l with
              | none => exact absurd rfl hlne
              | some lc =>
                injection ht with ht
                subst ht
                exact ⟨by simp [TNode.canonical, canonical_left hcan rfl], rfl⟩
          · rename_i r' heqr
            have hr' := ih rc c (d + 1) (depthsOk_right hD rc rfl)
              (canonical_right hcan rfl) (by omega) (by omega) r' heqr
            injection ht with ht
            subst ht
            cases l with
            | none => exact ⟨by simp [TNode.canonical, hr'.1], rfl⟩
            | some lc =>
              exact ⟨by simp [TNode.canonical, hr'.1, hr'.2,
                canonical_left hcan rfl], rfl⟩

/-- Every tree reachable through the public API is canonical. -/
theorem reachable_canonical {s : CidrSet} (h : Reachable s) :
    ∀ t, s.root = some t → t.canonical = true := by
  induction h with
  | empty =>
    intro t ht
    exact Option.noConfusion ht
  | @add s c hs hc ih =>
    intro t ht
    simp only [CidrSet.add] at ht
    split at ht
    · injection ht with ht
      subst ht
      exact addNode_canonical 33 _ true c rfl
    · rename_i root hroot
      injection ht with ht
      subst ht
      exact addNode_canonical 33 root false c (ih root hroot)
  | @remove s c hs hc ih =>
    intro t ht
    simp only [CidrSet.remove] at ht
    split at ht
    · exact (ih t ht)
    · rename_i root hroot
      exact (removeNode_canonical 33 root c 0
        (reachable_shape hs root hroot).1 (ih root hroot)
        (by omega) (by have := hc.2.1; omega) t ht).1
  | @union a b u ha hb hu iha ihb =>
    intro t ht
    cases hra : a.root with
    | none =>
      have hsz : a.size = 0 := by simp [CidrSet.size, hra]
      simp only [CidrSet.opAddSets, if_pos hsz] at hu
      injection hu with hu
      subst hu
      exact ihb t ht
    | some ra =>
      have hsza : ¬(a.size = 0) := by
        simp only [CidrSet.size, hra]
        have := leafCount_pos ra.nodeCount ra le_rfl
        omega
      cases hrb : b.root with
      | none =>
        have hszb : b.size = 0 := by simp [CidrSet.size, hrb]
        simp only [CidrSet.opAddSets, if_neg hsza, if_pos hszb] at hu
        injection hu with hu
        subst hu
        exact iha t ht
      | some rb =>
        rw [opAddSets_merge hra hrb] at hu
        injection hu with hu
        subst hu
        injection ht with ht
        subst ht
        exact mergeNode_canonical rb.nodeCount rb ra false le_rfl (iha ra hra)
  | @diff a b u ha hb hu iha ihb =>
    intro t ht
    by_cases hsz : (a.size = 0 ∨ b.size = 0)
    · simp only [CidrSet.opSubSets, if_pos hsz] at hu
      injection hu with hu
      subst hu
      exact iha t ht
    · cases hra : a.root with
      | none => exact absurd (Or.inl (by simp [CidrSet.size, hra])) hsz
      | some ra =>
        cases hrb : b.root with
        | none => exact absurd (Or.inr (by simp [CidrSet.size, hrb])) hsz
        | some rb =>
          rw [opSubSets_sub hra hrb] at hu
          injection hu with hu
          subst hu
          exact subFixRoot_canonical
            (subMergeNode_canonical rb.nodeCount rb ra le_rfl (iha ra hra)
              (ihb rb hrb)).1 ht


/-- **C4.** In every CidrSet state reachable from the empty set through any
sequence of public operations (`add`, `remove`, `+`, `-`, `clone`), no trie
node has both children present with both of them leaves: every reachable
root tree satisfies the canonical-form invariant recursively. -/
theorem canonical_invariant {s : CidrSet} (hs : Reachable s) :
    ∀ t, s.root = some t → t.canonical = true :=
  reachable_canonical hs

theorem canonical_invariant_witness :
    (TNode.mk 0 (some (TNode.mk 1 none none)) none).canonical = true :=
  canonical_invariant (@Reachable.add ⟨none⟩ ⟨0, 1⟩ Reachable.empty (by decide))
    (TNode.mk 0 (some (TNode.mk 1 none none)) none) rfl
